import Mathlib

/-!
# MiniC lowering: AST to linear IR

A shallow embedding of `src/ir/Generator/IRGenerator.cpp` (the IR generator of the
MiniC compiler) together with the instruction classes it builds.

Conventions of the embedding.

* C++ object identity is an allocation number: every object that is referred to by
  other objects (variables, formal parameters, label instructions, binary
  instructions, call instructions) receives the next value of `IRGenerator.nextId`.
* A handler `bool IRGenerator::ir_xxx(ast_node *)` becomes a function returning
  `Option NodeResult × IRGenerator`: `none` is `return false`, `some r` is
  `return true` where `r` holds the fields of the node the handler filled in
  (`blockInsts`, `val`, `arrayPtr`, ...).  The generator state is returned in both
  cases, because a failing handler keeps the side effects it already made.
* The recursive descent through `ir_visit_ast_node` is bounded by a depth budget;
  handlers take the visitor for their children as an argument.
* `int` and `int32_t` quantities are integers reduced with `toInt32`.
* Reading `node->sons[i]` for a child that does not exist is undefined behaviour in
  the source; the embedding makes the handler fail there.
-/

namespace MiniC

/-! ## AST -/

/-- Node kinds of the AST (`ast_operator_type`), as used by the generator and the
AST builder. -/
inductive ast_operator_type where
  | AST_OP_LEAF_LITERAL_UINT
  | AST_OP_LEAF_LITERAL_FLOAT
  | AST_OP_LEAF_VAR_ID
  | AST_OP_LEAF_TYPE
  | AST_OP_SUB
  | AST_OP_ADD
  | AST_OP_MUL
  | AST_OP_DIV
  | AST_OP_MOD
  | AST_OP_NEG
  | AST_OP_LT
  | AST_OP_GT
  | AST_OP_LE
  | AST_OP_GE
  | AST_OP_EQ
  | AST_OP_NE
  | AST_OP_LOGIC_AND
  | AST_OP_LOGIC_OR
  | AST_OP_LOGIC_NOT
  | AST_OP_IF
  | AST_OP_IF_ELSE
  | AST_OP_WHILE
  | AST_OP_BREAK
  | AST_OP_CONTINUE
  | AST_OP_ARRAY_DEF
  | AST_OP_ARRAY_ACCESS
  | AST_OP_ASSIGN
  | AST_OP_RETURN
  | AST_OP_FUNC_CALL
  | AST_OP_FUNC_DEF
  | AST_OP_FUNC_FORMAL_PARAMS
  | AST_OP_FUNC_FORMAL_PARAM
  | AST_OP_FUNC_FORMAL_PARAM_ARRAY
  | AST_OP_FUNC_REAL_PARAMS
  | AST_OP_EMPTY_STMT
  | AST_OP_DECL_STMT
  | AST_OP_VAR_DECL
  | AST_OP_VAR_DEF_WITH_INIT
  | AST_OP_BLOCK
  | AST_OP_COMPILE_UNIT
  | AST_OP_MAX
  deriving DecidableEq, Repr

/-- Types of the IR (`Type` and its subclasses `VoidType`, `IntegerType`,
`PointerType`, `ArrayType`). -/
inductive IRType where
  | void
  | int32
  | bool
  | pointer (pointeeType : IRType)
  | array (elementType : IRType) (dimensions : List Int)
  deriving DecidableEq, Repr

/-- `Type::isPointerType`. -/
def IRType.isPointerType : IRType → Bool
  | .pointer _ => true
  | _ => false

/-- `Type::isArrayType`. -/
def IRType.isArrayType : IRType → Bool
  | .array _ _ => true
  | _ => false

/-- `Type::isInt1Byte`: the one-bit boolean integer type. -/
def IRType.isInt1Byte : IRType → Bool
  | .bool => true
  | _ => false

/-- `Type::isInt32Type`. -/
def IRType.isInt32Type : IRType → Bool
  | .int32 => true
  | _ => false

/-- `Type::isVoidType`. -/
def IRType.isVoidType : IRType → Bool
  | .void => true
  | _ => false

/-- `PointerType::getDepth`, computed as the constructor of `PointerType` does. -/
def IRType.getDepth : IRType → Nat
  | .pointer p => if p.isPointerType then p.getDepth + 1 else 1
  | _ => 0

/-- `PointerType::getRootType`, computed as the constructor of `PointerType` does. -/
def IRType.getRootType : IRType → IRType
  | .pointer p => if p.isPointerType then p.getRootType else p
  | t => t

/-- `PointerType::getPointeeType`. -/
def IRType.getPointeeType : IRType → Option IRType
  | .pointer p => some p
  | _ => none

/-- An AST node: kind, name, integer literal value, declared type, the `needScope`
flag of blocks, and the ordered children. The fields written during lowering
(`blockInsts`, `val`, ...) are returned by the handlers as a `NodeResult`. -/
inductive ast_node where
  | mk (node_type : ast_operator_type) (name : String) (integer_val : Int)
      (type : IRType) (needScope : Bool) (sons : List ast_node)

/-- Field `node_type`. -/
def ast_node.node_type : ast_node → ast_operator_type
  | .mk t _ _ _ _ _ => t

/-- Field `name`. -/
def ast_node.name : ast_node → String
  | .mk _ n _ _ _ _ => n

/-- Field `integer_val`. -/
def ast_node.integer_val : ast_node → Int
  | .mk _ _ v _ _ _ => v

/-- Field `type`. -/
def ast_node.type : ast_node → IRType
  | .mk _ _ _ t _ _ => t

/-- Field `needScope`. -/
def ast_node.needScope : ast_node → Bool
  | .mk _ _ _ _ b _ => b

/-- Field `sons`. -/
def ast_node.sons : ast_node → List ast_node
  | .mk _ _ _ _ _ l => l

/-- The assignment `node->needScope = b`. -/
def ast_node.setNeedScope : ast_node → Bool → ast_node
  | .mk t n v ty _ l, b => .mk t n v ty b l

/-! ## Values and instructions -/

/-- Conversion to `int32_t` (two's complement). -/
def toInt32 (x : Int) : Int :=
  (x + 2147483648) % 4294967296 - 2147483648

/-- Operand values (`Value` and its subclasses). `InstructionResult` is an
instruction used as the value it computes. -/
inductive Value where
  | ConstInt (val : Int)
  | LocalVariable (id : Nat) (type : IRType) (name : String)
  | GlobalVariable (id : Nat) (type : IRType) (name : String)
  | FormalParam (id : Nat) (type : IRType) (name : String)
  | InstructionResult (id : Nat) (type : IRType)
  deriving DecidableEq, Repr

/-- `Value::getType`. -/
def Value.getType : Value → IRType
  | .ConstInt _ => .int32
  | .LocalVariable _ t _ => t
  | .GlobalVariable _ t _ => t
  | .FormalParam _ t _ => t
  | .InstructionResult _ t => t

/-- `Value::getName` for the named variants. -/
def Value.getName : Value → String
  | .LocalVariable _ _ n => n
  | .GlobalVariable _ _ n => n
  | .FormalParam _ _ n => n
  | _ => ""

/-- Opcodes of `BinaryInstruction`. -/
inductive IRInstOperator where
  | IRINST_OP_ADD_I
  | IRINST_OP_SUB_I
  | IRINST_OP_MUL_I
  | IRINST_OP_DIV_I
  | IRINST_OP_MOD_I
  | IRINST_OP_NEG_I
  | IRINST_OP_LT_I
  | IRINST_OP_GT_I
  | IRINST_OP_LE_I
  | IRINST_OP_GE_I
  | IRINST_OP_EQ_I
  | IRINST_OP_NE_I
  deriving DecidableEq, Repr

/-- Instructions of the linear IR. A label is referred to by its allocation number.
`Goto` is the unconditional and `CondGoto` the conditional form of
`GotoInstruction`; `Move` carries the flags `isPointerStore` and `isPointerLoad`. -/
inductive Instruction where
  | Entry
  | Exit (returnValue : Option Value)
  | Label (id : Nat)
  | Goto (target : Option Nat)
  | CondGoto (condition : Value) (trueTarget falseTarget : Nat)
  | Binary (id : Nat) (op : IRInstOperator) (src1 src2 : Option Value) (type : IRType)
  | Move (dst src : Option Value) (isPointerStore isPointerLoad : Bool)
  | FuncCall (id : Nat) (callee : String) (args : List (Option Value)) (type : IRType)
  deriving DecidableEq, Repr

/-- The fields of an AST node that lowering fills in. -/
structure NodeResult where
  blockInsts : List Instruction := []
  val : Option Value := none
  arrayVar : Option Value := none
  offsetValue : Option Value := none
  arrayPtr : Option Value := none
  deriving DecidableEq, Repr

/-! ## Functions, module and generator state -/

/-- The `extraData` of a function: the two instructions `int_to_bool` leaves for its
caller. -/
structure ExtraData where
  boolCheckInst : Option Instruction := none
  moveInst : Option Instruction := none
  deriving DecidableEq, Repr

/-- Modelled from the spec: the `Function` record (Function.h is not among the
sources): name, ordered parameters, return type, the break/continue label pair, the
exit label, the optional return-value slot and the instruction list, plus the
bookkeeping fields the generator writes. -/
structure Function where
  name : String
  returnType : IRType
  params : List Value
  interCode : List Instruction := []
  breakLabel : Option Nat := none
  continueLabel : Option Nat := none
  exitLabel : Option Nat := none
  returnValue : Option Value := none
  extraData : ExtraData := {}
  existFuncCall : Bool := false
  maxFuncCallArgCnt : Int := 0
  deriving DecidableEq, Repr

/-- Errors recorded by `setLastError`, one constructor per message of the source. -/
inductive IRError where
  | globalVarFailed
  | nestedFunction
  | formalParamMalformed
  | createFunctionFailed (name : String)
  | formalParamsFailed
  | noFunctionForParams
  | paramTypeInvalid (name : String)
  | registerArrayParamFailed (name : String)
  | createParamLocalFailed (name : String)
  | functionUndefined (name : String)
  | arrayNotFound (name : String)
  | argumentFailed (name : String)
  | paramCountMismatch (name : String) (needed provided : Nat)
  | addLeftInvalid
  | addRightInvalid
  | mulMalformed
  | mulOperandNull
  | mulLeftInvalid
  | mulRightInvalid
  | assignRightFailed
  | leafNameEmpty
  | variableNotFound (name : String)
  | varDeclMalformed
  | createVariableFailed (name : String)
  | initExprFailed (name : String)
  | initExprNoValue (name : String)
  | arrayDefMalformed
  | arrayDimNotPositive
  | arrayDimNotConstant
  | arrayNoDimension
  | arrayAccessMalformed
  | arrayUndefined (name : String)
  | arrayAccessOutsideFunction
  | notArrayType (name : String)
  | invalidIndexExpr
  deriving DecidableEq, Repr

/-- The generator together with the module it writes to. The module part (current
function, function table, scope stack) is modelled from the spec: Module.h is not
among the sources. `scopes` is the scope stack, innermost scope first; its last
element is the file scope. `globalVarInitValues` holds the entries of the
`std::unordered_map` of that name in the order in which their keys were inserted.
C++ does not fix the order in which an iteration over such a map yields its entries:
`unorderedOrder` stands for the choice of the library, as a function of the entries
in insertion order. -/
structure IRGenerator where
  currentFunc : Option Function := none
  functions : List Function := []
  scopes : List (List (String × Value)) := [[]]
  nextId : Nat := 0
  lastError : Option IRError := none
  globalVarInitValues : List (String × Int) := []
  unorderedOrder : List (String × Int) → List (String × Int) := id
  functionParameterDimensions : List ((String × Nat) × List Int) := []

/-- `setLastError`. -/
def IRGenerator.setLastError (g : IRGenerator) (e : IRError) : IRGenerator :=
  { g with lastError := some e }

/-- Modelled from the spec: `Module::getCurrentFunction`. -/
def IRGenerator.getCurrentFunction (g : IRGenerator) : Option Function :=
  g.currentFunc

/-- Modelled from the spec: `Module::findFunction`, lookup of a prototype by name. -/
def IRGenerator.findFunction (g : IRGenerator) (name : String) : Option Function :=
  g.functions.find? (fun f => f.name == name)

/-- Lookup of a name in one scope. -/
def lookupScope (name : String) : List (String × Value) → Option Value
  | [] => none
  | (n, v) :: rest => if n = name then some v else lookupScope name rest

/-- Lookup of a name through the scope stack, innermost scope first. -/
def lookupScopes (name : String) : List (List (String × Value)) → Option Value
  | [] => none
  | sc :: rest =>
    match lookupScope name sc with
    | some v => some v
    | none => lookupScopes name rest

/-- Modelled from the spec: `Module::findVarValue` (`findVariable(name) -> Value?`). -/
def IRGenerator.findVarValue (g : IRGenerator) (name : String) : Option Value :=
  lookupScopes name g.scopes

/-- Binding of a name in the innermost scope. -/
def bindInScopes (name : String) (v : Value) :
    List (List (String × Value)) → List (List (String × Value))
  | [] => [[(name, v)]]
  | sc :: rest => ((name, v) :: sc) :: rest

/-- Modelled from the spec: `Module::newVarValue` (`declareVariable(type, name) ->
Value`): a fresh local variable inside a function, a fresh global variable at file
scope, bound to its name in the innermost scope; a temporary has the empty name and
is not bound. -/
def IRGenerator.newVarValue (g : IRGenerator) (type : IRType) (name : String) :
    Value × IRGenerator :=
  let v : Value :=
    match g.currentFunc with
    | some _ => .LocalVariable g.nextId type name
    | none => .GlobalVariable g.nextId type name
  (v, { g with
        nextId := g.nextId + 1,
        scopes := if name = "" then g.scopes else bindInScopes name v g.scopes })

/-- Modelled from the spec: `Module::newVarValueWithValue`, which binds a name of the
innermost scope to an existing value (used for array parameters). -/
def IRGenerator.newVarValueWithValue (g : IRGenerator) (_type : IRType) (name : String)
    (v : Value) : Bool × IRGenerator :=
  (true, { g with scopes := bindInScopes name v g.scopes })

/-- Modelled from the spec: `Module::newConstInt` (`newIntConstant(value) -> Value`);
constants are interned by value. -/
def newConstInt (v : Int) : Value :=
  .ConstInt (toInt32 v)

/-- Modelled from the spec: `Module::enterScope`. -/
def IRGenerator.enterScope (g : IRGenerator) : IRGenerator :=
  { g with scopes := [] :: g.scopes }

/-- Modelled from the spec: `Module::leaveScope`. -/
def IRGenerator.leaveScope (g : IRGenerator) : IRGenerator :=
  { g with scopes := g.scopes.tail }

/-- Modelled from the spec: `Module::newFunction` (`declareFunction(name, returnType,
params) -> Function`); it yields no function when the name is already declared. -/
def IRGenerator.newFunction (g : IRGenerator) (name : String) (returnType : IRType)
    (params : List Value) : Option Function × IRGenerator :=
  match g.findFunction name with
  | some _ => (none, g)
  | none =>
    let f : Function := { name := name, returnType := returnType, params := params }
    (some f, { g with functions := g.functions ++ [f] })

/-- Modelled from the spec: `Module::setCurrentFunction`. Setting a function loads
its record; setting `nullptr` stores the record of the function that was current
back into the function table. -/
def IRGenerator.setCurrentFunction (g : IRGenerator) (f : Option Function) : IRGenerator :=
  match f with
  | some fn => { g with currentFunc := some fn }
  | none =>
    match g.currentFunc with
    | none => g
    | some cur =>
      { g with
        currentFunc := none,
        functions := g.functions.map (fun h => if h.name == cur.name then cur else h) }

/-- An update of the record of the current function. -/
def IRGenerator.updateCurrent (g : IRGenerator) (u : Function → Function) : IRGenerator :=
  { g with currentFunc := g.currentFunc.map u }

/-- `new LabelInstruction(func)`: the label and the state after the allocation. -/
def IRGenerator.newLabel (g : IRGenerator) : Nat × IRGenerator :=
  (g.nextId, { g with nextId := g.nextId + 1 })

/-- `new BinaryInstruction(func, op, src1, src2, type)`: the instruction, the value
it denotes, and the state after the allocation. -/
def IRGenerator.newBinary (g : IRGenerator) (op : IRInstOperator) (src1 src2 : Option Value)
    (type : IRType) : Instruction × Value × IRGenerator :=
  (.Binary g.nextId op src1 src2 type, .InstructionResult g.nextId type,
    { g with nextId := g.nextId + 1 })

/-- `new FormalParam{type, name}`. -/
def IRGenerator.newFormalParam (g : IRGenerator) (type : IRType) (name : String) :
    Value × IRGenerator :=
  (.FormalParam g.nextId type name, { g with nextId := g.nextId + 1 })

/-! ## The generator: leaves and arithmetic -/

/-- Outcome of lowering a node together with the generator state afterwards. -/
abbrev Lowered := Option NodeResult × IRGenerator

/-- The visitor a handler uses for the children of its node. -/
abbrev Visitor := ast_node → IRGenerator → Lowered

/-- `IRGenerator::ir_default`: an unknown node kind is reported and accepted. -/
def ir_default (_node : ast_node) (g : IRGenerator) : Lowered :=
  (some {}, g)

/-- `IRGenerator::ir_leaf_node_type`. -/
def ir_leaf_node_type (_node : ast_node) (g : IRGenerator) : Lowered :=
  (some {}, g)

/-- `IRGenerator::ir_empty_stmt`. -/
def ir_empty_stmt (_node : ast_node) (g : IRGenerator) : Lowered :=
  (some {}, g)

/-- `IRGenerator::ir_function_formal_param_array`. -/
def ir_function_formal_param_array (_node : ast_node) (g : IRGenerator) : Lowered :=
  (some {}, g)

/-- `IRGenerator::ir_leaf_node_uint`. -/
def ir_leaf_node_uint (node : ast_node) (g : IRGenerator) : Lowered :=
  (some { val := some (newConstInt node.integer_val) }, g)

/-- `IRGenerator::ir_leaf_node_var_id`. -/
def ir_leaf_node_var_id (node : ast_node) (g : IRGenerator) : Lowered :=
  if node.name = "" then
    (none, g.setLastError .leafNameEmpty)
  else
    let val : Option Value :=
      match g.findVarValue node.name with
      | some v => some v
      | none =>
        match g.getCurrentFunction with
        | some currentFunc =>
          if currentFunc.params.any (fun param => param.getName == node.name) then
            g.findVarValue node.name
          else none
        | none => none
    match val with
    | none => (none, g.setLastError (.variableNotFound node.name))
    | some v => (some { val := some v }, g)

/-- `IRGenerator::ir_add`. -/
def ir_add (visit : Visitor) (node : ast_node) (g : IRGenerator) : Lowered :=
  match node.sons with
  | src1_node :: src2_node :: _ =>
    match visit src1_node g with
    | (none, g1) => (none, g1.setLastError .addLeftInvalid)
    | (some left, g1) =>
      match left.val with
      | none => (none, g1.setLastError .addLeftInvalid)
      | some leftVal =>
        match visit src2_node g1 with
        | (none, g2) => (none, g2.setLastError .addRightInvalid)
        | (some right, g2) =>
          match right.val with
          | none => (none, g2.setLastError .addRightInvalid)
          | some rightVal =>
            match g2.newBinary .IRINST_OP_ADD_I (some leftVal) (some rightVal) .int32 with
            | (addInst, addVal, g3) =>
              (some { blockInsts := left.blockInsts ++ right.blockInsts ++ [addInst],
                      val := some addVal }, g3)
  | _ => (none, g)

/-- `IRGenerator::ir_mul`. -/
def ir_mul (visit : Visitor) (node : ast_node) (g : IRGenerator) : Lowered :=
  match node.sons with
  | src1_node :: src2_node :: _ =>
    match visit src1_node g with
    | (none, g1) => (none, g1.setLastError .mulLeftInvalid)
    | (some left, g1) =>
      match left.val with
      | none => (none, g1.setLastError .mulLeftInvalid)
      | some leftVal =>
        match visit src2_node g1 with
        | (none, g2) => (none, g2.setLastError .mulRightInvalid)
        | (some right, g2) =>
          match right.val with
          | none => (none, g2.setLastError .mulRightInvalid)
          | some rightVal =>
            match g2.newBinary .IRINST_OP_MUL_I (some leftVal) (some rightVal) .int32 with
            | (mulInst, mulVal, g3) =>
              (some { blockInsts := left.blockInsts ++ right.blockInsts ++ [mulInst],
                      val := some mulVal }, g3)
  | _ => (none, g.setLastError .mulMalformed)

/-- The common body of `IRGenerator::ir_sub`, `ir_div` and `ir_mod`, which differ in
the opcode only: neither operand value is checked. -/
def ir_binary_unchecked (op : IRInstOperator) (visit : Visitor) (node : ast_node)
    (g : IRGenerator) : Lowered :=
  match node.sons with
  | src1_node :: src2_node :: _ =>
    match visit src1_node g with
    | (none, g1) => (none, g1)
    | (some left, g1) =>
      match visit src2_node g1 with
      | (none, g2) => (none, g2)
      | (some right, g2) =>
        match g2.newBinary op left.val right.val .int32 with
        | (inst, instVal, g3) =>
          (some { blockInsts := left.blockInsts ++ right.blockInsts ++ [inst],
                  val := some instVal }, g3)
  | _ => (none, g)

/-- `IRGenerator::ir_sub`. -/
def ir_sub (visit : Visitor) (node : ast_node) (g : IRGenerator) : Lowered :=
  ir_binary_unchecked .IRINST_OP_SUB_I visit node g

/-- `IRGenerator::ir_div`. -/
def ir_div (visit : Visitor) (node : ast_node) (g : IRGenerator) : Lowered :=
  ir_binary_unchecked .IRINST_OP_DIV_I visit node g

/-- `IRGenerator::ir_mod`. -/
def ir_mod (visit : Visitor) (node : ast_node) (g : IRGenerator) : Lowered :=
  ir_binary_unchecked .IRINST_OP_MOD_I visit node g

/-- `IRGenerator::ir_neg`. -/
def ir_neg (visit : Visitor) (node : ast_node) (g : IRGenerator) : Lowered :=
  match node.sons with
  | operand_node :: _ =>
    match visit operand_node g with
    | (none, g1) => (none, g1)
    | (some operand, g1) =>
      match g1.newBinary .IRINST_OP_NEG_I operand.val none .int32 with
      | (negInst, negVal, g2) =>
        (some { blockInsts := operand.blockInsts ++ [negInst], val := some negVal }, g2)
  | _ => (none, g)

/-- The common body of `IRGenerator::ir_lt`, `ir_gt`, `ir_le`, `ir_ge`, `ir_eq` and
`ir_ne`, which differ in the opcode only. -/
def ir_relational (op : IRInstOperator) (visit : Visitor) (node : ast_node)
    (g : IRGenerator) : Lowered :=
  match node.sons with
  | son0 :: son1 :: _ =>
    match visit son0 g with
    | (none, g1) => (none, g1)
    | (some left_node, g1) =>
      match visit son1 g1 with
      | (none, g2) => (none, g2)
      | (some right_node, g2) =>
        match left_node.val, right_node.val with
        | some left, some right =>
          match g2.getCurrentFunction with
          | none => (none, g2)
          | some _ =>
            match g2.newVarValue .bool "" with
            | (result, g3) =>
              match g3.newBinary op (some left) (some right) .bool with
              | (cmpInst, cmpVal, g4) =>
                (some { blockInsts := left_node.blockInsts ++ right_node.blockInsts ++
                          [cmpInst, .Move (some result) (some cmpVal) false false],
                        val := some result }, g4)
        | _, _ => (none, g2)
  | _ => (none, g)

/-- `IRGenerator::ir_lt`. -/
def ir_lt (visit : Visitor) (node : ast_node) (g : IRGenerator) : Lowered :=
  ir_relational .IRINST_OP_LT_I visit node g

/-- `IRGenerator::ir_gt`. -/
def ir_gt (visit : Visitor) (node : ast_node) (g : IRGenerator) : Lowered :=
  ir_relational .IRINST_OP_GT_I visit node g

/-- `IRGenerator::ir_le`. -/
def ir_le (visit : Visitor) (node : ast_node) (g : IRGenerator) : Lowered :=
  ir_relational .IRINST_OP_LE_I visit node g

/-- `IRGenerator::ir_ge`. -/
def ir_ge (visit : Visitor) (node : ast_node) (g : IRGenerator) : Lowered :=
  ir_relational .IRINST_OP_GE_I visit node g

/-- `IRGenerator::ir_eq`. -/
def ir_eq (visit : Visitor) (node : ast_node) (g : IRGenerator) : Lowered :=
  ir_relational .IRINST_OP_EQ_I visit node g

/-- `IRGenerator::ir_ne`. -/
def ir_ne (visit : Visitor) (node : ast_node) (g : IRGenerator) : Lowered :=
  ir_relational .IRINST_OP_NE_I visit node g

/-! ## The generator: logical operators and control flow -/

/-- `IRGenerator::int_to_bool`: a value of type `i1` is used as it is; for any other
value the comparison with zero and the move into a fresh boolean temporary are
created and left in the `extraData` of the current function. -/
def int_to_bool (val : Value) (g : IRGenerator) : Option Value × IRGenerator :=
  match g.getCurrentFunction with
  | none => (none, g)
  | some _ =>
    if val.getType.isInt1Byte then
      (some val, g)
    else
      match g.newVarValue .bool "" with
      | (result, g1) =>
        match g1.newBinary .IRINST_OP_NE_I (some val) (some (newConstInt 0)) .bool with
        | (boolCheck, boolCheckVal, g2) =>
          (some result,
            g2.updateCurrent (fun func =>
              { func with
                extraData :=
                  { boolCheckInst := some boolCheck,
                    moveInst := some (.Move (some result) (some boolCheckVal) false false) } }))

/-- The block of `ir_logic_and` and `ir_logic_or` that follows the call of
`int_to_bool`: the instructions waiting in `extraData` are appended to the node and
the two slots are cleared. The result is the list of appended instructions. -/
def takeBoolCheck (g : IRGenerator) : List Instruction × IRGenerator :=
  match g.currentFunc with
  | none => ([], g)
  | some func =>
    match func.extraData.boolCheckInst with
    | none => ([], g)
    | some boolCheckInst =>
      (boolCheckInst :: (match func.extraData.moveInst with
                         | some moveInst => [moveInst]
                         | none => []),
        g.updateCurrent (fun f => { f with extraData := { boolCheckInst := none, moveInst := none } }))

/-- `IRGenerator::ir_logic_and`. -/
def ir_logic_and (visit : Visitor) (node : ast_node) (g : IRGenerator) : Lowered :=
  match g.getCurrentFunction with
  | none => (none, g)
  | some _ =>
    match node.sons with
    | son0 :: son1 :: _ =>
      match g.newLabel with
      | (secondOpLabel, g1) =>
      match g1.newLabel with
      | (falseLabel, g2) =>
      match g2.newLabel with
      | (endLabel, g3) =>
      match g3.newVarValue .int32 "" with
      | (result, g4) =>
      match visit son0 g4 with
      | (none, g5) => (none, g5)
      | (some leftNode, g5) =>
        match leftNode.val with
        | none => (none, g5)
        | some leftVal =>
          match int_to_bool leftVal g5 with
          | (none, g6) => (none, g6)
          | (some leftBool, g6) =>
            match takeBoolCheck g6 with
            | (conversion, g7) =>
              match visit son1 g7 with
              | (none, g8) => (none, g8)
              | (some rightNode, g8) =>
                match rightNode.val with
                | none => (none, g8)
                | some rightVal =>
                  (some { blockInsts :=
                            leftNode.blockInsts ++ conversion ++
                            [.CondGoto leftBool secondOpLabel falseLabel, .Label secondOpLabel] ++
                            rightNode.blockInsts ++
                            [.Move (some result) (some rightVal) false false,
                             .Goto (some endLabel),
                             .Label falseLabel,
                             .Move (some result) (some (newConstInt 0)) false false,
                             .Label endLabel],
                          val := some result }, g8)
    | _ => (none, g)

/-- `IRGenerator::ir_logic_or`. -/
def ir_logic_or (visit : Visitor) (node : ast_node) (g : IRGenerator) : Lowered :=
  match g.getCurrentFunction with
  | none => (none, g)
  | some _ =>
    match node.sons with
    | son0 :: son1 :: _ =>
      match g.newLabel with
      | (secondOpLabel, g1) =>
      match g1.newLabel with
      | (trueLabel, g2) =>
      match g2.newLabel with
      | (endLabel, g3) =>
      match g3.newVarValue .int32 "" with
      | (result, g4) =>
      match visit son0 g4 with
      | (none, g5) => (none, g5)
      | (some leftNode, g5) =>
        match leftNode.val with
        | none => (none, g5)
        | some leftVal =>
          match int_to_bool leftVal g5 with
          | (none, g6) => (none, g6)
          | (some leftBool, g6) =>
            match takeBoolCheck g6 with
            | (conversion, g7) =>
              match visit son1 g7 with
              | (none, g8) => (none, g8)
              | (some rightNode, g8) =>
                match rightNode.val with
                | none => (none, g8)
                | some rightVal =>
                  (some { blockInsts :=
                            leftNode.blockInsts ++ conversion ++
                            [.CondGoto leftBool trueLabel secondOpLabel, .Label secondOpLabel] ++
                            rightNode.blockInsts ++
                            [.Move (some result) (some rightVal) false false,
                             .Goto (some endLabel),
                             .Label trueLabel,
                             .Move (some result) (some (newConstInt 1)) false false,
                             .Label endLabel],
                          val := some result }, g8)
    | _ => (none, g)

/-- `IRGenerator::ir_logic_not`. -/
def ir_logic_not (visit : Visitor) (node : ast_node) (g : IRGenerator) : Lowered :=
  match g.getCurrentFunction with
  | none => (none, g)
  | some _ =>
    match node.sons with
    | [] => (none, g)
    | son0 :: _ =>
      match visit son0 g with
      | (none, g1) => (none, g1)
      | (some operandNode, g1) =>
        match operandNode.val with
        | none => (none, g1)
        | some operandVal =>
          match g1.newVarValue .int32 "" with
          | (result, g2) =>
            match g2.newBinary .IRINST_OP_EQ_I (some operandVal) (some (newConstInt 0)) .bool with
            | (eqZeroInst, eqZeroVal, g3) =>
              (some { blockInsts := operandNode.blockInsts ++
                        [eqZeroInst, .Move (some result) (some eqZeroVal) false false],
                      val := some result }, g3)

/-- `IRGenerator::ir_if`. A then-branch that fails to lower is left out and the
statement still succeeds. -/
def ir_if (visit : Visitor) (node : ast_node) (g : IRGenerator) : Lowered :=
  match g.getCurrentFunction with
  | none => (none, g)
  | some _ =>
    match g.newLabel with
    | (thenLabel, g1) =>
    match g1.newLabel with
    | (endLabel, g2) =>
    match node.sons with
    | [] => (none, g2)
    | son0 :: rest =>
      match visit son0 g2 with
      | (none, g3) => (none, g3)
      | (some cond_node, g3) =>
        match cond_node.val with
        | none => (none, g3)
        | some condVal =>
          match rest with
          | [] =>
            (some { blockInsts := cond_node.blockInsts ++
                      [.CondGoto condVal thenLabel endLabel, .Label thenLabel] ++
                      [.Label endLabel] }, g3)
          | son1 :: _ =>
            match visit son1 g3 with
            | (some then_node, g4) =>
              (some { blockInsts := cond_node.blockInsts ++
                        [.CondGoto condVal thenLabel endLabel, .Label thenLabel] ++
                        then_node.blockInsts ++ [.Label endLabel] }, g4)
            | (none, g4) =>
              (some { blockInsts := cond_node.blockInsts ++
                        [.CondGoto condVal thenLabel endLabel, .Label thenLabel] ++
                        [.Label endLabel] }, g4)

/-- `IRGenerator::ir_if_else`. -/
def ir_if_else (visit : Visitor) (node : ast_node) (g : IRGenerator) : Lowered :=
  match g.getCurrentFunction with
  | none => (none, g)
  | some _ =>
    match g.newLabel with
    | (thenLabel, g1) =>
    match g1.newLabel with
    | (elseLabel, g2) =>
    match g2.newLabel with
    | (endLabel, g3) =>
    match node.sons with
    | son0 :: son1 :: son2 :: _ =>
      match visit son0 g3 with
      | (none, g4) => (none, g4)
      | (some cond_node, g4) =>
        match cond_node.val with
        | none => (none, g4)
        | some condVal =>
          match visit son1 g4 with
          | (none, g5) => (none, g5)
          | (some then_node, g5) =>
            match visit son2 g5 with
            | (none, g6) => (none, g6)
            | (some else_node, g6) =>
              (some { blockInsts := cond_node.blockInsts ++
                        [.CondGoto condVal thenLabel elseLabel, .Label thenLabel] ++
                        then_node.blockInsts ++
                        [.Goto (some endLabel), .Label elseLabel] ++
                        else_node.blockInsts ++ [.Label endLabel] }, g6)
    | _ => (none, g3)

/-- `Function::setBreakLabel` and `Function::setContinueLabel` on the current
function. -/
def IRGenerator.setLoopLabels (g : IRGenerator) (breakLabel continueLabel : Option Nat) :
    IRGenerator :=
  g.updateCurrent (fun func =>
    { func with breakLabel := breakLabel, continueLabel := continueLabel })

/-- `IRGenerator::ir_while`. The labels of the enclosing loop are saved, replaced by
the labels of this loop, and written back on the two paths that return `true`; the
paths that return `false` leave them as they are. -/
def ir_while (visit : Visitor) (node : ast_node) (g : IRGenerator) : Lowered :=
  match g.getCurrentFunction with
  | none => (none, g)
  | some func =>
    match g.newLabel with
    | (condLabel, g1) =>
    match g1.newLabel with
    | (bodyLabel, g2) =>
    match g2.newLabel with
    | (endLabel, g3) =>
    let oldBreakLabel := func.breakLabel
    let oldContinueLabel := func.continueLabel
    let g4 := g3.setLoopLabels (some endLabel) (some condLabel)
    match node.sons with
    | [] => (none, g4)
    | son0 :: rest =>
      match visit son0 g4 with
      | (none, g5) => (none, g5)
      | (some cond_node, g5) =>
        match cond_node.val with
        | none => (none, g5)
        | some condVal =>
          let branch : Option Instruction :=
            match condVal with
            | .ConstInt condValue =>
              if condValue ≠ 0 then some (.Goto (some bodyLabel)) else none
            | _ => some (.CondGoto condVal bodyLabel endLabel)
          match branch with
          | none =>
            (some { blockInsts := [.Label condLabel] ++ cond_node.blockInsts ++
                      [.Goto (some endLabel), .Label endLabel] },
              g5.setLoopLabels oldBreakLabel oldContinueLabel)
          | some branchInst =>
            match rest with
            | [] => (none, g5)
            | son1 :: _ =>
              match visit son1 g5 with
              | (none, g6) => (none, g6)
              | (some body_node, g6) =>
                (some { blockInsts := [.Label condLabel] ++ cond_node.blockInsts ++
                          [branchInst, .Label bodyLabel] ++ body_node.blockInsts ++
                          [.Goto (some condLabel), .Label endLabel] },
                  g6.setLoopLabels oldBreakLabel oldContinueLabel)

/-- `IRGenerator::ir_break`. -/
def ir_break (_node : ast_node) (g : IRGenerator) : Lowered :=
  match g.getCurrentFunction with
  | none => (none, g)
  | some func =>
    match func.breakLabel with
    | none => (none, g)
    | some breakLabel => (some { blockInsts := [.Goto (some breakLabel)] }, g)

/-- `IRGenerator::ir_continue`. -/
def ir_continue (_node : ast_node) (g : IRGenerator) : Lowered :=
  match g.getCurrentFunction with
  | none => (none, g)
  | some func =>
    match func.continueLabel with
    | none => (none, g)
    | some continueLabel => (some { blockInsts := [.Goto (some continueLabel)] }, g)

/-- `IRGenerator::ir_assign`. -/
def ir_assign (visit : Visitor) (node : ast_node) (g : IRGenerator) : Lowered :=
  match node.sons with
  | son1_node :: son2_node :: _ =>
    match visit son2_node g with
    | (none, g1) => (none, g1.setLastError .assignRightFailed)
    | (some right, g1) =>
      match right.val with
      | none => (none, g1.setLastError .assignRightFailed)
      | some rightVal =>
        match visit son1_node g1 with
        | (none, g2) => (none, g2)
        | (some left, g2) =>
          if son1_node.node_type = .AST_OP_ARRAY_ACCESS ∧ left.arrayPtr.isSome then
            (some { blockInsts := right.blockInsts ++ left.blockInsts ++
                      [.Move left.arrayPtr (some rightVal) true false],
                    val := some rightVal }, g2)
          else
            (some { blockInsts := right.blockInsts ++ left.blockInsts ++
                      [.Move left.val (some rightVal) false false],
                    val := some rightVal }, g2)
  | _ => (none, g)

/-- `IRGenerator::ir_return`. -/
def ir_return (visit : Visitor) (node : ast_node) (g : IRGenerator) : Lowered :=
  match node.sons with
  | [] =>
    match g.getCurrentFunction with
    | none => (none, g)
    | some currentFunc =>
      (some { blockInsts := [.Goto currentFunc.exitLabel], val := none }, g)
  | son_node :: _ =>
    match visit son_node g with
    | (none, g1) => (none, g1)
    | (some right, g1) =>
      match g1.getCurrentFunction with
      | none => (none, g1)
      | some currentFunc =>
        (some { blockInsts := right.blockInsts ++
                  [.Move currentFunc.returnValue right.val false false,
                   .Goto currentFunc.exitLabel],
                val := right.val }, g1)

/-- The loop of `ir_block`: the statements are lowered in order and their code is
concatenated; the first failure ends the loop. -/
def ir_block_sons (visit : Visitor) : List ast_node → IRGenerator →
    Option (List Instruction) × IRGenerator
  | [], g => (some [], g)
  | son :: rest, g =>
    match visit son g with
    | (none, g1) => (none, g1)
    | (some temp, g1) =>
      match ir_block_sons visit rest g1 with
      | (none, g2) => (none, g2)
      | (some insts, g2) => (some (temp.blockInsts ++ insts), g2)

/-- `IRGenerator::ir_block`. -/
def ir_block (visit : Visitor) (node : ast_node) (g : IRGenerator) : Lowered :=
  match ir_block_sons visit node.sons (if node.needScope then g.enterScope else g) with
  | (none, g1) => (none, g1)
  | (some insts, g1) =>
    (some { blockInsts := insts }, if node.needScope then g1.leaveScope else g1)

/-! ## The generator: arrays -/

/-- The dimension loop of `ir_array_def`: a literal gives its value, any other node
is lowered and must yield an integer constant; every dimension must be positive. The
code of a dimension expression is not kept. -/
def ir_array_def_dims (visit : Visitor) : List ast_node → IRGenerator →
    Option (List Int) × IRGenerator
  | [], g => (some [], g)
  | son :: rest, g =>
    if son.node_type = .AST_OP_LEAF_LITERAL_UINT then
      let dimSize := toInt32 son.integer_val
      if dimSize ≤ 0 then
        (none, g.setLastError .arrayDimNotPositive)
      else
        match ir_array_def_dims visit rest g with
        | (none, g1) => (none, g1)
        | (some dims, g1) => (some (dimSize :: dims), g1)
    else
      match visit son g with
      | (none, g1) => (none, g1.setLastError .arrayDimNotConstant)
      | (some dimExpr, g1) =>
        match dimExpr.val with
        | some (.ConstInt dimSize) =>
          if dimSize ≤ 0 then
            (none, g1.setLastError .arrayDimNotPositive)
          else
            match ir_array_def_dims visit rest g1 with
            | (none, g2) => (none, g2)
            | (some dims, g2) => (some (dimSize :: dims), g2)
        | _ => (none, g1.setLastError .arrayDimNotConstant)

/-- The children of an array definition that `ir_array_def` reads as dimensions:
`sons[1]` up to the last child, which is left out when it is not an integer literal. -/
def arrayDefDimNodes (sons : List ast_node) : List ast_node :=
  let skipLast : Nat :=
    match sons.getLast? with
    | some last => if last.node_type ≠ .AST_OP_LEAF_LITERAL_UINT then 1 else 0
    | none => 0
  (sons.take (sons.length - skipLast)).drop 1

/-- `IRGenerator::ir_array_def`. -/
def ir_array_def (visit : Visitor) (node : ast_node) (g : IRGenerator) : Lowered :=
  match node.sons with
  | nameNode :: _ :: _ =>
    match ir_array_def_dims visit (arrayDefDimNodes node.sons) g with
    | (none, g1) => (none, g1)
    | (some dimensions, g1) =>
      if dimensions.isEmpty then
        (none, g1.setLastError .arrayNoDimension)
      else if dimensions.any (fun dim => decide (dim ≤ 0)) then
        (none, g1.setLastError .arrayDimNotPositive)
      else
        match g1.newVarValue (.array .int32 dimensions) nameNode.name with
        | (arrayVar, g2) => (some { val := some arrayVar }, g2)
  | _ => (none, g.setLastError .arrayDefMalformed)

/-- `IRGenerator::isCurrentFunctionParameter`. -/
def isCurrentFunctionParameter (g : IRGenerator) (varName : String) : Bool :=
  match g.getCurrentFunction with
  | none => false
  | some currentFunc => currentFunc.params.any (fun param => param.getName == varName)

/-- The index loop shared by the array-access helpers: every index child is lowered in
order, its code is appended and its value collected. -/
def visitIndices (visit : Visitor) : List ast_node → IRGenerator →
    Option (List Instruction × List Value) × IRGenerator
  | [], g => (some ([], []), g)
  | son :: rest, g =>
    match visit son g with
    | (none, g1) => (none, g1.setLastError .invalidIndexExpr)
    | (some indexNode, g1) =>
      match indexNode.val with
      | none => (none, g1.setLastError .invalidIndexExpr)
      | some indexVal =>
        match visitIndices visit rest g1 with
        | (none, g2) => (none, g2)
        | (some (insts, indices), g2) =>
          (some (indexNode.blockInsts ++ insts, indexVal :: indices), g2)

/-- The product loop `int w = 1; for (j = from; j < dimensions.size(); j++) w *=
dimensions[j];` used for weights and strides. -/
def strideFrom (dimensions : List Int) (start : Nat) : Int :=
  (dimensions.drop start).foldl (fun w d => toInt32 (w * d)) 1

/-- The general loop of `handleRegularArrayAccess`: for the index at position `i` the
weight is the product of the dimensions after `i`; weight one adds the index, any
other weight multiplies first. -/
def regularOffsetLoop (dimensions : List Int) : Nat → List Value → Value → IRGenerator →
    List Instruction × Value × IRGenerator
  | _, [], linearOffset, g => ([], linearOffset, g)
  | i, index :: rest, linearOffset, g =>
    if strideFrom dimensions (i + 1) = 1 then
      match g.newBinary .IRINST_OP_ADD_I (some linearOffset) (some index) .int32 with
      | (addInst, addVal, g1) =>
        match regularOffsetLoop dimensions (i + 1) rest addVal g1 with
        | (insts, total, g2) => (addInst :: insts, total, g2)
    else
      match g.newBinary .IRINST_OP_MUL_I (some index)
          (some (newConstInt (strideFrom dimensions (i + 1)))) .int32 with
      | (mulInst, mulVal, g1) =>
        match g1.newBinary .IRINST_OP_ADD_I (some linearOffset) (some mulVal) .int32 with
        | (addInst, addVal, g2) =>
          match regularOffsetLoop dimensions (i + 1) rest addVal g2 with
          | (insts, total, g3) => (mulInst :: addInst :: insts, total, g3)

/-- The part of `handleRegularArrayAccess` after the index loop: the address
computation from the collected index values, on the two-dimensional path or on the
general path, and the load of the element. -/
def regularAccessTail (arrayVar : Value) (dimensions : List Int) (indices : List Value)
    (g : IRGenerator) : NodeResult × IRGenerator :=
  match indices, dimensions with
  | [rowIndex, colIndex], [_, colSize] =>
    match g.newVarValue .int32 "" with
    | (mulResult, g1) =>
    match g1.newVarValue .int32 "" with
    | (addResult, g2) =>
    match g2.newVarValue .int32 "" with
    | (offsetResult, g3) =>
    match g3.newVarValue (.pointer .int32) "" with
    | (ptrResult, g4) =>
    match g4.newVarValue .int32 "" with
    | (elemValue, g5) =>
    match g5.newBinary .IRINST_OP_MUL_I (some rowIndex) (some (newConstInt colSize)) .int32 with
    | (mulInst, mulVal, g6) =>
    match g6.newBinary .IRINST_OP_ADD_I (some mulResult) (some colIndex) .int32 with
    | (addInst, addVal, g7) =>
    match g7.newBinary .IRINST_OP_MUL_I (some addResult) (some (newConstInt 4)) .int32 with
    | (offsetInst, offsetVal, g8) =>
    match g8.newBinary .IRINST_OP_ADD_I (some arrayVar) (some offsetResult)
        (.pointer .int32) with
    | (ptrInst, ptrVal, g9) =>
      ({ blockInsts :=
           [mulInst, .Move (some mulResult) (some mulVal) false false,
            addInst, .Move (some addResult) (some addVal) false false,
            offsetInst, .Move (some offsetResult) (some offsetVal) false false,
            ptrInst, .Move (some ptrResult) (some ptrVal) false false,
            .Move (some elemValue) (some ptrResult) false true],
         arrayVar := some arrayVar,
         offsetValue := some offsetResult,
         arrayPtr := some ptrResult,
         val := some elemValue }, g9)
  | _, _ =>
    match regularOffsetLoop dimensions 0 indices (newConstInt 0) g with
    | (loopInsts, linearOffset, g1) =>
    match g1.newBinary .IRINST_OP_MUL_I (some linearOffset) (some (newConstInt 4)) .int32 with
    | (byteOffsetInst, byteOffsetVal, g2) =>
    match g2.newVarValue (.pointer .int32) "" with
    | (elemPtr, g3) =>
    match g3.newBinary .IRINST_OP_ADD_I (some arrayVar) (some byteOffsetVal)
        (.pointer .int32) with
    | (ptrInst, ptrVal, g4) =>
    match g4.newVarValue .int32 "" with
    | (elemValue, g5) =>
      ({ blockInsts :=
           loopInsts ++
           [byteOffsetInst, ptrInst, .Move (some elemPtr) (some ptrVal) false false,
            .Move (some elemValue) (some elemPtr) false true],
         arrayVar := some arrayVar,
         offsetValue := some byteOffsetVal,
         arrayPtr := some elemPtr,
         val := some elemValue }, g5)

/-- `IRGenerator::handleRegularArrayAccess`. -/
def handleRegularArrayAccess (visit : Visitor) (node : ast_node) (arrayVar : Value)
    (dimensions : List Int) (g : IRGenerator) : Lowered :=
  match g.getCurrentFunction with
  | none => (none, g.setLastError .arrayAccessOutsideFunction)
  | some _ =>
    match visitIndices visit (node.sons.drop 1) g with
    | (none, g1) => (none, g1)
    | (some (indexInsts, indices), g1) =>
      match regularAccessTail arrayVar dimensions indices g1 with
      | (tail, g2) => (some { tail with blockInsts := indexInsts ++ tail.blockInsts }, g2)

/-- The loop of `handleParameterArrayAccessWithDimensions`: it runs while there are
both an index and a recorded dimension at position `i`. -/
def paramOffsetLoop (dimensions : List Int) : Nat → List Value → Value → IRGenerator →
    List Instruction × Value × IRGenerator
  | _, [], linearOffset, g => ([], linearOffset, g)
  | i, index :: rest, linearOffset, g =>
    if i < dimensions.length then
      if strideFrom dimensions (i + 1) = 1 then
        match g.newBinary .IRINST_OP_ADD_I (some linearOffset) (some index) .int32 with
        | (addInst, addVal, g1) =>
          match paramOffsetLoop dimensions (i + 1) rest addVal g1 with
          | (insts, total, g2) => (addInst :: insts, total, g2)
      else
        match g.newBinary .IRINST_OP_MUL_I (some index)
            (some (newConstInt (strideFrom dimensions (i + 1)))) .int32 with
        | (mulInst, mulVal, g1) =>
          match g1.newBinary .IRINST_OP_ADD_I (some linearOffset) (some mulVal) .int32 with
          | (addInst, addVal, g2) =>
            match paramOffsetLoop dimensions (i + 1) rest addVal g2 with
            | (insts, total, g3) => (mulInst :: addInst :: insts, total, g3)
    else ([], linearOffset, g)

/-- `IRGenerator::handleParameterArrayAccessWithDimensions`. -/
def handleParameterArrayAccessWithDimensions (visit : Visitor) (node : ast_node)
    (arrayVar : Value) (dimensions : List Int) (g : IRGenerator) : Lowered :=
  match visitIndices visit (node.sons.drop 1) g with
  | (none, g1) => (none, g1)
  | (some (indexInsts, indices), g1) =>
    match paramOffsetLoop dimensions 0 indices (newConstInt 0) g1 with
    | (loopInsts, linearOffset, g2) =>
    match g2.newBinary .IRINST_OP_MUL_I (some linearOffset) (some (newConstInt 4)) .int32 with
    | (byteOffsetInst, byteOffsetVal, g3) =>
    match g3.newVarValue (.pointer .int32) "" with
    | (elemPtr, g4) =>
    match g4.newBinary .IRINST_OP_ADD_I (some arrayVar) (some byteOffsetVal)
        (.pointer .int32) with
    | (ptrInst, ptrVal, g5) =>
    match g5.newVarValue .int32 "" with
    | (elemValue, g6) =>
      (some { blockInsts :=
                indexInsts ++ loopInsts ++
                [byteOffsetInst, ptrInst, .Move (some elemPtr) (some ptrVal) false false,
                 .Move (some elemValue) (some elemPtr) false true],
              arrayVar := some arrayVar,
              offsetValue := some byteOffsetVal,
              arrayPtr := some elemPtr,
              val := some elemValue }, g6)

/-- `IRGenerator::handleSimplePointerParamAccess`: only the first index is used. -/
def handleSimplePointerParamAccess (visit : Visitor) (node : ast_node) (arrayVar : Value)
    (g : IRGenerator) : Lowered :=
  match node.sons with
  | _ :: son1 :: _ =>
    match visit son1 g with
    | (none, g1) => (none, g1.setLastError .invalidIndexExpr)
    | (some indexNode, g1) =>
      match indexNode.val with
      | none => (none, g1.setLastError .invalidIndexExpr)
      | some indexVal =>
        match g1.newVarValue .int32 "" with
        | (byteOffset, g2) =>
        match g2.newBinary .IRINST_OP_MUL_I (some indexVal) (some (newConstInt 4)) .int32 with
        | (byteOffsetInst, byteOffsetVal, g3) =>
        match g3.newVarValue (.pointer .int32) "" with
        | (elemPtr, g4) =>
        match g4.newBinary .IRINST_OP_ADD_I (some arrayVar) (some byteOffset)
            (.pointer .int32) with
        | (ptrInst, ptrVal, g5) =>
        match g5.newVarValue .int32 "" with
        | (elemValue, g6) =>
          (some { blockInsts :=
                    indexNode.blockInsts ++
                    [byteOffsetInst, .Move (some byteOffset) (some byteOffsetVal) false false,
                     ptrInst, .Move (some elemPtr) (some ptrVal) false false,
                     .Move (some elemValue) (some elemPtr) false true],
                  arrayVar := some arrayVar,
                  offsetValue := some byteOffset,
                  arrayPtr := some elemPtr,
                  val := some elemValue }, g6)
  | _ => (none, g)

/-- Lookup in `functionParameterDimensions`, keyed by function name and parameter
index. -/
def lookupDimensions (table : List ((String × Nat) × List Int)) (funcName : String)
    (paramIndex : Nat) : Option (List Int) :=
  match table.find? (fun entry => entry.1.1 == funcName && entry.1.2 == paramIndex) with
  | some entry => some entry.2
  | none => none

/-- `IRGenerator::ir_array_access`. -/
def ir_array_access (visit : Visitor) (node : ast_node) (g : IRGenerator) : Lowered :=
  match node.sons with
  | nameNode :: _ :: _ =>
    match g.findVarValue nameNode.name with
    | none => (none, g.setLastError (.arrayUndefined nameNode.name))
    | some arrayVar =>
      match g.getCurrentFunction with
      | none => (none, g.setLastError .arrayAccessOutsideFunction)
      | some currentFunc =>
        if isCurrentFunctionParameter g nameNode.name then
          match currentFunc.params.findIdx? (fun param => param.getName == nameNode.name) with
          | some paramIndex =>
            match lookupDimensions g.functionParameterDimensions currentFunc.name paramIndex with
            | some dimensions =>
              handleParameterArrayAccessWithDimensions visit node arrayVar dimensions g
            | none => handleSimplePointerParamAccess visit node arrayVar g
          | none => handleSimplePointerParamAccess visit node arrayVar g
        else
          match arrayVar.getType with
          | .array _ dimensions => handleRegularArrayAccess visit node arrayVar dimensions g
          | _ => (none, g.setLastError (.notArrayType nameNode.name))
  | _ => (none, g.setLastError .arrayAccessMalformed)

/-! ## The generator: function calls -/

/-- The loop of `calculateArrayAccessOffset` over the index children of an array
access: each index is lowered, multiplied by its stride unless the stride is one, and
added to the running total. -/
def arrayAccessOffsetLoop (visit : Visitor) (dimensions : List Int) :
    Nat → List ast_node → Value → IRGenerator →
    Option (List Instruction × Value) × IRGenerator
  | _, [], totalOffset, g => (some ([], totalOffset), g)
  | dimIdx, son :: rest, totalOffset, g =>
    match visit son g with
    | (none, g1) => (none, g1)
    | (some indexNode, g1) =>
      match indexNode.val with
      | none => (none, g1)
      | some indexVal =>
        if strideFrom dimensions dimIdx = 1 then
          match g1.newBinary .IRINST_OP_ADD_I (some totalOffset) (some indexVal) .int32 with
          | (addInst, addVal, g2) =>
            match arrayAccessOffsetLoop visit dimensions (dimIdx + 1) rest addVal g2 with
            | (none, g3) => (none, g3)
            | (some (insts, total), g3) =>
              (some (indexNode.blockInsts ++ addInst :: insts, total), g3)
        else
          match g1.newBinary .IRINST_OP_MUL_I (some indexVal)
              (some (newConstInt (strideFrom dimensions dimIdx))) .int32 with
          | (mulInst, mulVal, g2) =>
            match g2.newBinary .IRINST_OP_ADD_I (some totalOffset) (some mulVal) .int32 with
            | (addInst, addVal, g3) =>
              match arrayAccessOffsetLoop visit dimensions (dimIdx + 1) rest addVal g3 with
              | (none, g4) => (none, g4)
              | (some (insts, total), g4) =>
                (some (indexNode.blockInsts ++ mulInst :: addInst :: insts, total), g4)

/-- `IRGenerator::calculateArrayAccessOffset`: the instructions it appends to the
block of the caller and the value holding the byte offset. The strides come from the
type of the variable that is indexed. -/
def calculateArrayAccessOffset (visit : Visitor) (arrayAccessNode : ast_node)
    (g : IRGenerator) : Option (List Instruction × Value) × IRGenerator :=
  match g.getCurrentFunction with
  | none => (none, g)
  | some _ =>
    match arrayAccessNode.sons with
    | [] => (none, g)
    | nameNode :: indexNodes =>
      match g.findVarValue nameNode.name with
      | none => (none, g)
      | some arrayVar =>
        match indexNodes with
        | [] => (some ([], newConstInt 0), g)
        | son1 :: _ =>
          match arrayVar.getType with
          | .array _ dimensions =>
            match arrayAccessOffsetLoop visit dimensions 1 indexNodes (newConstInt 0) g with
            | (none, g1) => (none, g1)
            | (some (insts, totalOffset), g1) =>
              match g1.newBinary .IRINST_OP_MUL_I (some totalOffset) (some (newConstInt 4))
                  .int32 with
              | (byteOffsetInst, byteOffsetVal, g2) =>
                (some (insts ++ [byteOffsetInst], byteOffsetVal), g2)
          | _ =>
            match visit son1 g with
            | (none, g1) => (none, g1)
            | (some indexNode, g1) =>
              match indexNode.val with
              | none => (none, g1)
              | some indexVal =>
                match g1.newBinary .IRINST_OP_MUL_I (some indexVal) (some (newConstInt 4))
                    .int32 with
                | (byteOffsetInst, byteOffsetVal, g2) =>
                  (some (indexNode.blockInsts ++ [byteOffsetInst], byteOffsetVal), g2)

/-- One round of the argument loop of `ir_function_call`: the code appended to the
call node for this argument and the entry pushed on `realParams`. An array access
passed for a pointer parameter yields the address of the element, an array name passed
for a pointer parameter decays to a pointer, every other argument is lowered as an
expression. The branch of the source guarded by a `dynamic_cast` of the pointer-typed
formal to `ArrayType` is never taken and is left out. -/
def ir_function_call_arg (visit : Visitor) (funcName : String) (shouldPassAsPointer : Bool)
    (son : ast_node) (g : IRGenerator) :
    Option (List Instruction × Option Value) × IRGenerator :=
  if son.node_type = .AST_OP_ARRAY_ACCESS ∧ shouldPassAsPointer = true then
    match son.sons with
    | [] => (none, g)
    | nameNode :: _ =>
      match g.findVarValue nameNode.name with
      | none => (none, g.setLastError (.arrayNotFound nameNode.name))
      | some arrayVar =>
        match calculateArrayAccessOffset visit son g with
        | (none, g1) => (none, g1)
        | (some (insts, totalOffset), g1) =>
          match g1.newBinary .IRINST_OP_ADD_I (some arrayVar) (some totalOffset)
              (.pointer .int32) with
          | (finalAddrInst, finalAddrVal, g2) =>
            (some (insts ++ [finalAddrInst], some finalAddrVal), g2)
  else
    match (if son.node_type = .AST_OP_LEAF_VAR_ID then g.findVarValue son.name else none) with
    | some paramVar =>
      if paramVar.getType.isArrayType ∧ shouldPassAsPointer = true then
        match g.newVarValue (.pointer .int32) "" with
        | (ptrVar, g1) =>
          match g1.newBinary .IRINST_OP_ADD_I (some paramVar) (some (newConstInt 0))
              (.pointer .int32) with
          | (addInst, addVal, g2) =>
            (some ([addInst, .Move (some ptrVar) (some addVal) false false], some ptrVar), g2)
      else
        match visit son g with
        | (none, g1) => (none, g1.setLastError (.argumentFailed funcName))
        | (some temp, g1) => (some (temp.blockInsts, temp.val), g1)
    | none =>
      match visit son g with
      | (none, g1) => (none, g1.setLastError (.argumentFailed funcName))
      | (some temp, g1) => (some (temp.blockInsts, temp.val), g1)

/-- The argument loop of `ir_function_call`, from argument position `i` on: the code
appended to the call node and the list `realParams`. -/
def ir_function_call_args (visit : Visitor) (funcName : String) (formalParams : List Value) :
    Nat → List ast_node → IRGenerator →
    Option (List Instruction × List (Option Value)) × IRGenerator
  | _, [], g => (some ([], []), g)
  | i, son :: rest, g =>
    match ir_function_call_arg visit funcName
        (match formalParams.get? i with
         | some formal => formal.getType.isPointerType
         | none => false) son g with
    | (none, g1) => (none, g1)
    | (some (insts, realParam), g1) =>
      match ir_function_call_args visit funcName formalParams (i + 1) rest g1 with
      | (none, g2) => (none, g2)
      | (some (restInsts, realParams), g2) =>
        (some (insts ++ restInsts, realParam :: realParams), g2)

/-- The bookkeeping of `ir_function_call` on the current function before the
arguments are lowered: `setExistFuncCall(true)` and, for a call with arguments, the
update of the largest argument count seen. -/
def IRGenerator.noteCall (g : IRGenerator) (argsCount : Nat) : IRGenerator :=
  (g.updateCurrent (fun f => { f with existFuncCall := true })).updateCurrent (fun f =>
    if argsCount ≠ 0 ∧ toInt32 argsCount > f.maxFuncCallArgCnt then
      { f with maxFuncCallArgCnt := toInt32 argsCount }
    else f)

/-- `IRGenerator::ir_function_call`. A call outside any function dereferences a null
`currentFunc` in the source; the embedding fails there. -/
def ir_function_call (visit : Visitor) (node : ast_node) (g : IRGenerator) : Lowered :=
  match node.sons with
  | nameNode :: paramsNode :: _ =>
    match g.findFunction nameNode.name with
    | none => (none, g.setLastError (.functionUndefined nameNode.name))
    | some calledFunction =>
      match g.getCurrentFunction with
      | none => (none, g)
      | some _ =>
        match ir_function_call_args visit nameNode.name calledFunction.params 0
            paramsNode.sons (g.noteCall paramsNode.sons.length) with
        | (none, g3) => (none, g3)
        | (some (argInsts, realParams), g3) =>
          if realParams.length ≠ calledFunction.params.length then
            (none, g3.setLastError
              (.paramCountMismatch nameNode.name calledFunction.params.length realParams.length))
          else
            (some { blockInsts := argInsts ++
                      [.FuncCall g3.nextId calledFunction.name realParams
                        calledFunction.returnType],
                    val := some (.InstructionResult g3.nextId calledFunction.returnType) },
              { g3 with nextId := g3.nextId + 1 })
  | _ => (none, g)

/-! ## The generator: declarations, functions and the compile unit -/

/-- The assignment `globalVarInitValues[varName] = value`: the value of a key that
is in the map is replaced, a new key is inserted. -/
def setGlobalInit (table : List (String × Int)) (varName : String) (value : Int) :
    List (String × Int) :=
  if table.any (fun entry => entry.1 == varName) then
    table.map (fun entry => if entry.1 == varName then (varName, value) else entry)
  else table ++ [(varName, value)]

/-- `IRGenerator::ir_variable_declare`. -/
def ir_variable_declare (visit : Visitor) (node : ast_node) (g : IRGenerator) : Lowered :=
  match node.sons with
  | typeNode :: son1 :: rest =>
    if son1.node_type = .AST_OP_ARRAY_DEF then
      match ir_array_def visit son1 g with
      | (none, g1) => (none, g1)
      | (some _, g1) => (some {}, g1)
    else
      match g.newVarValue typeNode.type son1.name with
      | (var, g1) =>
        match rest with
        | son2 :: _ =>
          match g1.getCurrentFunction with
          | some _ =>
            match visit son2 g1 with
            | (none, g2) => (none, g2.setLastError (.initExprFailed son1.name))
            | (some init_expr, g2) =>
              match init_expr.val with
              | none =>
                if son2.node_type = .AST_OP_LEAF_LITERAL_UINT then
                  (some { blockInsts :=
                            [.Move (some var) (some (newConstInt son2.integer_val)) false false],
                          val := some var }, g2)
                else
                  (none, g2.setLastError (.initExprNoValue son1.name))
              | some initVal =>
                (some { blockInsts := init_expr.blockInsts ++
                          [.Move (some var) (some initVal) false false],
                        val := some var }, g2)
          | none =>
            if son2.node_type = .AST_OP_LEAF_LITERAL_UINT then
              (some { val := some var },
                { g1 with globalVarInitValues :=
                    setGlobalInit g1.globalVarInitValues son1.name (toInt32 son2.integer_val) })
            else
              (some { val := some var }, g1)
        | [] =>
          match g1.getCurrentFunction with
          | some _ =>
            if typeNode.type.isInt32Type then
              (some { blockInsts := [.Move (some var) (some (newConstInt 0)) false false],
                      val := some var }, g1)
            else
              (some { val := some var }, g1)
          | none => (some { val := some var }, g1)
  | _ => (none, g.setLastError .varDeclMalformed)

/-- The loop of `ir_declare_statment` over the declared variables. -/
def ir_declare_statment_sons (visit : Visitor) : List ast_node → IRGenerator →
    Option (List Instruction) × IRGenerator
  | [], g => (some [], g)
  | child :: rest, g =>
    match ir_variable_declare visit child g with
    | (none, g1) => (none, g1)
    | (some declared, g1) =>
      match ir_declare_statment_sons visit rest g1 with
      | (none, g2) => (none, g2)
      | (some insts, g2) => (some (declared.blockInsts ++ insts), g2)

/-- `IRGenerator::ir_declare_statment`: the result starts as `false`, so a statement
without children fails. -/
def ir_declare_statment (visit : Visitor) (node : ast_node) (g : IRGenerator) : Lowered :=
  match node.sons with
  | [] => (none, g)
  | sons =>
    match ir_declare_statment_sons visit sons g with
    | (none, g1) => (none, g1)
    | (some insts, g1) => (some { blockInsts := insts }, g1)

/-- `InterCode::addInst` on the instruction list of the current function. -/
def IRGenerator.addInst (g : IRGenerator) (insts : List Instruction) : IRGenerator :=
  g.updateCurrent (fun func => { func with interCode := func.interCode ++ insts })

/-- The loop of `ir_function_formal_params` over the parameters of the prototype,
from position `i` on; `sons` are the children of the formal-parameter list node. An
array parameter is bound to its name directly, any other parameter gets a local
variable and a move that is appended to the code of the function. -/
def ir_function_formal_params_loop (sons : List ast_node) :
    Nat → List Value → IRGenerator → Option Unit × IRGenerator
  | _, [], g => (some (), g)
  | i, param :: rest, g =>
    if (match sons.get? i with
        | some son => decide (son.node_type = .AST_OP_FUNC_FORMAL_PARAM_ARRAY)
        | none => false) = true then
      match g.newVarValueWithValue (.pointer .int32) param.getName param with
      | (false, g1) => (none, g1.setLastError (.registerArrayParamFailed param.getName))
      | (true, g1) => ir_function_formal_params_loop sons (i + 1) rest g1
    else
      match g.newVarValue param.getType param.getName with
      | (localParam, g1) =>
        ir_function_formal_params_loop sons (i + 1) rest
          (g1.addInst [.Move (some localParam) (some param) false false])

/-- `IRGenerator::ir_function_formal_params`. -/
def ir_function_formal_params (node : ast_node) (g : IRGenerator) : Lowered :=
  match g.getCurrentFunction with
  | none => (none, g.setLastError .noFunctionForParams)
  | some currentFunc =>
    match ir_function_formal_params_loop node.sons 0 currentFunc.params g with
    | (none, g1) => (none, g1)
    | (some _, g1) => (some {}, g1)

/-- The parameter list `ir_function_define` builds from the AST when the function is
not registered yet: every formal needs a type child and a name child. -/
def paramsFromAst : List ast_node → IRGenerator → Option (List Value) × IRGenerator
  | [], g => (some [], g)
  | paramSon :: rest, g =>
    match paramSon.sons with
    | typeSon :: nameSon :: _ =>
      match g.newFormalParam typeSon.type nameSon.name with
      | (param, g1) =>
        match paramsFromAst rest g1 with
        | (none, g2) => (none, g2)
        | (some params, g2) => (some (param :: params), g2)
    | _ => (none, g.setLastError .formalParamMalformed)

/-- The initialisation moves `ir_function_define` puts at the start of `main`: one for
every entry of the map, in the order in which the iteration yields the entries, whose
variable is found. -/
def globalInitMoves (g : IRGenerator) : List (String × Int) → List Instruction
  | [] => []
  | (varName, initValue) :: rest =>
    match g.findVarValue varName with
    | some globalVar =>
      .Move (some globalVar) (some (newConstInt initValue)) false false :: globalInitMoves g rest
    | none => globalInitMoves g rest

/-- `IRGenerator::ir_function_define`. The code of the body is moved into the
instruction list of the function, between the entry part and the exit label. -/
def ir_function_define (visit : Visitor) (node : ast_node) (g : IRGenerator) : Lowered :=
  match node.sons with
  | type_node :: name_node :: param_node :: block_node :: _ =>
    match g.getCurrentFunction with
    | some _ => (none, g.setLastError .nestedFunction)
    | none =>
      let found : Option Function × IRGenerator :=
        match g.findFunction name_node.name with
        | some f => (some f, g)
        | none =>
          match paramsFromAst param_node.sons g with
          | (none, g1) => (none, g1)
          | (some params, g1) =>
            match g1.newFunction name_node.name type_node.type params with
            | (none, g2) => (none, g2.setLastError (.createFunctionFailed name_node.name))
            | (some f, g2) => (some f, g2)
      match found with
      | (none, g1) => (none, g1)
      | (some newFunc, g1) =>
        let g2 := ((g1.setCurrentFunction (some newFunc)).enterScope).addInst [.Entry]
        let g3 :=
          if name_node.name = "main" ∧ ¬ g2.globalVarInitValues.isEmpty then
            g2.addInst (globalInitMoves g2 (g2.unorderedOrder g2.globalVarInitValues))
          else g2
        match g3.newLabel with
        | (exitLabelInst, g4) =>
          let g5 := g4.updateCurrent (fun f => { f with exitLabel := some exitLabelInst })
          match ir_function_formal_params param_node g5 with
          | (none, g6) => (none, g6.setLastError .formalParamsFailed)
          | (some _, g6) =>
            let slot : Option Value × IRGenerator :=
              if type_node.type.isVoidType then (none, g6)
              else
                match g6.newVarValue type_node.type "" with
                | (retValue, g7) => (some retValue, g7)
            let g8 := slot.2.updateCurrent (fun f => { f with returnValue := slot.1 })
            match ir_block visit (block_node.setNeedScope false) g8 with
            | (none, g9) => (none, g9)
            | (some block, g9) =>
              (some {},
                (((g9.addInst block.blockInsts).addInst
                    [.Label exitLabelInst, .Exit slot.1]).setCurrentFunction none).leaveScope)
  | _ => (none, g)

/-- The dimensions recorded for an array parameter by `ir_compile_unit`: the values
of the children from the third on that are integer literals. -/
def paramDimensions (sons : List ast_node) : List Int :=
  ((sons.drop 2).filter (fun son => decide (son.node_type = .AST_OP_LEAF_LITERAL_UINT))).map
    (fun son => toInt32 son.integer_val)

/-- The parameter loop of the second pass of `ir_compile_unit`, from position
`paramIdx` of the formal-parameter list on: the formals of the prototype, and the
dimension table extended with an entry for every array parameter. A formal with fewer
than two children is skipped. -/
def collectParams (funcName : String) : Nat → List ast_node → IRGenerator →
    List Value × IRGenerator
  | _, [], g => ([], g)
  | paramIdx, paramSon :: rest, g =>
    match paramSon.sons with
    | typeSon :: nameSon :: _ =>
      let g1 : IRGenerator :=
        if paramSon.node_type = .AST_OP_FUNC_FORMAL_PARAM_ARRAY then
          { g with functionParameterDimensions :=
              ((funcName, paramIdx), paramDimensions paramSon.sons) ::
                g.functionParameterDimensions }
        else g
      let paramType : IRType :=
        if paramSon.node_type = .AST_OP_FUNC_FORMAL_PARAM_ARRAY then .pointer .int32
        else typeSon.type
      match g1.newFormalParam paramType nameSon.name with
      | (param, g2) =>
        match collectParams funcName (paramIdx + 1) rest g2 with
        | (params, g3) => (param :: params, g3)
    | _ => collectParams funcName (paramIdx + 1) rest g

/-- One round of the second pass of `ir_compile_unit`: the prototype of a function
definition is registered with the parameters found in its AST. -/
def registerPrototype (son : ast_node) (g : IRGenerator) : IRGenerator :=
  match son.sons with
  | type_node :: name_node :: param_node :: _ =>
    let collected : List Value × IRGenerator :=
      if ¬ param_node.sons.isEmpty then
        collectParams name_node.name 0 param_node.sons g
      else if name_node.name = "get_one" then
        match g.newFormalParam .int32 "a" with
        | (a, g1) => ([a], g1)
      else if name_node.name = "deepWhileBr" then
        match g.newFormalParam .int32 "a" with
        | (a, g1) =>
          match g1.newFormalParam .int32 "b" with
          | (b, g2) => ([a, b], g2)
      else ([], g)
    (collected.2.newFunction name_node.name type_node.type collected.1).2
  | _ => g

/-- The first pass of `ir_compile_unit`: the file-scope declarations are lowered. -/
def compileUnitGlobals (visit : Visitor) : List ast_node → IRGenerator → Bool × IRGenerator
  | [], g => (true, g)
  | son :: rest, g =>
    if son.node_type = .AST_OP_VAR_DECL ∨ son.node_type = .AST_OP_DECL_STMT then
      match visit son g with
      | (none, g1) => (false, g1.setLastError .globalVarFailed)
      | (some _, g1) => compileUnitGlobals visit rest g1
    else compileUnitGlobals visit rest g

/-- The second pass of `ir_compile_unit`: every function definition is registered. -/
def compileUnitPrototypes : List ast_node → IRGenerator → IRGenerator
  | [], g => g
  | son :: rest, g =>
    if son.node_type = .AST_OP_FUNC_DEF then
      compileUnitPrototypes rest (registerPrototype son g)
    else compileUnitPrototypes rest g

/-- The third pass of `ir_compile_unit`: the function definitions are lowered. -/
def compileUnitFunctions (visit : Visitor) : List ast_node → IRGenerator → Bool × IRGenerator
  | [], g => (true, g)
  | son :: rest, g =>
    if son.node_type = .AST_OP_FUNC_DEF then
      match visit son g with
      | (none, g1) => (false, g1)
      | (some _, g1) => compileUnitFunctions visit rest g1
    else compileUnitFunctions visit rest g

/-- `IRGenerator::ir_compile_unit`. -/
def ir_compile_unit (visit : Visitor) (node : ast_node) (g : IRGenerator) : Lowered :=
  match compileUnitGlobals visit node.sons (g.setCurrentFunction none) with
  | (false, g1) => (none, g1)
  | (true, g1) =>
    match compileUnitFunctions visit node.sons (compileUnitPrototypes node.sons g1) with
    | (false, g2) => (none, g2)
    | (true, g2) => (some {}, g2)

/-! ## The dispatcher -/

/-- The handler table `ast2ir_handlers` filled by the constructor of `IRGenerator`; a
node kind without an entry goes to `ir_default`. -/
def dispatch (visit : Visitor) (node : ast_node) (g : IRGenerator) : Lowered :=
  match node.node_type with
  | .AST_OP_LEAF_LITERAL_UINT => ir_leaf_node_uint node g
  | .AST_OP_LEAF_VAR_ID => ir_leaf_node_var_id node g
  | .AST_OP_LEAF_TYPE => ir_leaf_node_type node g
  | .AST_OP_SUB => ir_sub visit node g
  | .AST_OP_ADD => ir_add visit node g
  | .AST_OP_MUL => ir_mul visit node g
  | .AST_OP_DIV => ir_div visit node g
  | .AST_OP_MOD => ir_mod visit node g
  | .AST_OP_NEG => ir_neg visit node g
  | .AST_OP_LT => ir_lt visit node g
  | .AST_OP_GT => ir_gt visit node g
  | .AST_OP_LE => ir_le visit node g
  | .AST_OP_GE => ir_ge visit node g
  | .AST_OP_EQ => ir_eq visit node g
  | .AST_OP_NE => ir_ne visit node g
  | .AST_OP_LOGIC_AND => ir_logic_and visit node g
  | .AST_OP_LOGIC_OR => ir_logic_or visit node g
  | .AST_OP_LOGIC_NOT => ir_logic_not visit node g
  | .AST_OP_IF => ir_if visit node g
  | .AST_OP_IF_ELSE => ir_if_else visit node g
  | .AST_OP_WHILE => ir_while visit node g
  | .AST_OP_BREAK => ir_break node g
  | .AST_OP_CONTINUE => ir_continue node g
  | .AST_OP_ARRAY_DEF => ir_array_def visit node g
  | .AST_OP_ARRAY_ACCESS => ir_array_access visit node g
  | .AST_OP_ASSIGN => ir_assign visit node g
  | .AST_OP_RETURN => ir_return visit node g
  | .AST_OP_FUNC_CALL => ir_function_call visit node g
  | .AST_OP_FUNC_DEF => ir_function_define visit node g
  | .AST_OP_FUNC_FORMAL_PARAMS => ir_function_formal_params node g
  | .AST_OP_FUNC_FORMAL_PARAM_ARRAY => ir_function_formal_param_array node g
  | .AST_OP_EMPTY_STMT => ir_empty_stmt node g
  | .AST_OP_DECL_STMT => ir_declare_statment visit node g
  | .AST_OP_VAR_DECL => ir_variable_declare visit node g
  | .AST_OP_BLOCK => ir_block visit node g
  | .AST_OP_COMPILE_UNIT => ir_compile_unit visit node g
  | _ => ir_default node g

/-- `IRGenerator::ir_visit_ast_node`: the handler of the node kind is run; the node
is returned when the handler succeeds. The first argument bounds the depth of the
descent: a handler at depth budget `n + 1` visits its children with budget `n`, and
with no budget left the visit fails. -/
def ir_visit_ast_node : Nat → Visitor
  | 0 => fun _ g => (none, g)
  | n + 1 => dispatch (ir_visit_ast_node n)

/-- `IRGenerator::run`. -/
def run (budget : Nat) (root : ast_node) (g : IRGenerator) : Bool × IRGenerator :=
  match ir_visit_ast_node budget root g with
  | (some _, g1) => (true, g1)
  | (none, g1) => (false, g1)

/-! ## Reading the emitted code

Notions used to state properties of instruction sequences: the value an instruction
denotes, straight-line evaluation over the integers, the row-major index formula, and
the control-flow edges of a sequence. -/

/-- An instruction used as a value: a binary or call instruction denotes its result,
the other instructions denote nothing. -/
def Instruction.asValue : Instruction → Option Value
  | .Binary id _ _ _ type => some (.InstructionResult id type)
  | .FuncCall id _ _ type => some (.InstructionResult id type)
  | _ => none

/-- The opcode that the handler of an arithmetic node kind puts into its instruction. -/
def arithmeticOpcode : ast_operator_type → Option IRInstOperator
  | .AST_OP_ADD => some .IRINST_OP_ADD_I
  | .AST_OP_SUB => some .IRINST_OP_SUB_I
  | .AST_OP_MUL => some .IRINST_OP_MUL_I
  | .AST_OP_DIV => some .IRINST_OP_DIV_I
  | .AST_OP_MOD => some .IRINST_OP_MOD_I
  | _ => none

/-- The allocation number of a value; constants are interned and have none. -/
def Value.allocId : Value → Option Nat
  | .ConstInt _ => none
  | .LocalVariable id _ _ => some id
  | .GlobalVariable id _ _ => some id
  | .FormalParam id _ _ => some id
  | .InstructionResult id _ => some id

/-- A value that exists once `bound` objects have been allocated. -/
def Value.allocatedBefore (bound : Nat) (v : Value) : Prop :=
  ∀ id, v.allocId = some id → id < bound

/-- The fresh temporary `newVarValue(type)` creates inside a function when `id` is the
next allocation number. -/
def temporary (id : Nat) (type : IRType) : Value :=
  .LocalVariable id type ""

/-- A machine state for straight-line evaluation: the integer held by every variable
and instruction result, and the memory. -/
structure Machine where
  env : Value → Int
  mem : Int → Int

/-- The integer an operand denotes. -/
def Machine.read (m : Machine) : Value → Int
  | .ConstInt v => v
  | v => m.env v

/-- Assignment to a variable or instruction result. -/
def Machine.write (m : Machine) (dst : Value) (x : Int) : Machine :=
  { m with env := fun v => if v = dst then x else m.env v }

/-- Integer meaning of the opcodes (unbounded integers, truncating division). -/
def evalOperator : IRInstOperator → Int → Int → Int
  | .IRINST_OP_ADD_I, a, b => a + b
  | .IRINST_OP_SUB_I, a, b => a - b
  | .IRINST_OP_MUL_I, a, b => a * b
  | .IRINST_OP_DIV_I, a, b => Int.tdiv a b
  | .IRINST_OP_MOD_I, a, b => Int.tmod a b
  | .IRINST_OP_NEG_I, a, _ => -a
  | .IRINST_OP_LT_I, a, b => if a < b then 1 else 0
  | .IRINST_OP_GT_I, a, b => if a > b then 1 else 0
  | .IRINST_OP_LE_I, a, b => if a ≤ b then 1 else 0
  | .IRINST_OP_GE_I, a, b => if a ≥ b then 1 else 0
  | .IRINST_OP_EQ_I, a, b => if a = b then 1 else 0
  | .IRINST_OP_NE_I, a, b => if a ≠ b then 1 else 0

/-- Execution of one instruction of a straight-line sequence: a binary instruction
computes its result, a move copies, loads through a pointer or stores through a
pointer; labels, jumps, calls and markers leave the state as it is. -/
def execInst (m : Machine) : Instruction → Machine
  | .Binary id op (some a) (some b) type =>
    m.write (.InstructionResult id type) (evalOperator op (m.read a) (m.read b))
  | .Binary id op (some a) none type =>
    m.write (.InstructionResult id type) (evalOperator op (m.read a) 0)
  | .Move (some dst) (some src) false false => m.write dst (m.read src)
  | .Move (some dst) (some src) false true => m.write dst (m.mem (m.read src))
  | .Move (some dst) (some src) true _ =>
    { m with mem := fun a => if a = m.read dst then m.read src else m.mem a }
  | _ => m

/-- Execution of a straight-line sequence. -/
def execInsts (m : Machine) (insts : List Instruction) : Machine :=
  insts.foldl execInst m

/-- Row-major stride of position `j`: the product of the dimensions after `j`. -/
def rowMajorStride (dimensions : List Int) (j : Nat) : Int :=
  (dimensions.drop (j + 1)).prod

/-- The sum of `index * stride` over the given indices, the first of which stands at
position `j`. -/
def rowMajorIndexFrom (dimensions : List Int) : Nat → List Int → Int
  | _, [] => 0
  | j, i :: rest => i * rowMajorStride dimensions j + rowMajorIndexFrom dimensions (j + 1) rest

/-- The linear index of the spec: the sum over `j` of `i_j * stride_j`. -/
def rowMajorIndex (dimensions : List Int) (indices : List Int) : Int :=
  rowMajorIndexFrom dimensions 0 indices

/-- The number of elements of an array with the given dimensions. -/
def elementCount (dimensions : List Int) : Int :=
  dimensions.prod

/-- Position of the label instruction with the given number in a sequence. -/
def labelPosition (insts : List Instruction) (label : Nat) : Option Nat :=
  if insts.indexOf (.Label label) < insts.length then some (insts.indexOf (.Label label))
  else none

/-- Control-flow successors of position `p` of a sequence: the target of an
unconditional jump, both targets of a conditional jump, and the next position after
any other instruction. -/
def successors (insts : List Instruction) (p : Nat) : List Nat :=
  match insts.get? p with
  | some (.Goto (some target)) => (labelPosition insts target).toList
  | some (.Goto none) => []
  | some (.CondGoto _ trueTarget falseTarget) =>
    (labelPosition insts trueTarget).toList ++ (labelPosition insts falseTarget).toList
  | some _ => if p + 1 < insts.length then [p + 1] else []
  | none => []

/-- A control-flow path of a sequence: every position is followed by one of its
successors. -/
def IsPath (insts : List Instruction) (path : List Nat) : Prop :=
  List.Chain' (fun p q => q ∈ successors insts p) path

/-- The boolean conversion of an operand as the lowering of `&&` and `||` performs it:
nothing for a value of boolean type, otherwise the comparison with zero and the move
of its result into a fresh boolean temporary. The result is the code, the boolean
value and the generator state afterwards. -/
def boolConversion (val : Value) (g : IRGenerator) : List Instruction × Value × IRGenerator :=
  if val.getType.isInt1Byte then ([], val, g)
  else
    ([.Binary (g.nextId + 1) .IRINST_OP_NE_I (some val) (some (.ConstInt 0)) .bool,
      .Move (some (temporary g.nextId .bool)) (some (.InstructionResult (g.nextId + 1) .bool))
        false false],
     temporary g.nextId .bool,
     { g with nextId := g.nextId + 2,
              currentFunc := g.currentFunc.map (fun f => { f with extraData := {} }) })

/-- The generator state in which `ir_while` lowers the condition: three labels have
been allocated (condition, body, end, in this order) and the break and continue labels
of the current function are the end label and the condition label of this loop. -/
def whileEntry (g : IRGenerator) : IRGenerator :=
  ({ g with nextId := g.nextId + 3 } : IRGenerator).setLoopLabels
    (some (g.nextId + 2)) (some g.nextId)

/-- The generator state after `k` labels have been allocated. -/
def afterLabels (g : IRGenerator) (k : Nat) : IRGenerator :=
  { g with nextId := g.nextId + k }

/-- Jump targets of an instruction. -/
def Instruction.targets : Instruction → List Nat
  | .Goto (some target) => [target]
  | .CondGoto _ trueTarget falseTarget => [trueTarget, falseTarget]
  | _ => []

/-! ## Example programs -/

/-- An integer literal. -/
def exLit (v : Int) : ast_node :=
  .mk .AST_OP_LEAF_LITERAL_UINT "" v .int32 true []

/-- A variable reference. -/
def exVar (name : String) : ast_node :=
  .mk .AST_OP_LEAF_VAR_ID name 0 .void true []

/-- An inner node of the given kind. -/
def exNode (kind : ast_operator_type) (sons : List ast_node) : ast_node :=
  .mk kind "" 0 .void true sons

/-- The prototype `int f()`. -/
def exFunction : Function :=
  { name := "f", returnType := .int32, params := [] }

/-- A generator inside the body of `f`, with one local variable `int x` in scope. -/
def exGenerator : IRGenerator :=
  { currentFunc := some exFunction,
    functions := [exFunction],
    scopes := [[("x", .LocalVariable 0 .int32 "x")], []],
    nextId := 1 }

/-- The call `p(zz)` of a two-parameter function with one argument, an undeclared
variable. -/
def exCallUndeclared : ast_node :=
  exNode .AST_OP_FUNC_CALL [exVar "p", exNode .AST_OP_FUNC_REAL_PARAMS [exVar "zz"]]

/-- The call `p(1)` of a two-parameter function with one argument. -/
def exCallOneArg : ast_node :=
  exNode .AST_OP_FUNC_CALL [exVar "p", exNode .AST_OP_FUNC_REAL_PARAMS [exLit 1]]

/-- A generator inside the body of `f` that knows the prototype `int p(int a, int b)`. -/
def exGeneratorWithCallee : IRGenerator :=
  { currentFunc := some exFunction,
    functions :=
      [exFunction,
       { name := "p", returnType := .int32,
         params := [.FormalParam 1 .int32 "a", .FormalParam 2 .int32 "b"] }],
    scopes := [[("x", .LocalVariable 0 .int32 "x")], []],
    nextId := 3 }

/-- The loop `while (zz) { }` whose condition is an undeclared variable. -/
def exWhileUndeclared : ast_node :=
  exNode .AST_OP_WHILE [exVar "zz", exNode .AST_OP_BLOCK []]

/-- The loop `while (x) { if (x) { while (zz) { } } break; }`: the inner loop, whose
condition is an undeclared variable, stands in the then-branch of an `if`, and the
`break` belongs to the outer loop. -/
def exBreakAfterFailedLoop : ast_node :=
  exNode .AST_OP_WHILE
    [exVar "x",
     exNode .AST_OP_BLOCK
       [exNode .AST_OP_IF [exVar "x", exNode .AST_OP_BLOCK [exWhileUndeclared]],
        exNode .AST_OP_BREAK []]]

/-- The assignment `name = v`. -/
def exAssign (name : String) (v : Int) : ast_node :=
  exNode .AST_OP_ASSIGN [exVar name, exLit v]

/-- A generator inside the body of `f` after the entry part of its definition: the
exit label 1 and the return-value slot 2 are set. -/
def exGeneratorWithExit : IRGenerator :=
  { currentFunc :=
      some { exFunction with exitLabel := some 1,
                             returnValue := some (.LocalVariable 2 .int32 "") },
    functions := [exFunction],
    scopes := [[("x", .LocalVariable 0 .int32 "x")], []],
    nextId := 3 }

/-- A type leaf. -/
def exType (t : IRType) : ast_node :=
  .mk .AST_OP_LEAF_TYPE "" 0 t true []

/-- The scalar formal parameter `int name`. -/
def exParam (name : String) : ast_node :=
  exNode .AST_OP_FUNC_FORMAL_PARAM [exType .int32, exVar name]

/-- A function definition as `create_func_def` builds it: return type, name, formal
parameters and body block. -/
def exFuncDef (ret : IRType) (name : String) (params body : List ast_node) : ast_node :=
  .mk .AST_OP_FUNC_DEF name 0 ret true
    [exType ret, exVar name, exNode .AST_OP_FUNC_FORMAL_PARAMS params,
     exNode .AST_OP_BLOCK body]

/-- A compile unit. -/
def exUnit (sons : List ast_node) : ast_node :=
  exNode .AST_OP_COMPILE_UNIT sons

/-- A call `name(args)`. -/
def exCall (name : String) (args : List ast_node) : ast_node :=
  exNode .AST_OP_FUNC_CALL [exVar name, exNode .AST_OP_FUNC_REAL_PARAMS args]

/-- The statement `if (x) break;`. -/
def exIfBreak : ast_node :=
  exNode .AST_OP_IF [exVar "x", exNode .AST_OP_BREAK []]

/-- The function `int f(int a, int b) { if (a < b) return a; else return b; }`. -/
def exMin : ast_node :=
  exFuncDef .int32 "f" [exParam "a", exParam "b"]
    [exNode .AST_OP_IF_ELSE
      [exNode .AST_OP_LT [exVar "a", exVar "b"],
       exNode .AST_OP_RETURN [exVar "a"],
       exNode .AST_OP_RETURN [exVar "b"]]]

/-- The instruction list of `exMin`: the formals are 0 and 1, the exit label 2, the
locals of `a` and `b` 3 and 4, the return-value slot 5, the labels of the `if` 6, 7
and 8, the comparison result 9 and the comparison 10. -/
def exMinCode : List Instruction :=
  [.Entry,
   .Move (some (.LocalVariable 3 .int32 "a")) (some (.FormalParam 0 .int32 "a")) false false,
   .Move (some (.LocalVariable 4 .int32 "b")) (some (.FormalParam 1 .int32 "b")) false false,
   .Binary 10 .IRINST_OP_LT_I (some (.LocalVariable 3 .int32 "a"))
     (some (.LocalVariable 4 .int32 "b")) .bool,
   .Move (some (.LocalVariable 9 .bool "")) (some (.InstructionResult 10 .bool)) false false,
   .CondGoto (.LocalVariable 9 .bool "") 6 7,
   .Label 6,
   .Move (some (.LocalVariable 5 .int32 "")) (some (.LocalVariable 3 .int32 "a")) false false,
   .Goto (some 2),
   .Goto (some 8),
   .Label 7,
   .Move (some (.LocalVariable 5 .int32 "")) (some (.LocalVariable 4 .int32 "b")) false false,
   .Goto (some 2),
   .Label 8,
   .Label 2,
   .Exit (some (.LocalVariable 5 .int32 ""))]

/-- Whether an instruction is a `Binary` with the given opcode. -/
def Instruction.isBinaryOf (op : IRInstOperator) : Instruction → Bool
  | .Binary _ o _ _ _ => decide (o = op)
  | _ => false

/-- Whether an instruction is a conditional jump. -/
def Instruction.isCondGoto : Instruction → Bool
  | .CondGoto _ _ _ => true
  | _ => false

/-- Whether an instruction is an `Exit`. -/
def Instruction.isExit : Instruction → Bool
  | .Exit _ => true
  | _ => false

/-- A function of the given name is in the function table. -/
def RegL (name : String) (fs : List Function) : Prop :=
  (fs.find? (fun f => f.name == name)).isSome = true

/-- A visitor that never removes the function of the given name from the function
table. -/
@[reducible] def KeepsRegistered (name : String) (visit : Visitor) : Prop :=
  ∀ node g, RegL name g.functions → RegL name (visit node g).2.functions

/-- The definition `int f() { return g(1); }`. -/
def exCaller : ast_node :=
  exFuncDef .int32 "f" [] [exNode .AST_OP_RETURN [exCall "g" [exLit 1]]]

/-- The definition `int g(int a) { return a; }`. -/
def exCallee : ast_node :=
  exFuncDef .int32 "g" [exParam "a"] [exNode .AST_OP_RETURN [exVar "a"]]

/-- The unit in which `f` calls `g` and the definition of `g` follows that of `f`. -/
def exForward : ast_node :=
  exUnit [exCaller, exCallee]


/-- Whether the formal parameter at position `i` of the formal-parameter list `sons`
is an array parameter. -/
def isArrayParamAt (sons : List ast_node) (i : Nat) : Bool :=
  match sons.get? i with
  | some son => decide (son.node_type = .AST_OP_FUNC_FORMAL_PARAM_ARRAY)
  | none => false

/-- The moves of the formal parameters, as the claim about function definitions
describes them: from position `i` on, every parameter that is not an array parameter is
copied into a fresh local variable of its type and name, in parameter order; `id` is
the allocation number of the next local. -/
def paramMoves (sons : List ast_node) : Nat → Nat → List Value → List Instruction
  | _, _, [] => []
  | i, id, param :: rest =>
    if isArrayParamAt sons i then paramMoves sons (i + 1) id rest
    else
      .Move (some (.LocalVariable id param.getType param.getName)) (some param) false false ::
        paramMoves sons (i + 1) (id + 1) rest

/-- The generator state in which `ir_function_define` processes the formal parameters
of the registered function `newFunc`: the function is current, its scope is open, the
entry instruction (and, for `main`, the initialisation of the globals) is in its
instruction list, and the exit label has been allocated and recorded. -/
def defineEntry (g : IRGenerator) (newFunc : Function) (name : String) : IRGenerator :=
  let g2 := ((g.setCurrentFunction (some newFunc)).enterScope).addInst [.Entry]
  let g3 :=
    if name = "main" ∧ ¬ g2.globalVarInitValues.isEmpty then
      g2.addInst (globalInitMoves g2 (g2.unorderedOrder g2.globalVarInitValues))
    else g2
  ({ g3 with nextId := g3.nextId + 1 } : IRGenerator).updateCurrent
    (fun f => { f with exitLabel := some g3.nextId })

/-- The return-value slot `ir_function_define` allocates in state `g`: none for a
`void` function, else a fresh unnamed variable of the return type. -/
def returnSlot (type : IRType) (g : IRGenerator) : Option Value :=
  if type.isVoidType then none else some (g.newVarValue type "").1

/-- The generator state in which `ir_function_define` lowers the body: the
return-value slot has been allocated and recorded. -/
def bodyEntry (type : IRType) (g : IRGenerator) : IRGenerator :=
  (if type.isVoidType then g else (g.newVarValue type "").2).updateCurrent
    (fun f => { f with returnValue := returnSlot type g })

/-- The initialisation of the globals that `ir_function_define` puts after the entry
instruction of `main`. -/
def globalInitCode (g : IRGenerator) (name : String) : List Instruction :=
  if name = "main" ∧ ¬ g.globalVarInitValues.isEmpty then
    globalInitMoves g (g.unorderedOrder g.globalVarInitValues)
  else []

/-- The unit `int f() { return 0; } int f() { return 1; }`. -/
def exTwice : ast_node :=
  exUnit [exFuncDef .int32 "f" [] [exNode .AST_OP_RETURN [exLit 0]],
          exFuncDef .int32 "f" [] [exNode .AST_OP_RETURN [exLit 1]]]

/-- The unit `int get_one() { return 1; } int main() { return get_one(); }`. -/
def exGetOneUnit : ast_node :=
  exUnit [exFuncDef .int32 "get_one" [] [exNode .AST_OP_RETURN [exLit 1]],
          exFuncDef .int32 "main" [] [exNode .AST_OP_RETURN [exCall "get_one" []]]]

/-- An array definition as `create_array_def` builds it: the name node, then the
dimension nodes, then the initializer if there is one. -/
def exArrayDef (name : String) (sons : List ast_node) : ast_node :=
  .mk .AST_OP_ARRAY_DEF name 0 .void true (exVar name :: sons)

/-- An element access `name[idx...]`. -/
def exAccess (name : String) (idx : List ast_node) : ast_node :=
  .mk .AST_OP_ARRAY_ACCESS name 0 .void true (exVar name :: idx)

/-- A generator inside the body of `f` with the locals `int x` and `int a[2][3]`. -/
def exGeneratorWithArray : IRGenerator :=
  { currentFunc := some exFunction,
    functions := [exFunction],
    scopes := [[("a", .LocalVariable 1 (.array .int32 [2, 3]) "a"),
                ("x", .LocalVariable 0 .int32 "x")], []],
    nextId := 2 }

/-- The prototype `int f(int p[])` as a definition outside a compile unit registers
it: no dimension entry is recorded. -/
def exPointerFunction : Function :=
  { name := "f", returnType := .int32, params := [.FormalParam 0 (.pointer .int32) "p"] }

/-- A generator inside the body of `int f(int p[])` with a local `int x`; the dimension
table is empty. -/
def exGeneratorWithPointer : IRGenerator :=
  { currentFunc := some exPointerFunction,
    functions := [exPointerFunction],
    scopes := [[("x", .LocalVariable 1 .int32 "x"),
                ("p", .FormalParam 0 (.pointer .int32) "p")], []],
    nextId := 2 }

/-- White space as `std::isspace` sees it in the C locale: the blank and the five
control characters from tab to carriage return. -/
def isSpaceCode (c : Char) : Bool :=
  c.toNat = 32 || (9 ≤ c.toNat && c.toNat ≤ 13)

/-- The values of the decimal digits at the start of a text, up to the first character
that is not a decimal digit. -/
def leadingDigits : List Char → List Nat
  | [] => []
  | c :: rest =>
    if 48 ≤ c.toNat ∧ c.toNat ≤ 57 then (c.toNat - 48) :: leadingDigits rest else []

/-- Modelled from the C++ library: `std::stoul(str)` with its default base 10 and a
64-bit `unsigned long`. Leading white space is skipped, an optional sign is read, then
the longest run of decimal digits; what follows is ignored, so `0x10` reads as 0 and
`010` as 10. There is no result when the text has no digit there (`std::invalid_argument`)
or the digits denote a number from `2 ^ 64` on (`std::out_of_range`); a minus sign
negates modulo `2 ^ 64`. -/
def stoul (str : String) : Option Nat :=
  let s := str.toList.dropWhile isSpaceCode
  let signed : Bool × List Char :=
    match s with
    | c :: rest =>
      if c.toNat = 45 then (true, rest) else if c.toNat = 43 then (false, rest) else (false, s)
    | [] => (false, [])
  let ds := leadingDigits signed.2
  if ds.isEmpty then none
  else
    let v := ds.foldl (fun acc d => 10 * acc + d) 0
    if v ≥ 2 ^ 64 then none
    else some (if signed.1 then (2 ^ 64 - v) % 2 ^ 64 else v)

/-- The loop of `visitParam` over the texts of the digit tokens: each is converted by
`std::stoul` and stored in a `uint32_t`; the first conversion that throws ends the
visit without a node. -/
def visitParamDims : List String → Option (List ast_node)
  | [] => some []
  | dimStr :: rest =>
    match stoul dimStr with
    | none => none
    | some dimValue =>
      match visitParamDims rest with
      | none => none
      | some dimNodes => some (exLit ((dimValue % 2 ^ 32 : Nat) : Int) :: dimNodes)

/-- `MiniCCSTVisitor::visitParam`, on what it reads from the parse tree: the name, the
number of `[` tokens and the texts of the digit tokens, in order. An array parameter
gets the children type, name and a literal 0 for the first bracket, followed by one
literal 0 for every further bracket when there is no digit token, and by one literal
for every digit token otherwise. There is no node when a conversion throws. -/
def visitParam (paramName : String) (arrayDimCount : Nat) (digits : List String) :
    Option ast_node :=
  if arrayDimCount > 0 then
    if digits.isEmpty then
      some (exNode .AST_OP_FUNC_FORMAL_PARAM_ARRAY
        ([exType .int32, exVar paramName, exLit 0] ++
          List.replicate (arrayDimCount - 1) (exLit 0)))
    else
      match visitParamDims digits with
      | none => none
      | some dimNodes =>
        some (exNode .AST_OP_FUNC_FORMAL_PARAM_ARRAY
          ([exType .int32, exVar paramName, exLit 0] ++ dimNodes))
  else
    some (exNode .AST_OP_FUNC_FORMAL_PARAM [exType .int32, exVar paramName])

/-- A generator inside the body of `f` with the locals `int x` and `int a[4][2][3]`
that knows the prototype `int g(int p[][3])` and its dimension entry. -/
def exGeneratorCallArray : IRGenerator :=
  { currentFunc := some exFunction,
    functions :=
      [exFunction,
       { name := "g", returnType := .int32,
         params := [.FormalParam 2 (.pointer .int32) "p"] }],
    scopes := [[("a", .LocalVariable 1 (.array .int32 [4, 2, 3]) "a"),
                ("x", .LocalVariable 0 .int32 "x")], []],
    nextId := 3,
    functionParameterDimensions := [(("g", 0), [0, 3])] }

/-- A generator inside the body of `int f(int p[][3])` with a local `int x`, after the
prototype has been registered with its dimension entry. -/
def exGeneratorWithArrayParam : IRGenerator :=
  { exGeneratorWithPointer with functionParameterDimensions := [(("f", 0), [0, 3])] }

/-- The unit `int f(int a[5][3]) { return a[1][2]; }`. -/
def exLiteralExtentsUnit : ast_node :=
  exUnit [exFuncDef .int32 "f" [(visitParam "a" 2 ["5", "3"]).get rfl]
    [exNode .AST_OP_RETURN [exAccess "a" [exLit 1, exLit 2]]]]

/-- The unit `int f(int a[][0x10]) { return a[1][2]; }`. -/
def exHexExtentUnit : ast_node :=
  exUnit [exFuncDef .int32 "f" [(visitParam "a" 2 ["0x10"]).get rfl]
    [exNode .AST_OP_RETURN [exAccess "a" [exLit 1, exLit 2]]]]

/-- The label an instruction places, if it is a label instruction. -/
def Instruction.placedLabel : Instruction → Option Nat
  | .Label id => some id
  | _ => none

/-- Code produced while the allocation counter went from `lo` to `hi`: every label it
places was allocated at `lo` or later, and every label it jumps to was allocated
before `hi`. -/
def CodeOK (lo hi : Nat) (insts : List Instruction) : Prop :=
  ∀ inst ∈ insts,
    (∀ l, inst.placedLabel = some l → lo ≤ l) ∧ (∀ t ∈ inst.targets, t < hi)

/-- An optional value that, when present, was allocated before `bound`. -/
def ValOK (bound : Nat) (v : Option Value) : Prop :=
  ∀ x, v = some x → x.allocatedBefore bound

/-- An instruction that neither places a label nor jumps. -/
def Instruction.plain (inst : Instruction) : Prop :=
  inst.placedLabel = none ∧ inst.targets = []

/-- A function record whose parameters and labels were allocated before `bound` and
whose pending conversion instructions are plain. -/
def FunctionWF (bound : Nat) (f : Function) : Prop :=
  (∀ p ∈ f.params, p.allocatedBefore bound) ∧
  (∀ l, f.breakLabel = some l → l < bound) ∧
  (∀ l, f.continueLabel = some l → l < bound) ∧
  (∀ l, f.exitLabel = some l → l < bound) ∧
  (∀ inst, f.extraData.boolCheckInst = some inst → inst.plain) ∧
  (∀ inst, f.extraData.moveInst = some inst → inst.plain)

/-- A scope stack whose values were all allocated before `bound`. -/
def ScopesWF (bound : Nat) (scopes : List (List (String × Value))) : Prop :=
  ∀ sc ∈ scopes, ∀ entry ∈ sc, entry.2.allocatedBefore bound

/-- A generator state in which everything recorded was allocated before the next
allocation number: the values in scope and the parameters and labels of the current
function and of the registered functions. -/
def StateWF (g : IRGenerator) : Prop :=
  ScopesWF g.nextId g.scopes ∧
  (∀ f, g.currentFunc = some f → FunctionWF g.nextId f) ∧
  (∀ f ∈ g.functions, FunctionWF g.nextId f)

/-- What a visit guarantees when it starts in a well-formed state `g`: the state
afterwards is well formed, the allocation counter did not decrease, and on success the
code places only labels allocated during the visit, jumps only to labels allocated
before its end, and the value of the node was allocated before its end. -/
def Post (g : IRGenerator) (out : Lowered) : Prop :=
  StateWF out.2 ∧ g.nextId ≤ out.2.nextId ∧
  ∀ res, out.1 = some res →
    CodeOK g.nextId out.2.nextId res.blockInsts ∧ ValOK out.2.nextId res.val

/-- A visitor that keeps the guarantees of `Post` from every well-formed state. -/
def VisitorOK (visit : Visitor) : Prop :=
  ∀ node g, StateWF g → Post g (visit node g)

/-- The expression `x && p(x, x)`. -/
def exAndCall : ast_node :=
  exNode .AST_OP_LOGIC_AND [exVar "x", exCall "p" [exVar "x", exVar "x"]]

/-- The opcode that the handler of a relational node kind puts into its instruction. -/
def relationalOpcode : ast_operator_type → Option IRInstOperator
  | .AST_OP_LT => some .IRINST_OP_LT_I
  | .AST_OP_GT => some .IRINST_OP_GT_I
  | .AST_OP_LE => some .IRINST_OP_LE_I
  | .AST_OP_GE => some .IRINST_OP_GE_I
  | .AST_OP_EQ => some .IRINST_OP_EQ_I
  | .AST_OP_NE => some .IRINST_OP_NE_I
  | _ => none

/-- Whether an instruction is a jump. -/
def Instruction.isJump : Instruction → Bool
  | .Goto _ => true
  | .CondGoto _ _ _ => true
  | _ => false

/-- The comparison `x < 1`. -/
def exLess : ast_node :=
  exNode .AST_OP_LT [exVar "x", exLit 1]

/-- The negation `!x`. -/
def exNot : ast_node :=
  exNode .AST_OP_LOGIC_NOT [exVar "x"]

/-- The type `T` wrapped in `n` nested `PointerType` constructions. -/
def wrapPointer : Nat → IRType → IRType
  | 0, t => t
  | n + 1, t => .pointer (wrapPointer n t)

/-- The expression `x || 7`. -/
def exOrSeven : ast_node :=
  exNode .AST_OP_LOGIC_OR [exVar "x", exLit 7]

/-- The unit `int g(int p[]) { return p[0]; } int f(int a[][3]) { return g(a[1]); }`. -/
def exRowCallUnit : ast_node :=
  exUnit [exFuncDef .int32 "g" [(visitParam "p" 1 []).get rfl]
            [exNode .AST_OP_RETURN [exAccess "p" [exLit 0]]],
          exFuncDef .int32 "f" [(visitParam "a" 2 ["3"]).get rfl]
            [exNode .AST_OP_RETURN [exCall "g" [exAccess "a" [exLit 1]]]]]

/-- The unit `int g(int p[]) { return p[0]; } int f(int a[][3]) { return a[1]; }`. -/
def exRowAccessUnit : ast_node :=
  exUnit [exFuncDef .int32 "g" [(visitParam "p" 1 []).get rfl]
            [exNode .AST_OP_RETURN [exAccess "p" [exLit 0]]],
          exFuncDef .int32 "f" [(visitParam "a" 2 ["3"]).get rfl]
            [exNode .AST_OP_RETURN [exAccess "a" [exLit 1]]]]

/-- The code of the function `name` after lowering `unit` from the empty generator,
without the entry instruction, up to `count` instructions. -/
def exCodeOf (unit : ast_node) (name : String) (count : Nat) : List Instruction :=
  (((ir_visit_ast_node 9 unit {}).2.findFunction name).map
    (fun f => (f.interCode.drop 1).take count)).getD []

/-! ## The ARM32 instruction selector -/

/-- Operand text of a target instruction: a register name or an immediate such as
`#0`. -/
inductive ArmOperand where
  | reg (no : Int)
  | imm (v : Int)
  deriving DecidableEq, Repr

/-- Modelled from the spec: `PlatformArm32::regName[no]`, the name of register `no`
(PlatformArm32.h is not among the sources). -/
def regName (no : Int) : ArmOperand :=
  .reg no

/-- Modelled from the spec: what the selector hands to `ILocArm32` (ILocArm32.h is not
among the sources). `inst` is one target instruction, a mnemonic with its operand
texts; `load_var` is the load of a value from its storage location into a register
and `store_var` the store of a register to the storage location of a value. -/
inductive ArmInst where
  | inst (op : String) (rs arg1 : ArmOperand) (arg2 : Option ArmOperand)
  | load_var (rs_reg_no : Int) (src_var : Value)
  | store_var (src_reg_no : Int) (dest_var : Value) (tmp_reg_no : Int)
  deriving DecidableEq, Repr

/-- Modelled from the spec: the collaborators of the selector that are not among the
sources. `getRegId` is the register bound to a value, -1 when there is none;
`Allocate` and `free` are the demand register allocator over its own state. -/
structure SelectorEnv (σ : Type) where
  getRegId : Value → Int
  Allocate : Value → σ → Int × σ
  free : Value → σ → σ
  ARM32_TMP_REG_NO : Int

/-- The state of `InstSelectorArm32` that the handlers change: the allocator and the
target code emitted so far. -/
structure InstSelectorArm32 (σ : Type) where
  simpleRegisterAllocator : σ
  iloc : List ArmInst

/-- The operands of a binary instruction (`Instruction::getOperand`). -/
def Instruction.getOperand : Instruction → Nat → Option Value
  | .Binary _ _ src1 _ _, 0 => src1
  | .Binary _ _ _ src2 _, 1 => src2
  | _, _ => none

/-- Embedding of `InstSelectorArm32::translate_mod_int32`. The result value is the
instruction itself. An instruction without two operands is a null dereference in the
source; the embedding fails there. -/
def translate_mod_int32 {σ : Type} (env : SelectorEnv σ) (inst : Instruction)
    (s : InstSelectorArm32 σ) : Option (InstSelectorArm32 σ) :=
  match inst.asValue, inst.getOperand 0, inst.getOperand 1 with
  | some result, some arg1, some arg2 =>
    let arg1_reg_no := env.getRegId arg1
    let arg2_reg_no := env.getRegId arg2
    let result_reg_no := env.getRegId result
    let (load_arg1_reg_no, s1) :=
      if arg1_reg_no = -1 then
        let (no, a) := env.Allocate arg1 s.simpleRegisterAllocator
        (no, ({ simpleRegisterAllocator := a,
                iloc := s.iloc ++ [.load_var no arg1] } : InstSelectorArm32 σ))
      else (arg1_reg_no, s)
    let (load_arg2_reg_no, s2) :=
      if arg2_reg_no = -1 then
        let (no, a) := env.Allocate arg2 s1.simpleRegisterAllocator
        (no, ({ simpleRegisterAllocator := a,
                iloc := s1.iloc ++ [.load_var no arg2] } : InstSelectorArm32 σ))
      else (arg2_reg_no, s1)
    let (load_result_reg_no, s3) :=
      if result_reg_no = -1 then
        let (no, a) := env.Allocate result s2.simpleRegisterAllocator
        (no, ({ s2 with simpleRegisterAllocator := a } : InstSelectorArm32 σ))
      else (result_reg_no, s2)
    let s4 : InstSelectorArm32 σ :=
      { s3 with iloc := s3.iloc ++
          [.inst "sdiv" (regName load_result_reg_no) (regName load_arg1_reg_no)
             (some (regName load_arg2_reg_no)),
           .inst "mul" (regName load_result_reg_no) (regName load_result_reg_no)
             (some (regName load_arg2_reg_no)),
           .inst "sub" (regName load_result_reg_no) (regName load_arg1_reg_no)
             (some (regName load_result_reg_no))] }
    let s5 : InstSelectorArm32 σ :=
      if result_reg_no = -1 then
        { s4 with iloc := s4.iloc ++
            [.store_var load_result_reg_no result env.ARM32_TMP_REG_NO] }
      else s4
    let a1 := env.free arg1 s5.simpleRegisterAllocator
    let a2 := env.free arg2 a1
    some { s5 with simpleRegisterAllocator := env.free result a2 }
  | _, _, _ => none

/-- Embedding of `InstSelectorArm32::translate_cmp_int32`; `cmp` takes two operands,
the two `mov` forms a register and an immediate. -/
def translate_cmp_int32 {σ : Type} (env : SelectorEnv σ) (inst : Instruction)
    (condition : String) (s : InstSelectorArm32 σ) : Option (InstSelectorArm32 σ) :=
  match inst.asValue, inst.getOperand 0, inst.getOperand 1 with
  | some result, some arg1, some arg2 =>
    let arg1_reg_no := env.getRegId arg1
    let arg2_reg_no := env.getRegId arg2
    let result_reg_no := env.getRegId result
    let (load_arg1_reg_no, s1) :=
      if arg1_reg_no = -1 then
        let (no, a) := env.Allocate arg1 s.simpleRegisterAllocator
        (no, ({ simpleRegisterAllocator := a,
                iloc := s.iloc ++ [.load_var no arg1] } : InstSelectorArm32 σ))
      else (arg1_reg_no, s)
    let (load_arg2_reg_no, s2) :=
      if arg2_reg_no = -1 then
        let (no, a) := env.Allocate arg2 s1.simpleRegisterAllocator
        (no, ({ simpleRegisterAllocator := a,
                iloc := s1.iloc ++ [.load_var no arg2] } : InstSelectorArm32 σ))
      else (arg2_reg_no, s1)
    let (load_result_reg_no, s3) :=
      if result_reg_no = -1 then
        let (no, a) := env.Allocate result s2.simpleRegisterAllocator
        (no, ({ s2 with simpleRegisterAllocator := a } : InstSelectorArm32 σ))
      else (result_reg_no, s2)
    let s4 : InstSelectorArm32 σ :=
      { s3 with iloc := s3.iloc ++
          [.inst "cmp" (regName load_arg1_reg_no) (regName load_arg2_reg_no) none,
           .inst "mov" (regName load_result_reg_no) (.imm 0) none,
           .inst ("mov" ++ condition) (regName load_result_reg_no) (.imm 1) none] }
    let s5 : InstSelectorArm32 σ :=
      if result_reg_no = -1 then
        { s4 with iloc := s4.iloc ++
            [.store_var load_result_reg_no result env.ARM32_TMP_REG_NO] }
      else s4
    let a1 := env.free arg1 s5.simpleRegisterAllocator
    let a2 := env.free arg2 a1
    some { s5 with simpleRegisterAllocator := env.free result a2 }
  | _, _, _ => none

/-- Embedding of `InstSelectorArm32::translate_lt_int32`. -/
def translate_lt_int32 {σ : Type} (env : SelectorEnv σ) (inst : Instruction) :
    InstSelectorArm32 σ → Option (InstSelectorArm32 σ) :=
  translate_cmp_int32 env inst "lt"

/-- Embedding of `InstSelectorArm32::translate_gt_int32`. -/
def translate_gt_int32 {σ : Type} (env : SelectorEnv σ) (inst : Instruction) :
    InstSelectorArm32 σ → Option (InstSelectorArm32 σ) :=
  translate_cmp_int32 env inst "gt"

/-- Embedding of `InstSelectorArm32::translate_le_int32`. -/
def translate_le_int32 {σ : Type} (env : SelectorEnv σ) (inst : Instruction) :
    InstSelectorArm32 σ → Option (InstSelectorArm32 σ) :=
  translate_cmp_int32 env inst "le"

/-- Embedding of `InstSelectorArm32::translate_ge_int32`. -/
def translate_ge_int32 {σ : Type} (env : SelectorEnv σ) (inst : Instruction) :
    InstSelectorArm32 σ → Option (InstSelectorArm32 σ) :=
  translate_cmp_int32 env inst "ge"

/-- Embedding of `InstSelectorArm32::translate_eq_int32`. -/
def translate_eq_int32 {σ : Type} (env : SelectorEnv σ) (inst : Instruction) :
    InstSelectorArm32 σ → Option (InstSelectorArm32 σ) :=
  translate_cmp_int32 env inst "eq"

/-- Embedding of `InstSelectorArm32::translate_ne_int32`. -/
def translate_ne_int32 {σ : Type} (env : SelectorEnv σ) (inst : Instruction) :
    InstSelectorArm32 σ → Option (InstSelectorArm32 σ) :=
  translate_cmp_int32 env inst "ne"

/-- Modelled from the spec: the entries of the table `translator_handlers` for the
remainder and the relational opcodes, each opcode bound to the handler that carries
its name (the constructor that fills the table is not among the sources). -/
def translator_handlers {σ : Type} (env : SelectorEnv σ) :
    IRInstOperator → Option (Instruction → InstSelectorArm32 σ → Option (InstSelectorArm32 σ))
  | .IRINST_OP_MOD_I => some (translate_mod_int32 env)
  | .IRINST_OP_LT_I => some (translate_lt_int32 env)
  | .IRINST_OP_GT_I => some (translate_gt_int32 env)
  | .IRINST_OP_LE_I => some (translate_le_int32 env)
  | .IRINST_OP_GE_I => some (translate_ge_int32 env)
  | .IRINST_OP_EQ_I => some (translate_eq_int32 env)
  | .IRINST_OP_NE_I => some (translate_ne_int32 env)
  | _ => none

/-- The opcode of a binary instruction (`Instruction::getOp`). -/
def Instruction.getOp : Instruction → Option IRInstOperator
  | .Binary _ op _ _ _ => some op
  | _ => none

/-- Modelled from the spec: `InstSelectorArm32::translate`, the dispatch by opcode
through the table; an opcode without an entry is an internal error. -/
def translate {σ : Type} (env : SelectorEnv σ) (inst : Instruction)
    (s : InstSelectorArm32 σ) : Option (InstSelectorArm32 σ) :=
  match inst.getOp with
  | some op =>
    match translator_handlers env op with
    | some handler => handler inst s
    | none => none
  | none => none

/-- The name of a relational opcode. -/
def relationalName : IRInstOperator → Option String
  | .IRINST_OP_LT_I => some "lt"
  | .IRINST_OP_GT_I => some "gt"
  | .IRINST_OP_LE_I => some "le"
  | .IRINST_OP_GE_I => some "ge"
  | .IRINST_OP_EQ_I => some "eq"
  | .IRINST_OP_NE_I => some "ne"
  | _ => none

/-! ### The target machine -/

/-- The part of the ARM32 machine state the synthesized sequences touch: the registers
(32-bit two's complement, kept as signed integers) and the condition flags. -/
structure ArmState where
  regs : Int → Int
  flagN : Bool := false
  flagZ : Bool := false
  flagC : Bool := false
  flagV : Bool := false

/-- The value of an operand. -/
def ArmState.operand (m : ArmState) : ArmOperand → Int
  | .reg no => m.regs no
  | .imm v => toInt32 v

/-- Assignment to a register. -/
def ArmState.setReg (m : ArmState) (rd : ArmOperand) (x : Int) : Option ArmState :=
  match rd with
  | .reg no => some { m with regs := fun r => if r = no then x else m.regs r }
  | .imm _ => none

/-- The ARM condition codes of the signed comparisons and of equality. -/
def ArmState.condition (m : ArmState) : String → Option Bool
  | "eq" => some m.flagZ
  | "ne" => some (!m.flagZ)
  | "lt" => some (m.flagN != m.flagV)
  | "ge" => some (m.flagN == m.flagV)
  | "gt" => some (!m.flagZ && m.flagN == m.flagV)
  | "le" => some (m.flagZ || m.flagN != m.flagV)
  | _ => none

/-- One step of the target machine for the instructions the remainder and comparison
sequences use: `sdiv` (truncating, 32-bit result), `mul` (low 32 bits), `sub`, `cmp`
(flags of the 32-bit subtraction), `mov` and the predicated `mov<cond>`. Everything else
is left undefined, and so is the division by zero. -/
def execArmInst (m : ArmState) : ArmInst → Option ArmState
  | .inst "sdiv" rd rn (some rm) =>
    if m.operand rm = 0 then none
    else m.setReg rd (toInt32 (Int.tdiv (m.operand rn) (m.operand rm)))
  | .inst "mul" rd rn (some rm) => m.setReg rd (toInt32 (m.operand rn * m.operand rm))
  | .inst "sub" rd rn (some rm) => m.setReg rd (toInt32 (m.operand rn - m.operand rm))
  | .inst "cmp" rn rm none =>
    let a := m.operand rn
    let b := m.operand rm
    some { m with
      flagN := decide (toInt32 (a - b) < 0),
      flagZ := decide (toInt32 (a - b) = 0),
      flagC := decide (b % 4294967296 ≤ a % 4294967296),
      flagV := decide (toInt32 (a - b) ≠ a - b) }
  | .inst "mov" rd src none => m.setReg rd (m.operand src)
  | .inst op rd src none =>
    if op.take 3 = "mov" then
      match m.condition (op.drop 3) with
      | some true => m.setReg rd (m.operand src)
      | some false => some m
      | none => none
    else none
  | _ => none

/-- Execution of a sequence of target instructions. -/
def execArm (m : ArmState) : List ArmInst → Option ArmState
  | [] => some m
  | i :: rest => (execArmInst m i).bind (fun m1 => execArm m1 rest)

/-- An allocator that hands out the registers 4, 5, 6, ... in turn. -/
def exSelectorEnv : SelectorEnv Nat :=
  { getRegId := fun _ => -1,
    Allocate := fun _ used => (4 + used, used + 1),
    free := fun _ used => used - 1,
    ARM32_TMP_REG_NO := 10 }

/-- The instruction `%3 = mod x, y`. -/
def exModInst : Instruction :=
  .Binary 3 .IRINST_OP_MOD_I (some (.LocalVariable 0 .int32 "x"))
    (some (.LocalVariable 1 .int32 "y")) .int32

/-- The instruction `%3 = le x, y`. -/
def exLeInst : Instruction :=
  .Binary 3 .IRINST_OP_LE_I (some (.LocalVariable 0 .int32 "x"))
    (some (.LocalVariable 1 .int32 "y")) .bool

/-- The example machine state: register 4 holds -7 and register 5 holds 2. -/
def exArmState : ArmState :=
  { regs := fun r => if r = 4 then -7 else if r = 5 then 2 else 0 }

/-- Whether an opcode is one of the six comparisons. -/
def IRInstOperator.isComparison : IRInstOperator → Bool
  | .IRINST_OP_LT_I => true
  | .IRINST_OP_GT_I => true
  | .IRINST_OP_LE_I => true
  | .IRINST_OP_GE_I => true
  | .IRINST_OP_EQ_I => true
  | .IRINST_OP_NE_I => true
  | _ => false

/-- An instruction that, if it is a comparison, has result type Bool. -/
def Instruction.cmpTyped : Instruction → Prop
  | .Binary _ op _ _ type => op.isComparison = true → type = .bool
  | _ => True

/-- Code in which every comparison has result type Bool. -/
def CodeTyped (insts : List Instruction) : Prop :=
  ∀ inst ∈ insts, inst.cmpTyped

/-- A slot for a pending instruction that, if filled, holds a well-typed one. -/
def SlotTyped (slot : Option Instruction) : Prop :=
  ∀ inst, slot = some inst → inst.cmpTyped

/-- A function record whose instruction list and pending conversion instructions are
well typed. -/
def FunctionTyped (f : Function) : Prop :=
  CodeTyped f.interCode ∧ SlotTyped f.extraData.boolCheckInst ∧
    SlotTyped f.extraData.moveInst

/-- The current function and the function table hold well-typed code only. -/
def StateTyped (cur : Option Function) (fs : List Function) : Prop :=
  (∀ f, cur = some f → FunctionTyped f) ∧ ∀ f ∈ fs, FunctionTyped f

/-- The outcome of a step that may fail: the state afterwards holds well-typed code
only, and so does the code `code r` of a successful result `r`. -/
def TypedBy {α : Type} (code : α → List Instruction) (x : Option α × IRGenerator) : Prop :=
  StateTyped x.2.currentFunc x.2.functions ∧ ∀ r, x.1 = some r → CodeTyped (code r)

/-- The outcome of a step that cannot fail. -/
def TypedNow {α : Type} (code : α → List Instruction) (x : α × IRGenerator) : Prop :=
  StateTyped x.2.currentFunc x.2.functions ∧ CodeTyped (code x.1)

/-- The outcome of an offset loop: code, running total and state. -/
def TypedTriple (x : List Instruction × Value × IRGenerator) : Prop :=
  StateTyped x.2.2.currentFunc x.2.2.functions ∧ CodeTyped x.1

/-- A visitor that, from a state with well-typed code only, yields well-typed code
only. -/
def VisitorTyped (visit : Visitor) : Prop :=
  ∀ node g, StateTyped g.currentFunc g.functions →
    TypedBy (fun r : NodeResult => r.blockInsts) (visit node g)

/-- The opcode and result type of a comparison instruction. -/
def comparisonType : Instruction → Option (IRInstOperator × IRType)
  | .Binary _ op _ _ type => if op.isComparison then some (op, type) else none
  | _ => none

/-- The unit `int f(int x) { return !x && x < 1; }`. -/
def exNotAndLessUnit : ast_node :=
  exUnit [exFuncDef .int32 "f" [exParam "x"]
    [exNode .AST_OP_RETURN
      [exNode .AST_OP_LOGIC_AND
        [exNode .AST_OP_LOGIC_NOT [exVar "x"], exNode .AST_OP_LT [exVar "x", exLit 1]]]]]

/-! ## Function bodies, the frame of the current function and address steps -/

/-- The unit `int f(int a) { { int a[2][3]; return a[1][2]; } }`: the array of the
inner block has the name of the parameter of `f`. -/
def exShadowUnit : ast_node :=
  exUnit [exFuncDef .int32 "f" [exParam "a"]
    [exNode .AST_OP_BLOCK
      [exNode .AST_OP_DECL_STMT
         [exNode .AST_OP_VAR_DECL [exType .int32, exArrayDef "a" [exLit 2, exLit 3]]],
       exNode .AST_OP_RETURN [exAccess "a" [exLit 1, exLit 2]]]]]

/-- The prototype `int main()`. -/
def exMainProto : Function :=
  { name := "main", returnType := .int32, params := [] }

/-- A generator at file scope after `int a = 1; int b = 2; int d = 3;` in which `main`
is registered and the iteration over the map of initial values yields `b`, `d`, `a`. -/
def exGeneratorGlobals : IRGenerator :=
  { functions := [exMainProto],
    scopes := [[("d", .GlobalVariable 2 .int32 "d"), ("b", .GlobalVariable 1 .int32 "b"),
                ("a", .GlobalVariable 0 .int32 "a")]],
    nextId := 3,
    globalVarInitValues := [("a", 1), ("b", 2), ("d", 3)],
    unorderedOrder := fun entries => entries.drop 1 ++ entries.take 1 }

/-- The definition `int main() { return a; }`. -/
def exMain : ast_node :=
  exFuncDef .int32 "main" [] [exNode .AST_OP_RETURN [exVar "a"]]

mutual
/-- Whether no node of the tree is a compile unit or a list of formal parameters, the
kinds that the parser places at the root and directly under a function definition. -/
def ast_node.bodyKinds : ast_node → Bool
  | .mk t _ _ _ _ l =>
    decide (t ≠ .AST_OP_COMPILE_UNIT) && decide (t ≠ .AST_OP_FUNC_FORMAL_PARAMS) &&
      bodyKindsList l
/-- Whether `bodyKinds` holds of every node of a list. -/
def bodyKindsList : List ast_node → Bool
  | [] => true
  | x :: xs => x.bodyKinds && bodyKindsList xs
end

/-- The name and the instruction list of a function record. -/
def Function.frame (f : Function) : String × List Instruction :=
  (f.name, f.interCode)

/-- The current function has the name and the instruction list `k`. -/
def Framed (k : String × List Instruction) (cur : Option Function) : Prop :=
  cur.map Function.frame = some k

/-- A visitor that, on trees without compile unit and formal-parameter list, leaves
the name and the instruction list of the current function as they are. -/
@[reducible] def KeepsFrame (k : String × List Instruction) (visit : Visitor) : Prop :=
  ∀ node g, node.bodyKinds = true → Framed k g.currentFunc →
    Framed k (visit node g).2.currentFunc

/-- One step of the address arithmetic for an index value `v` with the stride `stride`,
when `id` is the next allocation number: the value times the stride is added to the
running total `total`, and with stride one the multiplication is left out. The result
is the code of the step and the new running total. -/
def strideStep (stride : Int) (total v : Value) (id : Nat) : List Instruction × Value :=
  if stride = 1 then
    ([.Binary id .IRINST_OP_ADD_I (some total) (some v) .int32], .InstructionResult id .int32)
  else
    ([.Binary id .IRINST_OP_MUL_I (some v) (some (newConstInt stride)) .int32,
      .Binary (id + 1) .IRINST_OP_ADD_I (some total) (some (.InstructionResult id .int32))
        .int32],
     .InstructionResult (id + 1) .int32)

/-- The end of the address arithmetic of an element passed as an argument, when `id` is
the next allocation number: the running total is multiplied by the element size 4 and
added to the base. -/
def elementAddressTail (arrayVar total : Value) (id : Nat) : List Instruction :=
  [.Binary id .IRINST_OP_MUL_I (some total) (some (newConstInt 4)) .int32,
   .Binary (id + 1) .IRINST_OP_ADD_I (some arrayVar) (some (.InstructionResult id .int32))
     (.pointer .int32)]

/-- The code for the index children of an element access passed as an argument, as the
amended claim C22 describes it for an array with the dimensions `dims`: the index
children are lowered in order; after the code of the child at dimension position `j`
comes a step that adds its value times the stride `strideFrom dims j`, the product of
the dimensions after position `j - 1`, to the running total, which starts as `total`;
each step leaves in the new running total the old one plus value times stride. The
relation holds of the code `insts`, the last running total and the generator state
afterwards. -/
inductive StridedIndices (visit : Visitor) (dims : List Int) :
    Nat → List ast_node → Value → IRGenerator → List Instruction → Value → IRGenerator → Prop
  | done (j : Nat) (total : Value) (g : IRGenerator) :
      StridedIndices visit dims j [] total g [] total g
  | step (j : Nat) (son : ast_node) (rest : List ast_node) (total : Value)
      (g g1 g2 : IRGenerator) (r : NodeResult) (v : Value) (insts : List Instruction)
      (last : Value) :
      visit son g = (some r, g1) → r.val = some v →
      (∀ m : Machine,
        (execInsts m (strideStep (strideFrom dims j) total v g1.nextId).1).read
            (strideStep (strideFrom dims j) total v g1.nextId).2 =
          m.read total + m.read v * strideFrom dims j) →
      StridedIndices visit dims (j + 1) rest
        (strideStep (strideFrom dims j) total v g1.nextId).2
        { g1 with nextId :=
            g1.nextId + (strideStep (strideFrom dims j) total v g1.nextId).1.length }
        insts last g2 →
      StridedIndices visit dims j (son :: rest) total g
        (r.blockInsts ++ (strideStep (strideFrom dims j) total v g1.nextId).1 ++ insts)
        last g2

/-! ## Theorems -/

/-- Unfolding of the visitor: with budget `n + 1` the handler of the node kind runs
and visits children with budget `n`. -/
theorem ir_visit_ast_node_succ (n : Nat) (node : ast_node) (g : IRGenerator) :
    ir_visit_ast_node (n + 1) node g = dispatch (ir_visit_ast_node n) node g := rfl

/-! ### Binary arithmetic -/

/-- Claim C5: for a binary arithmetic node (add, sub, mul, div, mod) whose two operands
lower successfully (for add and mul, which check it, each to a value), the node's code
is the left operand's code, then the right operand's code, then one `Binary`
instruction with the opcode of the node kind over the two operand values, and that
instruction is the value of the node. -/
theorem binary_arithmetic_layout (n : Nat) (node src1 src2 : ast_node) (rest : List ast_node)
    (op : IRInstOperator) (g g1 g2 : IRGenerator) (left right : NodeResult)
    (hop : arithmeticOpcode node.node_type = some op)
    (hsons : node.sons = src1 :: src2 :: rest)
    (hleft : ir_visit_ast_node n src1 g = (some left, g1))
    (hright : ir_visit_ast_node n src2 g1 = (some right, g2))
    (hval : node.node_type = .AST_OP_ADD ∨ node.node_type = .AST_OP_MUL →
      left.val.isSome ∧ right.val.isSome) :
    ir_visit_ast_node (n + 1) node g =
      (some { blockInsts := left.blockInsts ++ right.blockInsts ++
                [.Binary g2.nextId op left.val right.val .int32],
              val := (Instruction.Binary g2.nextId op left.val right.val .int32).asValue },
        { g2 with nextId := g2.nextId + 1 }) := by
  rw [ir_visit_ast_node_succ]
  cases hnt : node.node_type <;> simp [hnt, arithmeticOpcode] at hop hval <;> subst hop
  · simp [dispatch, hnt, ir_sub, ir_binary_unchecked, hsons, hleft, hright,
      IRGenerator.newBinary, Instruction.asValue]
  · obtain ⟨hl, hr⟩ := hval
    obtain ⟨lv, hlv⟩ := Option.isSome_iff_exists.mp hl
    obtain ⟨rv, hrv⟩ := Option.isSome_iff_exists.mp hr
    simp [dispatch, hnt, ir_add, hsons, hleft, hright, hlv, hrv,
      IRGenerator.newBinary, Instruction.asValue]
  · obtain ⟨hl, hr⟩ := hval
    obtain ⟨lv, hlv⟩ := Option.isSome_iff_exists.mp hl
    obtain ⟨rv, hrv⟩ := Option.isSome_iff_exists.mp hr
    simp [dispatch, hnt, ir_mul, hsons, hleft, hright, hlv, hrv,
      IRGenerator.newBinary, Instruction.asValue]
  · simp [dispatch, hnt, ir_div, ir_binary_unchecked, hsons, hleft, hright,
      IRGenerator.newBinary, Instruction.asValue]
  · simp [dispatch, hnt, ir_mod, ir_binary_unchecked, hsons, hleft, hright,
      IRGenerator.newBinary, Instruction.asValue]

/-- Witness of C5: `1 + 2` lowers to the single instruction `add 1, 2`. -/
theorem binary_arithmetic_layout_witness :
    ir_visit_ast_node 2 (exNode .AST_OP_ADD [exLit 1, exLit 2]) exGenerator =
      (some { blockInsts := [] ++ [] ++
                [.Binary 1 .IRINST_OP_ADD_I (some (.ConstInt 1)) (some (.ConstInt 2)) .int32],
              val := some (.InstructionResult 1 .int32) },
        { exGenerator with nextId := 2 }) :=
  binary_arithmetic_layout 1 (exNode .AST_OP_ADD [exLit 1, exLit 2]) (exLit 1) (exLit 2) []
    .IRINST_OP_ADD_I exGenerator exGenerator exGenerator
    { val := some (.ConstInt 1) } { val := some (.ConstInt 2) }
    rfl rfl rfl rfl (fun _ => ⟨rfl, rfl⟩)

/-! ### Short-circuit operators -/

/-- Claim C2: for a logical-AND node inside a function whose operands lower
successfully to values, `ir_logic_and` emits, in this order: the code of the left
operand; its boolean conversion (nothing when the value is already boolean); the
conditional jump on the boolean to the second-operand label, else to the false label;
the second-operand label; the code of the right operand; the move of its value into
the result temporary; the jump to the end label; the false label; the move of the
constant 0 into the result temporary; the end label. The value of the node is the
result temporary. -/
theorem logic_and_layout (n : Nat) (node son0 son1 : ast_node) (rest : List ast_node)
    (g g5 g8 : IRGenerator) (func func5 : Function) (leftNode rightNode : NodeResult)
    (leftVal rightVal : Value)
    (hnt : node.node_type = .AST_OP_LOGIC_AND)
    (hsons : node.sons = son0 :: son1 :: rest)
    (hfunc : g.currentFunc = some func)
    (hleft : ir_visit_ast_node n son0 { g with nextId := g.nextId + 4 } = (some leftNode, g5))
    (hlv : leftNode.val = some leftVal)
    (hfunc5 : g5.currentFunc = some func5)
    (hclean : func5.extraData.boolCheckInst = none)
    (hright : ir_visit_ast_node n son1 (boolConversion leftVal g5).2.2 = (some rightNode, g8))
    (hrv : rightNode.val = some rightVal) :
    ir_visit_ast_node (n + 1) node g =
      (some { blockInsts :=
                leftNode.blockInsts ++ (boolConversion leftVal g5).1 ++
                [.CondGoto (boolConversion leftVal g5).2.1 g.nextId (g.nextId + 1),
                 .Label g.nextId] ++
                rightNode.blockInsts ++
                [.Move (some (temporary (g.nextId + 3) .int32)) (some rightVal) false false,
                 .Goto (some (g.nextId + 2)),
                 .Label (g.nextId + 1),
                 .Move (some (temporary (g.nextId + 3) .int32)) (some (.ConstInt 0)) false false,
                 .Label (g.nextId + 2)],
              val := some (temporary (g.nextId + 3) .int32) }, g8) := by
  rw [ir_visit_ast_node_succ]
  by_cases hb : leftVal.getType.isInt1Byte = true
  · simp [hfunc] at hleft
    simp [boolConversion, hb] at hright
    simp [dispatch, hnt, ir_logic_and, IRGenerator.getCurrentFunction, hfunc, hsons,
      IRGenerator.newLabel, IRGenerator.newVarValue, Nat.add_assoc, int_to_bool, takeBoolCheck,
      hb, hfunc5, hclean, temporary, newConstInt, toInt32, boolConversion,
      hleft, hlv, hright, hrv]
  · simp [hfunc] at hleft
    simp [boolConversion, hb, hfunc5] at hright
    simp [dispatch, hnt, ir_logic_and, IRGenerator.getCurrentFunction, hfunc, hsons,
      IRGenerator.newLabel, IRGenerator.newVarValue, Nat.add_assoc, int_to_bool, takeBoolCheck,
      IRGenerator.newBinary, IRGenerator.updateCurrent,
      hb, hfunc5, temporary, newConstInt, toInt32, boolConversion,
      hleft, hlv, hright, hrv]

/-- Witness of C2: `x && 2` with `int x`. -/
theorem logic_and_layout_witness :
    ir_visit_ast_node 2 (exNode .AST_OP_LOGIC_AND [exVar "x", exLit 2]) exGenerator =
      (some { blockInsts :=
                [] ++
                [.Binary 6 .IRINST_OP_NE_I (some (.LocalVariable 0 .int32 "x"))
                   (some (.ConstInt 0)) .bool,
                 .Move (some (temporary 5 .bool)) (some (.InstructionResult 6 .bool))
                   false false] ++
                [.CondGoto (temporary 5 .bool) 1 2, .Label 1] ++
                [] ++
                [.Move (some (temporary 4 .int32)) (some (.ConstInt 2)) false false,
                 .Goto (some 3),
                 .Label 2,
                 .Move (some (temporary 4 .int32)) (some (.ConstInt 0)) false false,
                 .Label 3],
              val := some (temporary 4 .int32) },
        { exGenerator with nextId := 7 }) :=
  logic_and_layout 1 (exNode .AST_OP_LOGIC_AND [exVar "x", exLit 2]) (exVar "x") (exLit 2) []
    exGenerator { exGenerator with nextId := 5 } { exGenerator with nextId := 7 }
    exFunction exFunction
    { val := some (.LocalVariable 0 .int32 "x") } { val := some (.ConstInt 2) }
    (.LocalVariable 0 .int32 "x") (.ConstInt 2)
    rfl rfl rfl rfl rfl rfl rfl rfl rfl

/-- Claim C4: for a logical-OR node inside a function whose operands lower
successfully to values, `ir_logic_or` emits the mirror of the AND layout: the code of
the left operand; its boolean conversion if needed; the conditional jump whose true
target is the true label and whose false target is the second-operand label; the
second-operand label; the code of the right operand; the move of its value into the
result temporary; the jump to the end label; the true label; the move of the constant 1
into the result temporary; the end label. -/
theorem logic_or_layout (n : Nat) (node son0 son1 : ast_node) (rest : List ast_node)
    (g g5 g8 : IRGenerator) (func func5 : Function) (leftNode rightNode : NodeResult)
    (leftVal rightVal : Value)
    (hnt : node.node_type = .AST_OP_LOGIC_OR)
    (hsons : node.sons = son0 :: son1 :: rest)
    (hfunc : g.currentFunc = some func)
    (hleft : ir_visit_ast_node n son0 { g with nextId := g.nextId + 4 } = (some leftNode, g5))
    (hlv : leftNode.val = some leftVal)
    (hfunc5 : g5.currentFunc = some func5)
    (hclean : func5.extraData.boolCheckInst = none)
    (hright : ir_visit_ast_node n son1 (boolConversion leftVal g5).2.2 = (some rightNode, g8))
    (hrv : rightNode.val = some rightVal) :
    ir_visit_ast_node (n + 1) node g =
      (some { blockInsts :=
                leftNode.blockInsts ++ (boolConversion leftVal g5).1 ++
                [.CondGoto (boolConversion leftVal g5).2.1 (g.nextId + 1) g.nextId,
                 .Label g.nextId] ++
                rightNode.blockInsts ++
                [.Move (some (temporary (g.nextId + 3) .int32)) (some rightVal) false false,
                 .Goto (some (g.nextId + 2)),
                 .Label (g.nextId + 1),
                 .Move (some (temporary (g.nextId + 3) .int32)) (some (.ConstInt 1)) false false,
                 .Label (g.nextId + 2)],
              val := some (temporary (g.nextId + 3) .int32) }, g8) := by
  rw [ir_visit_ast_node_succ]
  by_cases hb : leftVal.getType.isInt1Byte = true
  · simp [hfunc] at hleft
    simp [boolConversion, hb] at hright
    simp [dispatch, hnt, ir_logic_or, IRGenerator.getCurrentFunction, hfunc, hsons,
      IRGenerator.newLabel, IRGenerator.newVarValue, Nat.add_assoc, int_to_bool, takeBoolCheck,
      hb, hfunc5, hclean, temporary, newConstInt, toInt32, boolConversion,
      hleft, hlv, hright, hrv]
  · simp [hfunc] at hleft
    simp [boolConversion, hb, hfunc5] at hright
    simp [dispatch, hnt, ir_logic_or, IRGenerator.getCurrentFunction, hfunc, hsons,
      IRGenerator.newLabel, IRGenerator.newVarValue, Nat.add_assoc, int_to_bool, takeBoolCheck,
      IRGenerator.newBinary, IRGenerator.updateCurrent,
      hb, hfunc5, temporary, newConstInt, toInt32, boolConversion,
      hleft, hlv, hright, hrv]

/-- Witness of C4: `x || 2` with `int x`. -/
theorem logic_or_layout_witness :
    ir_visit_ast_node 2 (exNode .AST_OP_LOGIC_OR [exVar "x", exLit 2]) exGenerator =
      (some { blockInsts :=
                [] ++
                [.Binary 6 .IRINST_OP_NE_I (some (.LocalVariable 0 .int32 "x"))
                   (some (.ConstInt 0)) .bool,
                 .Move (some (temporary 5 .bool)) (some (.InstructionResult 6 .bool))
                   false false] ++
                [.CondGoto (temporary 5 .bool) 2 1, .Label 1] ++
                [] ++
                [.Move (some (temporary 4 .int32)) (some (.ConstInt 2)) false false,
                 .Goto (some 3),
                 .Label 2,
                 .Move (some (temporary 4 .int32)) (some (.ConstInt 1)) false false,
                 .Label 3],
              val := some (temporary 4 .int32) },
        { exGenerator with nextId := 7 }) :=
  logic_or_layout 1 (exNode .AST_OP_LOGIC_OR [exVar "x", exLit 2]) (exVar "x") (exLit 2) []
    exGenerator { exGenerator with nextId := 5 } { exGenerator with nextId := 7 }
    exFunction exFunction
    { val := some (.LocalVariable 0 .int32 "x") } { val := some (.ConstInt 2) }
    (.LocalVariable 0 .int32 "x") (.ConstInt 2)
    rfl rfl rfl rfl rfl rfl rfl rfl rfl

/-! ### Loops -/

/-- Claim C10: for a while statement inside a function whose condition lowers to the
integer constant 0, `ir_while` succeeds and emits exactly the condition label, the code
of the condition, one unconditional jump to the end label, and the end label. The
result is the same for every remainder `rest` of the child list, so the body is never
visited and contributes no instruction. -/
theorem while_zero_layout (n : Nat) (node son0 : ast_node) (rest : List ast_node)
    (g g5 : IRGenerator) (func : Function) (cond_node : NodeResult)
    (hnt : node.node_type = .AST_OP_WHILE)
    (hsons : node.sons = son0 :: rest)
    (hfunc : g.currentFunc = some func)
    (hcond : ir_visit_ast_node n son0 (whileEntry g) = (some cond_node, g5))
    (hzero : cond_node.val = some (.ConstInt 0)) :
    ir_visit_ast_node (n + 1) node g =
      (some { blockInsts := [.Label g.nextId] ++ cond_node.blockInsts ++
                [.Goto (some (g.nextId + 2)), .Label (g.nextId + 2)] },
        g5.setLoopLabels func.breakLabel func.continueLabel) := by
  rw [ir_visit_ast_node_succ]
  simp [whileEntry, IRGenerator.setLoopLabels, IRGenerator.updateCurrent, hfunc] at hcond
  simp [dispatch, hnt, ir_while, IRGenerator.getCurrentFunction, hfunc, hsons,
    IRGenerator.newLabel, Nat.add_assoc, IRGenerator.setLoopLabels, IRGenerator.updateCurrent,
    hcond, hzero]

/-- Witness of C10: `while (0) { break; }`. -/
theorem while_zero_layout_witness :
    ir_visit_ast_node 2
        (exNode .AST_OP_WHILE [exLit 0, exNode .AST_OP_BLOCK [exNode .AST_OP_BREAK []]])
        exGenerator =
      (some { blockInsts := [.Label 1] ++ [] ++ [.Goto (some 3), .Label 3] },
        (whileEntry exGenerator).setLoopLabels none none) :=
  while_zero_layout 1
    (exNode .AST_OP_WHILE [exLit 0, exNode .AST_OP_BLOCK [exNode .AST_OP_BREAK []]])
    (exLit 0) [exNode .AST_OP_BLOCK [exNode .AST_OP_BREAK []]]
    exGenerator (whileEntry exGenerator) exFunction { val := some (.ConstInt 0) }
    rfl rfl rfl rfl rfl

/-- Claim C8: whenever `ir_while` returns success, on the constant and on the
non-constant path, the break label and the continue label of the current function are
the ones it had before the call. -/
theorem while_success_restores_labels (n : Nat) (node : ast_node) (g g' : IRGenerator)
    (func func' : Function) (r : NodeResult)
    (hnt : node.node_type = .AST_OP_WHILE)
    (hfunc : g.currentFunc = some func)
    (hret : ir_visit_ast_node (n + 1) node g = (some r, g'))
    (hfunc' : g'.currentFunc = some func') :
    func'.breakLabel = func.breakLabel ∧ func'.continueLabel = func.continueLabel := by
  rw [ir_visit_ast_node_succ] at hret
  simp only [dispatch, hnt, ir_while, IRGenerator.getCurrentFunction, hfunc] at hret
  revert hret
  repeat' split
  all_goals intro hret
  all_goals simp only [Prod.mk.injEq, Option.some.injEq, reduceCtorEq, false_and] at hret
  all_goals
    obtain ⟨-, rfl⟩ := hret
    simp only [IRGenerator.setLoopLabels, IRGenerator.updateCurrent, Option.map_eq_some'] at hfunc'
    obtain ⟨f, -, rfl⟩ := hfunc'
    exact ⟨rfl, rfl⟩

/-- Witness of C8: `while (x) { break; }` lowered where no loop is open. -/
theorem while_success_restores_labels_witness :
    (none : Option Nat) = exFunction.breakLabel ∧ (none : Option Nat) = exFunction.continueLabel :=
  while_success_restores_labels 2
    (exNode .AST_OP_WHILE [exVar "x", exNode .AST_OP_BLOCK [exNode .AST_OP_BREAK []]])
    exGenerator { exGenerator with nextId := 4 } exFunction exFunction
    { blockInsts := [.Label 1, .CondGoto (.LocalVariable 0 .int32 "x") 2 3, .Label 2,
                     .Goto (some 3), .Goto (some 1), .Label 3] }
    rfl rfl rfl rfl

/-- Claim C9, evaluated at `while (zz) { }` with `zz` undeclared, lowered where no loop
is open: `ir_while` returns failure and leaves the break label and the continue label
of the current function set to the end label and the condition label of the failed
loop, not to the values they had before the call. -/
theorem while_failure_keeps_loop_labels :
    exGenerator.currentFunc.map (fun f => (f.breakLabel, f.continueLabel)) =
        some (none, none) ∧
      (ir_visit_ast_node 3 exWhileUndeclared exGenerator).1 = none ∧
      (ir_visit_ast_node 3 exWhileUndeclared exGenerator).2.currentFunc.map
          (fun f => (f.breakLabel, f.continueLabel)) = some (some 3, some 1) := by
  decide

/-- Claim C7, evaluated at `while (x) { if (x) { while (zz) { } } break; }` with `zz`
undeclared: the lowering succeeds, the end label of the outer loop is 3, and the
`break` of the outer body jumps to 8, the end label of the inner loop, whose lowering
failed inside the `if` and left its labels in place. -/
theorem break_after_failed_inner_loop :
    (ir_visit_ast_node 6 exBreakAfterFailedLoop exGenerator).1 =
      some { blockInsts :=
               [.Label 1,
                .CondGoto (.LocalVariable 0 .int32 "x") 2 3,
                .Label 2,
                .CondGoto (.LocalVariable 0 .int32 "x") 4 5,
                .Label 4,
                .Label 5,
                .Goto (some 8),
                .Goto (some 1),
                .Label 3] } := by
  decide!

/-! ### Calls -/

/-- When the argument loop of a call succeeds, `realParams` has one entry per argument
node. -/
theorem ir_function_call_args_length (visit : Visitor) (funcName : String)
    (formalParams : List Value) (sons : List ast_node) :
    ∀ (i : Nat) (g g' : IRGenerator) (insts : List Instruction)
      (realParams : List (Option Value)),
      ir_function_call_args visit funcName formalParams i sons g =
        (some (insts, realParams), g') →
      realParams.length = sons.length := by
  induction sons with
  | nil =>
    intro i g g' insts realParams h
    simp [ir_function_call_args] at h
    simp [h.1.2]
  | cons son rest ih =>
    intro i g g' insts realParams h
    simp only [ir_function_call_args] at h
    split at h
    · simp at h
    · rename_i insts1 realParam g1 _
      split at h
      · simp at h
      · rename_i restInsts restParams g2 hrest
        simp only [Prod.mk.injEq, Option.some.injEq] at h
        obtain ⟨⟨-, rfl⟩, -⟩ := h
        simp [ih _ _ _ _ _ hrest]

/-- Claim C6, as amended: for a call node inside a function whose callee is declared
with N parameters and which supplies M arguments, M different from N, `ir_function_call`
fails, so the node yields no instruction sequence and no `Call` instruction; and when
all M arguments lower successfully the recorded error is the arity mismatch of N
against M. -/
theorem call_arity_mismatch (n : Nat) (node nameNode paramsNode : ast_node)
    (rest : List ast_node) (g : IRGenerator) (func calledFunction : Function)
    (hnt : node.node_type = .AST_OP_FUNC_CALL)
    (hsons : node.sons = nameNode :: paramsNode :: rest)
    (hfind : g.findFunction nameNode.name = some calledFunction)
    (hfunc : g.currentFunc = some func)
    (hne : paramsNode.sons.length ≠ calledFunction.params.length) :
    (ir_visit_ast_node (n + 1) node g).1 = none ∧
    ∀ (argInsts : List Instruction) (realParams : List (Option Value)) (g3 : IRGenerator),
      ir_function_call_args (ir_visit_ast_node n) nameNode.name calledFunction.params 0
          paramsNode.sons (g.noteCall paramsNode.sons.length) =
        (some (argInsts, realParams), g3) →
      (ir_visit_ast_node (n + 1) node g).2.lastError =
        some (.paramCountMismatch nameNode.name calledFunction.params.length
          paramsNode.sons.length) := by
  rw [ir_visit_ast_node_succ]
  simp only [dispatch, hnt, ir_function_call, hsons, hfind, IRGenerator.getCurrentFunction, hfunc]
  cases hargs : ir_function_call_args (ir_visit_ast_node n) nameNode.name calledFunction.params 0
      paramsNode.sons (g.noteCall paramsNode.sons.length) with
  | mk res g3 =>
    cases res with
    | none => simp
    | some pr =>
      obtain ⟨argInsts, realParams⟩ := pr
      have hlen := ir_function_call_args_length _ _ _ _ _ _ _ _ _ hargs
      have hne' : realParams.length ≠ calledFunction.params.length := by rw [hlen]; exact hne
      simp [hlen, hne, IRGenerator.setLastError]

/-- Witness of C6: `p(1)` for `int p(int a, int b)` fails with the arity mismatch of 2
against 1. -/
theorem call_arity_mismatch_witness :
    (ir_visit_ast_node 3 exCallOneArg exGeneratorWithCallee).1 = none ∧
      (ir_visit_ast_node 3 exCallOneArg exGeneratorWithCallee).2.lastError =
        some (.paramCountMismatch "p" 2 1) :=
  ⟨(call_arity_mismatch 2 exCallOneArg (exVar "p")
      (exNode .AST_OP_FUNC_REAL_PARAMS [exLit 1]) [] exGeneratorWithCallee exFunction
      { name := "p", returnType := .int32,
        params := [.FormalParam 1 .int32 "a", .FormalParam 2 .int32 "b"] }
      rfl rfl rfl rfl (by decide)).1,
   (call_arity_mismatch 2 exCallOneArg (exVar "p")
      (exNode .AST_OP_FUNC_REAL_PARAMS [exLit 1]) [] exGeneratorWithCallee exFunction
      { name := "p", returnType := .int32,
        params := [.FormalParam 1 .int32 "a", .FormalParam 2 .int32 "b"] }
      rfl rfl rfl rfl (by decide)).2 [] [some (.ConstInt 1)]
      (exGeneratorWithCallee.noteCall 1) rfl⟩

/-- Counterexample to C6 as stated: `p(zz)` for `int p(int a, int b)` with `zz`
undeclared supplies one argument to a two-parameter callee, and the call fails with
the argument error, not with an arity mismatch: the arguments are lowered before the
count is checked. -/
theorem call_arity_other_error :
    exGeneratorWithCallee.findFunction "p" =
        some { name := "p", returnType := .int32,
               params := [.FormalParam 1 .int32 "a", .FormalParam 2 .int32 "b"] } ∧
      (ir_visit_ast_node 3 exCallUndeclared exGeneratorWithCallee).1 = none ∧
      (ir_visit_ast_node 3 exCallUndeclared exGeneratorWithCallee).2.lastError =
        some (.argumentFailed "p") := by
  decide!

/-! ### Conditionals, loops and jumps -/

/-- Claim C14: for an `if` without `else` inside a function whose condition lowers to a
value and whose body lowers successfully, `ir_if` emits exactly the code of the
condition, the conditional jump on the condition value to the then label, else to the
end label, the then label, the code of the body, and the end label. The labels are the
two allocated first, before the condition is lowered. -/
theorem if_layout (n : Nat) (node son0 son1 : ast_node) (rest : List ast_node)
    (g g3 g4 : IRGenerator) (func : Function) (cond_node then_node : NodeResult)
    (condVal : Value)
    (hnt : node.node_type = .AST_OP_IF)
    (hsons : node.sons = son0 :: son1 :: rest)
    (hfunc : g.currentFunc = some func)
    (hcond : ir_visit_ast_node n son0 (afterLabels g 2) = (some cond_node, g3))
    (hval : cond_node.val = some condVal)
    (hthen : ir_visit_ast_node n son1 g3 = (some then_node, g4)) :
    ir_visit_ast_node (n + 1) node g =
      (some { blockInsts := cond_node.blockInsts ++
                [.CondGoto condVal g.nextId (g.nextId + 1), .Label g.nextId] ++
                then_node.blockInsts ++ [.Label (g.nextId + 1)] }, g4) := by
  rw [ir_visit_ast_node_succ]
  simp [afterLabels, hfunc] at hcond
  simp [dispatch, hnt, ir_if, IRGenerator.getCurrentFunction, hfunc, hsons,
    IRGenerator.newLabel, Nat.add_assoc, hcond, hval, hthen]

/-- Witness of C14: `if (x) x = 1;`. -/
theorem if_layout_witness :
    ir_visit_ast_node 3 (exNode .AST_OP_IF [exVar "x", exAssign "x" 1]) exGenerator =
      (some { blockInsts := [] ++
                [.CondGoto (.LocalVariable 0 .int32 "x") 1 2, .Label 1] ++
                [.Move (some (.LocalVariable 0 .int32 "x")) (some (.ConstInt 1)) false false] ++
                [.Label 2] }, afterLabels exGenerator 2) :=
  if_layout 2 (exNode .AST_OP_IF [exVar "x", exAssign "x" 1]) (exVar "x") (exAssign "x" 1) []
    exGenerator (afterLabels exGenerator 2) (afterLabels exGenerator 2) exFunction
    { val := some (.LocalVariable 0 .int32 "x") }
    { blockInsts := [.Move (some (.LocalVariable 0 .int32 "x")) (some (.ConstInt 1)) false false],
      val := some (.ConstInt 1) }
    (.LocalVariable 0 .int32 "x") rfl rfl rfl rfl rfl rfl

/-- Claim C15: for an `if`-`else` inside a function whose condition lowers to a value
and whose two branches lower successfully, `ir_if_else` emits exactly the code of the
condition, the conditional jump to the then label, else to the else label, the then
label, the code of the then-branch, the jump to the end label, the else label, the code
of the else-branch, and the end label. -/
theorem if_else_layout (n : Nat) (node son0 son1 son2 : ast_node) (rest : List ast_node)
    (g g4 g5 g6 : IRGenerator) (func : Function) (cond_node then_node else_node : NodeResult)
    (condVal : Value)
    (hnt : node.node_type = .AST_OP_IF_ELSE)
    (hsons : node.sons = son0 :: son1 :: son2 :: rest)
    (hfunc : g.currentFunc = some func)
    (hcond : ir_visit_ast_node n son0 (afterLabels g 3) = (some cond_node, g4))
    (hval : cond_node.val = some condVal)
    (hthen : ir_visit_ast_node n son1 g4 = (some then_node, g5))
    (helse : ir_visit_ast_node n son2 g5 = (some else_node, g6)) :
    ir_visit_ast_node (n + 1) node g =
      (some { blockInsts := cond_node.blockInsts ++
                [.CondGoto condVal g.nextId (g.nextId + 1), .Label g.nextId] ++
                then_node.blockInsts ++
                [.Goto (some (g.nextId + 2)), .Label (g.nextId + 1)] ++
                else_node.blockInsts ++ [.Label (g.nextId + 2)] }, g6) := by
  rw [ir_visit_ast_node_succ]
  simp [afterLabels, hfunc] at hcond
  simp [dispatch, hnt, ir_if_else, IRGenerator.getCurrentFunction, hfunc, hsons,
    IRGenerator.newLabel, Nat.add_assoc, hcond, hval, hthen, helse]

/-- Witness of C15: `if (x) x = 1; else x = 2;`. -/
theorem if_else_layout_witness :
    ir_visit_ast_node 3
        (exNode .AST_OP_IF_ELSE [exVar "x", exAssign "x" 1, exAssign "x" 2]) exGenerator =
      (some { blockInsts := [] ++
                [.CondGoto (.LocalVariable 0 .int32 "x") 1 2, .Label 1] ++
                [.Move (some (.LocalVariable 0 .int32 "x")) (some (.ConstInt 1)) false false] ++
                [.Goto (some 3), .Label 2] ++
                [.Move (some (.LocalVariable 0 .int32 "x")) (some (.ConstInt 2)) false false] ++
                [.Label 3] }, afterLabels exGenerator 3) :=
  if_else_layout 2 (exNode .AST_OP_IF_ELSE [exVar "x", exAssign "x" 1, exAssign "x" 2])
    (exVar "x") (exAssign "x" 1) (exAssign "x" 2) []
    exGenerator (afterLabels exGenerator 3) (afterLabels exGenerator 3)
    (afterLabels exGenerator 3) exFunction
    { val := some (.LocalVariable 0 .int32 "x") }
    { blockInsts := [.Move (some (.LocalVariable 0 .int32 "x")) (some (.ConstInt 1)) false false],
      val := some (.ConstInt 1) }
    { blockInsts := [.Move (some (.LocalVariable 0 .int32 "x")) (some (.ConstInt 2)) false false],
      val := some (.ConstInt 2) }
    (.LocalVariable 0 .int32 "x") rfl rfl rfl rfl rfl rfl rfl

/-- Claim C16: for a `while` inside a function whose condition lowers to a value that
is not an integer constant and whose body lowers successfully, `ir_while` emits exactly
the condition label, the code of the condition, the conditional jump on the condition
value to the body label, else to the end label, the body label, the code of the body,
the jump to the condition label, and the end label. -/
theorem while_layout (n : Nat) (node son0 son1 : ast_node) (rest : List ast_node)
    (g g5 g6 : IRGenerator) (func : Function) (cond_node body_node : NodeResult)
    (condVal : Value)
    (hnt : node.node_type = .AST_OP_WHILE)
    (hsons : node.sons = son0 :: son1 :: rest)
    (hfunc : g.currentFunc = some func)
    (hcond : ir_visit_ast_node n son0 (whileEntry g) = (some cond_node, g5))
    (hval : cond_node.val = some condVal)
    (hvar : ∀ c, condVal ≠ .ConstInt c)
    (hbody : ir_visit_ast_node n son1 g5 = (some body_node, g6)) :
    ir_visit_ast_node (n + 1) node g =
      (some { blockInsts := [.Label g.nextId] ++ cond_node.blockInsts ++
                [.CondGoto condVal (g.nextId + 1) (g.nextId + 2), .Label (g.nextId + 1)] ++
                body_node.blockInsts ++
                [.Goto (some g.nextId), .Label (g.nextId + 2)] },
        g6.setLoopLabels func.breakLabel func.continueLabel) := by
  rw [ir_visit_ast_node_succ]
  simp [whileEntry, IRGenerator.setLoopLabels, IRGenerator.updateCurrent, hfunc] at hcond
  cases condVal with
  | ConstInt c => exact absurd rfl (hvar c)
  | _ =>
    simp [dispatch, hnt, ir_while, IRGenerator.getCurrentFunction, hfunc, hsons,
      IRGenerator.newLabel, Nat.add_assoc, IRGenerator.setLoopLabels,
      IRGenerator.updateCurrent, hcond, hval, hbody]

/-- Witness of C16: `while (x) x = 0;`. -/
theorem while_layout_witness :
    ir_visit_ast_node 3 (exNode .AST_OP_WHILE [exVar "x", exAssign "x" 0]) exGenerator =
      (some { blockInsts := [.Label 1] ++ [] ++
                [.CondGoto (.LocalVariable 0 .int32 "x") 2 3, .Label 2] ++
                [.Move (some (.LocalVariable 0 .int32 "x")) (some (.ConstInt 0)) false false] ++
                [.Goto (some 1), .Label 3] },
        (whileEntry exGenerator).setLoopLabels none none) :=
  while_layout 2 (exNode .AST_OP_WHILE [exVar "x", exAssign "x" 0]) (exVar "x")
    (exAssign "x" 0) [] exGenerator (whileEntry exGenerator) (whileEntry exGenerator)
    exFunction { val := some (.LocalVariable 0 .int32 "x") }
    { blockInsts := [.Move (some (.LocalVariable 0 .int32 "x")) (some (.ConstInt 0)) false false],
      val := some (.ConstInt 0) }
    (.LocalVariable 0 .int32 "x") rfl rfl rfl rfl rfl (fun _ h => by cases h) rfl

/-- Claim C11: for a `while` inside a function whose condition lowers to a nonzero
integer constant and whose body lowers successfully, `ir_while` emits the condition
label, the code of the condition (none for a literal), the unconditional jump to the
body label, the body label, the code of the body, the jump back to the condition label,
and the end label; no conditional jump is emitted for the loop, and every instruction
of the sequence that jumps to the end label belongs to the code of the condition or of
the body. -/
theorem while_nonzero_constant_layout (n : Nat) (node son0 son1 : ast_node)
    (rest : List ast_node) (g g5 g6 : IRGenerator) (func : Function)
    (cond_node body_node : NodeResult) (c : Int)
    (hnt : node.node_type = .AST_OP_WHILE)
    (hsons : node.sons = son0 :: son1 :: rest)
    (hfunc : g.currentFunc = some func)
    (hcond : ir_visit_ast_node n son0 (whileEntry g) = (some cond_node, g5))
    (hval : cond_node.val = some (.ConstInt c))
    (hc : c ≠ 0)
    (hbody : ir_visit_ast_node n son1 g5 = (some body_node, g6)) :
    ir_visit_ast_node (n + 1) node g =
        (some { blockInsts := [.Label g.nextId] ++ cond_node.blockInsts ++
                  [.Goto (some (g.nextId + 1)), .Label (g.nextId + 1)] ++
                  body_node.blockInsts ++
                  [.Goto (some g.nextId), .Label (g.nextId + 2)] },
          g6.setLoopLabels func.breakLabel func.continueLabel) ∧
      ∀ inst ∈ [.Label g.nextId] ++ cond_node.blockInsts ++
                  [.Goto (some (g.nextId + 1)), .Label (g.nextId + 1)] ++
                  body_node.blockInsts ++
                  [.Goto (some g.nextId), .Label (g.nextId + 2)],
        g.nextId + 2 ∈ inst.targets →
          inst ∈ cond_node.blockInsts ∨ inst ∈ body_node.blockInsts := by
  constructor
  · rw [ir_visit_ast_node_succ]
    simp [whileEntry, IRGenerator.setLoopLabels, IRGenerator.updateCurrent, hfunc] at hcond
    simp [dispatch, hnt, ir_while, IRGenerator.getCurrentFunction, hfunc, hsons,
      IRGenerator.newLabel, Nat.add_assoc, IRGenerator.setLoopLabels,
      IRGenerator.updateCurrent, hcond, hval, hc, hbody]
  · intro inst hmem htarget
    simp only [List.mem_append, List.mem_cons, List.mem_singleton, List.not_mem_nil,
      or_false] at hmem
    rcases hmem with (((rfl | h) | (rfl | rfl)) | h) | (rfl | rfl)
    · simp [Instruction.targets] at htarget
    · exact Or.inl h
    · simp [Instruction.targets] at htarget
    · simp [Instruction.targets] at htarget
    · exact Or.inr h
    · simp [Instruction.targets] at htarget
    · simp [Instruction.targets] at htarget

/-- Witness of C11: in `while (1) break;` the end label 3 is the target of the jump
emitted for `break`. -/
theorem while_nonzero_constant_layout_witness :
    ir_visit_ast_node 2 (exNode .AST_OP_WHILE [exLit 1, exNode .AST_OP_BREAK []]) exGenerator =
      (some { blockInsts := [.Label 1] ++ [] ++ [.Goto (some 2), .Label 2] ++
                [.Goto (some 3)] ++ [.Goto (some 1), .Label 3] },
        (whileEntry exGenerator).setLoopLabels none none) :=
  (while_nonzero_constant_layout 1 (exNode .AST_OP_WHILE [exLit 1, exNode .AST_OP_BREAK []])
    (exLit 1) (exNode .AST_OP_BREAK []) [] exGenerator (whileEntry exGenerator)
    (whileEntry exGenerator) exFunction { val := some (.ConstInt 1) }
    { blockInsts := [.Goto (some 3)] } 1 rfl rfl rfl rfl rfl (by decide) rfl).1

/-- Claim C12: inside a function, `ir_break` fails exactly when the break label of the
current function is unset, and then returns no code and leaves the generator as it was;
when the label is set it succeeds with exactly one unconditional jump to it. The same
holds for `ir_continue` and the continue label. -/
theorem break_continue_goto (n : Nat) (node : ast_node) (g : IRGenerator) (func : Function)
    (hfunc : g.currentFunc = some func) :
    (node.node_type = .AST_OP_BREAK →
      ((ir_visit_ast_node (n + 1) node g).1 = none ↔ func.breakLabel = none) ∧
      (func.breakLabel = none → ir_visit_ast_node (n + 1) node g = (none, g)) ∧
      ∀ l, func.breakLabel = some l →
        ir_visit_ast_node (n + 1) node g = (some { blockInsts := [.Goto (some l)] }, g)) ∧
    (node.node_type = .AST_OP_CONTINUE →
      ((ir_visit_ast_node (n + 1) node g).1 = none ↔ func.continueLabel = none) ∧
      (func.continueLabel = none → ir_visit_ast_node (n + 1) node g = (none, g)) ∧
      ∀ l, func.continueLabel = some l →
        ir_visit_ast_node (n + 1) node g = (some { blockInsts := [.Goto (some l)] }, g)) := by
  rw [ir_visit_ast_node_succ]
  constructor
  · intro hnt
    cases hl : func.breakLabel <;>
      simp [dispatch, hnt, ir_break, IRGenerator.getCurrentFunction, hfunc, hl]
  · intro hnt
    cases hl : func.continueLabel <;>
      simp [dispatch, hnt, ir_continue, IRGenerator.getCurrentFunction, hfunc, hl]

/-- Witness of C12: `break` inside a loop whose end label is 3, and `continue` outside
any loop. -/
theorem break_continue_goto_witness :
    ir_visit_ast_node 1 (exNode .AST_OP_BREAK []) (whileEntry exGenerator) =
        (some { blockInsts := [.Goto (some 3)] }, whileEntry exGenerator) ∧
      ir_visit_ast_node 1 (exNode .AST_OP_CONTINUE []) exGenerator = (none, exGenerator) :=
  ⟨((break_continue_goto 0 (exNode .AST_OP_BREAK []) (whileEntry exGenerator)
      { exFunction with breakLabel := some 3, continueLabel := some 1 } rfl).1 rfl).2.2 3 rfl,
   ((break_continue_goto 0 (exNode .AST_OP_CONTINUE []) exGenerator exFunction rfl).2 rfl).2.1
      rfl⟩

/-- Claim C17: a `return` without expression inside a function emits only the jump to
the exit label of the function; a `return` whose expression lowers successfully emits
the code of the expression, one move of its value into the return-value slot of the
function, and the jump to the exit label; and whenever `ir_return` succeeds the last
instruction is the jump to the exit label. -/
theorem return_layout (n : Nat) (node : ast_node) (g : IRGenerator)
    (hnt : node.node_type = .AST_OP_RETURN) :
    (∀ func, node.sons = [] → g.currentFunc = some func →
      ir_visit_ast_node (n + 1) node g =
        (some { blockInsts := [.Goto func.exitLabel], val := none }, g)) ∧
    (∀ son rest right g1 func, node.sons = son :: rest →
      ir_visit_ast_node n son g = (some right, g1) → g1.currentFunc = some func →
      ir_visit_ast_node (n + 1) node g =
        (some { blockInsts := right.blockInsts ++
                  [.Move func.returnValue right.val false false, .Goto func.exitLabel],
                val := right.val }, g1)) ∧
    (∀ r g1, ir_visit_ast_node (n + 1) node g = (some r, g1) →
      ∃ func, g1.currentFunc = some func ∧
        r.blockInsts.getLast? = some (.Goto func.exitLabel)) := by
  rw [ir_visit_ast_node_succ]
  refine ⟨?_, ?_, ?_⟩
  · intro func hsons hfunc
    simp [dispatch, hnt, ir_return, hsons, IRGenerator.getCurrentFunction, hfunc]
  · intro son rest right g1 func hsons hson hfunc
    simp [dispatch, hnt, ir_return, hsons, hson, IRGenerator.getCurrentFunction, hfunc]
  · intro r g1 hret
    simp only [dispatch, hnt, ir_return, IRGenerator.getCurrentFunction] at hret
    revert hret
    repeat' split
    all_goals intro hret
    all_goals simp only [Prod.mk.injEq, Option.some.injEq, reduceCtorEq, false_and] at hret
    all_goals
      obtain ⟨rfl, rfl⟩ := hret
      rename_i func hfunc
      exact ⟨func, hfunc, by simp⟩

/-- Witness of C17: `return;` and `return x;` in a function with exit label 1 and
return-value slot 2. -/
theorem return_layout_witness :
    ir_visit_ast_node 1 (exNode .AST_OP_RETURN []) exGeneratorWithExit =
        (some { blockInsts := [.Goto (some 1)], val := none }, exGeneratorWithExit) ∧
      ir_visit_ast_node 2 (exNode .AST_OP_RETURN [exVar "x"]) exGeneratorWithExit =
        (some { blockInsts := [] ++
                  [.Move (some (.LocalVariable 2 .int32 ""))
                     (some (.LocalVariable 0 .int32 "x")) false false,
                   .Goto (some 1)],
                val := some (.LocalVariable 0 .int32 "x") }, exGeneratorWithExit) :=
  ⟨(return_layout 0 (exNode .AST_OP_RETURN []) exGeneratorWithExit rfl).1
      { exFunction with exitLabel := some 1,
                        returnValue := some (.LocalVariable 2 .int32 "") } rfl rfl,
   (return_layout 1 (exNode .AST_OP_RETURN [exVar "x"]) exGeneratorWithExit rfl).2.1
      (exVar "x") [] { val := some (.LocalVariable 0 .int32 "x") } exGeneratorWithExit
      { exFunction with exitLabel := some 1,
                        returnValue := some (.LocalVariable 2 .int32 "") } rfl rfl rfl⟩

/-- Claim C13, evaluated at `if (x) break;` inside a function and outside any loop:
the then-branch, the `break`, fails to lower in the state in which `ir_if` visits it,
and the `if` statement still lowers successfully, to the conditional jump and its two
labels with nothing between them. -/
theorem if_swallows_failed_branch :
    (ir_visit_ast_node 1 (exNode .AST_OP_BREAK []) (afterLabels exGenerator 2)).1 = none ∧
      ir_visit_ast_node 2 exIfBreak exGenerator =
        (some { blockInsts := [.CondGoto (.LocalVariable 0 .int32 "x") 1 2, .Label 1,
                               .Label 2] },
          afterLabels exGenerator 2) :=
  ⟨rfl, rfl⟩

/-! ### Function definitions -/

/-- Claim C19: lowering the unit that consists of
`int f(int a, int b) { if (a < b) return a; else return b; }` succeeds and the
instruction list of `f` is `exMinCode`. In that list there is exactly one `lt`
comparison, over the locals of `a` and `b`; exactly one conditional jump, whose targets
6 and 7 are distinct labels of the list; label 6 is followed by the move of the local
of `a` into the return-value slot and the jump to the exit label 2; label 7 is followed
by the move of the local of `b` into the slot and the jump to the exit label; and there
is exactly one `Exit`, the last instruction, preceded by the exit label. -/
theorem min_function_code :
    (ir_visit_ast_node 6 (exUnit [exMin]) {}).1.isSome = true ∧
      ((ir_visit_ast_node 6 (exUnit [exMin]) {}).2.findFunction "f").map
          (fun f => (f.interCode, f.exitLabel, f.returnValue)) =
        some (exMinCode, some 2, some (.LocalVariable 5 .int32 "")) ∧
      exMinCode.filter (Instruction.isBinaryOf .IRINST_OP_LT_I) =
        [.Binary 10 .IRINST_OP_LT_I (some (.LocalVariable 3 .int32 "a"))
           (some (.LocalVariable 4 .int32 "b")) .bool] ∧
      exMinCode.filter Instruction.isCondGoto = [.CondGoto (.LocalVariable 9 .bool "") 6 7] ∧
      (labelPosition exMinCode 6 = some 6 ∧ labelPosition exMinCode 7 = some 10) ∧
      (exMinCode.drop 7).take 2 =
        [.Move (some (.LocalVariable 5 .int32 "")) (some (.LocalVariable 3 .int32 "a"))
           false false,
         .Goto (some 2)] ∧
      (exMinCode.drop 11).take 2 =
        [.Move (some (.LocalVariable 5 .int32 "")) (some (.LocalVariable 4 .int32 "b"))
           false false,
         .Goto (some 2)] ∧
      exMinCode.filter Instruction.isExit = [.Exit (some (.LocalVariable 5 .int32 ""))] ∧
      exMinCode.drop 14 = [.Label 2, .Exit (some (.LocalVariable 5 .int32 ""))] := by
  decide!

/-! ### The function table

No handler removes a function from the function table: the lemmas below follow the
state through each handler, for an arbitrary visitor of the children that keeps the
function registered. -/

theorem eq_step {name : String} {α : Type} {x : α × IRGenerator} {r : α} {g1 : IRGenerator}
    (h : x = (r, g1)) (hx : RegL name x.2.functions) : RegL name g1.functions := by
  subst h; exact hx

theorem eq_step3 {name : String} {α β : Type} {x : α × β × IRGenerator} {r : α} {s : β}
    {g1 : IRGenerator}
    (h : x = (r, s, g1)) (hx : RegL name x.2.2.functions) : RegL name g1.functions := by
  subst h; exact hx

theorem RegL.append {name : String} {fs : List Function} (f : Function)
    (h : RegL name fs) : RegL name (fs ++ [f]) := by
  unfold RegL at *
  rw [List.find?_append]
  cases hf : fs.find? (fun f => f.name == name) with
  | none => simp [hf] at h
  | some x => simp

theorem RegL.map {name : String} {fs : List Function} (cur : Function)
    (h : RegL name fs) :
    RegL name (fs.map (fun h => if h.name == cur.name then cur else h)) := by
  unfold RegL at *
  rw [List.find?_isSome] at *
  obtain ⟨x, hx, hname⟩ := h
  refine ⟨_, List.mem_map_of_mem _ hx, ?_⟩
  by_cases hc : x.name == cur.name
  · simp only [hc, if_true]
    simp only [beq_iff_eq] at hc hname ⊢
    rw [← hc, hname]
  · simp only [hc]
    exact hname

theorem newFunction_reg {name : String} {g : IRGenerator} {fn : String} {t : IRType}
    {ps : List Value} (hg : RegL name g.functions) :
    RegL name (g.newFunction fn t ps).2.functions := by
  simp only [IRGenerator.newFunction]
  split
  · exact hg
  · exact hg.append _

theorem setCurrentFunction_reg {name : String} {g : IRGenerator} {f : Option Function}
    (hg : RegL name g.functions) : RegL name (g.setCurrentFunction f).functions := by
  simp only [IRGenerator.setCurrentFunction]
  repeat' split
  · exact hg
  · exact hg
  · exact hg.map _

theorem int_to_bool_reg {name : String} {val : Value} {g : IRGenerator}
    (hg : RegL name g.functions) : RegL name (int_to_bool val g).2.functions := by
  simp only [int_to_bool, IRGenerator.newBinary, IRGenerator.newVarValue,
    IRGenerator.updateCurrent, IRGenerator.getCurrentFunction]
  repeat' split
  all_goals exact hg

theorem takeBoolCheck_reg {name : String} {g : IRGenerator}
    (hg : RegL name g.functions) : RegL name (takeBoolCheck g).2.functions := by
  simp only [takeBoolCheck, IRGenerator.updateCurrent]
  repeat' split
  all_goals exact hg

theorem ir_default_reg {name : String}
    (node : ast_node) (g : IRGenerator) (hg : RegL name g.functions) :
    RegL name (ir_default node g).2.functions := by
  exact hg

theorem ir_leaf_node_type_reg {name : String}
    (node : ast_node) (g : IRGenerator) (hg : RegL name g.functions) :
    RegL name (ir_leaf_node_type node g).2.functions := by
  exact hg

theorem ir_empty_stmt_reg {name : String}
    (node : ast_node) (g : IRGenerator) (hg : RegL name g.functions) :
    RegL name (ir_empty_stmt node g).2.functions := by
  exact hg

theorem ir_function_formal_param_array_reg {name : String}
    (node : ast_node) (g : IRGenerator) (hg : RegL name g.functions) :
    RegL name (ir_function_formal_param_array node g).2.functions := by
  exact hg

theorem ir_leaf_node_uint_reg {name : String}
    (node : ast_node) (g : IRGenerator) (hg : RegL name g.functions) :
    RegL name (ir_leaf_node_uint node g).2.functions := by
  exact hg

theorem ir_leaf_node_var_id_reg {name : String}
    (node : ast_node) (g : IRGenerator) (hg : RegL name g.functions) :
    RegL name (ir_leaf_node_var_id node g).2.functions := by
  simp only [ir_leaf_node_var_id, IRGenerator.setLastError, IRGenerator.newBinary,
    IRGenerator.newLabel, IRGenerator.newVarValue, IRGenerator.newVarValueWithValue,
    IRGenerator.updateCurrent, IRGenerator.getCurrentFunction, IRGenerator.setLoopLabels,
    IRGenerator.enterScope, IRGenerator.leaveScope, IRGenerator.addInst, IRGenerator.noteCall,
    IRGenerator.newFormalParam]
  repeat' split
  all_goals exact hg

theorem ir_break_reg {name : String}
    (node : ast_node) (g : IRGenerator) (hg : RegL name g.functions) :
    RegL name (ir_break node g).2.functions := by
  simp only [ir_break, IRGenerator.setLastError, IRGenerator.newBinary, IRGenerator.newLabel,
    IRGenerator.newVarValue, IRGenerator.newVarValueWithValue, IRGenerator.updateCurrent,
    IRGenerator.getCurrentFunction, IRGenerator.setLoopLabels, IRGenerator.enterScope,
    IRGenerator.leaveScope, IRGenerator.addInst, IRGenerator.noteCall,
    IRGenerator.newFormalParam]
  repeat' split
  all_goals exact hg

theorem ir_continue_reg {name : String}
    (node : ast_node) (g : IRGenerator) (hg : RegL name g.functions) :
    RegL name (ir_continue node g).2.functions := by
  simp only [ir_continue, IRGenerator.setLastError, IRGenerator.newBinary,
    IRGenerator.newLabel, IRGenerator.newVarValue, IRGenerator.newVarValueWithValue,
    IRGenerator.updateCurrent, IRGenerator.getCurrentFunction, IRGenerator.setLoopLabels,
    IRGenerator.enterScope, IRGenerator.leaveScope, IRGenerator.addInst, IRGenerator.noteCall,
    IRGenerator.newFormalParam]
  repeat' split
  all_goals exact hg

theorem ir_add_reg {name : String} {visit : Visitor} (hv : KeepsRegistered name visit)
    (node : ast_node) (g : IRGenerator) (hg : RegL name g.functions) :
    RegL name (ir_add visit node g).2.functions := by
  simp only [ir_add, IRGenerator.setLastError, IRGenerator.newBinary, IRGenerator.newLabel,
    IRGenerator.newVarValue, IRGenerator.newVarValueWithValue, IRGenerator.updateCurrent,
    IRGenerator.getCurrentFunction, IRGenerator.setLoopLabels, IRGenerator.enterScope,
    IRGenerator.leaveScope, IRGenerator.addInst, IRGenerator.noteCall,
    IRGenerator.newFormalParam]
  repeat' split
  all_goals
    repeat (first
      | assumption | refine eq_step (by assumption) ?_ | refine eq_step3 (by assumption) ?_
      | refine hv _ _ ?_ | dsimp only | split)

theorem ir_mul_reg {name : String} {visit : Visitor} (hv : KeepsRegistered name visit)
    (node : ast_node) (g : IRGenerator) (hg : RegL name g.functions) :
    RegL name (ir_mul visit node g).2.functions := by
  simp only [ir_mul, IRGenerator.setLastError, IRGenerator.newBinary, IRGenerator.newLabel,
    IRGenerator.newVarValue, IRGenerator.newVarValueWithValue, IRGenerator.updateCurrent,
    IRGenerator.getCurrentFunction, IRGenerator.setLoopLabels, IRGenerator.enterScope,
    IRGenerator.leaveScope, IRGenerator.addInst, IRGenerator.noteCall,
    IRGenerator.newFormalParam]
  repeat' split
  all_goals
    repeat (first
      | assumption | refine eq_step (by assumption) ?_ | refine eq_step3 (by assumption) ?_
      | refine hv _ _ ?_ | dsimp only | split)

theorem ir_sub_reg {name : String} {visit : Visitor} (hv : KeepsRegistered name visit)
    (node : ast_node) (g : IRGenerator) (hg : RegL name g.functions) :
    RegL name (ir_sub visit node g).2.functions := by
  simp only [ir_sub, ir_binary_unchecked, IRGenerator.setLastError, IRGenerator.newBinary,
    IRGenerator.newLabel, IRGenerator.newVarValue, IRGenerator.newVarValueWithValue,
    IRGenerator.updateCurrent, IRGenerator.getCurrentFunction, IRGenerator.setLoopLabels,
    IRGenerator.enterScope, IRGenerator.leaveScope, IRGenerator.addInst, IRGenerator.noteCall,
    IRGenerator.newFormalParam]
  repeat' split
  all_goals
    repeat (first
      | assumption | refine eq_step (by assumption) ?_ | refine eq_step3 (by assumption) ?_
      | refine hv _ _ ?_ | dsimp only | split)

theorem ir_div_reg {name : String} {visit : Visitor} (hv : KeepsRegistered name visit)
    (node : ast_node) (g : IRGenerator) (hg : RegL name g.functions) :
    RegL name (ir_div visit node g).2.functions := by
  simp only [ir_div, ir_binary_unchecked, IRGenerator.setLastError, IRGenerator.newBinary,
    IRGenerator.newLabel, IRGenerator.newVarValue, IRGenerator.newVarValueWithValue,
    IRGenerator.updateCurrent, IRGenerator.getCurrentFunction, IRGenerator.setLoopLabels,
    IRGenerator.enterScope, IRGenerator.leaveScope, IRGenerator.addInst, IRGenerator.noteCall,
    IRGenerator.newFormalParam]
  repeat' split
  all_goals
    repeat (first
      | assumption | refine eq_step (by assumption) ?_ | refine eq_step3 (by assumption) ?_
      | refine hv _ _ ?_ | dsimp only | split)

theorem ir_mod_reg {name : String} {visit : Visitor} (hv : KeepsRegistered name visit)
    (node : ast_node) (g : IRGenerator) (hg : RegL name g.functions) :
    RegL name (ir_mod visit node g).2.functions := by
  simp only [ir_mod, ir_binary_unchecked, IRGenerator.setLastError, IRGenerator.newBinary,
    IRGenerator.newLabel, IRGenerator.newVarValue, IRGenerator.newVarValueWithValue,
    IRGenerator.updateCurrent, IRGenerator.getCurrentFunction, IRGenerator.setLoopLabels,
    IRGenerator.enterScope, IRGenerator.leaveScope, IRGenerator.addInst, IRGenerator.noteCall,
    IRGenerator.newFormalParam]
  repeat' split
  all_goals
    repeat (first
      | assumption | refine eq_step (by assumption) ?_ | refine eq_step3 (by assumption) ?_
      | refine hv _ _ ?_ | dsimp only | split)

theorem ir_neg_reg {name : String} {visit : Visitor} (hv : KeepsRegistered name visit)
    (node : ast_node) (g : IRGenerator) (hg : RegL name g.functions) :
    RegL name (ir_neg visit node g).2.functions := by
  simp only [ir_neg, IRGenerator.setLastError, IRGenerator.newBinary, IRGenerator.newLabel,
    IRGenerator.newVarValue, IRGenerator.newVarValueWithValue, IRGenerator.updateCurrent,
    IRGenerator.getCurrentFunction, IRGenerator.setLoopLabels, IRGenerator.enterScope,
    IRGenerator.leaveScope, IRGenerator.addInst, IRGenerator.noteCall,
    IRGenerator.newFormalParam]
  repeat' split
  all_goals
    repeat (first
      | assumption | refine eq_step (by assumption) ?_ | refine eq_step3 (by assumption) ?_
      | refine hv _ _ ?_ | dsimp only | split)

theorem ir_lt_reg {name : String} {visit : Visitor} (hv : KeepsRegistered name visit)
    (node : ast_node) (g : IRGenerator) (hg : RegL name g.functions) :
    RegL name (ir_lt visit node g).2.functions := by
  simp only [ir_lt, ir_relational, IRGenerator.setLastError, IRGenerator.newBinary,
    IRGenerator.newLabel, IRGenerator.newVarValue, IRGenerator.newVarValueWithValue,
    IRGenerator.updateCurrent, IRGenerator.getCurrentFunction, IRGenerator.setLoopLabels,
    IRGenerator.enterScope, IRGenerator.leaveScope, IRGenerator.addInst, IRGenerator.noteCall,
    IRGenerator.newFormalParam]
  repeat' split
  all_goals
    repeat (first
      | assumption | refine eq_step (by assumption) ?_ | refine eq_step3 (by assumption) ?_
      | refine hv _ _ ?_ | dsimp only | split)

theorem ir_gt_reg {name : String} {visit : Visitor} (hv : KeepsRegistered name visit)
    (node : ast_node) (g : IRGenerator) (hg : RegL name g.functions) :
    RegL name (ir_gt visit node g).2.functions := by
  simp only [ir_gt, ir_relational, IRGenerator.setLastError, IRGenerator.newBinary,
    IRGenerator.newLabel, IRGenerator.newVarValue, IRGenerator.newVarValueWithValue,
    IRGenerator.updateCurrent, IRGenerator.getCurrentFunction, IRGenerator.setLoopLabels,
    IRGenerator.enterScope, IRGenerator.leaveScope, IRGenerator.addInst, IRGenerator.noteCall,
    IRGenerator.newFormalParam]
  repeat' split
  all_goals
    repeat (first
      | assumption | refine eq_step (by assumption) ?_ | refine eq_step3 (by assumption) ?_
      | refine hv _ _ ?_ | dsimp only | split)

theorem ir_le_reg {name : String} {visit : Visitor} (hv : KeepsRegistered name visit)
    (node : ast_node) (g : IRGenerator) (hg : RegL name g.functions) :
    RegL name (ir_le visit node g).2.functions := by
  simp only [ir_le, ir_relational, IRGenerator.setLastError, IRGenerator.newBinary,
    IRGenerator.newLabel, IRGenerator.newVarValue, IRGenerator.newVarValueWithValue,
    IRGenerator.updateCurrent, IRGenerator.getCurrentFunction, IRGenerator.setLoopLabels,
    IRGenerator.enterScope, IRGenerator.leaveScope, IRGenerator.addInst, IRGenerator.noteCall,
    IRGenerator.newFormalParam]
  repeat' split
  all_goals
    repeat (first
      | assumption | refine eq_step (by assumption) ?_ | refine eq_step3 (by assumption) ?_
      | refine hv _ _ ?_ | dsimp only | split)

theorem ir_ge_reg {name : String} {visit : Visitor} (hv : KeepsRegistered name visit)
    (node : ast_node) (g : IRGenerator) (hg : RegL name g.functions) :
    RegL name (ir_ge visit node g).2.functions := by
  simp only [ir_ge, ir_relational, IRGenerator.setLastError, IRGenerator.newBinary,
    IRGenerator.newLabel, IRGenerator.newVarValue, IRGenerator.newVarValueWithValue,
    IRGenerator.updateCurrent, IRGenerator.getCurrentFunction, IRGenerator.setLoopLabels,
    IRGenerator.enterScope, IRGenerator.leaveScope, IRGenerator.addInst, IRGenerator.noteCall,
    IRGenerator.newFormalParam]
  repeat' split
  all_goals
    repeat (first
      | assumption | refine eq_step (by assumption) ?_ | refine eq_step3 (by assumption) ?_
      | refine hv _ _ ?_ | dsimp only | split)

theorem ir_eq_reg {name : String} {visit : Visitor} (hv : KeepsRegistered name visit)
    (node : ast_node) (g : IRGenerator) (hg : RegL name g.functions) :
    RegL name (ir_eq visit node g).2.functions := by
  simp only [ir_eq, ir_relational, IRGenerator.setLastError, IRGenerator.newBinary,
    IRGenerator.newLabel, IRGenerator.newVarValue, IRGenerator.newVarValueWithValue,
    IRGenerator.updateCurrent, IRGenerator.getCurrentFunction, IRGenerator.setLoopLabels,
    IRGenerator.enterScope, IRGenerator.leaveScope, IRGenerator.addInst, IRGenerator.noteCall,
    IRGenerator.newFormalParam]
  repeat' split
  all_goals
    repeat (first
      | assumption | refine eq_step (by assumption) ?_ | refine eq_step3 (by assumption) ?_
      | refine hv _ _ ?_ | dsimp only | split)

theorem ir_ne_reg {name : String} {visit : Visitor} (hv : KeepsRegistered name visit)
    (node : ast_node) (g : IRGenerator) (hg : RegL name g.functions) :
    RegL name (ir_ne visit node g).2.functions := by
  simp only [ir_ne, ir_relational, IRGenerator.setLastError, IRGenerator.newBinary,
    IRGenerator.newLabel, IRGenerator.newVarValue, IRGenerator.newVarValueWithValue,
    IRGenerator.updateCurrent, IRGenerator.getCurrentFunction, IRGenerator.setLoopLabels,
    IRGenerator.enterScope, IRGenerator.leaveScope, IRGenerator.addInst, IRGenerator.noteCall,
    IRGenerator.newFormalParam]
  repeat' split
  all_goals
    repeat (first
      | assumption | refine eq_step (by assumption) ?_ | refine eq_step3 (by assumption) ?_
      | refine hv _ _ ?_ | dsimp only | split)

theorem ir_logic_and_reg {name : String} {visit : Visitor} (hv : KeepsRegistered name visit)
    (node : ast_node) (g : IRGenerator) (hg : RegL name g.functions) :
    RegL name (ir_logic_and visit node g).2.functions := by
  simp only [ir_logic_and, IRGenerator.setLastError, IRGenerator.newBinary,
    IRGenerator.newLabel, IRGenerator.newVarValue, IRGenerator.newVarValueWithValue,
    IRGenerator.updateCurrent, IRGenerator.getCurrentFunction, IRGenerator.setLoopLabels,
    IRGenerator.enterScope, IRGenerator.leaveScope, IRGenerator.addInst, IRGenerator.noteCall,
    IRGenerator.newFormalParam]
  repeat' split
  all_goals
    repeat (first
      | assumption | refine eq_step (by assumption) ?_ | refine eq_step3 (by assumption) ?_
      | refine hv _ _ ?_ | refine int_to_bool_reg ?_ | refine takeBoolCheck_reg ?_ | dsimp only
      | split)

theorem ir_logic_or_reg {name : String} {visit : Visitor} (hv : KeepsRegistered name visit)
    (node : ast_node) (g : IRGenerator) (hg : RegL name g.functions) :
    RegL name (ir_logic_or visit node g).2.functions := by
  simp only [ir_logic_or, IRGenerator.setLastError, IRGenerator.newBinary,
    IRGenerator.newLabel, IRGenerator.newVarValue, IRGenerator.newVarValueWithValue,
    IRGenerator.updateCurrent, IRGenerator.getCurrentFunction, IRGenerator.setLoopLabels,
    IRGenerator.enterScope, IRGenerator.leaveScope, IRGenerator.addInst, IRGenerator.noteCall,
    IRGenerator.newFormalParam]
  repeat' split
  all_goals
    repeat (first
      | assumption | refine eq_step (by assumption) ?_ | refine eq_step3 (by assumption) ?_
      | refine hv _ _ ?_ | refine int_to_bool_reg ?_ | refine takeBoolCheck_reg ?_ | dsimp only
      | split)

theorem ir_logic_not_reg {name : String} {visit : Visitor} (hv : KeepsRegistered name visit)
    (node : ast_node) (g : IRGenerator) (hg : RegL name g.functions) :
    RegL name (ir_logic_not visit node g).2.functions := by
  simp only [ir_logic_not, IRGenerator.setLastError, IRGenerator.newBinary,
    IRGenerator.newLabel, IRGenerator.newVarValue, IRGenerator.newVarValueWithValue,
    IRGenerator.updateCurrent, IRGenerator.getCurrentFunction, IRGenerator.setLoopLabels,
    IRGenerator.enterScope, IRGenerator.leaveScope, IRGenerator.addInst, IRGenerator.noteCall,
    IRGenerator.newFormalParam]
  repeat' split
  all_goals
    repeat (first
      | assumption | refine eq_step (by assumption) ?_ | refine eq_step3 (by assumption) ?_
      | refine hv _ _ ?_ | refine int_to_bool_reg ?_ | refine takeBoolCheck_reg ?_ | dsimp only
      | split)

theorem ir_if_reg {name : String} {visit : Visitor} (hv : KeepsRegistered name visit)
    (node : ast_node) (g : IRGenerator) (hg : RegL name g.functions) :
    RegL name (ir_if visit node g).2.functions := by
  simp only [ir_if, IRGenerator.setLastError, IRGenerator.newBinary, IRGenerator.newLabel,
    IRGenerator.newVarValue, IRGenerator.newVarValueWithValue, IRGenerator.updateCurrent,
    IRGenerator.getCurrentFunction, IRGenerator.setLoopLabels, IRGenerator.enterScope,
    IRGenerator.leaveScope, IRGenerator.addInst, IRGenerator.noteCall,
    IRGenerator.newFormalParam]
  repeat' split
  all_goals
    repeat (first
      | assumption | refine eq_step (by assumption) ?_ | refine eq_step3 (by assumption) ?_
      | refine hv _ _ ?_ | dsimp only | split)

theorem ir_if_else_reg {name : String} {visit : Visitor} (hv : KeepsRegistered name visit)
    (node : ast_node) (g : IRGenerator) (hg : RegL name g.functions) :
    RegL name (ir_if_else visit node g).2.functions := by
  simp only [ir_if_else, IRGenerator.setLastError, IRGenerator.newBinary,
    IRGenerator.newLabel, IRGenerator.newVarValue, IRGenerator.newVarValueWithValue,
    IRGenerator.updateCurrent, IRGenerator.getCurrentFunction, IRGenerator.setLoopLabels,
    IRGenerator.enterScope, IRGenerator.leaveScope, IRGenerator.addInst, IRGenerator.noteCall,
    IRGenerator.newFormalParam]
  repeat' split
  all_goals
    repeat (first
      | assumption | refine eq_step (by assumption) ?_ | refine eq_step3 (by assumption) ?_
      | refine hv _ _ ?_ | dsimp only | split)

theorem ir_while_reg {name : String} {visit : Visitor} (hv : KeepsRegistered name visit)
    (node : ast_node) (g : IRGenerator) (hg : RegL name g.functions) :
    RegL name (ir_while visit node g).2.functions := by
  simp only [ir_while, IRGenerator.setLastError, IRGenerator.newBinary, IRGenerator.newLabel,
    IRGenerator.newVarValue, IRGenerator.newVarValueWithValue, IRGenerator.updateCurrent,
    IRGenerator.getCurrentFunction, IRGenerator.setLoopLabels, IRGenerator.enterScope,
    IRGenerator.leaveScope, IRGenerator.addInst, IRGenerator.noteCall,
    IRGenerator.newFormalParam]
  repeat' split
  all_goals
    repeat (first
      | assumption | refine eq_step (by assumption) ?_ | refine eq_step3 (by assumption) ?_
      | refine hv _ _ ?_ | dsimp only | split)

theorem ir_assign_reg {name : String} {visit : Visitor} (hv : KeepsRegistered name visit)
    (node : ast_node) (g : IRGenerator) (hg : RegL name g.functions) :
    RegL name (ir_assign visit node g).2.functions := by
  simp only [ir_assign, IRGenerator.setLastError, IRGenerator.newBinary, IRGenerator.newLabel,
    IRGenerator.newVarValue, IRGenerator.newVarValueWithValue, IRGenerator.updateCurrent,
    IRGenerator.getCurrentFunction, IRGenerator.setLoopLabels, IRGenerator.enterScope,
    IRGenerator.leaveScope, IRGenerator.addInst, IRGenerator.noteCall,
    IRGenerator.newFormalParam]
  repeat' split
  all_goals
    repeat (first
      | assumption | refine eq_step (by assumption) ?_ | refine eq_step3 (by assumption) ?_
      | refine hv _ _ ?_ | dsimp only | split)

theorem ir_return_reg {name : String} {visit : Visitor} (hv : KeepsRegistered name visit)
    (node : ast_node) (g : IRGenerator) (hg : RegL name g.functions) :
    RegL name (ir_return visit node g).2.functions := by
  simp only [ir_return, IRGenerator.setLastError, IRGenerator.newBinary, IRGenerator.newLabel,
    IRGenerator.newVarValue, IRGenerator.newVarValueWithValue, IRGenerator.updateCurrent,
    IRGenerator.getCurrentFunction, IRGenerator.setLoopLabels, IRGenerator.enterScope,
    IRGenerator.leaveScope, IRGenerator.addInst, IRGenerator.noteCall,
    IRGenerator.newFormalParam]
  repeat' split
  all_goals
    repeat (first
      | assumption | refine eq_step (by assumption) ?_ | refine eq_step3 (by assumption) ?_
      | refine hv _ _ ?_ | dsimp only | split)

theorem ir_block_sons_reg {name : String} {visit : Visitor} (hv : KeepsRegistered name visit)
     (sons : List ast_node) :
    ∀  (g : IRGenerator), RegL name g.functions →
      RegL name (ir_block_sons visit sons g).2.functions := by
  induction sons with
  | nil =>
    intro  g hg
    simp only [ir_block_sons]
    exact hg
  | cons head rest ih =>
    intro  g hg
    simp only [ir_block_sons, IRGenerator.setLastError, IRGenerator.newBinary,
      IRGenerator.newLabel, IRGenerator.newVarValue, IRGenerator.newVarValueWithValue,
      IRGenerator.updateCurrent, IRGenerator.getCurrentFunction, IRGenerator.setLoopLabels,
      IRGenerator.enterScope, IRGenerator.leaveScope, IRGenerator.addInst,
      IRGenerator.noteCall, IRGenerator.newFormalParam]
    repeat' split
    all_goals
      repeat (first
        | assumption | refine eq_step (by assumption) ?_ | refine eq_step3 (by assumption) ?_
        | refine hv _ _ ?_ | refine ih _ ?_ | dsimp only | split)

theorem ir_block_reg {name : String} {visit : Visitor} (hv : KeepsRegistered name visit)
    (node : ast_node) (g : IRGenerator) (hg : RegL name g.functions) :
    RegL name (ir_block visit node g).2.functions := by
  simp only [ir_block, IRGenerator.setLastError, IRGenerator.newBinary, IRGenerator.newLabel,
    IRGenerator.newVarValue, IRGenerator.newVarValueWithValue, IRGenerator.updateCurrent,
    IRGenerator.getCurrentFunction, IRGenerator.setLoopLabels, IRGenerator.enterScope,
    IRGenerator.leaveScope, IRGenerator.addInst, IRGenerator.noteCall,
    IRGenerator.newFormalParam]
  repeat' split
  all_goals
    repeat (first
      | assumption | refine eq_step (by assumption) ?_ | refine eq_step3 (by assumption) ?_
      | refine hv _ _ ?_ | refine ir_block_sons_reg hv _ _ ?_ | dsimp only | split)

theorem ir_array_def_dims_reg {name : String} {visit : Visitor} (hv : KeepsRegistered name visit)
     (sons : List ast_node) :
    ∀  (g : IRGenerator), RegL name g.functions →
      RegL name (ir_array_def_dims visit sons g).2.functions := by
  induction sons with
  | nil =>
    intro  g hg
    simp only [ir_array_def_dims]
    exact hg
  | cons head rest ih =>
    intro  g hg
    simp only [ir_array_def_dims, IRGenerator.setLastError, IRGenerator.newBinary,
      IRGenerator.newLabel, IRGenerator.newVarValue, IRGenerator.newVarValueWithValue,
      IRGenerator.updateCurrent, IRGenerator.getCurrentFunction, IRGenerator.setLoopLabels,
      IRGenerator.enterScope, IRGenerator.leaveScope, IRGenerator.addInst,
      IRGenerator.noteCall, IRGenerator.newFormalParam]
    repeat' split
    all_goals
      repeat (first
        | assumption | refine eq_step (by assumption) ?_ | refine eq_step3 (by assumption) ?_
        | refine hv _ _ ?_ | refine ih _ ?_ | dsimp only | split)

theorem ir_array_def_reg {name : String} {visit : Visitor} (hv : KeepsRegistered name visit)
    (node : ast_node) (g : IRGenerator) (hg : RegL name g.functions) :
    RegL name (ir_array_def visit node g).2.functions := by
  simp only [ir_array_def, IRGenerator.setLastError, IRGenerator.newBinary,
    IRGenerator.newLabel, IRGenerator.newVarValue, IRGenerator.newVarValueWithValue,
    IRGenerator.updateCurrent, IRGenerator.getCurrentFunction, IRGenerator.setLoopLabels,
    IRGenerator.enterScope, IRGenerator.leaveScope, IRGenerator.addInst, IRGenerator.noteCall,
    IRGenerator.newFormalParam]
  repeat' split
  all_goals
    repeat (first
      | assumption | refine eq_step (by assumption) ?_ | refine eq_step3 (by assumption) ?_
      | refine hv _ _ ?_ | refine ir_array_def_dims_reg hv _ _ ?_ | dsimp only | split)

theorem visitIndices_reg {name : String} {visit : Visitor} (hv : KeepsRegistered name visit)
     (sons : List ast_node) :
    ∀  (g : IRGenerator), RegL name g.functions →
      RegL name (visitIndices visit sons g).2.functions := by
  induction sons with
  | nil =>
    intro  g hg
    simp only [visitIndices]
    exact hg
  | cons head rest ih =>
    intro  g hg
    simp only [visitIndices, IRGenerator.setLastError, IRGenerator.newBinary,
      IRGenerator.newLabel, IRGenerator.newVarValue, IRGenerator.newVarValueWithValue,
      IRGenerator.updateCurrent, IRGenerator.getCurrentFunction, IRGenerator.setLoopLabels,
      IRGenerator.enterScope, IRGenerator.leaveScope, IRGenerator.addInst,
      IRGenerator.noteCall, IRGenerator.newFormalParam]
    repeat' split
    all_goals
      repeat (first
        | assumption | refine eq_step (by assumption) ?_ | refine eq_step3 (by assumption) ?_
        | refine hv _ _ ?_ | refine ih _ ?_ | dsimp only | split)

theorem regularOffsetLoop_reg {name : String}
    (dimensions : List Int) (indices : List Value) :
    ∀ (i : Nat) (off : Value) (g : IRGenerator), RegL name g.functions →
      RegL name (regularOffsetLoop dimensions i indices off g).2.2.functions := by
  induction indices with
  | nil =>
    intro i off g hg
    simp only [regularOffsetLoop]
    exact hg
  | cons head rest ih =>
    intro i off g hg
    simp only [regularOffsetLoop, IRGenerator.setLastError, IRGenerator.newBinary,
      IRGenerator.newLabel, IRGenerator.newVarValue, IRGenerator.newVarValueWithValue,
      IRGenerator.updateCurrent, IRGenerator.getCurrentFunction, IRGenerator.setLoopLabels,
      IRGenerator.enterScope, IRGenerator.leaveScope, IRGenerator.addInst,
      IRGenerator.noteCall, IRGenerator.newFormalParam]
    repeat' split
    all_goals
      repeat (first
        | assumption | refine eq_step (by assumption) ?_ | refine eq_step3 (by assumption) ?_
        | refine ih _ _ _ ?_ | dsimp only | split)

theorem regularAccessTail_reg {name : String}
    (arrayVar : Value) (dimensions : List Int) (indices : List Value) (g : IRGenerator) (hg : RegL name g.functions) :
    RegL name (regularAccessTail arrayVar dimensions indices g).2.functions := by
  simp only [regularAccessTail, IRGenerator.setLastError, IRGenerator.newBinary,
    IRGenerator.newLabel, IRGenerator.newVarValue, IRGenerator.newVarValueWithValue,
    IRGenerator.updateCurrent, IRGenerator.getCurrentFunction, IRGenerator.setLoopLabels,
    IRGenerator.enterScope, IRGenerator.leaveScope, IRGenerator.addInst, IRGenerator.noteCall,
    IRGenerator.newFormalParam]
  repeat' split
  all_goals
    repeat (first
      | assumption | refine eq_step (by assumption) ?_ | refine eq_step3 (by assumption) ?_
      | refine regularOffsetLoop_reg _ _ _ _ _ ?_ | dsimp only | split)

theorem handleRegularArrayAccess_reg {name : String} {visit : Visitor} (hv : KeepsRegistered name visit)
    (node : ast_node) (arrayVar : Value) (dimensions : List Int) (g : IRGenerator) (hg : RegL name g.functions) :
    RegL name (handleRegularArrayAccess visit node arrayVar dimensions g).2.functions := by
  simp only [handleRegularArrayAccess, IRGenerator.setLastError, IRGenerator.newBinary,
    IRGenerator.newLabel, IRGenerator.newVarValue, IRGenerator.newVarValueWithValue,
    IRGenerator.updateCurrent, IRGenerator.getCurrentFunction, IRGenerator.setLoopLabels,
    IRGenerator.enterScope, IRGenerator.leaveScope, IRGenerator.addInst, IRGenerator.noteCall,
    IRGenerator.newFormalParam]
  repeat' split
  all_goals
    repeat (first
      | assumption | refine eq_step (by assumption) ?_ | refine eq_step3 (by assumption) ?_
      | refine hv _ _ ?_ | refine regularAccessTail_reg _ _ _ _ ?_
      | refine visitIndices_reg hv _ _ ?_ | dsimp only | split)

theorem paramOffsetLoop_reg {name : String}
    (dimensions : List Int) (indices : List Value) :
    ∀ (i : Nat) (off : Value) (g : IRGenerator), RegL name g.functions →
      RegL name (paramOffsetLoop dimensions i indices off g).2.2.functions := by
  induction indices with
  | nil =>
    intro i off g hg
    simp only [paramOffsetLoop]
    exact hg
  | cons head rest ih =>
    intro i off g hg
    simp only [paramOffsetLoop, IRGenerator.setLastError, IRGenerator.newBinary,
      IRGenerator.newLabel, IRGenerator.newVarValue, IRGenerator.newVarValueWithValue,
      IRGenerator.updateCurrent, IRGenerator.getCurrentFunction, IRGenerator.setLoopLabels,
      IRGenerator.enterScope, IRGenerator.leaveScope, IRGenerator.addInst,
      IRGenerator.noteCall, IRGenerator.newFormalParam]
    repeat' split
    all_goals
      repeat (first
        | assumption | refine eq_step (by assumption) ?_ | refine eq_step3 (by assumption) ?_
        | refine ih _ _ _ ?_ | dsimp only | split)

theorem handleParameterArrayAccessWithDimensions_reg {name : String} {visit : Visitor} (hv : KeepsRegistered name visit)
    (node : ast_node) (arrayVar : Value) (dimensions : List Int) (g : IRGenerator) (hg : RegL name g.functions) :
    RegL name (handleParameterArrayAccessWithDimensions visit node arrayVar dimensions g).2.functions := by
  simp only [handleParameterArrayAccessWithDimensions, IRGenerator.setLastError,
    IRGenerator.newBinary, IRGenerator.newLabel, IRGenerator.newVarValue,
    IRGenerator.newVarValueWithValue, IRGenerator.updateCurrent,
    IRGenerator.getCurrentFunction, IRGenerator.setLoopLabels, IRGenerator.enterScope,
    IRGenerator.leaveScope, IRGenerator.addInst, IRGenerator.noteCall,
    IRGenerator.newFormalParam]
  repeat' split
  all_goals
    repeat (first
      | assumption | refine eq_step (by assumption) ?_ | refine eq_step3 (by assumption) ?_
      | refine hv _ _ ?_ | refine paramOffsetLoop_reg _ _ _ _ _ ?_
      | refine visitIndices_reg hv _ _ ?_ | dsimp only | split)

theorem handleSimplePointerParamAccess_reg {name : String} {visit : Visitor} (hv : KeepsRegistered name visit)
    (node : ast_node) (arrayVar : Value) (g : IRGenerator) (hg : RegL name g.functions) :
    RegL name (handleSimplePointerParamAccess visit node arrayVar g).2.functions := by
  simp only [handleSimplePointerParamAccess, IRGenerator.setLastError, IRGenerator.newBinary,
    IRGenerator.newLabel, IRGenerator.newVarValue, IRGenerator.newVarValueWithValue,
    IRGenerator.updateCurrent, IRGenerator.getCurrentFunction, IRGenerator.setLoopLabels,
    IRGenerator.enterScope, IRGenerator.leaveScope, IRGenerator.addInst, IRGenerator.noteCall,
    IRGenerator.newFormalParam]
  repeat' split
  all_goals
    repeat (first
      | assumption | refine eq_step (by assumption) ?_ | refine eq_step3 (by assumption) ?_
      | refine hv _ _ ?_ | dsimp only | split)

theorem ir_array_access_reg {name : String} {visit : Visitor} (hv : KeepsRegistered name visit)
    (node : ast_node) (g : IRGenerator) (hg : RegL name g.functions) :
    RegL name (ir_array_access visit node g).2.functions := by
  simp only [ir_array_access, IRGenerator.setLastError, IRGenerator.newBinary,
    IRGenerator.newLabel, IRGenerator.newVarValue, IRGenerator.newVarValueWithValue,
    IRGenerator.updateCurrent, IRGenerator.getCurrentFunction, IRGenerator.setLoopLabels,
    IRGenerator.enterScope, IRGenerator.leaveScope, IRGenerator.addInst, IRGenerator.noteCall,
    IRGenerator.newFormalParam]
  repeat' split
  all_goals
    repeat (first
      | assumption | refine eq_step (by assumption) ?_ | refine eq_step3 (by assumption) ?_
      | refine hv _ _ ?_ | refine handleRegularArrayAccess_reg hv _ _ _ _ ?_
      | refine handleParameterArrayAccessWithDimensions_reg hv _ _ _ _ ?_
      | refine handleSimplePointerParamAccess_reg hv _ _ _ ?_ | dsimp only | split)

theorem arrayAccessOffsetLoop_reg {name : String} {visit : Visitor} (hv : KeepsRegistered name visit)
    (dimensions : List Int) (sons : List ast_node) :
    ∀ (i : Nat) (off : Value) (g : IRGenerator), RegL name g.functions →
      RegL name (arrayAccessOffsetLoop visit dimensions i sons off g).2.functions := by
  induction sons with
  | nil =>
    intro i off g hg
    simp only [arrayAccessOffsetLoop]
    exact hg
  | cons head rest ih =>
    intro i off g hg
    simp only [arrayAccessOffsetLoop, IRGenerator.setLastError, IRGenerator.newBinary,
      IRGenerator.newLabel, IRGenerator.newVarValue, IRGenerator.newVarValueWithValue,
      IRGenerator.updateCurrent, IRGenerator.getCurrentFunction, IRGenerator.setLoopLabels,
      IRGenerator.enterScope, IRGenerator.leaveScope, IRGenerator.addInst,
      IRGenerator.noteCall, IRGenerator.newFormalParam]
    repeat' split
    all_goals
      repeat (first
        | assumption | refine eq_step (by assumption) ?_ | refine eq_step3 (by assumption) ?_
        | refine hv _ _ ?_ | refine ih _ _ _ ?_ | dsimp only | split)

theorem calculateArrayAccessOffset_reg {name : String} {visit : Visitor} (hv : KeepsRegistered name visit)
    (node : ast_node) (g : IRGenerator) (hg : RegL name g.functions) :
    RegL name (calculateArrayAccessOffset visit node g).2.functions := by
  simp only [calculateArrayAccessOffset, IRGenerator.setLastError, IRGenerator.newBinary,
    IRGenerator.newLabel, IRGenerator.newVarValue, IRGenerator.newVarValueWithValue,
    IRGenerator.updateCurrent, IRGenerator.getCurrentFunction, IRGenerator.setLoopLabels,
    IRGenerator.enterScope, IRGenerator.leaveScope, IRGenerator.addInst, IRGenerator.noteCall,
    IRGenerator.newFormalParam]
  repeat' split
  all_goals
    repeat (first
      | assumption | refine eq_step (by assumption) ?_ | refine eq_step3 (by assumption) ?_
      | refine hv _ _ ?_ | refine arrayAccessOffsetLoop_reg hv _ _ _ _ _ ?_ | dsimp only | split)

theorem ir_function_call_arg_reg {name : String} {visit : Visitor} (hv : KeepsRegistered name visit)
    (funcName : String) (flag : Bool) (son : ast_node) (g : IRGenerator) (hg : RegL name g.functions) :
    RegL name (ir_function_call_arg visit funcName flag son g).2.functions := by
  simp only [ir_function_call_arg, IRGenerator.setLastError, IRGenerator.newBinary,
    IRGenerator.newLabel, IRGenerator.newVarValue, IRGenerator.newVarValueWithValue,
    IRGenerator.updateCurrent, IRGenerator.getCurrentFunction, IRGenerator.setLoopLabels,
    IRGenerator.enterScope, IRGenerator.leaveScope, IRGenerator.addInst, IRGenerator.noteCall,
    IRGenerator.newFormalParam]
  repeat' split
  all_goals
    repeat (first
      | assumption | refine eq_step (by assumption) ?_ | refine eq_step3 (by assumption) ?_
      | refine hv _ _ ?_ | refine calculateArrayAccessOffset_reg hv _ _ ?_ | dsimp only | split)

theorem ir_function_call_args_reg {name : String} {visit : Visitor} (hv : KeepsRegistered name visit)
    (funcName : String) (formalParams : List Value) (sons : List ast_node) :
    ∀ (i : Nat) (g : IRGenerator), RegL name g.functions →
      RegL name (ir_function_call_args visit funcName formalParams i sons g).2.functions := by
  induction sons with
  | nil =>
    intro i g hg
    simp only [ir_function_call_args]
    exact hg
  | cons head rest ih =>
    intro i g hg
    simp only [ir_function_call_args, IRGenerator.setLastError, IRGenerator.newBinary,
      IRGenerator.newLabel, IRGenerator.newVarValue, IRGenerator.newVarValueWithValue,
      IRGenerator.updateCurrent, IRGenerator.getCurrentFunction, IRGenerator.setLoopLabels,
      IRGenerator.enterScope, IRGenerator.leaveScope, IRGenerator.addInst,
      IRGenerator.noteCall, IRGenerator.newFormalParam]
    repeat' split
    all_goals
      repeat (first
        | assumption | refine eq_step (by assumption) ?_ | refine eq_step3 (by assumption) ?_
        | refine hv _ _ ?_ | refine ir_function_call_arg_reg hv _ _ _ _ ?_ | refine ih _ _ ?_
        | dsimp only | split)

theorem ir_function_call_reg {name : String} {visit : Visitor} (hv : KeepsRegistered name visit)
    (node : ast_node) (g : IRGenerator) (hg : RegL name g.functions) :
    RegL name (ir_function_call visit node g).2.functions := by
  simp only [ir_function_call, IRGenerator.setLastError, IRGenerator.newBinary,
    IRGenerator.newLabel, IRGenerator.newVarValue, IRGenerator.newVarValueWithValue,
    IRGenerator.updateCurrent, IRGenerator.getCurrentFunction, IRGenerator.setLoopLabels,
    IRGenerator.enterScope, IRGenerator.leaveScope, IRGenerator.addInst, IRGenerator.noteCall,
    IRGenerator.newFormalParam]
  repeat' split
  all_goals
    repeat (first
      | assumption | refine eq_step (by assumption) ?_ | refine eq_step3 (by assumption) ?_
      | refine hv _ _ ?_ | refine ir_function_call_args_reg hv _ _ _ _ _ ?_ | dsimp only | split)

theorem ir_variable_declare_reg {name : String} {visit : Visitor} (hv : KeepsRegistered name visit)
    (node : ast_node) (g : IRGenerator) (hg : RegL name g.functions) :
    RegL name (ir_variable_declare visit node g).2.functions := by
  simp only [ir_variable_declare, IRGenerator.setLastError, IRGenerator.newBinary,
    IRGenerator.newLabel, IRGenerator.newVarValue, IRGenerator.newVarValueWithValue,
    IRGenerator.updateCurrent, IRGenerator.getCurrentFunction, IRGenerator.setLoopLabels,
    IRGenerator.enterScope, IRGenerator.leaveScope, IRGenerator.addInst, IRGenerator.noteCall,
    IRGenerator.newFormalParam]
  repeat' split
  all_goals
    repeat (first
      | assumption | refine eq_step (by assumption) ?_ | refine eq_step3 (by assumption) ?_
      | refine hv _ _ ?_ | refine ir_array_def_reg hv _ _ ?_ | dsimp only | split)

theorem ir_declare_statment_sons_reg {name : String} {visit : Visitor} (hv : KeepsRegistered name visit)
     (sons : List ast_node) :
    ∀  (g : IRGenerator), RegL name g.functions →
      RegL name (ir_declare_statment_sons visit sons g).2.functions := by
  induction sons with
  | nil =>
    intro  g hg
    simp only [ir_declare_statment_sons]
    exact hg
  | cons head rest ih =>
    intro  g hg
    simp only [ir_declare_statment_sons, IRGenerator.setLastError, IRGenerator.newBinary,
      IRGenerator.newLabel, IRGenerator.newVarValue, IRGenerator.newVarValueWithValue,
      IRGenerator.updateCurrent, IRGenerator.getCurrentFunction, IRGenerator.setLoopLabels,
      IRGenerator.enterScope, IRGenerator.leaveScope, IRGenerator.addInst,
      IRGenerator.noteCall, IRGenerator.newFormalParam]
    repeat' split
    all_goals
      repeat (first
        | assumption | refine eq_step (by assumption) ?_ | refine eq_step3 (by assumption) ?_
        | refine hv _ _ ?_ | refine ir_variable_declare_reg hv _ _ ?_ | refine ih _ ?_
        | dsimp only | split)

theorem ir_declare_statment_reg {name : String} {visit : Visitor} (hv : KeepsRegistered name visit)
    (node : ast_node) (g : IRGenerator) (hg : RegL name g.functions) :
    RegL name (ir_declare_statment visit node g).2.functions := by
  simp only [ir_declare_statment, IRGenerator.setLastError, IRGenerator.newBinary,
    IRGenerator.newLabel, IRGenerator.newVarValue, IRGenerator.newVarValueWithValue,
    IRGenerator.updateCurrent, IRGenerator.getCurrentFunction, IRGenerator.setLoopLabels,
    IRGenerator.enterScope, IRGenerator.leaveScope, IRGenerator.addInst, IRGenerator.noteCall,
    IRGenerator.newFormalParam]
  repeat' split
  all_goals
    repeat (first
      | assumption | refine eq_step (by assumption) ?_ | refine eq_step3 (by assumption) ?_
      | refine hv _ _ ?_ | refine ir_declare_statment_sons_reg hv _ _ ?_ | dsimp only | split)

theorem ir_function_formal_params_loop_reg {name : String}
    (sons : List ast_node) (params : List Value) :
    ∀ (i : Nat) (g : IRGenerator), RegL name g.functions →
      RegL name (ir_function_formal_params_loop sons i params g).2.functions := by
  induction params with
  | nil =>
    intro i g hg
    simp only [ir_function_formal_params_loop]
    exact hg
  | cons head rest ih =>
    intro i g hg
    simp only [ir_function_formal_params_loop, IRGenerator.setLastError,
      IRGenerator.newBinary, IRGenerator.newLabel, IRGenerator.newVarValue,
      IRGenerator.newVarValueWithValue, IRGenerator.updateCurrent,
      IRGenerator.getCurrentFunction, IRGenerator.setLoopLabels, IRGenerator.enterScope,
      IRGenerator.leaveScope, IRGenerator.addInst, IRGenerator.noteCall,
      IRGenerator.newFormalParam]
    repeat' split
    all_goals
      repeat (first
        | assumption | refine eq_step (by assumption) ?_ | refine eq_step3 (by assumption) ?_
        | refine ih _ _ ?_ | dsimp only | split)

theorem ir_function_formal_params_reg {name : String}
    (node : ast_node) (g : IRGenerator) (hg : RegL name g.functions) :
    RegL name (ir_function_formal_params node g).2.functions := by
  simp only [ir_function_formal_params, IRGenerator.setLastError, IRGenerator.newBinary,
    IRGenerator.newLabel, IRGenerator.newVarValue, IRGenerator.newVarValueWithValue,
    IRGenerator.updateCurrent, IRGenerator.getCurrentFunction, IRGenerator.setLoopLabels,
    IRGenerator.enterScope, IRGenerator.leaveScope, IRGenerator.addInst, IRGenerator.noteCall,
    IRGenerator.newFormalParam]
  repeat' split
  all_goals
    repeat (first
      | assumption | refine eq_step (by assumption) ?_ | refine eq_step3 (by assumption) ?_
      | refine ir_function_formal_params_loop_reg _ _ _ _ ?_ | dsimp only | split)

theorem paramsFromAst_reg {name : String}
     (sons : List ast_node) :
    ∀  (g : IRGenerator), RegL name g.functions →
      RegL name (paramsFromAst sons g).2.functions := by
  induction sons with
  | nil =>
    intro  g hg
    simp only [paramsFromAst]
    exact hg
  | cons head rest ih =>
    intro  g hg
    simp only [paramsFromAst, IRGenerator.setLastError, IRGenerator.newBinary,
      IRGenerator.newLabel, IRGenerator.newVarValue, IRGenerator.newVarValueWithValue,
      IRGenerator.updateCurrent, IRGenerator.getCurrentFunction, IRGenerator.setLoopLabels,
      IRGenerator.enterScope, IRGenerator.leaveScope, IRGenerator.addInst,
      IRGenerator.noteCall, IRGenerator.newFormalParam]
    repeat' split
    all_goals
      repeat (first
        | assumption | refine eq_step (by assumption) ?_ | refine eq_step3 (by assumption) ?_
        | refine ih _ ?_ | dsimp only | split)

theorem ir_function_define_reg {name : String} {visit : Visitor} (hv : KeepsRegistered name visit)
    (node : ast_node) (g : IRGenerator) (hg : RegL name g.functions) :
    RegL name (ir_function_define visit node g).2.functions := by
  unfold ir_function_define
  split
  · split
    · exact hg
    · dsimp only
      split
      · rename_i g1 hfound
        refine eq_step hfound ?_
        repeat' split
        all_goals
          repeat (first
            | assumption
            | refine eq_step (by assumption) ?_
            | refine newFunction_reg ?_
            | refine paramsFromAst_reg _ _ ?_
            | dsimp only [IRGenerator.setLastError])
      · rename_i newFunc g1 hfound
        have h1 : RegL name g1.functions := by
          refine eq_step hfound ?_
          repeat' split
          all_goals
            repeat (first
              | assumption
              | refine eq_step (by assumption) ?_
              | refine newFunction_reg ?_
              | refine paramsFromAst_reg _ _ ?_
              | dsimp only [IRGenerator.setLastError])
        split
        · rename_i g6 hparams
          have h6 : RegL name g6.functions := by
            refine eq_step hparams ?_
            refine ir_function_formal_params_reg _ _ ?_
            dsimp only [IRGenerator.updateCurrent, IRGenerator.newLabel]
            split <;> exact h1
          exact h6
        · rename_i v g6 hparams
          have h6 : RegL name g6.functions := by
            refine eq_step hparams ?_
            refine ir_function_formal_params_reg _ _ ?_
            dsimp only [IRGenerator.updateCurrent, IRGenerator.newLabel]
            split <;> exact h1
          split
          · rename_i g9 hblock
            refine eq_step hblock ?_
            refine ir_block_reg hv _ _ ?_
            dsimp only [IRGenerator.updateCurrent]
            split <;> exact h6
          · rename_i block g9 hblock
            have h9 : RegL name g9.functions := by
              refine eq_step hblock ?_
              refine ir_block_reg hv _ _ ?_
              dsimp only [IRGenerator.updateCurrent]
              split <;> exact h6
            exact setCurrentFunction_reg h9
  · exact hg

theorem collectParams_reg {name : String} (funcName : String) (sons : List ast_node) :
    ∀ (i : Nat) (g : IRGenerator), RegL name g.functions →
      RegL name (collectParams funcName i sons g).2.functions := by
  induction sons with
  | nil =>
    intro i g hg
    simp only [collectParams]
    exact hg
  | cons head rest ih =>
    intro i g hg
    simp only [collectParams, IRGenerator.newFormalParam]
    repeat' split
    all_goals
      repeat (first
        | assumption
        | refine eq_step (by assumption) ?_
        | refine ih _ _ ?_
        | dsimp only
        | split)

theorem newFunction_registers (g : IRGenerator) (fn : String) (t : IRType) (ps : List Value) :
    RegL fn (g.newFunction fn t ps).2.functions := by
  simp only [IRGenerator.newFunction, IRGenerator.findFunction]
  split
  · rename_i f hf
    simp only [RegL, hf, Option.isSome_some]
  · simp only [RegL]
    rw [List.find?_isSome]
    exact ⟨_, List.mem_append_right _ (List.mem_singleton.mpr rfl), by simp⟩

theorem registerPrototype_reg {name : String} (son : ast_node) (g : IRGenerator)
    (hg : RegL name g.functions) : RegL name (registerPrototype son g).functions := by
  simp only [registerPrototype, IRGenerator.newFormalParam]
  split
  · refine newFunction_reg ?_
    repeat' split
    all_goals
      repeat (first
        | assumption
        | refine collectParams_reg _ _ _ _ ?_
        | dsimp only)
  · exact hg

theorem registerPrototype_registers (son type_node name_node param_node : ast_node)
    (rest : List ast_node) (g : IRGenerator)
    (hsons : son.sons = type_node :: name_node :: param_node :: rest) :
    RegL name_node.name (registerPrototype son g).functions := by
  simp only [registerPrototype, hsons]
  exact newFunction_registers _ _ _ _

theorem compileUnitPrototypes_reg {name : String} (sons : List ast_node) :
    ∀ g : IRGenerator, RegL name g.functions →
      RegL name (compileUnitPrototypes sons g).functions := by
  induction sons with
  | nil => intro g hg; simpa only [compileUnitPrototypes] using hg
  | cons head rest ih =>
    intro g hg
    simp only [compileUnitPrototypes]
    split
    · exact ih _ (registerPrototype_reg _ _ hg)
    · exact ih _ hg

theorem compileUnitPrototypes_registers (sons : List ast_node)
    (son type_node name_node param_node : ast_node) (rest : List ast_node)
    (hmem : son ∈ sons) (hkind : son.node_type = .AST_OP_FUNC_DEF)
    (hsons : son.sons = type_node :: name_node :: param_node :: rest) :
    ∀ g : IRGenerator, RegL name_node.name (compileUnitPrototypes sons g).functions := by
  induction sons with
  | nil => simp at hmem
  | cons head tail ih =>
    intro g
    simp only [compileUnitPrototypes]
    rcases List.mem_cons.mp hmem with rfl | hin
    · rw [if_pos hkind]
      exact compileUnitPrototypes_reg _ _ (registerPrototype_registers _ _ _ _ _ _ hsons)
    · split
      · exact ih hin _
      · exact ih hin _

theorem compileUnitGlobals_reg {name : String} {visit : Visitor}
    (hv : KeepsRegistered name visit) (sons : List ast_node) :
    ∀ g : IRGenerator, RegL name g.functions →
      RegL name (compileUnitGlobals visit sons g).2.functions := by
  induction sons with
  | nil => intro g hg; simpa only [compileUnitGlobals] using hg
  | cons head rest ih =>
    intro g hg
    simp only [compileUnitGlobals, IRGenerator.setLastError]
    repeat' split
    all_goals
      repeat (first
        | assumption
        | refine eq_step (by assumption) ?_
        | refine hv _ _ ?_
        | refine ih _ ?_
        | dsimp only)

theorem compileUnitFunctions_reg {name : String} {visit : Visitor}
    (hv : KeepsRegistered name visit) (sons : List ast_node) :
    ∀ g : IRGenerator, RegL name g.functions →
      RegL name (compileUnitFunctions visit sons g).2.functions := by
  induction sons with
  | nil => intro g hg; simpa only [compileUnitFunctions] using hg
  | cons head rest ih =>
    intro g hg
    simp only [compileUnitFunctions]
    repeat' split
    all_goals
      repeat (first
        | assumption
        | refine eq_step (by assumption) ?_
        | refine hv _ _ ?_
        | refine ih _ ?_
        | dsimp only)

theorem ir_compile_unit_reg {name : String} {visit : Visitor} (hv : KeepsRegistered name visit)
    (node : ast_node) (g : IRGenerator) (hg : RegL name g.functions) :
    RegL name (ir_compile_unit visit node g).2.functions := by
  simp only [ir_compile_unit]
  repeat' split
  all_goals
    repeat (first
      | assumption
      | refine eq_step (by assumption) ?_
      | refine compileUnitFunctions_reg hv _ _ ?_
      | refine compileUnitPrototypes_reg _ _ ?_
      | refine compileUnitGlobals_reg hv _ _ ?_
      | refine setCurrentFunction_reg ?_
      | dsimp only)

theorem dispatch_reg {name : String} {visit : Visitor} (hv : KeepsRegistered name visit)
    (node : ast_node) (g : IRGenerator) (hg : RegL name g.functions) :
    RegL name (dispatch visit node g).2.functions := by
  unfold dispatch
  split
  exacts [ir_leaf_node_uint_reg _ _ hg,
    ir_leaf_node_var_id_reg _ _ hg,
    ir_leaf_node_type_reg _ _ hg,
    ir_sub_reg hv _ _ hg,
    ir_add_reg hv _ _ hg,
    ir_mul_reg hv _ _ hg,
    ir_div_reg hv _ _ hg,
    ir_mod_reg hv _ _ hg,
    ir_neg_reg hv _ _ hg,
    ir_lt_reg hv _ _ hg,
    ir_gt_reg hv _ _ hg,
    ir_le_reg hv _ _ hg,
    ir_ge_reg hv _ _ hg,
    ir_eq_reg hv _ _ hg,
    ir_ne_reg hv _ _ hg,
    ir_logic_and_reg hv _ _ hg,
    ir_logic_or_reg hv _ _ hg,
    ir_logic_not_reg hv _ _ hg,
    ir_if_reg hv _ _ hg,
    ir_if_else_reg hv _ _ hg,
    ir_while_reg hv _ _ hg,
    ir_break_reg _ _ hg,
    ir_continue_reg _ _ hg,
    ir_array_def_reg hv _ _ hg,
    ir_array_access_reg hv _ _ hg,
    ir_assign_reg hv _ _ hg,
    ir_return_reg hv _ _ hg,
    ir_function_call_reg hv _ _ hg,
    ir_function_define_reg hv _ _ hg,
    ir_function_formal_params_reg _ _ hg,
    ir_function_formal_param_array_reg _ _ hg,
    ir_empty_stmt_reg _ _ hg,
    ir_declare_statment_reg hv _ _ hg,
    ir_variable_declare_reg hv _ _ hg,
    ir_block_reg hv _ _ hg,
    ir_compile_unit_reg hv _ _ hg,
    ir_default_reg _ _ hg]

/-- No visit removes a function from the function table. -/
theorem ir_visit_ast_node_reg (name : String) :
    ∀ n : Nat, KeepsRegistered name (ir_visit_ast_node n) := by
  intro n
  induction n with
  | zero => intro node g hg; exact hg
  | succ n ih => intro node g hg; exact dispatch_reg ih node g hg

theorem compileUnitFunctions_append (visit : Visitor) (before rest : List ast_node) :
    ∀ g : IRGenerator,
      compileUnitFunctions visit (before ++ rest) g =
        match compileUnitFunctions visit before g with
        | (false, g1) => (false, g1)
        | (true, gk) => compileUnitFunctions visit rest gk := by
  induction before with
  | nil => intro g; simp [compileUnitFunctions]
  | cons head tail ih =>
    intro g
    simp only [List.cons_append, compileUnitFunctions]
    split
    · split
      · rfl
      · exact ih _
    · exact ih _

/-- Claim C20: in a compile unit whose file-scope declarations lower successfully, the
function definitions are lowered only after the prototype of every definition has been
registered. When the third pass reaches a definition `son` in state `gk`, the lowering
of the unit continues from `son` in `gk`, and every function `fdef` defined anywhere in
the unit, also after `son`, is found in the function table of `gk`; no visit removes it
from the table; and a call to it with as many arguments as it has parameters, whose
arguments lower successfully, yields the call instruction and does not fail as
undefined. -/
theorem prototypes_registered_before_bodies (n : Nat)
    (node son fdef type_node name_node param_node : ast_node)
    (before after rest : List ast_node) (g g1 gk : IRGenerator)
    (hnt : node.node_type = .AST_OP_COMPILE_UNIT)
    (hglob : compileUnitGlobals (ir_visit_ast_node n) node.sons (g.setCurrentFunction none) =
      (true, g1))
    (hsplit : node.sons = before ++ son :: after)
    (hbefore : compileUnitFunctions (ir_visit_ast_node n) before
      (compileUnitPrototypes node.sons g1) = (true, gk))
    (hmem : fdef ∈ node.sons) (hkind : fdef.node_type = .AST_OP_FUNC_DEF)
    (hsons : fdef.sons = type_node :: name_node :: param_node :: rest) :
    (ir_visit_ast_node (n + 1) node g =
      match compileUnitFunctions (ir_visit_ast_node n) (son :: after) gk with
      | (false, g2) => (none, g2)
      | (true, g2) => (some {}, g2)) ∧
    (gk.findFunction name_node.name).isSome = true ∧
    (∀ (m : Nat) (stmt : ast_node) (g' : IRGenerator),
      (g'.findFunction name_node.name).isSome = true →
      ((ir_visit_ast_node m stmt g').2.findFunction name_node.name).isSome = true) ∧
    (∀ (m : Nat) (call nameNode paramsNode : ast_node) (rest' : List ast_node)
      (g' g3 : IRGenerator) (func callee : Function) (argInsts : List Instruction)
      (realParams : List (Option Value)),
      call.node_type = .AST_OP_FUNC_CALL → call.sons = nameNode :: paramsNode :: rest' →
      nameNode.name = name_node.name →
      g'.findFunction name_node.name = some callee → g'.currentFunc = some func →
      ir_function_call_args (ir_visit_ast_node m) nameNode.name callee.params 0
          paramsNode.sons (g'.noteCall paramsNode.sons.length) =
        (some (argInsts, realParams), g3) →
      paramsNode.sons.length = callee.params.length →
      ir_visit_ast_node (m + 1) call g' =
        (some { blockInsts := argInsts ++
                  [.FuncCall g3.nextId callee.name realParams callee.returnType],
                val := some (.InstructionResult g3.nextId callee.returnType) },
          { g3 with nextId := g3.nextId + 1 })) := by
  refine ⟨?_, ?_, ?_, ?_⟩
  · rw [ir_visit_ast_node_succ]
    simp only [dispatch, hnt, ir_compile_unit, hglob]
    rw [hsplit, compileUnitFunctions_append, ← hsplit, hbefore]
  · have h := compileUnitFunctions_reg (ir_visit_ast_node_reg name_node.name n) before _
      (compileUnitPrototypes_registers node.sons fdef type_node name_node param_node rest
        hmem hkind hsons g1)
    rw [hbefore] at h
    exact h
  · intro m stmt g' hg'
    exact ir_visit_ast_node_reg name_node.name m stmt g' hg'
  · intro m call nameNode paramsNode rest' g' g3 func callee argInsts realParams
      hcall hcs hname hfind hfunc hargs hlen
    rw [ir_visit_ast_node_succ]
    have hl := ir_function_call_args_length _ _ _ _ _ _ _ _ _ hargs
    rw [hlen] at hl
    rw [hname, hlen] at hargs
    simp [dispatch, hcall, ir_function_call, hcs, hname, hfind,
      IRGenerator.getCurrentFunction, hfunc, hargs, hl, hlen]

/-- Witness of C20: in `int f() { return g(1); } int g(int a) { return a; }` the
function `g` is registered when the lowering of `f` starts, and the unit lowers
successfully with the call of `g` in the code of `f`. -/
theorem prototypes_registered_before_bodies_witness :
    ((compileUnitPrototypes exForward.sons {}).findFunction "g").isSome = true ∧
      ((ir_visit_ast_node 6 exForward {}).2.findFunction "f").map (fun f => f.interCode) =
        some [.Entry,
              .FuncCall 3 "g" [some (.ConstInt 1)] .int32,
              .Move (some (.LocalVariable 2 .int32 "")) (some (.InstructionResult 3 .int32))
                false false,
              .Goto (some 1),
              .Label 1,
              .Exit (some (.LocalVariable 2 .int32 ""))] :=
  ⟨(prototypes_registered_before_bodies 5 exForward exCaller exCallee (exType .int32)
    (exVar "g") (exNode .AST_OP_FUNC_FORMAL_PARAMS [exParam "a"])
    [] [exCallee] [exNode .AST_OP_BLOCK [exNode .AST_OP_RETURN [exVar "a"]]]
    {} {} (compileUnitPrototypes exForward.sons {})
    rfl rfl rfl rfl (List.mem_cons_of_mem _ (List.mem_cons_self _ _)) rfl rfl).2.1,
   by decide!⟩

/-! ### Function definitions, continued -/

theorem formal_params_code (sons : List ast_node) (params : List Value) :
    ∀ (i : Nat) (g : IRGenerator) (f : Function), g.currentFunc = some f →
      ∃ g', ir_function_formal_params_loop sons i params g = (some (), g') ∧
        g'.currentFunc =
          some { f with interCode := f.interCode ++ paramMoves sons i g.nextId params } := by
  induction params with
  | nil =>
    intro i g f hf
    exact ⟨g, by simp [ir_function_formal_params_loop], by simp [paramMoves, hf]⟩
  | cons param rest ih =>
    intro i g f hf
    by_cases harr : isArrayParamAt sons i = true
    · obtain ⟨g', h1, h2⟩ := ih (i + 1)
        ({ g with scopes := bindInScopes param.getName param g.scopes }) f hf
      refine ⟨g', ?_, ?_⟩
      · simp only [ir_function_formal_params_loop, IRGenerator.newVarValueWithValue]
        split
        · exact h1
        · rename_i hno
          exact absurd harr hno
      · simp only [paramMoves, harr, if_true]
        exact h2
    · obtain ⟨g', h1, h2⟩ := ih (i + 1)
        ((g.newVarValue param.getType param.getName).2.addInst
          [.Move (some (g.newVarValue param.getType param.getName).1) (some param) false false])
        { f with interCode := f.interCode ++
            [.Move (some (.LocalVariable g.nextId param.getType param.getName)) (some param)
              false false] }
        (by simp [IRGenerator.addInst, IRGenerator.updateCurrent, IRGenerator.newVarValue, hf])
      refine ⟨g', ?_, ?_⟩
      · simp only [ir_function_formal_params_loop]
        split
        · rename_i hyes
          exact absurd hyes harr
        · exact h1
      · rw [h2]
        simp [paramMoves, harr, IRGenerator.addInst, IRGenerator.updateCurrent,
          IRGenerator.newVarValue]

theorem globalInitMoves_congr (g g' : IRGenerator)
    (h : ∀ name, g.findVarValue name = g'.findVarValue name) (table : List (String × Int)) :
    globalInitMoves g table = globalInitMoves g' table := by
  induction table with
  | nil => rfl
  | cons entry rest ih =>
    obtain ⟨varName, initValue⟩ := entry
    simp only [globalInitMoves, h varName, ih]

theorem find_after_store (name : String) (cur : Function) (hname : cur.name = name)
    (fs : List Function) (h : RegL name fs) :
    (fs.map (fun h => if h.name == cur.name then cur else h)).find?
      (fun f => f.name == name) = some cur := by
  induction fs with
  | nil => simp [RegL] at h
  | cons head tail ih =>
    by_cases hh : head.name = name
    · simp only [List.map_cons]
      rw [if_pos (by simp [hh, hname])]
      exact List.find?_cons_of_pos _ (by simp [hname])
    · have htail : RegL name tail := by
        unfold RegL at h
        rw [List.find?_cons_of_neg _ (by simp [hh])] at h
        exact h
      simp only [List.map_cons]
      rw [if_neg (by simp [hh, hname])]
      rw [List.find?_cons_of_neg _ (by simp [hh])]
      exact ih htail

theorem defineEntry_currentFunc (g : IRGenerator) (newFunc : Function) (name : String) :
    (defineEntry g newFunc name).currentFunc =
        some { newFunc with
               interCode := newFunc.interCode ++ [.Entry] ++ globalInitCode g name,
               exitLabel := some g.nextId } ∧
      (defineEntry g newFunc name).nextId = g.nextId + 1 ∧
      (defineEntry g newFunc name).functions = g.functions := by
  have hmoves : globalInitMoves
      (((g.setCurrentFunction (some newFunc)).enterScope).addInst [.Entry])
      (g.unorderedOrder g.globalVarInitValues) =
        globalInitMoves g (g.unorderedOrder g.globalVarInitValues) := by
    apply globalInitMoves_congr
    intro nm
    simp [IRGenerator.findVarValue, IRGenerator.setCurrentFunction, IRGenerator.enterScope,
      IRGenerator.addInst, IRGenerator.updateCurrent, lookupScopes, lookupScope]
  simp only [IRGenerator.setCurrentFunction, IRGenerator.enterScope, IRGenerator.addInst,
    IRGenerator.updateCurrent, Option.map_some'] at hmoves
  by_cases hmain : name = "main" ∧ ¬ g.globalVarInitValues.isEmpty
  · simp [defineEntry, globalInitCode, hmain, IRGenerator.setCurrentFunction,
      IRGenerator.enterScope, IRGenerator.addInst, IRGenerator.updateCurrent, hmoves]
  · have hmain' : ¬ (name = "main" ∧ ¬ g.globalVarInitValues = []) := by
      simpa using hmain
    simp [defineEntry, globalInitCode, hmain', IRGenerator.setCurrentFunction,
      IRGenerator.enterScope, IRGenerator.addInst, IRGenerator.updateCurrent]

theorem ir_function_define_registered (visit : Visitor)
    (node type_node name_node param_node block_node : ast_node) (rest : List ast_node)
    (g : IRGenerator) (newFunc : Function)
    (hsons : node.sons = type_node :: name_node :: param_node :: block_node :: rest)
    (hcur : g.currentFunc = none)
    (hfind : g.findFunction name_node.name = some newFunc) :
    ir_function_define visit node g =
      match ir_function_formal_params param_node (defineEntry g newFunc name_node.name) with
      | (none, g6) => (none, g6.setLastError .formalParamsFailed)
      | (some _, g6) =>
        match ir_block visit (block_node.setNeedScope false) (bodyEntry type_node.type g6) with
        | (none, g9) => (none, g9)
        | (some block, g9) =>
          (some {},
            (((g9.addInst block.blockInsts).addInst
                [.Label g.nextId, .Exit (returnSlot type_node.type g6)]).setCurrentFunction
              none).leaveScope) := by
  simp only [ir_function_define, hsons, IRGenerator.getCurrentFunction, hcur, hfind]
  have hlabel : (defineEntry g newFunc name_node.name).nextId = g.nextId + 1 :=
    (defineEntry_currentFunc g newFunc name_node.name).2.1
  by_cases hmain : name_node.name = "main" ∧ ¬ g.globalVarInitValues.isEmpty
  · by_cases hvoid : type_node.type.isVoidType = true
    · simp [defineEntry, bodyEntry, returnSlot, IRGenerator.newVarValue, hmain, hvoid, IRGenerator.newLabel,
        IRGenerator.setCurrentFunction, IRGenerator.enterScope, IRGenerator.addInst,
        IRGenerator.updateCurrent]
    · simp [defineEntry, bodyEntry, returnSlot, IRGenerator.newVarValue, hmain, hvoid, IRGenerator.newLabel,
        IRGenerator.setCurrentFunction, IRGenerator.enterScope, IRGenerator.addInst,
        IRGenerator.updateCurrent]
  · have hmain' : ¬ (name_node.name = "main" ∧ ¬ g.globalVarInitValues = []) := by
      simpa using hmain
    by_cases hvoid : type_node.type.isVoidType = true
    · simp [defineEntry, bodyEntry, returnSlot, IRGenerator.newVarValue, hmain', hvoid, IRGenerator.newLabel,
        IRGenerator.setCurrentFunction, IRGenerator.enterScope, IRGenerator.addInst,
        IRGenerator.updateCurrent]
    · simp [defineEntry, bodyEntry, returnSlot, IRGenerator.newVarValue, hmain', hvoid, IRGenerator.newLabel,
        IRGenerator.setCurrentFunction, IRGenerator.enterScope, IRGenerator.addInst,
        IRGenerator.updateCurrent]

theorem bodyEntry_functions (type : IRType) (g : IRGenerator) :
    (bodyEntry type g).functions = g.functions := by
  unfold bodyEntry
  split <;> rfl

theorem bodyEntry_currentFunc (type : IRType) (g : IRGenerator) (f : Function)
    (h : g.currentFunc = some f) :
    (bodyEntry type g).currentFunc = some { f with returnValue := returnSlot type g } := by
  unfold bodyEntry
  split <;> simp [IRGenerator.updateCurrent, IRGenerator.newVarValue, h]

/-! ### The frame of the current function

On a tree without compile unit and formal-parameter list, no handler changes the name
or the instruction list of the current function: the lemmas below follow the state
through each handler, for an arbitrary visitor of the children with this property. -/

set_option linter.unusedTactic false
set_option linter.unreachableTactic false
set_option linter.unusedVariables false

theorem bodyKindsList_cons (x : ast_node) (l : List ast_node) :
    bodyKindsList (x :: l) = true ↔ x.bodyKinds = true ∧ bodyKindsList l = true := by
  simp [bodyKindsList]

theorem bodyKinds_sons {x : ast_node} (h : x.bodyKinds = true) :
    bodyKindsList x.sons = true := by
  cases x with
  | mk t n v ty b s =>
    simp only [ast_node.bodyKinds, Bool.and_eq_true] at h
    exact h.2

theorem bodyKinds_kind {x : ast_node} (h : x.bodyKinds = true) :
    x.node_type ≠ .AST_OP_COMPILE_UNIT ∧ x.node_type ≠ .AST_OP_FUNC_FORMAL_PARAMS := by
  cases x with
  | mk t n v ty b s =>
    simp only [ast_node.bodyKinds, Bool.and_eq_true, decide_eq_true_eq] at h
    exact h.1

theorem bodyKinds_of_mem {l : List ast_node} (h : bodyKindsList l = true) {x : ast_node}
    (hx : x ∈ l) : x.bodyKinds = true := by
  induction l with
  | nil => simp at hx
  | cons y ys ih =>
    rw [bodyKindsList_cons] at h
    rcases List.mem_cons.mp hx with rfl | hx
    · exact h.1
    · exact ih h.2 hx

theorem bodyKindsList_of_subset {l l2 : List ast_node} (h : bodyKindsList l = true)
    (hs : ∀ x ∈ l2, x ∈ l) : bodyKindsList l2 = true := by
  induction l2 with
  | nil => rfl
  | cons y ys ih =>
    rw [bodyKindsList_cons]
    exact ⟨bodyKinds_of_mem h (hs y (List.mem_cons_self _ _)),
      ih (fun x hx => hs x (List.mem_cons_of_mem _ hx))⟩

theorem bodyKinds_setNeedScope (x : ast_node) (b : Bool) :
    bodyKindsList (x.setNeedScope b).sons = bodyKindsList x.sons := by
  cases x; rfl

theorem frame_step {k : String × List Instruction} {α : Type} {x : α × IRGenerator} {r : α}
    {g1 : IRGenerator} (h : x = (r, g1)) (hx : Framed k x.2.currentFunc) :
    Framed k g1.currentFunc := by
  subst h; exact hx

theorem frame_step3 {k : String × List Instruction} {α β : Type} {x : α × β × IRGenerator}
    {r : α} {s : β} {g1 : IRGenerator} (h : x = (r, s, g1))
    (hx : Framed k x.2.2.currentFunc) : Framed k g1.currentFunc := by
  subst h; exact hx

theorem framed_map {k : String × List Instruction} {cur : Option Function}
    {u : Function → Function} (hu : ∀ f, (u f).frame = f.frame) (h : Framed k cur) :
    Framed k (cur.map u) := by
  unfold Framed at *
  cases cur with
  | none => simp at h
  | some f => simpa [hu f] using h

theorem int_to_bool_frame {k : String × List Instruction} {val : Value} {g : IRGenerator}
    (hg : Framed k g.currentFunc) : Framed k (int_to_bool val g).2.currentFunc := by
  simp only [int_to_bool, IRGenerator.newBinary, IRGenerator.newVarValue,
    IRGenerator.updateCurrent, IRGenerator.getCurrentFunction]
  repeat' split
  all_goals
    repeat (first
      | assumption | refine framed_map (fun _ => rfl) ?_ | dsimp only | split)

theorem takeBoolCheck_frame {k : String × List Instruction} {g : IRGenerator}
    (hg : Framed k g.currentFunc) : Framed k (takeBoolCheck g).2.currentFunc := by
  simp only [takeBoolCheck, IRGenerator.updateCurrent]
  repeat' split
  all_goals
    repeat (first
      | assumption | refine framed_map (fun _ => rfl) ?_ | dsimp only | split)

theorem mem_arrayDefDimNodes {sons : List ast_node} {x : ast_node}
    (hx : x ∈ arrayDefDimNodes sons) : x ∈ sons := by
  unfold arrayDefDimNodes at hx
  exact List.mem_of_mem_take (List.mem_of_mem_drop hx)

theorem noteCall_frame {k : String × List Instruction} {g : IRGenerator} {argsCount : Nat}
    (hg : Framed k g.currentFunc) : Framed k (g.noteCall argsCount).currentFunc := by
  unfold IRGenerator.noteCall IRGenerator.updateCurrent
  refine framed_map ?_ (framed_map (fun _ => rfl) hg)
  intro f
  simp only [Function.frame]
  split <;> rfl

theorem ir_default_frame {k : String × List Instruction}
    (node : ast_node) (g : IRGenerator) (hg : Framed k g.currentFunc) :
    Framed k (ir_default node g).2.currentFunc := by
  exact hg

theorem ir_leaf_node_type_frame {k : String × List Instruction}
    (node : ast_node) (g : IRGenerator) (hg : Framed k g.currentFunc) :
    Framed k (ir_leaf_node_type node g).2.currentFunc := by
  exact hg

theorem ir_empty_stmt_frame {k : String × List Instruction}
    (node : ast_node) (g : IRGenerator) (hg : Framed k g.currentFunc) :
    Framed k (ir_empty_stmt node g).2.currentFunc := by
  exact hg

theorem ir_function_formal_param_array_frame {k : String × List Instruction}
    (node : ast_node) (g : IRGenerator) (hg : Framed k g.currentFunc) :
    Framed k (ir_function_formal_param_array node g).2.currentFunc := by
  exact hg

theorem ir_leaf_node_uint_frame {k : String × List Instruction}
    (node : ast_node) (g : IRGenerator) (hg : Framed k g.currentFunc) :
    Framed k (ir_leaf_node_uint node g).2.currentFunc := by
  exact hg

theorem ir_leaf_node_var_id_frame {k : String × List Instruction}
    (node : ast_node) (g : IRGenerator) (hg : Framed k g.currentFunc) :
    Framed k (ir_leaf_node_var_id node g).2.currentFunc := by
  simp only [ir_leaf_node_var_id, IRGenerator.setLastError, IRGenerator.newBinary,
    IRGenerator.newLabel, IRGenerator.newVarValue, IRGenerator.newVarValueWithValue,
    IRGenerator.updateCurrent, IRGenerator.getCurrentFunction, IRGenerator.setLoopLabels,
    IRGenerator.enterScope, IRGenerator.leaveScope, 
    IRGenerator.newFormalParam]
  repeat' split
  all_goals
    repeat (first
      | assumption
      | exact absurd trivial (by assumption)
      | exact bodyKinds_of_mem hc (by simp [*]; done)
      | exact bodyKinds_sons (bodyKinds_of_mem hc (by simp [*]; done))
      | exact bodyKinds_sons hc
      | exact bodyKindsList_of_subset hc (fun x hx => List.mem_of_mem_drop hx)
      | exact bodyKindsList_of_subset hc (fun x hx => mem_arrayDefDimNodes hx)
      | exact bodyKindsList_of_subset hc (by
          intro x hx; rw [‹node.sons = _›]; exact List.mem_cons_of_mem _ hx)
      | exact ((bodyKindsList_cons _ _).mp hc).2
      | refine framed_map (fun _ => rfl) ?_
      | refine noteCall_frame ?_
      | refine framed_map (fun _ => rfl) ?_ | dsimp only | split)

theorem ir_break_frame {k : String × List Instruction}
    (node : ast_node) (g : IRGenerator) (hg : Framed k g.currentFunc) :
    Framed k (ir_break node g).2.currentFunc := by
  simp only [ir_break, IRGenerator.setLastError, IRGenerator.newBinary, IRGenerator.newLabel,
    IRGenerator.newVarValue, IRGenerator.newVarValueWithValue, IRGenerator.updateCurrent,
    IRGenerator.getCurrentFunction, IRGenerator.setLoopLabels, IRGenerator.enterScope,
    IRGenerator.leaveScope, 
    IRGenerator.newFormalParam]
  repeat' split
  all_goals
    repeat (first
      | assumption
      | exact absurd trivial (by assumption)
      | exact bodyKinds_of_mem hc (by simp [*]; done)
      | exact bodyKinds_sons (bodyKinds_of_mem hc (by simp [*]; done))
      | exact bodyKinds_sons hc
      | exact bodyKindsList_of_subset hc (fun x hx => List.mem_of_mem_drop hx)
      | exact bodyKindsList_of_subset hc (fun x hx => mem_arrayDefDimNodes hx)
      | exact bodyKindsList_of_subset hc (by
          intro x hx; rw [‹node.sons = _›]; exact List.mem_cons_of_mem _ hx)
      | exact ((bodyKindsList_cons _ _).mp hc).2
      | refine framed_map (fun _ => rfl) ?_
      | refine noteCall_frame ?_
      | refine framed_map (fun _ => rfl) ?_ | dsimp only | split)

theorem ir_continue_frame {k : String × List Instruction}
    (node : ast_node) (g : IRGenerator) (hg : Framed k g.currentFunc) :
    Framed k (ir_continue node g).2.currentFunc := by
  simp only [ir_continue, IRGenerator.setLastError, IRGenerator.newBinary,
    IRGenerator.newLabel, IRGenerator.newVarValue, IRGenerator.newVarValueWithValue,
    IRGenerator.updateCurrent, IRGenerator.getCurrentFunction, IRGenerator.setLoopLabels,
    IRGenerator.enterScope, IRGenerator.leaveScope, 
    IRGenerator.newFormalParam]
  repeat' split
  all_goals
    repeat (first
      | assumption
      | exact absurd trivial (by assumption)
      | exact bodyKinds_of_mem hc (by simp [*]; done)
      | exact bodyKinds_sons (bodyKinds_of_mem hc (by simp [*]; done))
      | exact bodyKinds_sons hc
      | exact bodyKindsList_of_subset hc (fun x hx => List.mem_of_mem_drop hx)
      | exact bodyKindsList_of_subset hc (fun x hx => mem_arrayDefDimNodes hx)
      | exact bodyKindsList_of_subset hc (by
          intro x hx; rw [‹node.sons = _›]; exact List.mem_cons_of_mem _ hx)
      | exact ((bodyKindsList_cons _ _).mp hc).2
      | refine framed_map (fun _ => rfl) ?_
      | refine noteCall_frame ?_
      | refine framed_map (fun _ => rfl) ?_ | dsimp only | split)

theorem ir_add_frame {k : String × List Instruction} {visit : Visitor} (hv : KeepsFrame k visit)
    (node : ast_node) (g : IRGenerator)
    (hc : bodyKindsList node.sons = true) (hg : Framed k g.currentFunc) :
    Framed k (ir_add visit node g).2.currentFunc := by
  simp only [ir_add, IRGenerator.setLastError, IRGenerator.newBinary, IRGenerator.newLabel,
    IRGenerator.newVarValue, IRGenerator.newVarValueWithValue, IRGenerator.updateCurrent,
    IRGenerator.getCurrentFunction, IRGenerator.setLoopLabels, IRGenerator.enterScope,
    IRGenerator.leaveScope, 
    IRGenerator.newFormalParam]
  repeat' split
  all_goals
    repeat (first
      | assumption
      | exact absurd trivial (by assumption)
      | exact bodyKinds_of_mem hc (by simp [*]; done)
      | exact bodyKinds_sons (bodyKinds_of_mem hc (by simp [*]; done))
      | exact bodyKinds_sons hc
      | exact bodyKindsList_of_subset hc (fun x hx => List.mem_of_mem_drop hx)
      | exact bodyKindsList_of_subset hc (fun x hx => mem_arrayDefDimNodes hx)
      | exact bodyKindsList_of_subset hc (by
          intro x hx; rw [‹node.sons = _›]; exact List.mem_cons_of_mem _ hx)
      | exact ((bodyKindsList_cons _ _).mp hc).2
      | refine framed_map (fun _ => rfl) ?_
      | refine noteCall_frame ?_
      | refine frame_step (by assumption) ?_ | refine frame_step3 (by assumption) ?_
      | refine hv _ _ ?_ ?_ | dsimp only | split)

theorem ir_mul_frame {k : String × List Instruction} {visit : Visitor} (hv : KeepsFrame k visit)
    (node : ast_node) (g : IRGenerator)
    (hc : bodyKindsList node.sons = true) (hg : Framed k g.currentFunc) :
    Framed k (ir_mul visit node g).2.currentFunc := by
  simp only [ir_mul, IRGenerator.setLastError, IRGenerator.newBinary, IRGenerator.newLabel,
    IRGenerator.newVarValue, IRGenerator.newVarValueWithValue, IRGenerator.updateCurrent,
    IRGenerator.getCurrentFunction, IRGenerator.setLoopLabels, IRGenerator.enterScope,
    IRGenerator.leaveScope, 
    IRGenerator.newFormalParam]
  repeat' split
  all_goals
    repeat (first
      | assumption
      | exact absurd trivial (by assumption)
      | exact bodyKinds_of_mem hc (by simp [*]; done)
      | exact bodyKinds_sons (bodyKinds_of_mem hc (by simp [*]; done))
      | exact bodyKinds_sons hc
      | exact bodyKindsList_of_subset hc (fun x hx => List.mem_of_mem_drop hx)
      | exact bodyKindsList_of_subset hc (fun x hx => mem_arrayDefDimNodes hx)
      | exact bodyKindsList_of_subset hc (by
          intro x hx; rw [‹node.sons = _›]; exact List.mem_cons_of_mem _ hx)
      | exact ((bodyKindsList_cons _ _).mp hc).2
      | refine framed_map (fun _ => rfl) ?_
      | refine noteCall_frame ?_
      | refine frame_step (by assumption) ?_ | refine frame_step3 (by assumption) ?_
      | refine hv _ _ ?_ ?_ | dsimp only | split)

theorem ir_sub_frame {k : String × List Instruction} {visit : Visitor} (hv : KeepsFrame k visit)
    (node : ast_node) (g : IRGenerator)
    (hc : bodyKindsList node.sons = true) (hg : Framed k g.currentFunc) :
    Framed k (ir_sub visit node g).2.currentFunc := by
  simp only [ir_sub, ir_binary_unchecked, IRGenerator.setLastError, IRGenerator.newBinary,
    IRGenerator.newLabel, IRGenerator.newVarValue, IRGenerator.newVarValueWithValue,
    IRGenerator.updateCurrent, IRGenerator.getCurrentFunction, IRGenerator.setLoopLabels,
    IRGenerator.enterScope, IRGenerator.leaveScope, 
    IRGenerator.newFormalParam]
  repeat' split
  all_goals
    repeat (first
      | assumption
      | exact absurd trivial (by assumption)
      | exact bodyKinds_of_mem hc (by simp [*]; done)
      | exact bodyKinds_sons (bodyKinds_of_mem hc (by simp [*]; done))
      | exact bodyKinds_sons hc
      | exact bodyKindsList_of_subset hc (fun x hx => List.mem_of_mem_drop hx)
      | exact bodyKindsList_of_subset hc (fun x hx => mem_arrayDefDimNodes hx)
      | exact bodyKindsList_of_subset hc (by
          intro x hx; rw [‹node.sons = _›]; exact List.mem_cons_of_mem _ hx)
      | exact ((bodyKindsList_cons _ _).mp hc).2
      | refine framed_map (fun _ => rfl) ?_
      | refine noteCall_frame ?_
      | refine frame_step (by assumption) ?_ | refine frame_step3 (by assumption) ?_
      | refine hv _ _ ?_ ?_ | dsimp only | split)

theorem ir_div_frame {k : String × List Instruction} {visit : Visitor} (hv : KeepsFrame k visit)
    (node : ast_node) (g : IRGenerator)
    (hc : bodyKindsList node.sons = true) (hg : Framed k g.currentFunc) :
    Framed k (ir_div visit node g).2.currentFunc := by
  simp only [ir_div, ir_binary_unchecked, IRGenerator.setLastError, IRGenerator.newBinary,
    IRGenerator.newLabel, IRGenerator.newVarValue, IRGenerator.newVarValueWithValue,
    IRGenerator.updateCurrent, IRGenerator.getCurrentFunction, IRGenerator.setLoopLabels,
    IRGenerator.enterScope, IRGenerator.leaveScope, 
    IRGenerator.newFormalParam]
  repeat' split
  all_goals
    repeat (first
      | assumption
      | exact absurd trivial (by assumption)
      | exact bodyKinds_of_mem hc (by simp [*]; done)
      | exact bodyKinds_sons (bodyKinds_of_mem hc (by simp [*]; done))
      | exact bodyKinds_sons hc
      | exact bodyKindsList_of_subset hc (fun x hx => List.mem_of_mem_drop hx)
      | exact bodyKindsList_of_subset hc (fun x hx => mem_arrayDefDimNodes hx)
      | exact bodyKindsList_of_subset hc (by
          intro x hx; rw [‹node.sons = _›]; exact List.mem_cons_of_mem _ hx)
      | exact ((bodyKindsList_cons _ _).mp hc).2
      | refine framed_map (fun _ => rfl) ?_
      | refine noteCall_frame ?_
      | refine frame_step (by assumption) ?_ | refine frame_step3 (by assumption) ?_
      | refine hv _ _ ?_ ?_ | dsimp only | split)

theorem ir_mod_frame {k : String × List Instruction} {visit : Visitor} (hv : KeepsFrame k visit)
    (node : ast_node) (g : IRGenerator)
    (hc : bodyKindsList node.sons = true) (hg : Framed k g.currentFunc) :
    Framed k (ir_mod visit node g).2.currentFunc := by
  simp only [ir_mod, ir_binary_unchecked, IRGenerator.setLastError, IRGenerator.newBinary,
    IRGenerator.newLabel, IRGenerator.newVarValue, IRGenerator.newVarValueWithValue,
    IRGenerator.updateCurrent, IRGenerator.getCurrentFunction, IRGenerator.setLoopLabels,
    IRGenerator.enterScope, IRGenerator.leaveScope, 
    IRGenerator.newFormalParam]
  repeat' split
  all_goals
    repeat (first
      | assumption
      | exact absurd trivial (by assumption)
      | exact bodyKinds_of_mem hc (by simp [*]; done)
      | exact bodyKinds_sons (bodyKinds_of_mem hc (by simp [*]; done))
      | exact bodyKinds_sons hc
      | exact bodyKindsList_of_subset hc (fun x hx => List.mem_of_mem_drop hx)
      | exact bodyKindsList_of_subset hc (fun x hx => mem_arrayDefDimNodes hx)
      | exact bodyKindsList_of_subset hc (by
          intro x hx; rw [‹node.sons = _›]; exact List.mem_cons_of_mem _ hx)
      | exact ((bodyKindsList_cons _ _).mp hc).2
      | refine framed_map (fun _ => rfl) ?_
      | refine noteCall_frame ?_
      | refine frame_step (by assumption) ?_ | refine frame_step3 (by assumption) ?_
      | refine hv _ _ ?_ ?_ | dsimp only | split)

theorem ir_neg_frame {k : String × List Instruction} {visit : Visitor} (hv : KeepsFrame k visit)
    (node : ast_node) (g : IRGenerator)
    (hc : bodyKindsList node.sons = true) (hg : Framed k g.currentFunc) :
    Framed k (ir_neg visit node g).2.currentFunc := by
  simp only [ir_neg, IRGenerator.setLastError, IRGenerator.newBinary, IRGenerator.newLabel,
    IRGenerator.newVarValue, IRGenerator.newVarValueWithValue, IRGenerator.updateCurrent,
    IRGenerator.getCurrentFunction, IRGenerator.setLoopLabels, IRGenerator.enterScope,
    IRGenerator.leaveScope, 
    IRGenerator.newFormalParam]
  repeat' split
  all_goals
    repeat (first
      | assumption
      | exact absurd trivial (by assumption)
      | exact bodyKinds_of_mem hc (by simp [*]; done)
      | exact bodyKinds_sons (bodyKinds_of_mem hc (by simp [*]; done))
      | exact bodyKinds_sons hc
      | exact bodyKindsList_of_subset hc (fun x hx => List.mem_of_mem_drop hx)
      | exact bodyKindsList_of_subset hc (fun x hx => mem_arrayDefDimNodes hx)
      | exact bodyKindsList_of_subset hc (by
          intro x hx; rw [‹node.sons = _›]; exact List.mem_cons_of_mem _ hx)
      | exact ((bodyKindsList_cons _ _).mp hc).2
      | refine framed_map (fun _ => rfl) ?_
      | refine noteCall_frame ?_
      | refine frame_step (by assumption) ?_ | refine frame_step3 (by assumption) ?_
      | refine hv _ _ ?_ ?_ | dsimp only | split)

theorem ir_lt_frame {k : String × List Instruction} {visit : Visitor} (hv : KeepsFrame k visit)
    (node : ast_node) (g : IRGenerator)
    (hc : bodyKindsList node.sons = true) (hg : Framed k g.currentFunc) :
    Framed k (ir_lt visit node g).2.currentFunc := by
  simp only [ir_lt, ir_relational, IRGenerator.setLastError, IRGenerator.newBinary,
    IRGenerator.newLabel, IRGenerator.newVarValue, IRGenerator.newVarValueWithValue,
    IRGenerator.updateCurrent, IRGenerator.getCurrentFunction, IRGenerator.setLoopLabels,
    IRGenerator.enterScope, IRGenerator.leaveScope, 
    IRGenerator.newFormalParam]
  repeat' split
  all_goals
    repeat (first
      | assumption
      | exact absurd trivial (by assumption)
      | exact bodyKinds_of_mem hc (by simp [*]; done)
      | exact bodyKinds_sons (bodyKinds_of_mem hc (by simp [*]; done))
      | exact bodyKinds_sons hc
      | exact bodyKindsList_of_subset hc (fun x hx => List.mem_of_mem_drop hx)
      | exact bodyKindsList_of_subset hc (fun x hx => mem_arrayDefDimNodes hx)
      | exact bodyKindsList_of_subset hc (by
          intro x hx; rw [‹node.sons = _›]; exact List.mem_cons_of_mem _ hx)
      | exact ((bodyKindsList_cons _ _).mp hc).2
      | refine framed_map (fun _ => rfl) ?_
      | refine noteCall_frame ?_
      | refine frame_step (by assumption) ?_ | refine frame_step3 (by assumption) ?_
      | refine hv _ _ ?_ ?_ | dsimp only | split)

theorem ir_gt_frame {k : String × List Instruction} {visit : Visitor} (hv : KeepsFrame k visit)
    (node : ast_node) (g : IRGenerator)
    (hc : bodyKindsList node.sons = true) (hg : Framed k g.currentFunc) :
    Framed k (ir_gt visit node g).2.currentFunc := by
  simp only [ir_gt, ir_relational, IRGenerator.setLastError, IRGenerator.newBinary,
    IRGenerator.newLabel, IRGenerator.newVarValue, IRGenerator.newVarValueWithValue,
    IRGenerator.updateCurrent, IRGenerator.getCurrentFunction, IRGenerator.setLoopLabels,
    IRGenerator.enterScope, IRGenerator.leaveScope, 
    IRGenerator.newFormalParam]
  repeat' split
  all_goals
    repeat (first
      | assumption
      | exact absurd trivial (by assumption)
      | exact bodyKinds_of_mem hc (by simp [*]; done)
      | exact bodyKinds_sons (bodyKinds_of_mem hc (by simp [*]; done))
      | exact bodyKinds_sons hc
      | exact bodyKindsList_of_subset hc (fun x hx => List.mem_of_mem_drop hx)
      | exact bodyKindsList_of_subset hc (fun x hx => mem_arrayDefDimNodes hx)
      | exact bodyKindsList_of_subset hc (by
          intro x hx; rw [‹node.sons = _›]; exact List.mem_cons_of_mem _ hx)
      | exact ((bodyKindsList_cons _ _).mp hc).2
      | refine framed_map (fun _ => rfl) ?_
      | refine noteCall_frame ?_
      | refine frame_step (by assumption) ?_ | refine frame_step3 (by assumption) ?_
      | refine hv _ _ ?_ ?_ | dsimp only | split)

theorem ir_le_frame {k : String × List Instruction} {visit : Visitor} (hv : KeepsFrame k visit)
    (node : ast_node) (g : IRGenerator)
    (hc : bodyKindsList node.sons = true) (hg : Framed k g.currentFunc) :
    Framed k (ir_le visit node g).2.currentFunc := by
  simp only [ir_le, ir_relational, IRGenerator.setLastError, IRGenerator.newBinary,
    IRGenerator.newLabel, IRGenerator.newVarValue, IRGenerator.newVarValueWithValue,
    IRGenerator.updateCurrent, IRGenerator.getCurrentFunction, IRGenerator.setLoopLabels,
    IRGenerator.enterScope, IRGenerator.leaveScope, 
    IRGenerator.newFormalParam]
  repeat' split
  all_goals
    repeat (first
      | assumption
      | exact absurd trivial (by assumption)
      | exact bodyKinds_of_mem hc (by simp [*]; done)
      | exact bodyKinds_sons (bodyKinds_of_mem hc (by simp [*]; done))
      | exact bodyKinds_sons hc
      | exact bodyKindsList_of_subset hc (fun x hx => List.mem_of_mem_drop hx)
      | exact bodyKindsList_of_subset hc (fun x hx => mem_arrayDefDimNodes hx)
      | exact bodyKindsList_of_subset hc (by
          intro x hx; rw [‹node.sons = _›]; exact List.mem_cons_of_mem _ hx)
      | exact ((bodyKindsList_cons _ _).mp hc).2
      | refine framed_map (fun _ => rfl) ?_
      | refine noteCall_frame ?_
      | refine frame_step (by assumption) ?_ | refine frame_step3 (by assumption) ?_
      | refine hv _ _ ?_ ?_ | dsimp only | split)

theorem ir_ge_frame {k : String × List Instruction} {visit : Visitor} (hv : KeepsFrame k visit)
    (node : ast_node) (g : IRGenerator)
    (hc : bodyKindsList node.sons = true) (hg : Framed k g.currentFunc) :
    Framed k (ir_ge visit node g).2.currentFunc := by
  simp only [ir_ge, ir_relational, IRGenerator.setLastError, IRGenerator.newBinary,
    IRGenerator.newLabel, IRGenerator.newVarValue, IRGenerator.newVarValueWithValue,
    IRGenerator.updateCurrent, IRGenerator.getCurrentFunction, IRGenerator.setLoopLabels,
    IRGenerator.enterScope, IRGenerator.leaveScope, 
    IRGenerator.newFormalParam]
  repeat' split
  all_goals
    repeat (first
      | assumption
      | exact absurd trivial (by assumption)
      | exact bodyKinds_of_mem hc (by simp [*]; done)
      | exact bodyKinds_sons (bodyKinds_of_mem hc (by simp [*]; done))
      | exact bodyKinds_sons hc
      | exact bodyKindsList_of_subset hc (fun x hx => List.mem_of_mem_drop hx)
      | exact bodyKindsList_of_subset hc (fun x hx => mem_arrayDefDimNodes hx)
      | exact bodyKindsList_of_subset hc (by
          intro x hx; rw [‹node.sons = _›]; exact List.mem_cons_of_mem _ hx)
      | exact ((bodyKindsList_cons _ _).mp hc).2
      | refine framed_map (fun _ => rfl) ?_
      | refine noteCall_frame ?_
      | refine frame_step (by assumption) ?_ | refine frame_step3 (by assumption) ?_
      | refine hv _ _ ?_ ?_ | dsimp only | split)

theorem ir_eq_frame {k : String × List Instruction} {visit : Visitor} (hv : KeepsFrame k visit)
    (node : ast_node) (g : IRGenerator)
    (hc : bodyKindsList node.sons = true) (hg : Framed k g.currentFunc) :
    Framed k (ir_eq visit node g).2.currentFunc := by
  simp only [ir_eq, ir_relational, IRGenerator.setLastError, IRGenerator.newBinary,
    IRGenerator.newLabel, IRGenerator.newVarValue, IRGenerator.newVarValueWithValue,
    IRGenerator.updateCurrent, IRGenerator.getCurrentFunction, IRGenerator.setLoopLabels,
    IRGenerator.enterScope, IRGenerator.leaveScope, 
    IRGenerator.newFormalParam]
  repeat' split
  all_goals
    repeat (first
      | assumption
      | exact absurd trivial (by assumption)
      | exact bodyKinds_of_mem hc (by simp [*]; done)
      | exact bodyKinds_sons (bodyKinds_of_mem hc (by simp [*]; done))
      | exact bodyKinds_sons hc
      | exact bodyKindsList_of_subset hc (fun x hx => List.mem_of_mem_drop hx)
      | exact bodyKindsList_of_subset hc (fun x hx => mem_arrayDefDimNodes hx)
      | exact bodyKindsList_of_subset hc (by
          intro x hx; rw [‹node.sons = _›]; exact List.mem_cons_of_mem _ hx)
      | exact ((bodyKindsList_cons _ _).mp hc).2
      | refine framed_map (fun _ => rfl) ?_
      | refine noteCall_frame ?_
      | refine frame_step (by assumption) ?_ | refine frame_step3 (by assumption) ?_
      | refine hv _ _ ?_ ?_ | dsimp only | split)

theorem ir_ne_frame {k : String × List Instruction} {visit : Visitor} (hv : KeepsFrame k visit)
    (node : ast_node) (g : IRGenerator)
    (hc : bodyKindsList node.sons = true) (hg : Framed k g.currentFunc) :
    Framed k (ir_ne visit node g).2.currentFunc := by
  simp only [ir_ne, ir_relational, IRGenerator.setLastError, IRGenerator.newBinary,
    IRGenerator.newLabel, IRGenerator.newVarValue, IRGenerator.newVarValueWithValue,
    IRGenerator.updateCurrent, IRGenerator.getCurrentFunction, IRGenerator.setLoopLabels,
    IRGenerator.enterScope, IRGenerator.leaveScope, 
    IRGenerator.newFormalParam]
  repeat' split
  all_goals
    repeat (first
      | assumption
      | exact absurd trivial (by assumption)
      | exact bodyKinds_of_mem hc (by simp [*]; done)
      | exact bodyKinds_sons (bodyKinds_of_mem hc (by simp [*]; done))
      | exact bodyKinds_sons hc
      | exact bodyKindsList_of_subset hc (fun x hx => List.mem_of_mem_drop hx)
      | exact bodyKindsList_of_subset hc (fun x hx => mem_arrayDefDimNodes hx)
      | exact bodyKindsList_of_subset hc (by
          intro x hx; rw [‹node.sons = _›]; exact List.mem_cons_of_mem _ hx)
      | exact ((bodyKindsList_cons _ _).mp hc).2
      | refine framed_map (fun _ => rfl) ?_
      | refine noteCall_frame ?_
      | refine frame_step (by assumption) ?_ | refine frame_step3 (by assumption) ?_
      | refine hv _ _ ?_ ?_ | dsimp only | split)

theorem ir_logic_and_frame {k : String × List Instruction} {visit : Visitor} (hv : KeepsFrame k visit)
    (node : ast_node) (g : IRGenerator)
    (hc : bodyKindsList node.sons = true) (hg : Framed k g.currentFunc) :
    Framed k (ir_logic_and visit node g).2.currentFunc := by
  simp only [ir_logic_and, IRGenerator.setLastError, IRGenerator.newBinary,
    IRGenerator.newLabel, IRGenerator.newVarValue, IRGenerator.newVarValueWithValue,
    IRGenerator.updateCurrent, IRGenerator.getCurrentFunction, IRGenerator.setLoopLabels,
    IRGenerator.enterScope, IRGenerator.leaveScope, 
    IRGenerator.newFormalParam]
  repeat' split
  all_goals
    repeat (first
      | assumption
      | exact absurd trivial (by assumption)
      | exact bodyKinds_of_mem hc (by simp [*]; done)
      | exact bodyKinds_sons (bodyKinds_of_mem hc (by simp [*]; done))
      | exact bodyKinds_sons hc
      | exact bodyKindsList_of_subset hc (fun x hx => List.mem_of_mem_drop hx)
      | exact bodyKindsList_of_subset hc (fun x hx => mem_arrayDefDimNodes hx)
      | exact bodyKindsList_of_subset hc (by
          intro x hx; rw [‹node.sons = _›]; exact List.mem_cons_of_mem _ hx)
      | exact ((bodyKindsList_cons _ _).mp hc).2
      | refine framed_map (fun _ => rfl) ?_
      | refine noteCall_frame ?_
      | refine frame_step (by assumption) ?_ | refine frame_step3 (by assumption) ?_
      | refine hv _ _ ?_ ?_ | refine int_to_bool_frame ?_ | refine takeBoolCheck_frame ?_ | dsimp only
      | split)

theorem ir_logic_or_frame {k : String × List Instruction} {visit : Visitor} (hv : KeepsFrame k visit)
    (node : ast_node) (g : IRGenerator)
    (hc : bodyKindsList node.sons = true) (hg : Framed k g.currentFunc) :
    Framed k (ir_logic_or visit node g).2.currentFunc := by
  simp only [ir_logic_or, IRGenerator.setLastError, IRGenerator.newBinary,
    IRGenerator.newLabel, IRGenerator.newVarValue, IRGenerator.newVarValueWithValue,
    IRGenerator.updateCurrent, IRGenerator.getCurrentFunction, IRGenerator.setLoopLabels,
    IRGenerator.enterScope, IRGenerator.leaveScope, 
    IRGenerator.newFormalParam]
  repeat' split
  all_goals
    repeat (first
      | assumption
      | exact absurd trivial (by assumption)
      | exact bodyKinds_of_mem hc (by simp [*]; done)
      | exact bodyKinds_sons (bodyKinds_of_mem hc (by simp [*]; done))
      | exact bodyKinds_sons hc
      | exact bodyKindsList_of_subset hc (fun x hx => List.mem_of_mem_drop hx)
      | exact bodyKindsList_of_subset hc (fun x hx => mem_arrayDefDimNodes hx)
      | exact bodyKindsList_of_subset hc (by
          intro x hx; rw [‹node.sons = _›]; exact List.mem_cons_of_mem _ hx)
      | exact ((bodyKindsList_cons _ _).mp hc).2
      | refine framed_map (fun _ => rfl) ?_
      | refine noteCall_frame ?_
      | refine frame_step (by assumption) ?_ | refine frame_step3 (by assumption) ?_
      | refine hv _ _ ?_ ?_ | refine int_to_bool_frame ?_ | refine takeBoolCheck_frame ?_ | dsimp only
      | split)

theorem ir_logic_not_frame {k : String × List Instruction} {visit : Visitor} (hv : KeepsFrame k visit)
    (node : ast_node) (g : IRGenerator)
    (hc : bodyKindsList node.sons = true) (hg : Framed k g.currentFunc) :
    Framed k (ir_logic_not visit node g).2.currentFunc := by
  simp only [ir_logic_not, IRGenerator.setLastError, IRGenerator.newBinary,
    IRGenerator.newLabel, IRGenerator.newVarValue, IRGenerator.newVarValueWithValue,
    IRGenerator.updateCurrent, IRGenerator.getCurrentFunction, IRGenerator.setLoopLabels,
    IRGenerator.enterScope, IRGenerator.leaveScope, 
    IRGenerator.newFormalParam]
  repeat' split
  all_goals
    repeat (first
      | assumption
      | exact absurd trivial (by assumption)
      | exact bodyKinds_of_mem hc (by simp [*]; done)
      | exact bodyKinds_sons (bodyKinds_of_mem hc (by simp [*]; done))
      | exact bodyKinds_sons hc
      | exact bodyKindsList_of_subset hc (fun x hx => List.mem_of_mem_drop hx)
      | exact bodyKindsList_of_subset hc (fun x hx => mem_arrayDefDimNodes hx)
      | exact bodyKindsList_of_subset hc (by
          intro x hx; rw [‹node.sons = _›]; exact List.mem_cons_of_mem _ hx)
      | exact ((bodyKindsList_cons _ _).mp hc).2
      | refine framed_map (fun _ => rfl) ?_
      | refine noteCall_frame ?_
      | refine frame_step (by assumption) ?_ | refine frame_step3 (by assumption) ?_
      | refine hv _ _ ?_ ?_ | refine int_to_bool_frame ?_ | refine takeBoolCheck_frame ?_ | dsimp only
      | split)

theorem ir_if_frame {k : String × List Instruction} {visit : Visitor} (hv : KeepsFrame k visit)
    (node : ast_node) (g : IRGenerator)
    (hc : bodyKindsList node.sons = true) (hg : Framed k g.currentFunc) :
    Framed k (ir_if visit node g).2.currentFunc := by
  simp only [ir_if, IRGenerator.setLastError, IRGenerator.newBinary, IRGenerator.newLabel,
    IRGenerator.newVarValue, IRGenerator.newVarValueWithValue, IRGenerator.updateCurrent,
    IRGenerator.getCurrentFunction, IRGenerator.setLoopLabels, IRGenerator.enterScope,
    IRGenerator.leaveScope, 
    IRGenerator.newFormalParam]
  repeat' split
  all_goals
    repeat (first
      | assumption
      | exact absurd trivial (by assumption)
      | exact bodyKinds_of_mem hc (by simp [*]; done)
      | exact bodyKinds_sons (bodyKinds_of_mem hc (by simp [*]; done))
      | exact bodyKinds_sons hc
      | exact bodyKindsList_of_subset hc (fun x hx => List.mem_of_mem_drop hx)
      | exact bodyKindsList_of_subset hc (fun x hx => mem_arrayDefDimNodes hx)
      | exact bodyKindsList_of_subset hc (by
          intro x hx; rw [‹node.sons = _›]; exact List.mem_cons_of_mem _ hx)
      | exact ((bodyKindsList_cons _ _).mp hc).2
      | refine framed_map (fun _ => rfl) ?_
      | refine noteCall_frame ?_
      | refine frame_step (by assumption) ?_ | refine frame_step3 (by assumption) ?_
      | refine hv _ _ ?_ ?_ | dsimp only | split)

theorem ir_if_else_frame {k : String × List Instruction} {visit : Visitor} (hv : KeepsFrame k visit)
    (node : ast_node) (g : IRGenerator)
    (hc : bodyKindsList node.sons = true) (hg : Framed k g.currentFunc) :
    Framed k (ir_if_else visit node g).2.currentFunc := by
  simp only [ir_if_else, IRGenerator.setLastError, IRGenerator.newBinary,
    IRGenerator.newLabel, IRGenerator.newVarValue, IRGenerator.newVarValueWithValue,
    IRGenerator.updateCurrent, IRGenerator.getCurrentFunction, IRGenerator.setLoopLabels,
    IRGenerator.enterScope, IRGenerator.leaveScope, 
    IRGenerator.newFormalParam]
  repeat' split
  all_goals
    repeat (first
      | assumption
      | exact absurd trivial (by assumption)
      | exact bodyKinds_of_mem hc (by simp [*]; done)
      | exact bodyKinds_sons (bodyKinds_of_mem hc (by simp [*]; done))
      | exact bodyKinds_sons hc
      | exact bodyKindsList_of_subset hc (fun x hx => List.mem_of_mem_drop hx)
      | exact bodyKindsList_of_subset hc (fun x hx => mem_arrayDefDimNodes hx)
      | exact bodyKindsList_of_subset hc (by
          intro x hx; rw [‹node.sons = _›]; exact List.mem_cons_of_mem _ hx)
      | exact ((bodyKindsList_cons _ _).mp hc).2
      | refine framed_map (fun _ => rfl) ?_
      | refine noteCall_frame ?_
      | refine frame_step (by assumption) ?_ | refine frame_step3 (by assumption) ?_
      | refine hv _ _ ?_ ?_ | dsimp only | split)

theorem ir_while_frame {k : String × List Instruction} {visit : Visitor} (hv : KeepsFrame k visit)
    (node : ast_node) (g : IRGenerator)
    (hc : bodyKindsList node.sons = true) (hg : Framed k g.currentFunc) :
    Framed k (ir_while visit node g).2.currentFunc := by
  simp only [ir_while, IRGenerator.setLastError, IRGenerator.newBinary, IRGenerator.newLabel,
    IRGenerator.newVarValue, IRGenerator.newVarValueWithValue, IRGenerator.updateCurrent,
    IRGenerator.getCurrentFunction, IRGenerator.setLoopLabels, IRGenerator.enterScope,
    IRGenerator.leaveScope, 
    IRGenerator.newFormalParam]
  repeat' split
  all_goals
    repeat (first
      | assumption
      | exact absurd trivial (by assumption)
      | exact bodyKinds_of_mem hc (by simp [*]; done)
      | exact bodyKinds_sons (bodyKinds_of_mem hc (by simp [*]; done))
      | exact bodyKinds_sons hc
      | exact bodyKindsList_of_subset hc (fun x hx => List.mem_of_mem_drop hx)
      | exact bodyKindsList_of_subset hc (fun x hx => mem_arrayDefDimNodes hx)
      | exact bodyKindsList_of_subset hc (by
          intro x hx; rw [‹node.sons = _›]; exact List.mem_cons_of_mem _ hx)
      | exact ((bodyKindsList_cons _ _).mp hc).2
      | refine framed_map (fun _ => rfl) ?_
      | refine noteCall_frame ?_
      | refine frame_step (by assumption) ?_ | refine frame_step3 (by assumption) ?_
      | refine hv _ _ ?_ ?_ | dsimp only | split)

theorem ir_assign_frame {k : String × List Instruction} {visit : Visitor} (hv : KeepsFrame k visit)
    (node : ast_node) (g : IRGenerator)
    (hc : bodyKindsList node.sons = true) (hg : Framed k g.currentFunc) :
    Framed k (ir_assign visit node g).2.currentFunc := by
  simp only [ir_assign, IRGenerator.setLastError, IRGenerator.newBinary, IRGenerator.newLabel,
    IRGenerator.newVarValue, IRGenerator.newVarValueWithValue, IRGenerator.updateCurrent,
    IRGenerator.getCurrentFunction, IRGenerator.setLoopLabels, IRGenerator.enterScope,
    IRGenerator.leaveScope, 
    IRGenerator.newFormalParam]
  repeat' split
  all_goals
    repeat (first
      | assumption
      | exact absurd trivial (by assumption)
      | exact bodyKinds_of_mem hc (by simp [*]; done)
      | exact bodyKinds_sons (bodyKinds_of_mem hc (by simp [*]; done))
      | exact bodyKinds_sons hc
      | exact bodyKindsList_of_subset hc (fun x hx => List.mem_of_mem_drop hx)
      | exact bodyKindsList_of_subset hc (fun x hx => mem_arrayDefDimNodes hx)
      | exact bodyKindsList_of_subset hc (by
          intro x hx; rw [‹node.sons = _›]; exact List.mem_cons_of_mem _ hx)
      | exact ((bodyKindsList_cons _ _).mp hc).2
      | refine framed_map (fun _ => rfl) ?_
      | refine noteCall_frame ?_
      | refine frame_step (by assumption) ?_ | refine frame_step3 (by assumption) ?_
      | refine hv _ _ ?_ ?_ | dsimp only | split)

theorem ir_return_frame {k : String × List Instruction} {visit : Visitor} (hv : KeepsFrame k visit)
    (node : ast_node) (g : IRGenerator)
    (hc : bodyKindsList node.sons = true) (hg : Framed k g.currentFunc) :
    Framed k (ir_return visit node g).2.currentFunc := by
  simp only [ir_return, IRGenerator.setLastError, IRGenerator.newBinary, IRGenerator.newLabel,
    IRGenerator.newVarValue, IRGenerator.newVarValueWithValue, IRGenerator.updateCurrent,
    IRGenerator.getCurrentFunction, IRGenerator.setLoopLabels, IRGenerator.enterScope,
    IRGenerator.leaveScope, 
    IRGenerator.newFormalParam]
  repeat' split
  all_goals
    repeat (first
      | assumption
      | exact absurd trivial (by assumption)
      | exact bodyKinds_of_mem hc (by simp [*]; done)
      | exact bodyKinds_sons (bodyKinds_of_mem hc (by simp [*]; done))
      | exact bodyKinds_sons hc
      | exact bodyKindsList_of_subset hc (fun x hx => List.mem_of_mem_drop hx)
      | exact bodyKindsList_of_subset hc (fun x hx => mem_arrayDefDimNodes hx)
      | exact bodyKindsList_of_subset hc (by
          intro x hx; rw [‹node.sons = _›]; exact List.mem_cons_of_mem _ hx)
      | exact ((bodyKindsList_cons _ _).mp hc).2
      | refine framed_map (fun _ => rfl) ?_
      | refine noteCall_frame ?_
      | refine frame_step (by assumption) ?_ | refine frame_step3 (by assumption) ?_
      | refine hv _ _ ?_ ?_ | dsimp only | split)

theorem ir_block_sons_frame {k : String × List Instruction} {visit : Visitor} (hv : KeepsFrame k visit)
     (sons : List ast_node) :
    ∀  (g : IRGenerator), bodyKindsList sons = true → Framed k g.currentFunc →
      Framed k (ir_block_sons visit sons g).2.currentFunc := by
  induction sons with
  | nil =>
    intro  g hc hg
    simp only [ir_block_sons]
    exact hg
  | cons head rest ih =>
    intro  g hc hg
    simp only [ir_block_sons, IRGenerator.setLastError, IRGenerator.newBinary,
      IRGenerator.newLabel, IRGenerator.newVarValue, IRGenerator.newVarValueWithValue,
      IRGenerator.updateCurrent, IRGenerator.getCurrentFunction, IRGenerator.setLoopLabels,
      IRGenerator.enterScope, IRGenerator.leaveScope, 
      IRGenerator.newFormalParam]
    repeat' split
    all_goals
      repeat (first
        | assumption
        | exact absurd trivial (by assumption)
        | exact bodyKinds_of_mem hc (by simp [*]; done)
        | exact bodyKinds_sons (bodyKinds_of_mem hc (by simp [*]; done))
        | exact bodyKinds_sons hc
        | exact bodyKindsList_of_subset hc (fun x hx => List.mem_of_mem_drop hx)
        | exact bodyKindsList_of_subset hc (fun x hx => mem_arrayDefDimNodes hx)
        | exact bodyKindsList_of_subset hc (by
            intro x hx; rw [‹node.sons = _›]; exact List.mem_cons_of_mem _ hx)
        | exact ((bodyKindsList_cons _ _).mp hc).2
        | refine framed_map (fun _ => rfl) ?_
        | refine noteCall_frame ?_
        | refine frame_step (by assumption) ?_ | refine frame_step3 (by assumption) ?_
        | refine hv _ _ ?_ ?_ | refine ih _ ((bodyKindsList_cons _ _).mp hc).2 ?_ | dsimp only | split)

theorem ir_block_frame {k : String × List Instruction} {visit : Visitor} (hv : KeepsFrame k visit)
    (node : ast_node) (g : IRGenerator)
    (hc : bodyKindsList node.sons = true) (hg : Framed k g.currentFunc) :
    Framed k (ir_block visit node g).2.currentFunc := by
  simp only [ir_block, IRGenerator.setLastError, IRGenerator.newBinary, IRGenerator.newLabel,
    IRGenerator.newVarValue, IRGenerator.newVarValueWithValue, IRGenerator.updateCurrent,
    IRGenerator.getCurrentFunction, IRGenerator.setLoopLabels, IRGenerator.enterScope,
    IRGenerator.leaveScope, 
    IRGenerator.newFormalParam]
  repeat' split
  all_goals
    repeat (first
      | assumption
      | exact absurd trivial (by assumption)
      | exact bodyKinds_of_mem hc (by simp [*]; done)
      | exact bodyKinds_sons (bodyKinds_of_mem hc (by simp [*]; done))
      | exact bodyKinds_sons hc
      | exact bodyKindsList_of_subset hc (fun x hx => List.mem_of_mem_drop hx)
      | exact bodyKindsList_of_subset hc (fun x hx => mem_arrayDefDimNodes hx)
      | exact bodyKindsList_of_subset hc (by
          intro x hx; rw [‹node.sons = _›]; exact List.mem_cons_of_mem _ hx)
      | exact ((bodyKindsList_cons _ _).mp hc).2
      | refine framed_map (fun _ => rfl) ?_
      | refine noteCall_frame ?_
      | refine frame_step (by assumption) ?_ | refine frame_step3 (by assumption) ?_
      | refine hv _ _ ?_ ?_ | refine ir_block_sons_frame hv _ _ ?_ ?_ | dsimp only | split)

theorem ir_array_def_dims_frame {k : String × List Instruction} {visit : Visitor} (hv : KeepsFrame k visit)
     (sons : List ast_node) :
    ∀  (g : IRGenerator), bodyKindsList sons = true → Framed k g.currentFunc →
      Framed k (ir_array_def_dims visit sons g).2.currentFunc := by
  induction sons with
  | nil =>
    intro  g hc hg
    simp only [ir_array_def_dims]
    exact hg
  | cons head rest ih =>
    intro  g hc hg
    simp only [ir_array_def_dims, IRGenerator.setLastError, IRGenerator.newBinary,
      IRGenerator.newLabel, IRGenerator.newVarValue, IRGenerator.newVarValueWithValue,
      IRGenerator.updateCurrent, IRGenerator.getCurrentFunction, IRGenerator.setLoopLabels,
      IRGenerator.enterScope, IRGenerator.leaveScope, 
      IRGenerator.newFormalParam]
    repeat' split
    all_goals
      repeat (first
        | assumption
        | exact absurd trivial (by assumption)
        | exact bodyKinds_of_mem hc (by simp [*]; done)
        | exact bodyKinds_sons (bodyKinds_of_mem hc (by simp [*]; done))
        | exact bodyKinds_sons hc
        | exact bodyKindsList_of_subset hc (fun x hx => List.mem_of_mem_drop hx)
        | exact bodyKindsList_of_subset hc (fun x hx => mem_arrayDefDimNodes hx)
        | exact bodyKindsList_of_subset hc (by
            intro x hx; rw [‹node.sons = _›]; exact List.mem_cons_of_mem _ hx)
        | exact ((bodyKindsList_cons _ _).mp hc).2
        | refine framed_map (fun _ => rfl) ?_
        | refine noteCall_frame ?_
        | refine frame_step (by assumption) ?_ | refine frame_step3 (by assumption) ?_
        | refine hv _ _ ?_ ?_ | refine ih _ ((bodyKindsList_cons _ _).mp hc).2 ?_ | dsimp only | split)

theorem ir_array_def_frame {k : String × List Instruction} {visit : Visitor} (hv : KeepsFrame k visit)
    (node : ast_node) (g : IRGenerator)
    (hc : bodyKindsList node.sons = true) (hg : Framed k g.currentFunc) :
    Framed k (ir_array_def visit node g).2.currentFunc := by
  simp only [ir_array_def, IRGenerator.setLastError, IRGenerator.newBinary,
    IRGenerator.newLabel, IRGenerator.newVarValue, IRGenerator.newVarValueWithValue,
    IRGenerator.updateCurrent, IRGenerator.getCurrentFunction, IRGenerator.setLoopLabels,
    IRGenerator.enterScope, IRGenerator.leaveScope, 
    IRGenerator.newFormalParam]
  repeat' split
  all_goals
    repeat (first
      | assumption
      | exact absurd trivial (by assumption)
      | exact bodyKinds_of_mem hc (by simp [*]; done)
      | exact bodyKinds_sons (bodyKinds_of_mem hc (by simp [*]; done))
      | exact bodyKinds_sons hc
      | exact bodyKindsList_of_subset hc (fun x hx => List.mem_of_mem_drop hx)
      | exact bodyKindsList_of_subset hc (fun x hx => mem_arrayDefDimNodes hx)
      | exact bodyKindsList_of_subset hc (by
          intro x hx; rw [‹node.sons = _›]; exact List.mem_cons_of_mem _ hx)
      | exact ((bodyKindsList_cons _ _).mp hc).2
      | refine framed_map (fun _ => rfl) ?_
      | refine noteCall_frame ?_
      | refine frame_step (by assumption) ?_ | refine frame_step3 (by assumption) ?_
      | refine hv _ _ ?_ ?_ | refine ir_array_def_dims_frame hv _ _ ?_ ?_ | dsimp only | split)

theorem visitIndices_frame {k : String × List Instruction} {visit : Visitor} (hv : KeepsFrame k visit)
     (sons : List ast_node) :
    ∀  (g : IRGenerator), bodyKindsList sons = true → Framed k g.currentFunc →
      Framed k (visitIndices visit sons g).2.currentFunc := by
  induction sons with
  | nil =>
    intro  g hc hg
    simp only [visitIndices]
    exact hg
  | cons head rest ih =>
    intro  g hc hg
    simp only [visitIndices, IRGenerator.setLastError, IRGenerator.newBinary,
      IRGenerator.newLabel, IRGenerator.newVarValue, IRGenerator.newVarValueWithValue,
      IRGenerator.updateCurrent, IRGenerator.getCurrentFunction, IRGenerator.setLoopLabels,
      IRGenerator.enterScope, IRGenerator.leaveScope, 
      IRGenerator.newFormalParam]
    repeat' split
    all_goals
      repeat (first
        | assumption
        | exact absurd trivial (by assumption)
        | exact bodyKinds_of_mem hc (by simp [*]; done)
        | exact bodyKinds_sons (bodyKinds_of_mem hc (by simp [*]; done))
        | exact bodyKinds_sons hc
        | exact bodyKindsList_of_subset hc (fun x hx => List.mem_of_mem_drop hx)
        | exact bodyKindsList_of_subset hc (fun x hx => mem_arrayDefDimNodes hx)
        | exact bodyKindsList_of_subset hc (by
            intro x hx; rw [‹node.sons = _›]; exact List.mem_cons_of_mem _ hx)
        | exact ((bodyKindsList_cons _ _).mp hc).2
        | refine framed_map (fun _ => rfl) ?_
        | refine noteCall_frame ?_
        | refine frame_step (by assumption) ?_ | refine frame_step3 (by assumption) ?_
        | refine hv _ _ ?_ ?_ | refine ih _ ((bodyKindsList_cons _ _).mp hc).2 ?_ | dsimp only | split)

theorem regularOffsetLoop_frame {k : String × List Instruction}
    (dimensions : List Int) (indices : List Value) :
    ∀ (i : Nat) (off : Value) (g : IRGenerator), Framed k g.currentFunc →
      Framed k (regularOffsetLoop dimensions i indices off g).2.2.currentFunc := by
  induction indices with
  | nil =>
    intro i off g hg
    simp only [regularOffsetLoop]
    exact hg
  | cons head rest ih =>
    intro i off g hg
    simp only [regularOffsetLoop, IRGenerator.setLastError, IRGenerator.newBinary,
      IRGenerator.newLabel, IRGenerator.newVarValue, IRGenerator.newVarValueWithValue,
      IRGenerator.updateCurrent, IRGenerator.getCurrentFunction, IRGenerator.setLoopLabels,
      IRGenerator.enterScope, IRGenerator.leaveScope, 
      IRGenerator.newFormalParam]
    repeat' split
    all_goals
      repeat (first
        | assumption
        | exact absurd trivial (by assumption)
        | exact bodyKinds_of_mem hc (by simp [*]; done)
        | exact bodyKinds_sons (bodyKinds_of_mem hc (by simp [*]; done))
        | exact bodyKinds_sons hc
        | exact bodyKindsList_of_subset hc (fun x hx => List.mem_of_mem_drop hx)
        | exact bodyKindsList_of_subset hc (fun x hx => mem_arrayDefDimNodes hx)
        | exact bodyKindsList_of_subset hc (by
            intro x hx; rw [‹node.sons = _›]; exact List.mem_cons_of_mem _ hx)
        | exact ((bodyKindsList_cons _ _).mp hc).2
        | refine framed_map (fun _ => rfl) ?_
        | refine noteCall_frame ?_
        | refine frame_step (by assumption) ?_ | refine frame_step3 (by assumption) ?_
        | refine ih _ _ _ ?_ | dsimp only | split)

theorem regularAccessTail_frame {k : String × List Instruction}
    (arrayVar : Value) (dimensions : List Int) (indices : List Value) (g : IRGenerator) (hg : Framed k g.currentFunc) :
    Framed k (regularAccessTail arrayVar dimensions indices g).2.currentFunc := by
  simp only [regularAccessTail, IRGenerator.setLastError, IRGenerator.newBinary,
    IRGenerator.newLabel, IRGenerator.newVarValue, IRGenerator.newVarValueWithValue,
    IRGenerator.updateCurrent, IRGenerator.getCurrentFunction, IRGenerator.setLoopLabels,
    IRGenerator.enterScope, IRGenerator.leaveScope, 
    IRGenerator.newFormalParam]
  repeat' split
  all_goals
    repeat (first
      | assumption
      | exact absurd trivial (by assumption)
      | exact bodyKinds_of_mem hc (by simp [*]; done)
      | exact bodyKinds_sons (bodyKinds_of_mem hc (by simp [*]; done))
      | exact bodyKinds_sons hc
      | exact bodyKindsList_of_subset hc (fun x hx => List.mem_of_mem_drop hx)
      | exact bodyKindsList_of_subset hc (fun x hx => mem_arrayDefDimNodes hx)
      | exact bodyKindsList_of_subset hc (by
          intro x hx; rw [‹node.sons = _›]; exact List.mem_cons_of_mem _ hx)
      | exact ((bodyKindsList_cons _ _).mp hc).2
      | refine framed_map (fun _ => rfl) ?_
      | refine noteCall_frame ?_
      | refine frame_step (by assumption) ?_ | refine frame_step3 (by assumption) ?_
      | refine regularOffsetLoop_frame _ _ _ _ _ ?_ | dsimp only | split)

theorem handleRegularArrayAccess_frame {k : String × List Instruction} {visit : Visitor} (hv : KeepsFrame k visit)
    (node : ast_node) (arrayVar : Value) (dimensions : List Int) (g : IRGenerator)
    (hc : bodyKindsList node.sons = true) (hg : Framed k g.currentFunc) :
    Framed k (handleRegularArrayAccess visit node arrayVar dimensions g).2.currentFunc := by
  simp only [handleRegularArrayAccess, IRGenerator.setLastError, IRGenerator.newBinary,
    IRGenerator.newLabel, IRGenerator.newVarValue, IRGenerator.newVarValueWithValue,
    IRGenerator.updateCurrent, IRGenerator.getCurrentFunction, IRGenerator.setLoopLabels,
    IRGenerator.enterScope, IRGenerator.leaveScope, 
    IRGenerator.newFormalParam]
  repeat' split
  all_goals
    repeat (first
      | assumption
      | exact absurd trivial (by assumption)
      | exact bodyKinds_of_mem hc (by simp [*]; done)
      | exact bodyKinds_sons (bodyKinds_of_mem hc (by simp [*]; done))
      | exact bodyKinds_sons hc
      | exact bodyKindsList_of_subset hc (fun x hx => List.mem_of_mem_drop hx)
      | exact bodyKindsList_of_subset hc (fun x hx => mem_arrayDefDimNodes hx)
      | exact bodyKindsList_of_subset hc (by
          intro x hx; rw [‹node.sons = _›]; exact List.mem_cons_of_mem _ hx)
      | exact ((bodyKindsList_cons _ _).mp hc).2
      | refine framed_map (fun _ => rfl) ?_
      | refine noteCall_frame ?_
      | refine frame_step (by assumption) ?_ | refine frame_step3 (by assumption) ?_
      | refine hv _ _ ?_ ?_ | refine regularAccessTail_frame _ _ _ _ ?_
      | refine visitIndices_frame hv _ _ ?_ ?_ | dsimp only | split)

theorem paramOffsetLoop_frame {k : String × List Instruction}
    (dimensions : List Int) (indices : List Value) :
    ∀ (i : Nat) (off : Value) (g : IRGenerator), Framed k g.currentFunc →
      Framed k (paramOffsetLoop dimensions i indices off g).2.2.currentFunc := by
  induction indices with
  | nil =>
    intro i off g hg
    simp only [paramOffsetLoop]
    exact hg
  | cons head rest ih =>
    intro i off g hg
    simp only [paramOffsetLoop, IRGenerator.setLastError, IRGenerator.newBinary,
      IRGenerator.newLabel, IRGenerator.newVarValue, IRGenerator.newVarValueWithValue,
      IRGenerator.updateCurrent, IRGenerator.getCurrentFunction, IRGenerator.setLoopLabels,
      IRGenerator.enterScope, IRGenerator.leaveScope, 
      IRGenerator.newFormalParam]
    repeat' split
    all_goals
      repeat (first
        | assumption
        | exact absurd trivial (by assumption)
        | exact bodyKinds_of_mem hc (by simp [*]; done)
        | exact bodyKinds_sons (bodyKinds_of_mem hc (by simp [*]; done))
        | exact bodyKinds_sons hc
        | exact bodyKindsList_of_subset hc (fun x hx => List.mem_of_mem_drop hx)
        | exact bodyKindsList_of_subset hc (fun x hx => mem_arrayDefDimNodes hx)
        | exact bodyKindsList_of_subset hc (by
            intro x hx; rw [‹node.sons = _›]; exact List.mem_cons_of_mem _ hx)
        | exact ((bodyKindsList_cons _ _).mp hc).2
        | refine framed_map (fun _ => rfl) ?_
        | refine noteCall_frame ?_
        | refine frame_step (by assumption) ?_ | refine frame_step3 (by assumption) ?_
        | refine ih _ _ _ ?_ | dsimp only | split)

theorem handleParameterArrayAccessWithDimensions_frame {k : String × List Instruction} {visit : Visitor} (hv : KeepsFrame k visit)
    (node : ast_node) (arrayVar : Value) (dimensions : List Int) (g : IRGenerator)
    (hc : bodyKindsList node.sons = true) (hg : Framed k g.currentFunc) :
    Framed k (handleParameterArrayAccessWithDimensions visit node arrayVar dimensions g).2.currentFunc := by
  simp only [handleParameterArrayAccessWithDimensions, IRGenerator.setLastError,
    IRGenerator.newBinary, IRGenerator.newLabel, IRGenerator.newVarValue,
    IRGenerator.newVarValueWithValue, IRGenerator.updateCurrent,
    IRGenerator.getCurrentFunction, IRGenerator.setLoopLabels, IRGenerator.enterScope,
    IRGenerator.leaveScope, 
    IRGenerator.newFormalParam]
  repeat' split
  all_goals
    repeat (first
      | assumption
      | exact absurd trivial (by assumption)
      | exact bodyKinds_of_mem hc (by simp [*]; done)
      | exact bodyKinds_sons (bodyKinds_of_mem hc (by simp [*]; done))
      | exact bodyKinds_sons hc
      | exact bodyKindsList_of_subset hc (fun x hx => List.mem_of_mem_drop hx)
      | exact bodyKindsList_of_subset hc (fun x hx => mem_arrayDefDimNodes hx)
      | exact bodyKindsList_of_subset hc (by
          intro x hx; rw [‹node.sons = _›]; exact List.mem_cons_of_mem _ hx)
      | exact ((bodyKindsList_cons _ _).mp hc).2
      | refine framed_map (fun _ => rfl) ?_
      | refine noteCall_frame ?_
      | refine frame_step (by assumption) ?_ | refine frame_step3 (by assumption) ?_
      | refine hv _ _ ?_ ?_ | refine paramOffsetLoop_frame _ _ _ _ _ ?_
      | refine visitIndices_frame hv _ _ ?_ ?_ | dsimp only | split)

theorem handleSimplePointerParamAccess_frame {k : String × List Instruction} {visit : Visitor} (hv : KeepsFrame k visit)
    (node : ast_node) (arrayVar : Value) (g : IRGenerator)
    (hc : bodyKindsList node.sons = true) (hg : Framed k g.currentFunc) :
    Framed k (handleSimplePointerParamAccess visit node arrayVar g).2.currentFunc := by
  simp only [handleSimplePointerParamAccess, IRGenerator.setLastError, IRGenerator.newBinary,
    IRGenerator.newLabel, IRGenerator.newVarValue, IRGenerator.newVarValueWithValue,
    IRGenerator.updateCurrent, IRGenerator.getCurrentFunction, IRGenerator.setLoopLabels,
    IRGenerator.enterScope, IRGenerator.leaveScope, 
    IRGenerator.newFormalParam]
  repeat' split
  all_goals
    repeat (first
      | assumption
      | exact absurd trivial (by assumption)
      | exact bodyKinds_of_mem hc (by simp [*]; done)
      | exact bodyKinds_sons (bodyKinds_of_mem hc (by simp [*]; done))
      | exact bodyKinds_sons hc
      | exact bodyKindsList_of_subset hc (fun x hx => List.mem_of_mem_drop hx)
      | exact bodyKindsList_of_subset hc (fun x hx => mem_arrayDefDimNodes hx)
      | exact bodyKindsList_of_subset hc (by
          intro x hx; rw [‹node.sons = _›]; exact List.mem_cons_of_mem _ hx)
      | exact ((bodyKindsList_cons _ _).mp hc).2
      | refine framed_map (fun _ => rfl) ?_
      | refine noteCall_frame ?_
      | refine frame_step (by assumption) ?_ | refine frame_step3 (by assumption) ?_
      | refine hv _ _ ?_ ?_ | dsimp only | split)

theorem ir_array_access_frame {k : String × List Instruction} {visit : Visitor} (hv : KeepsFrame k visit)
    (node : ast_node) (g : IRGenerator)
    (hc : bodyKindsList node.sons = true) (hg : Framed k g.currentFunc) :
    Framed k (ir_array_access visit node g).2.currentFunc := by
  simp only [ir_array_access, IRGenerator.setLastError, IRGenerator.newBinary,
    IRGenerator.newLabel, IRGenerator.newVarValue, IRGenerator.newVarValueWithValue,
    IRGenerator.updateCurrent, IRGenerator.getCurrentFunction, IRGenerator.setLoopLabels,
    IRGenerator.enterScope, IRGenerator.leaveScope, 
    IRGenerator.newFormalParam]
  repeat' split
  all_goals
    repeat (first
      | assumption
      | exact absurd trivial (by assumption)
      | exact bodyKinds_of_mem hc (by simp [*]; done)
      | exact bodyKinds_sons (bodyKinds_of_mem hc (by simp [*]; done))
      | exact bodyKinds_sons hc
      | exact bodyKindsList_of_subset hc (fun x hx => List.mem_of_mem_drop hx)
      | exact bodyKindsList_of_subset hc (fun x hx => mem_arrayDefDimNodes hx)
      | exact bodyKindsList_of_subset hc (by
          intro x hx; rw [‹node.sons = _›]; exact List.mem_cons_of_mem _ hx)
      | exact ((bodyKindsList_cons _ _).mp hc).2
      | refine framed_map (fun _ => rfl) ?_
      | refine noteCall_frame ?_
      | refine frame_step (by assumption) ?_ | refine frame_step3 (by assumption) ?_
      | refine hv _ _ ?_ ?_ | refine handleRegularArrayAccess_frame hv _ _ _ _ ?_ ?_
      | refine handleParameterArrayAccessWithDimensions_frame hv _ _ _ _ ?_ ?_
      | refine handleSimplePointerParamAccess_frame hv _ _ _ ?_ ?_ | dsimp only | split)

theorem arrayAccessOffsetLoop_frame {k : String × List Instruction} {visit : Visitor} (hv : KeepsFrame k visit)
    (dimensions : List Int) (sons : List ast_node) :
    ∀ (i : Nat) (off : Value) (g : IRGenerator), bodyKindsList sons = true → Framed k g.currentFunc →
      Framed k (arrayAccessOffsetLoop visit dimensions i sons off g).2.currentFunc := by
  induction sons with
  | nil =>
    intro i off g hc hg
    simp only [arrayAccessOffsetLoop]
    exact hg
  | cons head rest ih =>
    intro i off g hc hg
    simp only [arrayAccessOffsetLoop, IRGenerator.setLastError, IRGenerator.newBinary,
      IRGenerator.newLabel, IRGenerator.newVarValue, IRGenerator.newVarValueWithValue,
      IRGenerator.updateCurrent, IRGenerator.getCurrentFunction, IRGenerator.setLoopLabels,
      IRGenerator.enterScope, IRGenerator.leaveScope, 
      IRGenerator.newFormalParam]
    repeat' split
    all_goals
      repeat (first
        | assumption
        | exact absurd trivial (by assumption)
        | exact bodyKinds_of_mem hc (by simp [*]; done)
        | exact bodyKinds_sons (bodyKinds_of_mem hc (by simp [*]; done))
        | exact bodyKinds_sons hc
        | exact bodyKindsList_of_subset hc (fun x hx => List.mem_of_mem_drop hx)
        | exact bodyKindsList_of_subset hc (fun x hx => mem_arrayDefDimNodes hx)
        | exact bodyKindsList_of_subset hc (by
            intro x hx; rw [‹node.sons = _›]; exact List.mem_cons_of_mem _ hx)
        | exact ((bodyKindsList_cons _ _).mp hc).2
        | refine framed_map (fun _ => rfl) ?_
        | refine noteCall_frame ?_
        | refine frame_step (by assumption) ?_ | refine frame_step3 (by assumption) ?_
        | refine hv _ _ ?_ ?_ | refine ih _ _ _ ((bodyKindsList_cons _ _).mp hc).2 ?_ | dsimp only | split)

theorem calculateArrayAccessOffset_frame {k : String × List Instruction} {visit : Visitor} (hv : KeepsFrame k visit)
    (node : ast_node) (g : IRGenerator)
    (hc : bodyKindsList node.sons = true) (hg : Framed k g.currentFunc) :
    Framed k (calculateArrayAccessOffset visit node g).2.currentFunc := by
  simp only [calculateArrayAccessOffset, IRGenerator.setLastError, IRGenerator.newBinary,
    IRGenerator.newLabel, IRGenerator.newVarValue, IRGenerator.newVarValueWithValue,
    IRGenerator.updateCurrent, IRGenerator.getCurrentFunction, IRGenerator.setLoopLabels,
    IRGenerator.enterScope, IRGenerator.leaveScope, 
    IRGenerator.newFormalParam]
  repeat' split
  all_goals
    repeat (first
      | assumption
      | exact absurd trivial (by assumption)
      | exact bodyKinds_of_mem hc (by simp [*]; done)
      | exact bodyKinds_sons (bodyKinds_of_mem hc (by simp [*]; done))
      | exact bodyKinds_sons hc
      | exact bodyKindsList_of_subset hc (fun x hx => List.mem_of_mem_drop hx)
      | exact bodyKindsList_of_subset hc (fun x hx => mem_arrayDefDimNodes hx)
      | exact bodyKindsList_of_subset hc (by
          intro x hx; rw [‹node.sons = _›]; exact List.mem_cons_of_mem _ hx)
      | exact ((bodyKindsList_cons _ _).mp hc).2
      | refine framed_map (fun _ => rfl) ?_
      | refine noteCall_frame ?_
      | refine frame_step (by assumption) ?_ | refine frame_step3 (by assumption) ?_
      | refine hv _ _ ?_ ?_ | refine arrayAccessOffsetLoop_frame hv _ _ _ _ _ ?_ ?_ | dsimp only | split)

theorem ir_function_call_arg_frame {k : String × List Instruction} {visit : Visitor} (hv : KeepsFrame k visit)
    (funcName : String) (flag : Bool) (son : ast_node) (g : IRGenerator) (hc : son.bodyKinds = true) (hg : Framed k g.currentFunc) :
    Framed k (ir_function_call_arg visit funcName flag son g).2.currentFunc := by
  simp only [ir_function_call_arg, IRGenerator.setLastError, IRGenerator.newBinary,
    IRGenerator.newLabel, IRGenerator.newVarValue, IRGenerator.newVarValueWithValue,
    IRGenerator.updateCurrent, IRGenerator.getCurrentFunction, IRGenerator.setLoopLabels,
    IRGenerator.enterScope, IRGenerator.leaveScope, 
    IRGenerator.newFormalParam]
  repeat' split
  all_goals
    repeat (first
      | assumption
      | exact absurd trivial (by assumption)
      | exact bodyKinds_of_mem hc (by simp [*]; done)
      | exact bodyKinds_sons (bodyKinds_of_mem hc (by simp [*]; done))
      | exact bodyKinds_sons hc
      | exact bodyKindsList_of_subset hc (fun x hx => List.mem_of_mem_drop hx)
      | exact bodyKindsList_of_subset hc (fun x hx => mem_arrayDefDimNodes hx)
      | exact bodyKindsList_of_subset hc (by
          intro x hx; rw [‹node.sons = _›]; exact List.mem_cons_of_mem _ hx)
      | exact ((bodyKindsList_cons _ _).mp hc).2
      | refine framed_map (fun _ => rfl) ?_
      | refine noteCall_frame ?_
      | refine frame_step (by assumption) ?_ | refine frame_step3 (by assumption) ?_
      | refine hv _ _ ?_ ?_ | refine calculateArrayAccessOffset_frame hv _ _ ?_ ?_ | dsimp only | split)

theorem ir_function_call_args_frame {k : String × List Instruction} {visit : Visitor} (hv : KeepsFrame k visit)
    (funcName : String) (formalParams : List Value) (sons : List ast_node) :
    ∀ (i : Nat) (g : IRGenerator), bodyKindsList sons = true → Framed k g.currentFunc →
      Framed k (ir_function_call_args visit funcName formalParams i sons g).2.currentFunc := by
  induction sons with
  | nil =>
    intro i g hc hg
    simp only [ir_function_call_args]
    exact hg
  | cons head rest ih =>
    intro i g hc hg
    simp only [ir_function_call_args, IRGenerator.setLastError, IRGenerator.newBinary,
      IRGenerator.newLabel, IRGenerator.newVarValue, IRGenerator.newVarValueWithValue,
      IRGenerator.updateCurrent, IRGenerator.getCurrentFunction, IRGenerator.setLoopLabels,
      IRGenerator.enterScope, IRGenerator.leaveScope, 
      IRGenerator.newFormalParam]
    repeat' split
    all_goals
      repeat (first
        | assumption
        | exact absurd trivial (by assumption)
        | exact bodyKinds_of_mem hc (by simp [*]; done)
        | exact bodyKinds_sons (bodyKinds_of_mem hc (by simp [*]; done))
        | exact bodyKinds_sons hc
        | exact bodyKindsList_of_subset hc (fun x hx => List.mem_of_mem_drop hx)
        | exact bodyKindsList_of_subset hc (fun x hx => mem_arrayDefDimNodes hx)
        | exact bodyKindsList_of_subset hc (by
            intro x hx; rw [‹node.sons = _›]; exact List.mem_cons_of_mem _ hx)
        | exact ((bodyKindsList_cons _ _).mp hc).2
        | refine framed_map (fun _ => rfl) ?_
        | refine noteCall_frame ?_
        | refine frame_step (by assumption) ?_ | refine frame_step3 (by assumption) ?_
        | refine hv _ _ ?_ ?_ | refine ir_function_call_arg_frame hv _ _ _ _ ?_ ?_ | refine ih _ _ ((bodyKindsList_cons _ _).mp hc).2 ?_
        | dsimp only | split)

theorem ir_function_call_frame {k : String × List Instruction} {visit : Visitor} (hv : KeepsFrame k visit)
    (node : ast_node) (g : IRGenerator)
    (hc : bodyKindsList node.sons = true) (hg : Framed k g.currentFunc) :
    Framed k (ir_function_call visit node g).2.currentFunc := by
  simp only [ir_function_call, IRGenerator.setLastError, IRGenerator.newBinary,
    IRGenerator.newLabel, IRGenerator.newVarValue, IRGenerator.newVarValueWithValue,
    IRGenerator.updateCurrent, IRGenerator.getCurrentFunction, IRGenerator.setLoopLabels,
    IRGenerator.enterScope, IRGenerator.leaveScope, 
    IRGenerator.newFormalParam]
  repeat' split
  all_goals
    repeat (first
      | assumption
      | exact absurd trivial (by assumption)
      | exact bodyKinds_of_mem hc (by simp [*]; done)
      | exact bodyKinds_sons (bodyKinds_of_mem hc (by simp [*]; done))
      | exact bodyKinds_sons hc
      | exact bodyKindsList_of_subset hc (fun x hx => List.mem_of_mem_drop hx)
      | exact bodyKindsList_of_subset hc (fun x hx => mem_arrayDefDimNodes hx)
      | exact bodyKindsList_of_subset hc (by
          intro x hx; rw [‹node.sons = _›]; exact List.mem_cons_of_mem _ hx)
      | exact ((bodyKindsList_cons _ _).mp hc).2
      | refine framed_map (fun _ => rfl) ?_
      | refine noteCall_frame ?_
      | refine frame_step (by assumption) ?_ | refine frame_step3 (by assumption) ?_
      | refine hv _ _ ?_ ?_ | refine ir_function_call_args_frame hv _ _ _ _ _ ?_ ?_ | dsimp only | split)

theorem ir_variable_declare_frame {k : String × List Instruction} {visit : Visitor} (hv : KeepsFrame k visit)
    (node : ast_node) (g : IRGenerator)
    (hc : bodyKindsList node.sons = true) (hg : Framed k g.currentFunc) :
    Framed k (ir_variable_declare visit node g).2.currentFunc := by
  simp only [ir_variable_declare, IRGenerator.setLastError, IRGenerator.newBinary,
    IRGenerator.newLabel, IRGenerator.newVarValue, IRGenerator.newVarValueWithValue,
    IRGenerator.updateCurrent, IRGenerator.getCurrentFunction, IRGenerator.setLoopLabels,
    IRGenerator.enterScope, IRGenerator.leaveScope, 
    IRGenerator.newFormalParam]
  repeat' split
  all_goals
    repeat (first
      | assumption
      | exact absurd trivial (by assumption)
      | exact bodyKinds_of_mem hc (by simp [*]; done)
      | exact bodyKinds_sons (bodyKinds_of_mem hc (by simp [*]; done))
      | exact bodyKinds_sons hc
      | exact bodyKindsList_of_subset hc (fun x hx => List.mem_of_mem_drop hx)
      | exact bodyKindsList_of_subset hc (fun x hx => mem_arrayDefDimNodes hx)
      | exact bodyKindsList_of_subset hc (by
          intro x hx; rw [‹node.sons = _›]; exact List.mem_cons_of_mem _ hx)
      | exact ((bodyKindsList_cons _ _).mp hc).2
      | refine framed_map (fun _ => rfl) ?_
      | refine noteCall_frame ?_
      | refine frame_step (by assumption) ?_ | refine frame_step3 (by assumption) ?_
      | refine hv _ _ ?_ ?_ | refine ir_array_def_frame hv _ _ ?_ ?_ | dsimp only | split)

theorem ir_declare_statment_sons_frame {k : String × List Instruction} {visit : Visitor} (hv : KeepsFrame k visit)
     (sons : List ast_node) :
    ∀  (g : IRGenerator), bodyKindsList sons = true → Framed k g.currentFunc →
      Framed k (ir_declare_statment_sons visit sons g).2.currentFunc := by
  induction sons with
  | nil =>
    intro  g hc hg
    simp only [ir_declare_statment_sons]
    exact hg
  | cons head rest ih =>
    intro  g hc hg
    simp only [ir_declare_statment_sons, IRGenerator.setLastError, IRGenerator.newBinary,
      IRGenerator.newLabel, IRGenerator.newVarValue, IRGenerator.newVarValueWithValue,
      IRGenerator.updateCurrent, IRGenerator.getCurrentFunction, IRGenerator.setLoopLabels,
      IRGenerator.enterScope, IRGenerator.leaveScope, 
      IRGenerator.newFormalParam]
    repeat' split
    all_goals
      repeat (first
        | assumption
        | exact absurd trivial (by assumption)
        | exact bodyKinds_of_mem hc (by simp [*]; done)
        | exact bodyKinds_sons (bodyKinds_of_mem hc (by simp [*]; done))
        | exact bodyKinds_sons hc
        | exact bodyKindsList_of_subset hc (fun x hx => List.mem_of_mem_drop hx)
        | exact bodyKindsList_of_subset hc (fun x hx => mem_arrayDefDimNodes hx)
        | exact bodyKindsList_of_subset hc (by
            intro x hx; rw [‹node.sons = _›]; exact List.mem_cons_of_mem _ hx)
        | exact ((bodyKindsList_cons _ _).mp hc).2
        | refine framed_map (fun _ => rfl) ?_
        | refine noteCall_frame ?_
        | refine frame_step (by assumption) ?_ | refine frame_step3 (by assumption) ?_
        | refine hv _ _ ?_ ?_ | refine ir_variable_declare_frame hv _ _ ?_ ?_ | refine ih _ ((bodyKindsList_cons _ _).mp hc).2 ?_
        | dsimp only | split)

theorem ir_declare_statment_frame {k : String × List Instruction} {visit : Visitor} (hv : KeepsFrame k visit)
    (node : ast_node) (g : IRGenerator)
    (hc : bodyKindsList node.sons = true) (hg : Framed k g.currentFunc) :
    Framed k (ir_declare_statment visit node g).2.currentFunc := by
  simp only [ir_declare_statment, IRGenerator.setLastError, IRGenerator.newBinary,
    IRGenerator.newLabel, IRGenerator.newVarValue, IRGenerator.newVarValueWithValue,
    IRGenerator.updateCurrent, IRGenerator.getCurrentFunction, IRGenerator.setLoopLabels,
    IRGenerator.enterScope, IRGenerator.leaveScope, 
    IRGenerator.newFormalParam]
  repeat' split
  all_goals
    repeat (first
      | assumption
      | exact absurd trivial (by assumption)
      | exact bodyKinds_of_mem hc (by simp [*]; done)
      | exact bodyKinds_sons (bodyKinds_of_mem hc (by simp [*]; done))
      | exact bodyKinds_sons hc
      | exact bodyKindsList_of_subset hc (fun x hx => List.mem_of_mem_drop hx)
      | exact bodyKindsList_of_subset hc (fun x hx => mem_arrayDefDimNodes hx)
      | exact bodyKindsList_of_subset hc (by
          intro x hx; rw [‹node.sons = _›]; exact List.mem_cons_of_mem _ hx)
      | exact ((bodyKindsList_cons _ _).mp hc).2
      | refine framed_map (fun _ => rfl) ?_
      | refine noteCall_frame ?_
      | refine frame_step (by assumption) ?_ | refine frame_step3 (by assumption) ?_
      | refine hv _ _ ?_ ?_ | refine ir_declare_statment_sons_frame hv _ _ ?_ ?_ | dsimp only | split)

theorem ir_function_define_frame {k : String × List Instruction} {visit : Visitor}
    (node : ast_node) (g : IRGenerator) (hg : Framed k g.currentFunc) :
    Framed k (ir_function_define visit node g).2.currentFunc := by
  have hcur : ∃ f, g.currentFunc = some f := by
    cases h : g.currentFunc with
    | none => rw [h] at hg; simp [Framed] at hg
    | some f => exact ⟨f, rfl⟩
  obtain ⟨f, hf⟩ := hcur
  unfold ir_function_define
  split
  · simp only [IRGenerator.getCurrentFunction, hf]
    exact hg
  · exact hg

theorem dispatch_frame {k : String × List Instruction} {visit : Visitor}
    (hv : KeepsFrame k visit) (node : ast_node) (g : IRGenerator)
    (hc : node.bodyKinds = true) (hg : Framed k g.currentFunc) :
    Framed k (dispatch visit node g).2.currentFunc := by
  have hs := bodyKinds_sons hc
  have hk := bodyKinds_kind hc
  unfold dispatch
  split
  exacts [ir_leaf_node_uint_frame _ _ hg,
    ir_leaf_node_var_id_frame _ _ hg,
    ir_leaf_node_type_frame _ _ hg,
    ir_sub_frame hv _ _ hs hg,
    ir_add_frame hv _ _ hs hg,
    ir_mul_frame hv _ _ hs hg,
    ir_div_frame hv _ _ hs hg,
    ir_mod_frame hv _ _ hs hg,
    ir_neg_frame hv _ _ hs hg,
    ir_lt_frame hv _ _ hs hg,
    ir_gt_frame hv _ _ hs hg,
    ir_le_frame hv _ _ hs hg,
    ir_ge_frame hv _ _ hs hg,
    ir_eq_frame hv _ _ hs hg,
    ir_ne_frame hv _ _ hs hg,
    ir_logic_and_frame hv _ _ hs hg,
    ir_logic_or_frame hv _ _ hs hg,
    ir_logic_not_frame hv _ _ hs hg,
    ir_if_frame hv _ _ hs hg,
    ir_if_else_frame hv _ _ hs hg,
    ir_while_frame hv _ _ hs hg,
    ir_break_frame _ _ hg,
    ir_continue_frame _ _ hg,
    ir_array_def_frame hv _ _ hs hg,
    ir_array_access_frame hv _ _ hs hg,
    ir_assign_frame hv _ _ hs hg,
    ir_return_frame hv _ _ hs hg,
    ir_function_call_frame hv _ _ hs hg,
    ir_function_define_frame _ _ hg,
    absurd (by assumption) hk.2,
    ir_function_formal_param_array_frame _ _ hg,
    ir_empty_stmt_frame _ _ hg,
    ir_declare_statment_frame hv _ _ hs hg,
    ir_variable_declare_frame hv _ _ hs hg,
    ir_block_frame hv _ _ hs hg,
    absurd (by assumption) hk.1,
    ir_default_frame _ _ hg]

/-- On a tree without compile unit and formal-parameter list, no visit changes the
name or the instruction list of the current function. -/
theorem ir_visit_ast_node_frame (k : String × List Instruction) :
    ∀ n : Nat, KeepsFrame k (ir_visit_ast_node n) := by
  intro n
  induction n with
  | zero => intro node g _ hg; exact hg
  | succ n ih => intro node g hc hg; exact dispatch_frame ih node g hc hg

set_option linter.unusedVariables true

/-! ### Function definitions: the instruction list -/

theorem framed_some {cur : Option Function} {f : Function} (h : cur = some f) :
    Framed f.frame cur := by
  rw [h]; rfl

/-- Claim C18, as amended: for the definition of a registered function whose
instruction list is empty when the definition is lowered and whose body, a tree without
compile unit and formal-parameter list, lowers successfully, `ir_function_define`
succeeds and the instruction list of the function is exactly: one `Entry`; for `main`,
the initialisation of the globals, in the order in which the iteration over the map of
initial values yields them; one move per formal parameter that is not an array
parameter, copying the parameter into a fresh local, in parameter order, and none for an
array parameter; the code of the body; the exit label; and one `Exit` carrying the
return-value slot, which is absent for a `void` function. -/
theorem function_define_layout (n : Nat)
    (node type_node name_node param_node block_node : ast_node) (rest : List ast_node)
    (g g6 g9 : IRGenerator) (newFunc : Function) (pr block : NodeResult)
    (hnt : node.node_type = .AST_OP_FUNC_DEF)
    (hsons : node.sons = type_node :: name_node :: param_node :: block_node :: rest)
    (hcur : g.currentFunc = none)
    (hfind : g.findFunction name_node.name = some newFunc)
    (hempty : newFunc.interCode = [])
    (hparams : ir_function_formal_params param_node (defineEntry g newFunc name_node.name) =
      (some pr, g6))
    (hkinds : block_node.bodyKinds = true)
    (hbody : ir_block (ir_visit_ast_node n) (block_node.setNeedScope false)
      (bodyEntry type_node.type g6) = (some block, g9)) :
    (ir_visit_ast_node (n + 1) node g).1 = some {} ∧
    ∃ f, (ir_visit_ast_node (n + 1) node g).2.findFunction name_node.name = some f ∧
      f.interCode =
        [.Entry] ++ globalInitCode g name_node.name ++
          paramMoves param_node.sons 0 (g.nextId + 1) newFunc.params ++
          block.blockInsts ++
          [.Label g.nextId, .Exit (returnSlot type_node.type g6)] ∧
      (type_node.type.isVoidType = true → returnSlot type_node.type g6 = none) := by
  have hname : newFunc.name = name_node.name := by
    have := List.find?_some hfind
    simpa using this
  have hreg : RegL name_node.name g.functions := by
    unfold RegL
    unfold IRGenerator.findFunction at hfind
    rw [hfind]; rfl
  obtain ⟨hE, hEid, hEfun⟩ := defineEntry_currentFunc g newFunc name_node.name
  obtain ⟨g6', hloop, hcur6⟩ := formal_params_code param_node.sons newFunc.params 0
    (defineEntry g newFunc name_node.name) _ hE
  have hg6 : g6' = g6 := by
    simp only [ir_function_formal_params, IRGenerator.getCurrentFunction, hE, hloop] at hparams
    exact (Prod.mk.inj hparams).2
  subst hg6
  have hB := bodyEntry_currentFunc type_node.type g6' _ hcur6
  have hframe : g9.currentFunc.map (fun f => (f.name, f.interCode)) =
      (bodyEntry type_node.type g6').currentFunc.map (fun f => (f.name, f.interCode)) := by
    have hg0 := framed_some hB
    have hfr := ir_block_frame (ir_visit_ast_node_frame _ n) (block_node.setNeedScope false)
      (bodyEntry type_node.type g6')
      (by rw [bodyKinds_setNeedScope]; exact bodyKinds_sons hkinds) hg0
    rw [hbody] at hfr
    rw [hB]
    exact hfr
  rw [hB] at hframe
  cases h9 : g9.currentFunc with
  | none => rw [h9] at hframe; simp at hframe
  | some f9 =>
    rw [h9] at hframe
    simp only [Option.map_some', Option.some.injEq, Prod.mk.injEq] at hframe
    obtain ⟨hn9, hc9⟩ := hframe
    have hreg9 : RegL name_node.name g9.functions := by
      have h6 : RegL name_node.name g6'.functions := by
        have := ir_function_formal_params_reg param_node
          (defineEntry g newFunc name_node.name) (hEfun ▸ hreg)
        rw [hparams] at this
        exact this
      have := ir_block_reg (ir_visit_ast_node_reg name_node.name n)
        (block_node.setNeedScope false) (bodyEntry type_node.type g6')
        ((bodyEntry_functions type_node.type g6').symm ▸ h6)
      rw [hbody] at this
      exact this
    rw [ir_visit_ast_node_succ]
    simp only [dispatch, hnt]
    rw [ir_function_define_registered _ _ _ _ _ _ _ _ _ hsons hcur hfind, hparams]
    simp only [hbody]
    refine ⟨trivial, ?_⟩
    refine ⟨{ f9 with interCode := f9.interCode ++ block.blockInsts ++
      [.Label g.nextId, .Exit (returnSlot type_node.type g6')] }, ?_, ?_, ?_⟩
    · simp only [IRGenerator.findFunction, IRGenerator.leaveScope, IRGenerator.addInst,
        IRGenerator.updateCurrent, IRGenerator.setCurrentFunction, h9, Option.map_some']
      exact find_after_store name_node.name
        { f9 with interCode := f9.interCode ++ block.blockInsts ++
            [.Label g.nextId, .Exit (returnSlot type_node.type g6')] }
        (hn9.trans hname) _ hreg9
    · simp [hc9, hempty, hEid]
    · intro hvoid
      simp [returnSlot, hvoid]

/-- Witness of C18: `int main() { return a; }` after `int a = 1; int b = 2; int d = 3;`,
with the prototype registered and an iteration over the map of initial values that
yields `b`, `d`, `a`. -/
theorem function_define_layout_witness :
    (ir_visit_ast_node 4 exMain exGeneratorGlobals).1 = some {} ∧
    ∃ f, (ir_visit_ast_node 4 exMain exGeneratorGlobals).2.findFunction "main" = some f ∧
      f.interCode =
        [.Entry] ++
          [.Move (some (.GlobalVariable 1 .int32 "b")) (some (.ConstInt 2)) false false,
           .Move (some (.GlobalVariable 2 .int32 "d")) (some (.ConstInt 3)) false false,
           .Move (some (.GlobalVariable 0 .int32 "a")) (some (.ConstInt 1)) false false] ++
          [] ++
          [.Move (some (.LocalVariable 4 .int32 "")) (some (.GlobalVariable 0 .int32 "a"))
            false false,
           .Goto (some 3)] ++
          [.Label 3, .Exit (some (.LocalVariable 4 .int32 ""))] ∧
      (IRType.int32.isVoidType = true → (some (Value.LocalVariable 4 .int32 "")) = none) :=
  function_define_layout 3 exMain (exType .int32) (exVar "main")
    (exNode .AST_OP_FUNC_FORMAL_PARAMS [])
    (exNode .AST_OP_BLOCK [exNode .AST_OP_RETURN [exVar "a"]]) []
    exGeneratorGlobals
    (ir_function_formal_params (exNode .AST_OP_FUNC_FORMAL_PARAMS [])
      (defineEntry exGeneratorGlobals exMainProto "main")).2
    (bodyEntry .int32
      (ir_function_formal_params (exNode .AST_OP_FUNC_FORMAL_PARAMS [])
        (defineEntry exGeneratorGlobals exMainProto "main")).2)
    exMainProto {}
    { blockInsts :=
        [.Move (some (.LocalVariable 4 .int32 "")) (some (.GlobalVariable 0 .int32 "a"))
          false false,
         .Goto (some 3)] }
    rfl rfl rfl rfl rfl rfl rfl rfl

/-- Counterexample to C18 as stated: the unit `int f() { return 0; } int f() { return 1; }`
lowers successfully, and after the second definition the instruction list of `f` holds
the code of both definitions: two `Entry` instructions and two `Exit` instructions, the
first `Exit` in the middle of the list. -/
theorem function_defined_twice :
    (ir_visit_ast_node 6 exTwice {}).1.isSome = true ∧
      ((ir_visit_ast_node 6 exTwice {}).2.findFunction "f").map (fun f => f.interCode) =
        some [.Entry,
              .Move (some (.LocalVariable 1 .int32 "")) (some (.ConstInt 0)) false false,
              .Goto (some 0),
              .Label 0,
              .Exit (some (.LocalVariable 1 .int32 "")),
              .Entry,
              .Move (some (.LocalVariable 3 .int32 "")) (some (.ConstInt 1)) false false,
              .Goto (some 2),
              .Label 2,
              .Exit (some (.LocalVariable 3 .int32 ""))] := by
  decide!

/-! ### Array definitions and element assignment -/

/-- Claim C27, failing input: for `int a[2][x]` with a variable `x` as the last
dimension, `ir_array_def` succeeds and declares `a` with the array type of dimensions
`[2]`; the last child is never examined. -/
theorem array_def_drops_last_dimension :
    (ir_visit_ast_node 3 (exArrayDef "a" [exLit 2, exVar "x"]) exGenerator).1 =
        some { val := some (.LocalVariable 1 (.array .int32 [2]) "a") } ∧
      (ir_visit_ast_node 3 (exArrayDef "a" [exLit 2, exVar "x"]) exGenerator).2.findVarValue "a" =
        some (.LocalVariable 1 (.array .int32 [2]) "a") := by
  decide!

/-- Claim C29, failing input: for `int a[3] = 7` the array type declared by
`ir_array_def` has the dimensions `[3, 7]`; the literal initializer is counted as a
dimension. -/
theorem array_def_counts_initializer :
    (ir_visit_ast_node 3 (exArrayDef "a" [exLit 3, exLit 7]) exGenerator).1 =
      some { val := some (.LocalVariable 1 (.array .int32 [3, 7]) "a") } := by
  decide!

/-- The variable `newVarValue` creates has the type asked for. -/
theorem newVarValue_getType (g : IRGenerator) (type : IRType) (name : String) :
    (g.newVarValue type name).1.getType = type := by
  unfold IRGenerator.newVarValue
  dsimp only
  split <;> rfl

/-- Claim C28: whenever the lowering of an array definition succeeds, its value is a
variable of an array type whose dimension list is non-empty and has only strictly
positive entries (so a definition that would give an empty list or a dimension at most
0 does not succeed). -/
theorem array_def_dimensions_positive (n : Nat) (node : ast_node) (g g' : IRGenerator)
    (r : NodeResult)
    (hnt : node.node_type = .AST_OP_ARRAY_DEF)
    (hret : ir_visit_ast_node (n + 1) node g = (some r, g')) :
    ∃ v dims, r.val = some v ∧ v.getType = .array .int32 dims ∧ dims ≠ [] ∧
      ∀ d ∈ dims, 0 < d := by
  rw [ir_visit_ast_node_succ] at hret
  simp only [dispatch, hnt, ir_array_def] at hret
  revert hret
  repeat' split
  all_goals intro hret
  all_goals simp only [Prod.mk.injEq, Option.some.injEq, reduceCtorEq, false_and] at hret
  rename_i dimensions _ _ hempty hany
  obtain ⟨rfl, -⟩ := hret
  refine ⟨_, dimensions, rfl, newVarValue_getType _ _ _, ?_, ?_⟩
  · intro h
    simp [h] at hempty
  · intro d hd
    simp only [List.any_eq_true, decide_eq_true_eq, not_exists, not_and, not_le] at hany
    exact hany d hd

/-- Witness of C28: `int a[2][3]` lowered inside `f`. -/
theorem array_def_dimensions_positive_witness :
    ∃ v dims, some (Value.LocalVariable 1 (.array .int32 [2, 3]) "a") = some v ∧
      v.getType = .array .int32 dims ∧ dims ≠ [] ∧ ∀ d ∈ dims, 0 < d :=
  array_def_dimensions_positive 1 (exArrayDef "a" [exLit 2, exLit 3]) exGenerator
    (exGenerator.newVarValue (.array .int32 [2, 3]) "a").2
    { val := some (.LocalVariable 1 (.array .int32 [2, 3]) "a") } rfl rfl

/-- The last element of a list that ends with a non-empty suffix. -/
theorem getLast?_append_suffix (p s : List Instruction) (x : Instruction)
    (h : s.getLast? = some x) : (p ++ s).getLast? = some x := by
  cases s with
  | nil => simp at h
  | cons a t => rw [List.getLast?_append_of_ne_nil _ (by simp)]; exact h

/-- Both paths of `regularAccessTail` end with the load of the element through the
address they computed. -/
theorem regularAccessTail_load (arrayVar : Value) (dimensions : List Int)
    (indices : List Value) (g : IRGenerator) :
    ∃ ptr elem, (regularAccessTail arrayVar dimensions indices g).1.arrayPtr = some ptr ∧
      (regularAccessTail arrayVar dimensions indices g).1.val = some elem ∧
      (regularAccessTail arrayVar dimensions indices g).1.blockInsts.getLast? =
        some (.Move (some elem) (some ptr) false true) := by
  unfold regularAccessTail
  repeat' split
  all_goals exact ⟨_, _, rfl, rfl, by first | rfl | exact getLast?_append_suffix _ _ _ rfl⟩

/-- Every successful `ir_array_access` ends with the load of the element through the
address it returns. -/
theorem array_access_ends_with_load (visit : Visitor) (node : ast_node) (g g' : IRGenerator)
    (r : NodeResult) (h : ir_array_access visit node g = (some r, g')) :
    ∃ ptr elem, r.arrayPtr = some ptr ∧ r.val = some elem ∧
      r.blockInsts.getLast? = some (.Move (some elem) (some ptr) false true) := by
  simp only [ir_array_access, handleRegularArrayAccess, handleSimplePointerParamAccess,
    handleParameterArrayAccessWithDimensions] at h
  revert h
  repeat' split
  all_goals intro h
  all_goals simp only [Prod.mk.injEq, Option.some.injEq, reduceCtorEq, false_and] at h
  all_goals obtain ⟨rfl, -⟩ := h
  all_goals first
    | exact ⟨_, _, rfl, rfl, by first | rfl | exact getLast?_append_suffix _ _ _ rfl⟩
    | (obtain ⟨ptr, elem, h1, h2, h3⟩ := regularAccessTail_load ‹Value› ‹List Int›
        ‹List Value› ‹IRGenerator›
       exact ⟨ptr, elem, h1, h2, getLast?_append_suffix _ _ _ h3⟩)

/-- Claim C30, amended: for an assignment whose target is an array-element access,
the code is the code of the right-hand side, then the code of the access, then one
store of the right-hand value through the address of the element; the code of the
access ends with a load of the target element through that same address. -/
theorem assign_array_element_layout (n : Nat) (node son1 son2 : ast_node)
    (rest : List ast_node) (g g1 g2 : IRGenerator) (right left : NodeResult) (rightVal : Value)
    (hnt : node.node_type = .AST_OP_ASSIGN)
    (hsons : node.sons = son1 :: son2 :: rest)
    (hkind : son1.node_type = .AST_OP_ARRAY_ACCESS)
    (hright : ir_visit_ast_node (n + 1) son2 g = (some right, g1))
    (hval : right.val = some rightVal)
    (hleft : ir_visit_ast_node (n + 1) son1 g1 = (some left, g2)) :
    ∃ ptr elem, left.arrayPtr = some ptr ∧
      left.blockInsts.getLast? = some (.Move (some elem) (some ptr) false true) ∧
      ir_visit_ast_node (n + 2) node g =
        (some { blockInsts := right.blockInsts ++ left.blockInsts ++
                  [.Move (some ptr) (some rightVal) true false],
                val := some rightVal }, g2) := by
  have hacc : ir_array_access (ir_visit_ast_node n) son1 g1 = (some left, g2) := by
    rw [ir_visit_ast_node_succ] at hleft
    simpa only [dispatch, hkind] using hleft
  obtain ⟨ptr, elem, hptr, -, hlast⟩ := array_access_ends_with_load _ _ _ _ _ hacc
  refine ⟨ptr, elem, hptr, hlast, ?_⟩
  rw [ir_visit_ast_node_succ]
  simp [dispatch, hnt, ir_assign, hsons, hright, hval, hleft, hkind, hptr]

/-- Witness of C30: `a[1][2] = 5` with `int a[2][3]`. -/
theorem assign_array_element_layout_witness :
    ∃ ptr elem,
      (some (Value.LocalVariable 5 (.pointer .int32) "") : Option Value) = some ptr ∧
      (ir_visit_ast_node 3 (exAccess "a" [exLit 1, exLit 2]) exGeneratorWithArray).1.map
          (fun r => r.blockInsts.getLast?) =
        some (some (.Move (some elem) (some ptr) false true)) ∧
      (ir_visit_ast_node 4
          (exNode .AST_OP_ASSIGN [exAccess "a" [exLit 1, exLit 2], exLit 5])
          exGeneratorWithArray).1.map (fun r => r.blockInsts.getLast?) =
        some (some (.Move (some ptr) (some (.ConstInt 5)) true false)) := by
  obtain ⟨ptr, elem, h1, h2, h3⟩ := assign_array_element_layout 2
    (exNode .AST_OP_ASSIGN [exAccess "a" [exLit 1, exLit 2], exLit 5])
    (exAccess "a" [exLit 1, exLit 2]) (exLit 5) [] exGeneratorWithArray exGeneratorWithArray
    (ir_visit_ast_node 3 (exAccess "a" [exLit 1, exLit 2]) exGeneratorWithArray).2
    { val := some (.ConstInt 5) }
    ((ir_visit_ast_node 3 (exAccess "a" [exLit 1, exLit 2]) exGeneratorWithArray).1.getD {})
    (.ConstInt 5) rfl rfl rfl rfl rfl rfl
  refine ⟨ptr, elem, h1, ?_, ?_⟩
  · rw [← h2]; rfl
  · rw [h3]; simp

/-- Claim C30, counterexample: the code of `a[1][2] = 5` ends with a load of
`a[1][2]` through the element address, followed by the store through it. -/
theorem assign_array_element_loads_target :
    (ir_visit_ast_node 4
        (exNode .AST_OP_ASSIGN [exAccess "a" [exLit 1, exLit 2], exLit 5])
        exGeneratorWithArray).1.map (fun r => r.blockInsts.drop 8) =
      some [.Move (some (.LocalVariable 6 .int32 ""))
              (some (.LocalVariable 5 (.pointer .int32) "")) false true,
            .Move (some (.LocalVariable 5 (.pointer .int32) "")) (some (.ConstInt 5))
              true false] := by
  decide!

/-! ### Prototypes and the dimension table -/

/-- Claim C21, failing input: in the unit `int get_one() { return 1; } int main() {
return get_one(); }` the definition of `get_one` has no formal-parameter node, yet the
second pass registers it with one parameter `a`, and the lowering of the unit fails at
the call `get_one()` with a parameter-count mismatch (1 declared, 0 passed). -/
theorem prototype_hard_coded_params :
    exGetOneUnit.sons.head?.map (fun d => (d.sons.get? 2).map (fun p => p.sons.length)) =
        some (some 0) ∧
      ((compileUnitPrototypes exGetOneUnit.sons {}).findFunction "get_one").map
          (fun f => f.params) = some [.FormalParam 0 .int32 "a"] ∧
      (ir_visit_ast_node 7 exGetOneUnit {}).1 = none ∧
      (ir_visit_ast_node 7 exGetOneUnit {}).2.lastError =
        some (.paramCountMismatch "get_one" 1 0) := by
  decide!

/-- The element size 4 is its own 32-bit value. -/
theorem toInt32_four : toInt32 4 = 4 := by decide

/-- Reading a value other than the one written. -/
theorem Machine.read_write_ne (m : Machine) (dst v : Value) (x : Int) (h : v ≠ dst) :
    (m.write dst x).read v = m.read v := by
  cases v <;> simp [Machine.read, Machine.write, h]

/-- Reading the instruction result just written. -/
theorem Machine.read_write_result (m : Machine) (id : Nat) (type : IRType) (x : Int) :
    (m.write (.InstructionResult id type) x).read (.InstructionResult id type) = x := by
  simp [Machine.read, Machine.write]

/-- A value in the 32-bit range is its own 32-bit value. -/
theorem toInt32_of_bounds (x : Int) (h1 : -2147483648 ≤ x) (h2 : x < 2147483648) :
    toInt32 x = x := by
  unfold toInt32
  rw [Int.emod_eq_of_lt (by omega) (by omega)]
  omega

/-- Conversion to 32 bits is idempotent. -/
theorem toInt32_idem (x : Int) : toInt32 (toInt32 x) = toInt32 x := by
  apply toInt32_of_bounds
  · unfold toInt32
    have := Int.emod_nonneg (x + 2147483648) (by decide : (4294967296 : Int) ≠ 0)
    omega
  · unfold toInt32
    have := Int.emod_lt_of_pos (x + 2147483648) (by decide : (0 : Int) < 4294967296)
    omega

/-- The stride loop started from a 32-bit value ends in a 32-bit value. -/
theorem toInt32_foldl (l : List Int) : ∀ acc : Int, toInt32 acc = acc →
    toInt32 (l.foldl (fun w d => toInt32 (w * d)) acc) =
      l.foldl (fun w d => toInt32 (w * d)) acc := by
  induction l with
  | nil => intro acc h; exact h
  | cons d t ih => intro acc _; exact ih _ (toInt32_idem _)

/-- A stride is its own 32-bit value. -/
theorem toInt32_strideFrom (dims : List Int) (j : Nat) :
    toInt32 (strideFrom dims j) = strideFrom dims j :=
  toInt32_foldl _ 1 (by decide)

/-- The stride loop computes the product of the dimensions as long as the product
stays below `2 ^ 31` and the dimensions are positive. -/
theorem foldl_stride (l : List Int) : ∀ acc : Int, 0 < acc → (∀ d ∈ l, 0 < d) →
    acc * l.prod < 2147483648 →
    l.foldl (fun w d => toInt32 (w * d)) acc = acc * l.prod := by
  induction l with
  | nil => intro acc _ _ _; simp
  | cons d t ih =>
    intro acc hacc hpos hlt
    have hd : 0 < d := hpos d (List.mem_cons_self _ _)
    have ht : 0 < t.prod := List.prod_pos (fun a ha => hpos a (List.mem_cons_of_mem _ ha))
    have had : 0 < acc * d := Int.mul_pos hacc hd
    rw [List.prod_cons, ← Int.mul_assoc] at hlt
    have hle : acc * d ≤ acc * d * t.prod := le_mul_of_one_le_right had.le ht
    rw [List.foldl_cons, toInt32_of_bounds _ (by omega) (by omega),
      ih (acc * d) had (fun a ha => hpos a (List.mem_cons_of_mem _ ha)) hlt, List.prod_cons,
      Int.mul_assoc]

/-- For positive dimensions whose product is below `2 ^ 31`, the stride loop from
position `j` yields the product of the dimensions from `j` on. -/
theorem strideFrom_eq_prod (dims : List Int) (hpos : ∀ d ∈ dims, 0 < d)
    (hsize : elementCount dims < 2147483648) (j : Nat) :
    strideFrom dims j = (dims.drop j).prod := by
  unfold strideFrom
  have hsplit : (dims.take j).prod * (dims.drop j).prod = dims.prod := by
    rw [← List.prod_append, List.take_append_drop]
  have h1 : 0 < (dims.take j).prod :=
    List.prod_pos (fun a ha => hpos a (List.mem_of_mem_take ha))
  have h2 : 0 < (dims.drop j).prod :=
    List.prod_pos (fun a ha => hpos a (List.mem_of_mem_drop ha))
  have hle : (dims.drop j).prod ≤ dims.prod := by
    rw [← hsplit]
    exact le_mul_of_one_le_left h2.le h1
  unfold elementCount at hsize
  rw [foldl_stride _ 1 Int.one_pos (fun a ha => hpos a (List.mem_of_mem_drop ha))
    (by omega), Int.one_mul]

/-- Under the same conditions the weight of index position `j` is the row-major stride
of `j`. -/
theorem strideFrom_succ_eq (dims : List Int) (hpos : ∀ d ∈ dims, 0 < d)
    (hsize : elementCount dims < 2147483648) (j : Nat) :
    strideFrom dims (j + 1) = rowMajorStride dims j :=
  strideFrom_eq_prod dims hpos hsize (j + 1)

/-- Execution of a concatenation. -/
theorem execInsts_append (m : Machine) (a b : List Instruction) :
    execInsts m (a ++ b) = execInsts (execInsts m a) b := by
  simp [execInsts, List.foldl_append]

/-- Execution of a sequence starts with its first instruction. -/
theorem execInsts_cons (m : Machine) (a : Instruction) (b : List Instruction) :
    execInsts m (a :: b) = execInsts (execInst m a) b := rfl

/-- Execution of the empty sequence. -/
theorem execInsts_nil (m : Machine) : execInsts m [] = m := rfl

/-- Writing a value allocated at `bound` or later leaves the reading of a value
allocated before `bound` as it was. -/
theorem Machine.read_write_old (m : Machine) {bound : Nat} {v dst : Value} (x : Int)
    (hv : v.allocatedBefore bound) (hdst : ∀ id, dst.allocId = some id → bound ≤ id)
    (hne : dst.allocId ≠ none) :
    (m.write dst x).read v = m.read v := by
  cases hd : dst.allocId with
  | none => exact absurd hd hne
  | some id =>
    apply Machine.read_write_ne
    intro h
    subst h
    have := hv id hd
    have := hdst id hd
    omega

/-- A value allocated before `a` is allocated before any later bound. -/
theorem Value.allocatedBefore.mono {a b : Nat} {v : Value} (h : v.allocatedBefore a)
    (hab : a ≤ b) : v.allocatedBefore b :=
  fun id hid => Nat.lt_of_lt_of_le (h id hid) hab

/-- An instruction result is allocated before every bound above its number. -/
theorem Value.allocatedBefore_result (id : Nat) (type : IRType) (b : Nat) (h : id < b) :
    (Value.InstructionResult id type).allocatedBefore b := by
  intro i hi
  simp [Value.allocId] at hi
  omega

/-- A constant is allocated before every bound. -/
theorem Value.allocatedBefore_const (x : Int) (b : Nat) :
    (Value.ConstInt x).allocatedBefore b := by
  intro i hi
  simp [Value.allocId] at hi

/-- Meaning of the general offset loop: the allocation counter does not decrease, the
total is allocated before the new counter, and executing the emitted instructions
leaves in the total the incoming offset plus the sum of index times stride, and leaves
every value allocated before the loop as it was. -/
theorem regularOffsetLoop_sem (dims : List Int)
    (hstride : ∀ j, strideFrom dims (j + 1) = rowMajorStride dims j)
    (indices : List Value) : ∀ (i : Nat) (linearOffset : Value) (g : IRGenerator),
    (∀ v ∈ indices, v.allocatedBefore g.nextId) → linearOffset.allocatedBefore g.nextId →
    g.nextId ≤ (regularOffsetLoop dims i indices linearOffset g).2.2.nextId ∧
    (regularOffsetLoop dims i indices linearOffset g).2.1.allocatedBefore
      (regularOffsetLoop dims i indices linearOffset g).2.2.nextId ∧
    ∀ m : Machine,
      (execInsts m (regularOffsetLoop dims i indices linearOffset g).1).read
          (regularOffsetLoop dims i indices linearOffset g).2.1 =
        m.read linearOffset + rowMajorIndexFrom dims i (indices.map m.read) ∧
      ∀ v : Value, v.allocatedBefore g.nextId →
        (execInsts m (regularOffsetLoop dims i indices linearOffset g).1).read v = m.read v := by
  induction indices with
  | nil =>
    intro i lo g _ hlo
    simp [regularOffsetLoop, execInsts_nil, rowMajorIndexFrom, hlo]
  | cons idx rest ih =>
    intro i lo g hidx hlo
    have hi : idx.allocatedBefore g.nextId := hidx idx (List.mem_cons_self _ _)
    have hrest : ∀ v ∈ rest, v.allocatedBefore g.nextId :=
      fun v hv => hidx v (List.mem_cons_of_mem _ hv)
    unfold regularOffsetLoop
    split
    · rename_i h1
      simp only [IRGenerator.newBinary]
      obtain ⟨ih1, ih2, ih3⟩ := ih (i + 1) (.InstructionResult g.nextId .int32)
        { g with nextId := g.nextId + 1 }
        (fun v hv => Value.allocatedBefore.mono (hrest v hv) (Nat.le_succ _))
        (Value.allocatedBefore_result _ _ _ (Nat.lt_succ_self _))
      refine ⟨Nat.le_of_succ_le ih1, ih2, fun m => ?_⟩
      obtain ⟨e1, e2⟩ := ih3 (execInst m (.Binary g.nextId .IRINST_OP_ADD_I (some lo)
        (some idx) .int32))
      have hw : ∀ v : Value, v.allocatedBefore g.nextId →
          (execInst m (.Binary g.nextId .IRINST_OP_ADD_I (some lo) (some idx) .int32)).read v =
            m.read v := by
        intro v hv
        exact Machine.read_write_old m _ hv (by simp [Value.allocId]) (by simp [Value.allocId])
      refine ⟨?_, fun v hv => ?_⟩
      · rw [execInsts_cons, e1]
        have hmap : rest.map (execInst m (.Binary g.nextId .IRINST_OP_ADD_I (some lo)
            (some idx) .int32)).read = rest.map m.read :=
          List.map_congr_left (fun v hv => hw v (hrest v hv))
        rw [hmap]
        simp only [execInst, List.map_cons, rowMajorIndexFrom, ← hstride, h1]
        rw [Machine.read_write_result]
        simp only [evalOperator]
        ring
      · rw [execInsts_cons, e2 v (Value.allocatedBefore.mono hv (Nat.le_succ _)), hw v hv]
    · rename_i h1
      simp only [IRGenerator.newBinary]
      obtain ⟨ih1, ih2, ih3⟩ := ih (i + 1) (.InstructionResult (g.nextId + 1) .int32)
        { g with nextId := g.nextId + 1 + 1 }
        (fun v hv => Value.allocatedBefore.mono (hrest v hv) (Nat.le_add_right _ 2))
        (Value.allocatedBefore_result _ _ _ (Nat.lt_succ_self _))
      refine ⟨Nat.le_trans (Nat.le_add_right _ 2) ih1, ih2, fun m => ?_⟩
      have hw1 : ∀ (m : Machine) (a b : Option Value) (op : IRInstOperator) (k : Nat)
          (v : Value), v.allocatedBefore g.nextId →
          (execInst m (.Binary (g.nextId + k) op a b .int32)).read v = m.read v := by
        intro m a b op k v hv
        cases a <;> cases b <;> simp only [execInst] <;>
          first
          | rfl
          | exact Machine.read_write_old m _ hv (by simp [Value.allocId])
              (by simp [Value.allocId])
      obtain ⟨e1, e2⟩ := ih3 (execInst (execInst m (.Binary g.nextId .IRINST_OP_MUL_I (some idx)
        (some (newConstInt (strideFrom dims (i + 1)))) .int32))
        (.Binary (g.nextId + 1) .IRINST_OP_ADD_I (some lo)
          (some (.InstructionResult g.nextId .int32)) .int32))
      have hw : ∀ v : Value, v.allocatedBefore g.nextId →
          (execInst (execInst m (.Binary g.nextId .IRINST_OP_MUL_I (some idx)
            (some (newConstInt (strideFrom dims (i + 1)))) .int32))
            (.Binary (g.nextId + 1) .IRINST_OP_ADD_I (some lo)
              (some (.InstructionResult g.nextId .int32)) .int32)).read v = m.read v := by
        intro v hv
        rw [hw1 _ _ _ _ 1 v hv]
        exact hw1 m _ _ _ 0 v hv
      refine ⟨?_, fun v hv => ?_⟩
      · rw [execInsts_cons, execInsts_cons, e1]
        rw [List.map_congr_left (fun v hv => hw v (hrest v hv))]
        simp only [execInst, List.map_cons, rowMajorIndexFrom, ← hstride]
        rw [Machine.read_write_result, Machine.read_write_result,
          Machine.read_write_old m _ hlo (by simp [Value.allocId]) (by simp [Value.allocId])]
        simp only [evalOperator, newConstInt, Machine.read, toInt32_strideFrom]
        ring
      · rw [execInsts_cons, execInsts_cons, e2 v (Value.allocatedBefore.mono hv (Nat.le_add_right _ 2)), hw v hv]

/-- Reading a constant. -/
theorem Machine.read_const (m : Machine) (x : Int) : m.read (.ConstInt x) = x := rfl

/-- Reading after a binary instruction. -/
theorem exec_binary_read (m : Machine) (id : Nat) (op : IRInstOperator) (a b v : Value)
    (t : IRType) :
    (execInst m (.Binary id op (some a) (some b) t)).read v =
      if v = .InstructionResult id t then evalOperator op (m.read a) (m.read b)
      else m.read v := by
  cases v <;> simp [execInst, Machine.read, Machine.write]

/-- Reading after a move into a local variable. -/
theorem exec_move_local_read (m : Machine) (id : Nat) (t : IRType) (name : String)
    (src v : Value) :
    (execInst m (.Move (some (.LocalVariable id t name)) (some src) false false)).read v =
      if v = .LocalVariable id t name then m.read src else m.read v := by
  cases v <;> simp [execInst, Machine.read, Machine.write]

/-- Reading after a move into a global variable. -/
theorem exec_move_global_read (m : Machine) (id : Nat) (t : IRType) (name : String)
    (src v : Value) :
    (execInst m (.Move (some (.GlobalVariable id t name)) (some src) false false)).read v =
      if v = .GlobalVariable id t name then m.read src else m.read v := by
  cases v <;> simp [execInst, Machine.read, Machine.write]

/-- Reading after a load into a local variable. -/
theorem exec_load_local_read (m : Machine) (id : Nat) (t : IRType) (name : String)
    (src v : Value) :
    (execInst m (.Move (some (.LocalVariable id t name)) (some src) false true)).read v =
      if v = .LocalVariable id t name then m.mem (m.read src) else m.read v := by
  cases v <;> simp [execInst, Machine.read, Machine.write]

/-- Reading after a load into a global variable. -/
theorem exec_load_global_read (m : Machine) (id : Nat) (t : IRType) (name : String)
    (src v : Value) :
    (execInst m (.Move (some (.GlobalVariable id t name)) (some src) false true)).read v =
      if v = .GlobalVariable id t name then m.mem (m.read src) else m.read v := by
  cases v <;> simp [execInst, Machine.read, Machine.write]

/-- A value allocated before `bound` is no local variable allocated at `bound` or later. -/
theorem Value.old_ne_local {bound : Nat} {v : Value} (hv : v.allocatedBefore bound) (k : Nat)
    (t : IRType) (name : String) : (v = .LocalVariable (bound + k) t name) = False := by
  apply eq_false
  intro h
  have := hv (bound + k) (by rw [h]; rfl)
  omega

/-- A value allocated before `bound` is no global variable allocated at `bound` or
later. -/
theorem Value.old_ne_global {bound : Nat} {v : Value} (hv : v.allocatedBefore bound) (k : Nat)
    (t : IRType) (name : String) : (v = .GlobalVariable (bound + k) t name) = False := by
  apply eq_false
  intro h
  have := hv (bound + k) (by rw [h]; rfl)
  omega

/-- A value allocated before `bound` is no instruction result allocated at `bound` or
later. -/
theorem Value.old_ne_result {bound : Nat} {v : Value} (hv : v.allocatedBefore bound) (k : Nat)
    (t : IRType) : (v = .InstructionResult (bound + k) t) = False := by
  apply eq_false
  intro h
  have := hv (bound + k) (by rw [h]; rfl)
  omega

/-- The access to a parameter without dimension entry: the code is that of the first
index followed by five instructions, whatever further index children there are, and
these instructions compute the value of the parameter plus 4 times the value of the
first index when both values were allocated before the five instructions. -/
theorem simple_pointer_access_of_allocated (n : Nat) (node nameNode son1 : ast_node) (rest : List ast_node)
    (g g1 : IRGenerator) (func func1 : Function) (arrayVar indexVal : Value)
    (indexNode : NodeResult)
    (hnt : node.node_type = .AST_OP_ARRAY_ACCESS)
    (hsons : node.sons = nameNode :: son1 :: rest)
    (hvar : g.findVarValue nameNode.name = some arrayVar)
    (hfunc : g.currentFunc = some func)
    (hparam : isCurrentFunctionParameter g nameNode.name = true)
    (hnodims : ∀ p, func.params.findIdx? (fun param => param.getName == nameNode.name) = some p →
      lookupDimensions g.functionParameterDimensions func.name p = none)
    (hindex : ir_visit_ast_node n son1 g = (some indexNode, g1))
    (hval : indexNode.val = some indexVal)
    (hfunc1 : g1.currentFunc = some func1) :
    ir_visit_ast_node (n + 1) node g =
        (some { blockInsts := indexNode.blockInsts ++
                  [.Binary (g1.nextId + 1) .IRINST_OP_MUL_I (some indexVal) (some (.ConstInt 4))
                     .int32,
                   .Move (some (temporary g1.nextId .int32))
                     (some (.InstructionResult (g1.nextId + 1) .int32)) false false,
                   .Binary (g1.nextId + 3) .IRINST_OP_ADD_I (some arrayVar)
                     (some (temporary g1.nextId .int32)) (.pointer .int32),
                   .Move (some (temporary (g1.nextId + 2) (.pointer .int32)))
                     (some (.InstructionResult (g1.nextId + 3) (.pointer .int32))) false false,
                   .Move (some (temporary (g1.nextId + 4) .int32))
                     (some (temporary (g1.nextId + 2) (.pointer .int32))) false true],
                arrayVar := some arrayVar,
                offsetValue := some (temporary g1.nextId .int32),
                arrayPtr := some (temporary (g1.nextId + 2) (.pointer .int32)),
                val := some (temporary (g1.nextId + 4) .int32) },
          { g1 with nextId := g1.nextId + 5 }) ∧
      ∀ m : Machine, indexVal.allocatedBefore g1.nextId → arrayVar.allocatedBefore g1.nextId →
        (execInsts m
          [.Binary (g1.nextId + 1) .IRINST_OP_MUL_I (some indexVal) (some (.ConstInt 4)) .int32,
           .Move (some (temporary g1.nextId .int32))
             (some (.InstructionResult (g1.nextId + 1) .int32)) false false,
           .Binary (g1.nextId + 3) .IRINST_OP_ADD_I (some arrayVar)
             (some (temporary g1.nextId .int32)) (.pointer .int32),
           .Move (some (temporary (g1.nextId + 2) (.pointer .int32)))
             (some (.InstructionResult (g1.nextId + 3) (.pointer .int32))) false false,
           .Move (some (temporary (g1.nextId + 4) .int32))
             (some (temporary (g1.nextId + 2) (.pointer .int32))) false true]).read
          (temporary (g1.nextId + 2) (.pointer .int32)) =
        m.read arrayVar + 4 * m.read indexVal := by
  constructor
  · rw [ir_visit_ast_node_succ]
    have hplain : ir_array_access (ir_visit_ast_node n) node g =
        handleSimplePointerParamAccess (ir_visit_ast_node n) node arrayVar g := by
      simp only [ir_array_access, hsons, hvar, IRGenerator.getCurrentFunction, hfunc, hparam,
        if_true]
      split
      · rename_i p hp
        rw [hnodims p hp]
      · rfl
    simp only [dispatch, hnt, hplain]
    simp [handleSimplePointerParamAccess, hsons, hindex, hval, IRGenerator.newVarValue,
      IRGenerator.newBinary, hfunc1, temporary, newConstInt, toInt32_four, Nat.add_assoc]
  · intro m hi ha
    have hi0 := fun t name => Value.old_ne_local hi 0 t name
    have ha0 := fun t name => Value.old_ne_local ha 0 t name
    simp only [Nat.add_zero] at hi0 ha0
    simp only [execInsts, List.foldl, temporary]
    simp [exec_binary_read, exec_move_local_read, exec_load_local_read, Value.old_ne_local hi,
      Value.old_ne_local ha, Value.old_ne_result hi, Value.old_ne_result ha, hi0, ha0,
      evalOperator, Machine.read_const]
    ring

/-- Meaning of the two-dimensional path of `regularAccessTail`: the offset is
`4 * (row * colSize + col)` and the address is the base plus that offset. -/
theorem regularAccessTail_fast_sem (arrayVar rowIndex colIndex : Value) (d0 colSize : Int)
    (g : IRGenerator)
    (hidx : ∀ v ∈ [rowIndex, colIndex], v.allocatedBefore g.nextId)
    (harr : arrayVar.allocatedBefore g.nextId) :
    ∃ off ptr,
      (regularAccessTail arrayVar [d0, colSize] [rowIndex, colIndex] g).1.offsetValue = some off ∧
      (regularAccessTail arrayVar [d0, colSize] [rowIndex, colIndex] g).1.arrayPtr = some ptr ∧
      ∀ m : Machine,
        (execInsts m (regularAccessTail arrayVar [d0, colSize] [rowIndex, colIndex]
            g).1.blockInsts).read off =
          4 * (m.read rowIndex * toInt32 colSize + m.read colIndex) ∧
        (execInsts m (regularAccessTail arrayVar [d0, colSize] [rowIndex, colIndex]
            g).1.blockInsts).read ptr =
          m.read arrayVar + 4 * (m.read rowIndex * toInt32 colSize + m.read colIndex) := by
  have hr : rowIndex.allocatedBefore g.nextId := hidx _ (by simp)
  have hc : colIndex.allocatedBefore g.nextId := hidx _ (by simp)
  have hr0 := fun t name => Value.old_ne_local hr 0 t name
  have hc0 := fun t name => Value.old_ne_local hc 0 t name
  have ha0 := fun t name => Value.old_ne_local harr 0 t name
  have hr1 := fun t name => Value.old_ne_global hr 0 t name
  have hc1 := fun t name => Value.old_ne_global hc 0 t name
  have ha1 := fun t name => Value.old_ne_global harr 0 t name
  simp only [Nat.add_zero] at hr0 hc0 ha0 hr1 hc1 ha1
  cases hcf : g.currentFunc <;>
  · refine ⟨_, _, rfl, rfl, fun m => ?_⟩
    simp only [regularAccessTail, IRGenerator.newVarValue, IRGenerator.newBinary, hcf, execInsts,
      List.foldl, newConstInt, Nat.add_assoc]
    simp [exec_binary_read, exec_move_local_read, exec_move_global_read, exec_load_local_read,
      exec_load_global_read, Value.old_ne_local hr, Value.old_ne_local hc,
      Value.old_ne_local harr, Value.old_ne_global hr, Value.old_ne_global hc,
      Value.old_ne_global harr, Value.old_ne_result hr, Value.old_ne_result hc,
      Value.old_ne_result harr, hr0, hc0, ha0, hr1, hc1, ha1, evalOperator, Machine.read_const,
      toInt32_four]
    ring

/-- Meaning of `regularAccessTail` on both paths: the offset value holds four times
the row-major index and the address value the base plus that offset. -/
theorem regularAccessTail_sem (arrayVar : Value) (dims : List Int) (indices : List Value)
    (g : IRGenerator)
    (hstride : ∀ j, strideFrom dims (j + 1) = rowMajorStride dims j)
    (hidx : ∀ v ∈ indices, v.allocatedBefore g.nextId)
    (harr : arrayVar.allocatedBefore g.nextId) :
    ∃ off ptr,
      (regularAccessTail arrayVar dims indices g).1.offsetValue = some off ∧
      (regularAccessTail arrayVar dims indices g).1.arrayPtr = some ptr ∧
      ∀ m : Machine,
        (execInsts m (regularAccessTail arrayVar dims indices g).1.blockInsts).read off =
          4 * rowMajorIndex dims (indices.map m.read) ∧
        (execInsts m (regularAccessTail arrayVar dims indices g).1.blockInsts).read ptr =
          m.read arrayVar + 4 * rowMajorIndex dims (indices.map m.read) := by
  by_cases hfast : ∃ r c d cs, indices = [r, c] ∧ dims = [d, cs]
  · obtain ⟨r, c, d, cs, rfl, rfl⟩ := hfast
    obtain ⟨off, ptr, h1, h2, h3⟩ := regularAccessTail_fast_sem arrayVar r c d cs g hidx harr
    refine ⟨off, ptr, h1, h2, fun m => ?_⟩
    have hs0 := hstride 0
    have hs1 := hstride 1
    simp [strideFrom] at hs0 hs1
    rw [(h3 m).1, (h3 m).2]
    simp [rowMajorIndex, rowMajorIndexFrom, ← hs0, ← hs1]
  · obtain ⟨h1, h2, h3⟩ := regularOffsetLoop_sem dims hstride indices 0 (newConstInt 0) g hidx
      (Value.allocatedBefore_const _ _)
    unfold regularAccessTail
    split
    · exact absurd ⟨_, _, _, _, rfl, rfl⟩ hfast
    · generalize regularOffsetLoop dims 0 indices (newConstInt 0) g = L at h1 h2 h3 ⊢
      obtain ⟨loopInsts, lin, g1⟩ := L
      simp only at h1 h2 h3
      have harr1 : arrayVar.allocatedBefore g1.nextId := Value.allocatedBefore.mono harr h1
      have hl0 := fun t name => Value.old_ne_local h2 0 t name
      have ha0 := fun t name => Value.old_ne_local harr1 0 t name
      have hl1 := fun t name => Value.old_ne_global h2 0 t name
      have ha1 := fun t name => Value.old_ne_global harr1 0 t name
      have hl2 := fun t => Value.old_ne_result h2 0 t
      have ha2 := fun t => Value.old_ne_result harr1 0 t
      simp only [Nat.add_zero] at hl0 ha0 hl1 ha1 hl2 ha2
      cases hcf : g1.currentFunc <;>
      · refine ⟨_, _, rfl, rfl, fun m => ?_⟩
        simp only [IRGenerator.newVarValue, IRGenerator.newBinary, hcf, execInsts_append,
          newConstInt, Nat.add_assoc]
        simp only [execInsts, List.foldl]
        simp [exec_binary_read, exec_move_local_read, exec_move_global_read,
          exec_load_local_read, exec_load_global_read, Value.old_ne_local h2,
          Value.old_ne_local harr1, Value.old_ne_global h2, Value.old_ne_global harr1,
          Value.old_ne_result h2, Value.old_ne_result harr1, hl0, ha0, hl1, ha1, hl2, ha2,
          evalOperator, Machine.read_const, toInt32_four]
        have e := h3 m
        simp only [execInsts] at e
        have z : m.read (newConstInt 0) = 0 := rfl
        rw [e.1, e.2 arrayVar harr, z]
        unfold rowMajorIndex
        constructor <;> ring

/-- The access to an array variable that is not a parameter, when the index values
and the array variable were allocated before the tail of the code is emitted: the tail
leaves in the offset value 4 times the row-major index and in the address value the
base plus that offset. -/
theorem regular_access_offset_of_allocated (n : Nat) (node nameNode son1 : ast_node) (rest : List ast_node)
    (g g1 : IRGenerator) (func : Function) (arrayVar : Value) (elemType : IRType)
    (dims : List Int) (indexInsts : List Instruction) (indices : List Value)
    (hnt : node.node_type = .AST_OP_ARRAY_ACCESS)
    (hsons : node.sons = nameNode :: son1 :: rest)
    (hvar : g.findVarValue nameNode.name = some arrayVar)
    (hfunc : g.currentFunc = some func)
    (hparam : isCurrentFunctionParameter g nameNode.name = false)
    (htype : arrayVar.getType = .array elemType dims)
    (hindex : visitIndices (ir_visit_ast_node n) (son1 :: rest) g =
      (some (indexInsts, indices), g1))
    (hpos : ∀ d ∈ dims, 0 < d) (hsize : elementCount dims < 2147483648)
    (hidx : ∀ v ∈ indices, v.allocatedBefore g1.nextId)
    (harr : arrayVar.allocatedBefore g1.nextId) :
    ∃ r g2 tail off ptr,
      ir_visit_ast_node (n + 1) node g = (some r, g2) ∧
      r.blockInsts = indexInsts ++ tail ∧ r.offsetValue = some off ∧ r.arrayPtr = some ptr ∧
      ∀ m : Machine,
        (execInsts m tail).read off = 4 * rowMajorIndex dims (indices.map m.read) ∧
        (execInsts m tail).read ptr =
          m.read arrayVar + 4 * rowMajorIndex dims (indices.map m.read) := by
  obtain ⟨off, ptr, h1, h2, h3⟩ := regularAccessTail_sem arrayVar dims indices g1
    (strideFrom_succ_eq dims hpos hsize) hidx harr
  refine ⟨{ (regularAccessTail arrayVar dims indices g1).1 with
      blockInsts := indexInsts ++ (regularAccessTail arrayVar dims indices g1).1.blockInsts },
    (regularAccessTail arrayVar dims indices g1).2,
    (regularAccessTail arrayVar dims indices g1).1.blockInsts, off, ptr, ?_, rfl, h1, h2, h3⟩
  rw [ir_visit_ast_node_succ]
  simp only [dispatch, hnt, ir_array_access, hsons, hvar, IRGenerator.getCurrentFunction, hfunc,
    hparam, htype, handleRegularArrayAccess, List.drop, hindex]
  rfl

/-- With a recorded dimension for every index, the loop of the parameter access is the
general offset loop. -/
theorem paramOffsetLoop_eq (dims : List Int) (indices : List Value) :
    ∀ (i : Nat) (linearOffset : Value) (g : IRGenerator), i + indices.length ≤ dims.length →
    paramOffsetLoop dims i indices linearOffset g =
      regularOffsetLoop dims i indices linearOffset g := by
  induction indices with
  | nil => intro i lo g _; rfl
  | cons idx rest ih =>
    intro i lo g h
    simp only [List.length_cons] at h
    unfold paramOffsetLoop regularOffsetLoop
    rw [if_pos (by omega)]
    split
    · simp only [ih _ _ _ (by omega : i + 1 + rest.length ≤ dims.length)]
    · simp only [ih _ _ _ (by omega : i + 1 + rest.length ≤ dims.length)]

/-- The index loop yields one value per index child. -/
theorem visitIndices_length (visit : Visitor) (sons : List ast_node) :
    ∀ (g g1 : IRGenerator) (insts : List Instruction) (indices : List Value),
    visitIndices visit sons g = (some (insts, indices), g1) → indices.length = sons.length := by
  induction sons with
  | nil =>
    intro g g1 insts indices h
    simp only [visitIndices, Prod.mk.injEq, Option.some.injEq] at h
    obtain ⟨⟨-, rfl⟩, -⟩ := h
    rfl
  | cons son rest ih =>
    intro g g1 insts indices h
    unfold visitIndices at h
    revert h
    repeat' split
    all_goals intro h
    all_goals simp only [Prod.mk.injEq, Option.some.injEq, reduceCtorEq, false_and] at h
    rename_i heq
    rw [← h.1.2, List.length_cons, List.length_cons, ih _ _ _ _ heq]

/-- An entry of a list of positive integers is at most the product of the list. -/
theorem le_prod_of_pos (l : List Int) (hpos : ∀ d ∈ l, 0 < d) : ∀ x ∈ l, x ≤ l.prod := by
  induction l with
  | nil => intro x hx; simp at hx
  | cons d t ih =>
    intro x hx
    have hd : 0 < d := hpos d (List.mem_cons_self _ _)
    have ht : 0 < t.prod := List.prod_pos (fun a ha => hpos a (List.mem_cons_of_mem _ ha))
    rw [List.prod_cons]
    rcases List.mem_cons.mp hx with rfl | hx
    · exact le_mul_of_one_le_right hd.le ht
    · exact le_trans (ih (fun a ha => hpos a (List.mem_cons_of_mem _ ha)) x hx)
        (le_mul_of_one_le_left ht.le hd)

/-- The weights the parameter access takes from the entry `0 :: ds` are the row-major
strides of `d0 :: ds`, whatever the first dimension `d0` is. -/
theorem strideFrom_param (ds : List Int) (hpos : ∀ d ∈ ds, 0 < d)
    (hsize : elementCount ds < 2147483648) (d0 : Int) (j : Nat) :
    strideFrom (0 :: ds) (j + 1) = rowMajorStride (d0 :: ds) j := by
  have := strideFrom_eq_prod ds hpos hsize j
  simpa [strideFrom, rowMajorStride] using this

/-- The row-major index depends on the dimensions through the strides only. -/
theorem rowMajorIndexFrom_congr (dims dims2 : List Int)
    (h : ∀ j, rowMajorStride dims j = rowMajorStride dims2 j) (idx : List Int) :
    ∀ i, rowMajorIndexFrom dims i idx = rowMajorIndexFrom dims2 i idx := by
  induction idx with
  | nil => intro i; rfl
  | cons x t ih => intro i; simp only [rowMajorIndexFrom, h, ih]

/-- The access to an array parameter with the dimension entry recorded for
`int a[][d1]...[dn]`, when the index values and the parameter were allocated before the
tail of the code is emitted: the tail leaves in the offset value 4 times the row-major
index over `d0, d1, ..., dn` for every `d0`. -/
theorem parameter_access_offset_of_allocated (n : Nat) (node nameNode son1 : ast_node)
    (rest : List ast_node) (g g1 : IRGenerator) (func : Function) (arrayVar : Value) (p : Nat)
    (digits : List Nat) (indexInsts : List Instruction) (indices : List Value)
    (hnt : node.node_type = .AST_OP_ARRAY_ACCESS)
    (hsons : node.sons = nameNode :: son1 :: rest)
    (hvar : g.findVarValue nameNode.name = some arrayVar)
    (hfunc : g.currentFunc = some func)
    (hparam : isCurrentFunctionParameter g nameNode.name = true)
    (hp : func.params.findIdx? (fun param => param.getName == nameNode.name) = some p)
    (hentry : lookupDimensions g.functionParameterDimensions func.name p =
      some (0 :: digits.map (fun d : Nat => (d : Int))))
    (hindex : visitIndices (ir_visit_ast_node n) (son1 :: rest) g =
      (some (indexInsts, indices), g1))
    (hk : rest.length ≤ digits.length)
    (hpos : ∀ d ∈ digits, 0 < d)
    (hsize : elementCount (digits.map (fun d : Nat => (d : Int))) < 2147483648)
    (hidx : ∀ v ∈ indices, v.allocatedBefore g1.nextId)
    (harr : arrayVar.allocatedBefore g1.nextId) :
    ∃ r g2 tail off ptr,
      ir_visit_ast_node (n + 1) node g = (some r, g2) ∧
      r.blockInsts = indexInsts ++ tail ∧ r.offsetValue = some off ∧ r.arrayPtr = some ptr ∧
      ∀ (m : Machine) (d0 : Int),
        (execInsts m tail).read off =
          4 * rowMajorIndex (d0 :: digits.map (fun d : Nat => (d : Int))) (indices.map m.read) ∧
        (execInsts m tail).read ptr =
          m.read arrayVar +
            4 * rowMajorIndex (d0 :: digits.map (fun d : Nat => (d : Int)))
              (indices.map m.read) := by
  have hposI : ∀ d ∈ digits.map (fun d : Nat => (d : Int)), 0 < d := by
    intro x hx
    obtain ⟨y, hy, rfl⟩ := List.mem_map.mp hx
    exact Int.ofNat_pos.mpr (hpos y hy)
  have hlen := visitIndices_length _ _ _ _ _ _ hindex
  rw [ir_visit_ast_node_succ]
  simp only [dispatch, hnt, ir_array_access, hsons, hvar, IRGenerator.getCurrentFunction, hfunc,
    hparam, hp, hentry, handleParameterArrayAccessWithDimensions, List.drop, hindex, if_true]
  rw [paramOffsetLoop_eq _ _ _ _ _ (by
    simp only [List.length_cons, List.length_map] at hlen ⊢
    omega)]
  obtain ⟨h1, h2, h3⟩ := regularOffsetLoop_sem (0 :: digits.map (fun d : Nat => (d : Int)))
    (strideFrom_param _ hposI hsize 0) indices 0 (newConstInt 0) g1 hidx
    (Value.allocatedBefore_const _ _)
  generalize regularOffsetLoop (0 :: digits.map (fun d : Nat => (d : Int))) 0 indices
    (newConstInt 0) g1 = L at h1 h2 h3 ⊢
  obtain ⟨loopInsts, lin, g2⟩ := L
  simp only at h1 h2 h3
  have harr1 : arrayVar.allocatedBefore g2.nextId := Value.allocatedBefore.mono harr h1
  have hl0 := fun t name => Value.old_ne_local h2 0 t name
  have ha0 := fun t name => Value.old_ne_local harr1 0 t name
  have hl1 := fun t name => Value.old_ne_global h2 0 t name
  have ha1 := fun t name => Value.old_ne_global harr1 0 t name
  have hl2 := fun t => Value.old_ne_result h2 0 t
  have ha2 := fun t => Value.old_ne_result harr1 0 t
  simp only [Nat.add_zero] at hl0 ha0 hl1 ha1 hl2 ha2
  cases hcf : g2.currentFunc <;>
  · refine ⟨_, _, _, _, _, rfl, by rw [List.append_assoc], rfl, rfl, fun m d0 => ?_⟩
    simp only [IRGenerator.newVarValue, IRGenerator.newBinary, hcf, execInsts_append,
      newConstInt, Nat.add_assoc]
    simp only [execInsts, List.foldl]
    simp [exec_binary_read, exec_move_local_read, exec_move_global_read,
      exec_load_local_read, exec_load_global_read, Value.old_ne_local h2,
      Value.old_ne_local harr1, Value.old_ne_global h2, Value.old_ne_global harr1,
      Value.old_ne_result h2, Value.old_ne_result harr1, hl0, ha0, hl1, ha1, hl2, ha2,
      evalOperator, Machine.read_const, toInt32_four]
    have e := h3 m
    simp only [execInsts] at e
    have z : m.read (newConstInt 0) = 0 := rfl
    rw [e.1, e.2 arrayVar harr, z]
    unfold rowMajorIndex
    rw [rowMajorIndexFrom_congr (d0 :: digits.map (fun d : Nat => (d : Int)))
      (0 :: digits.map (fun d : Nat => (d : Int))) (fun j => rfl)]
    constructor <;> ring

/-- Claim C25, failing input: for `int f(int a[5][3]) { return a[1][2]; }` the entry
recorded for `a` is `[0, 5, 3]`, the access multiplies the first index by 15 and the
second by 3, and the linear index the code computes is 21, not `1 * 3 + 2 = 5`. -/
theorem array_param_literal_extents :
    lookupDimensions
        (compileUnitPrototypes exLiteralExtentsUnit.sons {}).functionParameterDimensions "f" 0 =
      some [0, 5, 3] ∧
    ((ir_visit_ast_node 9 exLiteralExtentsUnit {}).2.findFunction "f").map
        (fun f => f.interCode.take 6) =
      some [.Entry,
            .Binary 3 .IRINST_OP_MUL_I (some (.ConstInt 1)) (some (.ConstInt 15)) .int32,
            .Binary 4 .IRINST_OP_ADD_I (some (.ConstInt 0))
              (some (.InstructionResult 3 .int32)) .int32,
            .Binary 5 .IRINST_OP_MUL_I (some (.ConstInt 2)) (some (.ConstInt 3)) .int32,
            .Binary 6 .IRINST_OP_ADD_I (some (.InstructionResult 4 .int32))
              (some (.InstructionResult 5 .int32)) .int32,
            .Binary 7 .IRINST_OP_MUL_I (some (.InstructionResult 6 .int32))
              (some (.ConstInt 4)) .int32] ∧
    ∀ m : Machine,
      (execInsts m
        [.Entry,
         .Binary 3 .IRINST_OP_MUL_I (some (.ConstInt 1)) (some (.ConstInt 15)) .int32,
         .Binary 4 .IRINST_OP_ADD_I (some (.ConstInt 0))
           (some (.InstructionResult 3 .int32)) .int32,
         .Binary 5 .IRINST_OP_MUL_I (some (.ConstInt 2)) (some (.ConstInt 3)) .int32,
         .Binary 6 .IRINST_OP_ADD_I (some (.InstructionResult 4 .int32))
           (some (.InstructionResult 5 .int32)) .int32,
         .Binary 7 .IRINST_OP_MUL_I (some (.InstructionResult 6 .int32))
           (some (.ConstInt 4)) .int32]).read (.InstructionResult 6 .int32) = 21 ∧
      rowMajorIndex [5, 3] [1, 2] = 5 := by
  refine ⟨by decide!, by decide!, fun m => ⟨?_, by decide⟩⟩
  simp [execInsts, execInst, Machine.read, Machine.write, evalOperator]

/-- With index children that lower to a value without code and without touching the
generator, the loop of `calculateArrayAccessOffset` emits the instructions of the
general offset loop over these values. -/
theorem arrayAccessOffsetLoop_pure (visit : Visitor) (dims : List Int) (g : IRGenerator)
    (idxNodes : List ast_node) (indices : List Value)
    (hpure : List.Forall₂ (fun node v => ∀ k,
      visit node { g with nextId := g.nextId + k } =
        (some { val := some v }, { g with nextId := g.nextId + k })) idxNodes indices) :
    ∀ (i k : Nat) (total : Value),
    arrayAccessOffsetLoop visit dims (i + 1) idxNodes total { g with nextId := g.nextId + k } =
      (some ((regularOffsetLoop dims i indices total { g with nextId := g.nextId + k }).1,
             (regularOffsetLoop dims i indices total { g with nextId := g.nextId + k }).2.1),
       (regularOffsetLoop dims i indices total { g with nextId := g.nextId + k }).2.2) := by
  induction hpure with
  | nil => intro i k total; rfl
  | cons h _ ih =>
    intro i k total
    unfold arrayAccessOffsetLoop regularOffsetLoop
    rw [h k]
    dsimp only
    split
    · simp only [IRGenerator.newBinary]
      have := ih (i + 1) (k + 1) (.InstructionResult (g.nextId + k) .int32)
      simp only [Nat.add_assoc] at this ⊢
      rw [this]
      rfl
    · simp only [IRGenerator.newBinary]
      have := ih (i + 1) (k + 2) (.InstructionResult (g.nextId + k + 1) .int32)
      simp only [Nat.add_assoc] at this ⊢
      rw [this]
      rfl

/-- The address passed for an element access whose index children are leaves, when
the index values and the array variable were allocated before: the base plus 4 times
the row-major index over the dimensions of the variable indexed in the caller. -/
theorem call_argument_leaf_indices_of_allocated (n : Nat) (funcName : String)
    (son nameNode idx1 : ast_node) (rest : List ast_node) (g : IRGenerator) (func : Function)
    (arrayVar : Value) (elemType : IRType) (dims : List Int) (indices : List Value)
    (hnt : son.node_type = .AST_OP_ARRAY_ACCESS)
    (hsons : son.sons = nameNode :: idx1 :: rest)
    (hvar : g.findVarValue nameNode.name = some arrayVar)
    (hfunc : g.currentFunc = some func)
    (htype : arrayVar.getType = .array elemType dims)
    (hpure : List.Forall₂ (fun node v => ∀ k,
      ir_visit_ast_node n node { g with nextId := g.nextId + k } =
        (some { val := some v }, { g with nextId := g.nextId + k })) (idx1 :: rest) indices)
    (hpos : ∀ d ∈ dims, 0 < d) (hsize : elementCount dims < 2147483648)
    (hidx : ∀ v ∈ indices, v.allocatedBefore g.nextId)
    (harr : arrayVar.allocatedBefore g.nextId) :
    ∃ insts addr g1,
      ir_function_call_arg (ir_visit_ast_node n) funcName true son g =
        (some (insts, some addr), g1) ∧
      ∀ m : Machine,
        (execInsts m insts).read addr =
          m.read arrayVar + 4 * rowMajorIndex dims (indices.map m.read) := by
  have hloop := arrayAccessOffsetLoop_pure (ir_visit_ast_node n) dims g (idx1 :: rest) indices
    hpure 0 0 (newConstInt 0)
  have hg : ({ g with nextId := g.nextId + 0 } : IRGenerator) = g := rfl
  rw [hg] at hloop
  obtain ⟨h1, h2, h3⟩ := regularOffsetLoop_sem dims (strideFrom_succ_eq dims hpos hsize) indices
    0 (newConstInt 0) g hidx (Value.allocatedBefore_const _ _)
  simp only [ir_function_call_arg, hnt, hsons, hvar, calculateArrayAccessOffset,
    IRGenerator.getCurrentFunction, hfunc, htype, hloop, and_self, if_true]
  generalize regularOffsetLoop dims 0 indices (newConstInt 0) g = L at h1 h2 h3 ⊢
  obtain ⟨loopInsts, lin, g1⟩ := L
  simp only at h1 h2 h3
  have harr1 : arrayVar.allocatedBefore g1.nextId := Value.allocatedBefore.mono harr h1
  have hl2 := fun t => Value.old_ne_result h2 0 t
  have ha2 := fun t => Value.old_ne_result harr1 0 t
  simp only [Nat.add_zero] at hl2 ha2
  refine ⟨_, _, _, rfl, fun m => ?_⟩
  simp only [IRGenerator.newBinary, execInsts_append, newConstInt, Nat.add_assoc]
  simp only [execInsts, List.foldl]
  simp [exec_binary_read, Value.old_ne_result h2, Value.old_ne_result harr1, hl2, ha2,
    evalOperator, Machine.read_const, toInt32_four]
  have e := h3 m
  simp only [execInsts] at e
  have z : m.read (newConstInt 0) = 0 := rfl
  rw [e.1, e.2 arrayVar harr, z]
  unfold rowMajorIndex
  ring

/-- Claim C22, counterexample: in the call `g(a[1])` with `int a[4][2][3]` in the
caller and `int g(int p[][3])`, whose dimension entry is `[0, 3]`, the index is
multiplied by 6, the product of the last two dimensions of the array of the caller. -/
theorem call_argument_uses_caller_dimensions :
    lookupDimensions exGeneratorCallArray.functionParameterDimensions "g" 0 = some [0, 3] ∧
      (ir_visit_ast_node 3 (exCall "g" [exAccess "a" [exLit 1]]) exGeneratorCallArray).1.map
          (fun r => r.blockInsts) =
        some [.Binary 3 .IRINST_OP_MUL_I (some (.ConstInt 1)) (some (.ConstInt 6)) .int32,
              .Binary 4 .IRINST_OP_ADD_I (some (.ConstInt 0))
                (some (.InstructionResult 3 .int32)) .int32,
              .Binary 5 .IRINST_OP_MUL_I (some (.InstructionResult 4 .int32))
                (some (.ConstInt 4)) .int32,
              .Binary 6 .IRINST_OP_ADD_I
                (some (.LocalVariable 1 (.array .int32 [4, 2, 3]) "a"))
                (some (.InstructionResult 5 .int32)) (.pointer .int32),
              .FuncCall 7 "g" [some (.InstructionResult 6 (.pointer .int32))] .int32] := by
  decide!

/-! ### Allocation discipline: basic facts -/

theorem CodeOK.nil (lo hi : Nat) : CodeOK lo hi [] := by
  intro inst h; simp at h

theorem CodeOK.concat {lo hi : Nat} {a b : List Instruction}
    (ha : CodeOK lo hi a) (hb : CodeOK lo hi b) : CodeOK lo hi (a ++ b) := by
  intro inst h
  rcases List.mem_append.mp h with h | h
  · exact ha inst h
  · exact hb inst h

theorem CodeOK.widen {lo hi lo' hi' : Nat} {a : List Instruction}
    (ha : CodeOK lo hi a) (hlo : lo' ≤ lo) (hhi : hi ≤ hi') : CodeOK lo' hi' a := by
  intro inst h
  refine ⟨fun l hl => ?_, fun t ht => ?_⟩
  · have := (ha inst h).1 l hl; omega
  · have := (ha inst h).2 t ht; omega

theorem CodeOK.cons {lo hi : Nat} {inst : Instruction} {a : List Instruction}
    (h1 : (∀ l, inst.placedLabel = some l → lo ≤ l) ∧ (∀ t ∈ inst.targets, t < hi))
    (ha : CodeOK lo hi a) : CodeOK lo hi (inst :: a) := by
  intro i h
  rcases List.mem_cons.mp h with h | h
  · subst h; exact h1
  · exact ha i h

theorem CodeOK.plain {lo hi : Nat} {inst : Instruction} {a : List Instruction}
    (h1 : inst.plain) (ha : CodeOK lo hi a) : CodeOK lo hi (inst :: a) :=
  CodeOK.cons ⟨by simp [h1.1], by simp [h1.2]⟩ ha

theorem ValOK.later {a b : Nat} {v : Option Value} (h : ValOK a v) (hab : a ≤ b) : ValOK b v := by
  intro x hx id hid
  have := h x hx id hid
  omega

theorem ValOK.absent (b : Nat) : ValOK b none := by
  intro x hx; simp at hx

theorem FunctionWF.later_function {a b : Nat} {f : Function} (h : FunctionWF a f) (hab : a ≤ b) :
    FunctionWF b f := by
  obtain ⟨h1, h2, h3, h4, h5, h6⟩ := h
  refine ⟨fun p hp => (h1 p hp).mono hab, fun l hl => ?_, fun l hl => ?_, fun l hl => ?_, h5, h6⟩
  · have := h2 l hl; omega
  · have := h3 l hl; omega
  · have := h4 l hl; omega

theorem ScopesWF.later_scopes {a b : Nat} {s : List (List (String × Value))} (h : ScopesWF a s)
    (hab : a ≤ b) : ScopesWF b s :=
  fun sc hsc entry he => (h sc hsc entry he).mono hab

/-- A state with the same scopes and functions and a counter that is not smaller is
well formed. -/
theorem StateWF.of_same {g g' : IRGenerator} (h : StateWF g)
    (hs : g'.scopes = g.scopes) (hc : g'.currentFunc = g.currentFunc)
    (hf : g'.functions = g.functions) (hn : g.nextId ≤ g'.nextId) : StateWF g' := by
  obtain ⟨h1, h2, h3⟩ := h
  refine ⟨?_, ?_, ?_⟩
  · rw [hs]; exact h1.later_scopes hn
  · intro f hf'; rw [hc] at hf'; exact (h2 f hf').later_function hn
  · intro f hf'; rw [hf] at hf'; exact (h3 f hf').later_function hn

theorem StateWF.setLastError {g : IRGenerator} (h : StateWF g) (e : IRError) :
    StateWF (g.setLastError e) :=
  h.of_same rfl rfl rfl (Nat.le_refl _)

theorem StateWF.updateCurrent {g : IRGenerator} (h : StateWF g) (u : Function → Function)
    (hu : ∀ f, FunctionWF g.nextId f → FunctionWF g.nextId (u f)) :
    StateWF (g.updateCurrent u) := by
  obtain ⟨h1, h2, h3⟩ := h
  refine ⟨h1, ?_, h3⟩
  intro f hf
  simp only [IRGenerator.updateCurrent, Option.map_eq_some'] at hf
  obtain ⟨f0, hf0, rfl⟩ := hf
  exact hu f0 (h2 f0 hf0)

theorem lookupScope_mem {name : String} {sc : List (String × Value)} {v : Value}
    (h : lookupScope name sc = some v) : ∃ entry ∈ sc, entry.2 = v := by
  induction sc with
  | nil => simp [lookupScope] at h
  | cons e rest ih =>
    obtain ⟨n, w⟩ := e
    simp only [lookupScope] at h
    split at h
    · simp only [Option.some.injEq] at h
      exact ⟨(n, w), by simp, h⟩
    · obtain ⟨entry, he, hv⟩ := ih h
      exact ⟨entry, List.mem_cons_of_mem _ he, hv⟩

theorem lookupScopes_allocated {bound : Nat} {name : String}
    {scopes : List (List (String × Value))} {v : Value}
    (hwf : ScopesWF bound scopes) (h : lookupScopes name scopes = some v) :
    v.allocatedBefore bound := by
  induction scopes with
  | nil => simp [lookupScopes] at h
  | cons sc rest ih =>
    simp only [lookupScopes] at h
    split at h
    · rename_i w hw
      simp only [Option.some.injEq] at h
      subst h
      obtain ⟨entry, he, hv⟩ := lookupScope_mem hw
      rw [← hv]
      exact hwf sc (by simp) entry he
    · exact ih (fun sc' hsc' => hwf sc' (List.mem_cons_of_mem _ hsc')) h

theorem StateWF.findVarValue {g : IRGenerator} (h : StateWF g) {name : String} {v : Value}
    (hv : g.findVarValue name = some v) : v.allocatedBefore g.nextId :=
  lookupScopes_allocated h.1 hv

theorem ScopesWF.bind {bound : Nat} {scopes : List (List (String × Value))}
    (h : ScopesWF bound scopes) {name : String} {v : Value} (hv : v.allocatedBefore bound) :
    ScopesWF bound (bindInScopes name v scopes) := by
  cases scopes with
  | nil =>
    intro sc hsc entry he
    simp [bindInScopes] at hsc
    subst hsc
    simp at he
    subst he
    exact hv
  | cons sc0 rest =>
    intro sc hsc entry he
    simp only [bindInScopes, List.mem_cons] at hsc
    rcases hsc with hsc | hsc
    · subst hsc
      rcases List.mem_cons.mp he with he | he
      · subst he; exact hv
      · exact h sc0 (by simp) entry he
    · exact h sc (List.mem_cons_of_mem _ hsc) entry he

/-- `newVarValue` keeps the state well formed, advances the counter by one and yields a
value allocated before the new counter. -/
theorem newVarValue_ok {g : IRGenerator} (h : StateWF g) (type : IRType) (name : String) :
    StateWF (g.newVarValue type name).2 ∧
      (g.newVarValue type name).2.nextId = g.nextId + 1 ∧
      (g.newVarValue type name).1.allocatedBefore (g.nextId + 1) := by
  obtain ⟨h1, h2, h3⟩ := h
  have hval : (g.newVarValue type name).1.allocatedBefore (g.nextId + 1) := by
    unfold IRGenerator.newVarValue
    intro id hid
    cases hc : g.currentFunc <;> simp [hc, Value.allocId] at hid <;> omega
  refine ⟨⟨?_, ?_, ?_⟩, rfl, hval⟩
  · show ScopesWF (g.nextId + 1) (if name = "" then g.scopes else _)
    split
    · exact h1.later_scopes (Nat.le_succ _)
    · exact (h1.later_scopes (Nat.le_succ _)).bind hval
  · intro f hf
    exact (h2 f hf).later_function (Nat.le_succ _)
  · intro f hf
    exact (h3 f hf).later_function (Nat.le_succ _)

theorem newLabel_ok {g : IRGenerator} (h : StateWF g) :
    StateWF g.newLabel.2 ∧ g.newLabel.2.nextId = g.nextId + 1 ∧ g.newLabel.1 = g.nextId :=
  ⟨h.of_same rfl rfl rfl (Nat.le_succ _), rfl, rfl⟩

theorem newBinary_ok {g : IRGenerator} (h : StateWF g) (op : IRInstOperator)
    (a b : Option Value) (type : IRType) :
    StateWF (g.newBinary op a b type).2.2 ∧
      (g.newBinary op a b type).2.2.nextId = g.nextId + 1 ∧
      (g.newBinary op a b type).1.plain ∧
      (g.newBinary op a b type).2.1.allocatedBefore (g.nextId + 1) := by
  refine ⟨h.of_same rfl rfl rfl (Nat.le_succ _), rfl, ⟨rfl, rfl⟩, ?_⟩
  intro id hid
  simp [IRGenerator.newBinary, Value.allocId] at hid
  omega

theorem Post.fail {g g' : IRGenerator} (hwf : StateWF g') (hn : g.nextId ≤ g'.nextId) :
    Post g (none, g') :=
  ⟨hwf, hn, fun res h => by simp at h⟩

theorem Post.ok {g g' : IRGenerator} {res : NodeResult} (hwf : StateWF g')
    (hn : g.nextId ≤ g'.nextId) (hc : CodeOK g.nextId g'.nextId res.blockInsts)
    (hv : ValOK g'.nextId res.val) : Post g (some res, g') :=
  ⟨hwf, hn, fun r h => by simp at h; subst h; exact ⟨hc, hv⟩⟩

theorem Post.fail_error {g g' : IRGenerator} (hwf : StateWF g') (hn : g.nextId ≤ g'.nextId)
    (e : IRError) : Post g (none, g'.setLastError e) :=
  Post.fail (hwf.setLastError e) hn

theorem newVarValue_eq {g g' : IRGenerator} {type : IRType} {name : String} {v : Value}
    (heq : g.newVarValue type name = (v, g')) (h : StateWF g) :
    StateWF g' ∧ g'.nextId = g.nextId + 1 ∧ v.allocatedBefore (g.nextId + 1) := by
  have := newVarValue_ok h type name
  rw [heq] at this
  exact this

theorem newLabel_eq {g g' : IRGenerator} {l : Nat} (heq : g.newLabel = (l, g'))
    (h : StateWF g) : StateWF g' ∧ g'.nextId = g.nextId + 1 ∧ l = g.nextId := by
  have := newLabel_ok h
  rw [heq] at this
  exact this

theorem newBinary_eq {g g' : IRGenerator} {op : IRInstOperator} {a b : Option Value}
    {type : IRType} {inst : Instruction} {v : Value}
    (heq : g.newBinary op a b type = (inst, v, g')) (h : StateWF g) :
    StateWF g' ∧ g'.nextId = g.nextId + 1 ∧ inst.plain ∧ v.allocatedBefore (g.nextId + 1) := by
  have := newBinary_ok h op a b type
  rw [heq] at this
  exact this

theorem plain_move (d s : Option Value) (st ld : Bool) : (Instruction.Move d s st ld).plain :=
  ⟨rfl, rfl⟩

theorem CodeOK.label {lo hi l : Nat} {a : List Instruction} (h1 : lo ≤ l)
    (ha : CodeOK lo hi a) : CodeOK lo hi (.Label l :: a) :=
  CodeOK.cons ⟨by intro x hx; simp [Instruction.placedLabel] at hx; omega,
    by simp [Instruction.targets]⟩ ha

theorem CodeOK.goto {lo hi : Nat} {t : Option Nat} {a : List Instruction}
    (h1 : ∀ l, t = some l → l < hi) (ha : CodeOK lo hi a) : CodeOK lo hi (.Goto t :: a) :=
  CodeOK.cons ⟨by simp [Instruction.placedLabel], by
    intro x hx
    cases t with
    | none => simp [Instruction.targets] at hx
    | some l => simp [Instruction.targets] at hx; subst hx; exact h1 _ rfl⟩ ha

theorem CodeOK.condGoto {lo hi t f : Nat} {c : Value} {a : List Instruction}
    (h1 : t < hi) (h2 : f < hi) (ha : CodeOK lo hi a) :
    CodeOK lo hi (.CondGoto c t f :: a) :=
  CodeOK.cons ⟨by simp [Instruction.placedLabel], by
    intro x hx
    simp [Instruction.targets] at hx
    rcases hx with hx | hx <;> subst hx <;> assumption⟩ ha

theorem Post.of_some {g g' : IRGenerator} {res : NodeResult} (h : Post g (some res, g')) :
    StateWF g' ∧ g.nextId ≤ g'.nextId ∧ CodeOK g.nextId g'.nextId res.blockInsts ∧
      ValOK g'.nextId res.val :=
  ⟨h.1, h.2.1, (h.2.2 res rfl).1, (h.2.2 res rfl).2⟩

theorem Post.of_none {g g' : IRGenerator} (h : Post g (none, g')) :
    StateWF g' ∧ g.nextId ≤ g'.nextId :=
  ⟨h.1, h.2.1⟩

theorem Post.unit {g : IRGenerator} (hwf : StateWF g) : Post g (some {}, g) :=
  Post.ok hwf (Nat.le_refl _) (CodeOK.nil _ _) (ValOK.absent _)

theorem ValOK.present {b : Nat} {v : Value} (h : v.allocatedBefore b) : ValOK b (some v) := by
  intro x hx; simp only [Option.some.injEq] at hx; subst hx; exact h

theorem ValOK.elim {b : Nat} {o : Option Value} {v : Value} (h : ValOK b o) (hv : o = some v) :
    v.allocatedBefore b := h v hv

theorem allocatedBefore_newConstInt (b : Nat) (v : Int) : (newConstInt v).allocatedBefore b :=
  Value.allocatedBefore_const _ b

/-! ### Allocation discipline: leaves and arithmetic -/

theorem ir_default_ok (node : ast_node) (g : IRGenerator) (hwf : StateWF g) :
    Post g (ir_default node g) := Post.unit hwf

theorem ir_leaf_node_uint_ok (node : ast_node) (g : IRGenerator) (hwf : StateWF g) :
    Post g (ir_leaf_node_uint node g) :=
  Post.ok hwf (Nat.le_refl _) (CodeOK.nil _ _) (ValOK.present (allocatedBefore_newConstInt _ _))

theorem ir_leaf_node_var_id_ok (node : ast_node) (g : IRGenerator) (hwf : StateWF g) :
    Post g (ir_leaf_node_var_id node g) := by
  unfold ir_leaf_node_var_id
  dsimp only
  split
  · exact Post.fail_error hwf (Nat.le_refl _) _
  · split
    · exact Post.fail_error hwf (Nat.le_refl _) _
    · rename_i v hv
      refine Post.ok hwf (Nat.le_refl _) (CodeOK.nil _ _) (ValOK.present ?_)
      revert hv
      split
      · intro h; simp only [Option.some.injEq] at h; subst h
        rename_i hfind; exact hwf.findVarValue hfind
      · split
        · split
          · intro h; exact hwf.findVarValue h
          · intro h; simp at h
        · intro h; simp at h

theorem ir_add_ok {visit : Visitor} (hv : VisitorOK visit) : VisitorOK (ir_add visit) := by
  intro node g hwf
  unfold ir_add
  split
  · rename_i src1 src2 _ _
    have h1 := hv src1 g hwf
    split
    · rename_i g1 heq
      rw [heq] at h1
      exact Post.fail_error h1.of_none.1 h1.of_none.2 _
    · rename_i left g1 heq
      rw [heq] at h1
      obtain ⟨hwf1, hn1, hc1, hv1⟩ := h1.of_some
      split
      · exact Post.fail_error hwf1 hn1 _
      · have h2 := hv src2 g1 hwf1
        split
        · rename_i g2 heq2
          rw [heq2] at h2
          exact Post.fail_error h2.of_none.1 (Nat.le_trans hn1 h2.of_none.2) _
        · rename_i right g2 heq2
          rw [heq2] at h2
          obtain ⟨hwf2, hn2, hc2, hv2⟩ := h2.of_some
          split
          · exact Post.fail_error hwf2 (Nat.le_trans hn1 hn2) _
          · split
            rename_i addInst addVal g3 heq3
            obtain ⟨hwf3, hn3, hp3, ha3⟩ := newBinary_eq heq3 hwf2
            refine Post.ok hwf3 (by omega) ?_ (ValOK.present (ha3.mono (by omega)))
            exact CodeOK.concat (CodeOK.concat (hc1.widen (Nat.le_refl _) (by omega))
                (hc2.widen hn1 (by omega))) (CodeOK.plain hp3 (CodeOK.nil _ _))
  · exact Post.fail hwf (Nat.le_refl _)

theorem ir_mul_ok {visit : Visitor} (hv : VisitorOK visit) : VisitorOK (ir_mul visit) := by
  intro node g hwf
  unfold ir_mul
  split
  · rename_i src1 src2 _ _
    have h1 := hv src1 g hwf
    split
    · rename_i g1 heq
      rw [heq] at h1
      exact Post.fail_error h1.of_none.1 h1.of_none.2 _
    · rename_i left g1 heq
      rw [heq] at h1
      obtain ⟨hwf1, hn1, hc1, hv1⟩ := h1.of_some
      split
      · exact Post.fail_error hwf1 hn1 _
      · have h2 := hv src2 g1 hwf1
        split
        · rename_i g2 heq2
          rw [heq2] at h2
          exact Post.fail_error h2.of_none.1 (Nat.le_trans hn1 h2.of_none.2) _
        · rename_i right g2 heq2
          rw [heq2] at h2
          obtain ⟨hwf2, hn2, hc2, hv2⟩ := h2.of_some
          split
          · exact Post.fail_error hwf2 (Nat.le_trans hn1 hn2) _
          · split
            rename_i mulInst mulVal g3 heq3
            obtain ⟨hwf3, hn3, hp3, ha3⟩ := newBinary_eq heq3 hwf2
            refine Post.ok hwf3 (by omega) ?_ (ValOK.present (ha3.mono (by omega)))
            exact CodeOK.concat (CodeOK.concat (hc1.widen (Nat.le_refl _) (by omega))
                (hc2.widen hn1 (by omega))) (CodeOK.plain hp3 (CodeOK.nil _ _))
  · exact Post.fail_error hwf (Nat.le_refl _) _

theorem ir_binary_unchecked_ok (op : IRInstOperator) {visit : Visitor} (hv : VisitorOK visit) :
    VisitorOK (ir_binary_unchecked op visit) := by
  intro node g hwf
  unfold ir_binary_unchecked
  split
  · rename_i src1 src2 _ _
    have h1 := hv src1 g hwf
    split
    · rename_i g1 heq
      rw [heq] at h1
      exact Post.fail h1.of_none.1 h1.of_none.2
    · rename_i left g1 heq
      rw [heq] at h1
      obtain ⟨hwf1, hn1, hc1, hv1⟩ := h1.of_some
      have h2 := hv src2 g1 hwf1
      split
      · rename_i g2 heq2
        rw [heq2] at h2
        exact Post.fail h2.of_none.1 (Nat.le_trans hn1 h2.of_none.2)
      · rename_i right g2 heq2
        rw [heq2] at h2
        obtain ⟨hwf2, hn2, hc2, hv2⟩ := h2.of_some
        split
        rename_i inst instVal g3 heq3
        obtain ⟨hwf3, hn3, hp3, ha3⟩ := newBinary_eq heq3 hwf2
        refine Post.ok hwf3 (by omega) ?_ (ValOK.present (ha3.mono (by omega)))
        exact CodeOK.concat (CodeOK.concat (hc1.widen (Nat.le_refl _) (by omega))
            (hc2.widen hn1 (by omega))) (CodeOK.plain hp3 (CodeOK.nil _ _))
  · exact Post.fail hwf (Nat.le_refl _)

theorem ir_neg_ok {visit : Visitor} (hv : VisitorOK visit) : VisitorOK (ir_neg visit) := by
  intro node g hwf
  unfold ir_neg
  split
  · rename_i operand_node _ _
    have h1 := hv operand_node g hwf
    split
    · rename_i g1 heq
      rw [heq] at h1
      exact Post.fail h1.of_none.1 h1.of_none.2
    · rename_i operand g1 heq
      rw [heq] at h1
      obtain ⟨hwf1, hn1, hc1, hv1⟩ := h1.of_some
      split
      rename_i inst instVal g2 heq2
      obtain ⟨hwf2, hn2, hp2, ha2⟩ := newBinary_eq heq2 hwf1
      refine Post.ok hwf2 (by omega) ?_ (ValOK.present (ha2.mono (by omega)))
      exact CodeOK.concat (hc1.widen (Nat.le_refl _) (by omega)) (CodeOK.plain hp2 (CodeOK.nil _ _))
  · exact Post.fail hwf (Nat.le_refl _)

theorem ir_relational_ok (op : IRInstOperator) {visit : Visitor} (hv : VisitorOK visit) :
    VisitorOK (ir_relational op visit) := by
  intro node g hwf
  unfold ir_relational
  split
  · rename_i son0 son1 _ _
    have h1 := hv son0 g hwf
    split
    · rename_i g1 heq
      rw [heq] at h1
      exact Post.fail h1.of_none.1 h1.of_none.2
    · rename_i left g1 heq
      rw [heq] at h1
      obtain ⟨hwf1, hn1, hc1, hv1⟩ := h1.of_some
      have h2 := hv son1 g1 hwf1
      split
      · rename_i g2 heq2
        rw [heq2] at h2
        exact Post.fail h2.of_none.1 (Nat.le_trans hn1 h2.of_none.2)
      · rename_i right g2 heq2
        rw [heq2] at h2
        obtain ⟨hwf2, hn2, hc2, hv2⟩ := h2.of_some
        split
        · split
          · exact Post.fail hwf2 (Nat.le_trans hn1 hn2)
          · split
            rename_i result g3 heq3
            obtain ⟨hwf3, hn3, ha3⟩ := newVarValue_eq heq3 hwf2
            split
            rename_i cmpInst cmpVal g4 heq4
            obtain ⟨hwf4, hn4, hp4, ha4⟩ := newBinary_eq heq4 hwf3
            refine Post.ok hwf4 (by omega) ?_ (ValOK.present (ha3.mono (by omega)))
            exact CodeOK.concat (CodeOK.concat (hc1.widen (Nat.le_refl _) (by omega))
              (hc2.widen hn1 (by omega)))
              (CodeOK.plain hp4 (CodeOK.plain (plain_move _ _ _ _) (CodeOK.nil _ _)))
        · exact Post.fail hwf2 (Nat.le_trans hn1 hn2)
  · exact Post.fail hwf (Nat.le_refl _)

/-! ### Allocation discipline: conditions, loops and blocks -/

theorem int_to_bool_ok {val : Value} {g : IRGenerator} (hwf : StateWF g)
    (hval : val.allocatedBefore g.nextId) :
    StateWF (int_to_bool val g).2 ∧ g.nextId ≤ (int_to_bool val g).2.nextId ∧
      ∀ v, (int_to_bool val g).1 = some v → v.allocatedBefore (int_to_bool val g).2.nextId := by
  unfold int_to_bool
  split
  · exact ⟨hwf, Nat.le_refl _, fun v h => by simp at h⟩
  · split
    · refine ⟨hwf, Nat.le_refl _, fun v h => ?_⟩
      simp only [Option.some.injEq] at h
      subst h
      exact hval
    · split
      rename_i result g1 heq1
      obtain ⟨hwf1, hn1, ha1⟩ := newVarValue_eq heq1 hwf
      split
      rename_i boolCheck boolCheckVal g2 heq2
      obtain ⟨hwf2, hn2, hp2, ha2⟩ := newBinary_eq heq2 hwf1
      refine ⟨?_, ?_, ?_⟩
      · apply hwf2.updateCurrent
        intro f hf
        obtain ⟨h1, h2, h3, h4, h5, h6⟩ := hf
        refine ⟨h1, h2, h3, h4, ?_, ?_⟩
        · intro inst hinst
          simp only [Option.some.injEq] at hinst
          subst hinst
          exact hp2
        · intro inst hinst
          simp only [Option.some.injEq] at hinst
          subst hinst
          exact plain_move _ _ _ _
      · show g.nextId ≤ g2.nextId
        omega
      · intro v h
        simp only [Option.some.injEq] at h
        subst h
        show result.allocatedBefore g2.nextId
        exact ha1.mono (by omega)

theorem takeBoolCheck_ok {g : IRGenerator} (hwf : StateWF g) :
    StateWF (takeBoolCheck g).2 ∧ (takeBoolCheck g).2.nextId = g.nextId ∧
      ∀ lo hi, CodeOK lo hi (takeBoolCheck g).1 := by
  unfold takeBoolCheck
  split
  · exact ⟨hwf, rfl, fun lo hi => CodeOK.nil _ _⟩
  · rename_i func hfunc
    split
    · exact ⟨hwf, rfl, fun lo hi => CodeOK.nil _ _⟩
    · rename_i boolCheckInst hb
      have hfwf := hwf.2.1 func hfunc
      refine ⟨?_, rfl, fun lo hi => ?_⟩
      · apply hwf.updateCurrent
        intro f hf
        obtain ⟨h1, h2, h3, h4, h5, h6⟩ := hf
        exact ⟨h1, h2, h3, h4, fun inst h => by simp at h, fun inst h => by simp at h⟩
      · refine CodeOK.plain (hfwf.2.2.2.2.1 _ hb) ?_
        split
        · rename_i moveInst hm
          exact CodeOK.plain (hfwf.2.2.2.2.2 _ hm) (CodeOK.nil _ _)
        · exact CodeOK.nil _ _

theorem ir_logic_and_ok {visit : Visitor} (hv : VisitorOK visit) :
    VisitorOK (ir_logic_and visit) := by
  intro node g hwf
  unfold ir_logic_and
  split
  · exact Post.fail hwf (Nat.le_refl _)
  · split
    · rename_i son0 son1 _ _
      split
      rename_i secondOpLabel g1 hl1
      obtain ⟨hwf1, hn1, he1⟩ := newLabel_eq hl1 hwf
      split
      rename_i falseLabel g2 hl2
      obtain ⟨hwf2, hn2, he2⟩ := newLabel_eq hl2 hwf1
      split
      rename_i endLabel g3 hl3
      obtain ⟨hwf3, hn3, he3⟩ := newLabel_eq hl3 hwf2
      split
      rename_i result g4 hr4
      obtain ⟨hwf4, hn4, ha4⟩ := newVarValue_eq hr4 hwf3
      have h5 := hv son0 g4 hwf4
      split
      · rename_i g5 heq5
        rw [heq5] at h5
        exact Post.fail h5.of_none.1 (by have := h5.of_none.2; omega)
      · rename_i leftNode g5 heq5
        rw [heq5] at h5
        obtain ⟨hwf5, hn5, hc5, hv5⟩ := h5.of_some
        split
        · exact Post.fail hwf5 (by omega)
        · rename_i leftVal hlv
          have h6 := int_to_bool_ok hwf5 (hv5.elim hlv)
          split
          · rename_i g6 heq6
            rw [heq6] at h6
            exact Post.fail h6.1 (by have := h6.2.1; simp only at this; omega)
          · rename_i leftBool g6 heq6
            rw [heq6] at h6
            obtain ⟨hwf6, hn6, hb6⟩ := h6
            simp only at hwf6 hn6 hb6
            have h7 := takeBoolCheck_ok hwf6
            split
            rename_i conversion g7 heq7
            rw [heq7] at h7
            obtain ⟨hwf7, hn7, hc7⟩ := h7
            simp only at hwf7 hn7 hc7
            have h8 := hv son1 g7 hwf7
            split
            · rename_i g8 heq8
              rw [heq8] at h8
              exact Post.fail h8.of_none.1 (by have := h8.of_none.2; omega)
            · rename_i rightNode g8 heq8
              rw [heq8] at h8
              obtain ⟨hwf8, hn8, hc8, hv8⟩ := h8.of_some
              split
              · exact Post.fail hwf8 (by omega)
              · refine Post.ok hwf8 (by omega) ?_ (ValOK.present (ha4.mono (by omega)))
                refine CodeOK.concat (CodeOK.concat (CodeOK.concat (CodeOK.concat
                  (hc5.widen (by omega) (by omega)) (hc7 _ _)) ?_)
                  (hc8.widen (by omega) (Nat.le_refl _))) ?_
                · exact CodeOK.condGoto (by omega) (by omega)
                    (CodeOK.label (by omega) (CodeOK.nil _ _))
                · exact CodeOK.plain (plain_move _ _ _ _)
                    (CodeOK.goto (by intro l hl; simp at hl; omega)
                      (CodeOK.label (by omega)
                        (CodeOK.plain (plain_move _ _ _ _)
                          (CodeOK.label (by omega) (CodeOK.nil _ _)))))
    · exact Post.fail hwf (Nat.le_refl _)
theorem ir_logic_or_ok {visit : Visitor} (hv : VisitorOK visit) :
    VisitorOK (ir_logic_or visit) := by
  intro node g hwf
  unfold ir_logic_or
  split
  · exact Post.fail hwf (Nat.le_refl _)
  · split
    · rename_i son0 son1 _ _
      split
      rename_i secondOpLabel g1 hl1
      obtain ⟨hwf1, hn1, he1⟩ := newLabel_eq hl1 hwf
      split
      rename_i trueLabel g2 hl2
      obtain ⟨hwf2, hn2, he2⟩ := newLabel_eq hl2 hwf1
      split
      rename_i endLabel g3 hl3
      obtain ⟨hwf3, hn3, he3⟩ := newLabel_eq hl3 hwf2
      split
      rename_i result g4 hr4
      obtain ⟨hwf4, hn4, ha4⟩ := newVarValue_eq hr4 hwf3
      have h5 := hv son0 g4 hwf4
      split
      · rename_i g5 heq5
        rw [heq5] at h5
        exact Post.fail h5.of_none.1 (by have := h5.of_none.2; omega)
      · rename_i leftNode g5 heq5
        rw [heq5] at h5
        obtain ⟨hwf5, hn5, hc5, hv5⟩ := h5.of_some
        split
        · exact Post.fail hwf5 (by omega)
        · rename_i leftVal hlv
          have h6 := int_to_bool_ok hwf5 (hv5.elim hlv)
          split
          · rename_i g6 heq6
            rw [heq6] at h6
            exact Post.fail h6.1 (by have := h6.2.1; simp only at this; omega)
          · rename_i leftBool g6 heq6
            rw [heq6] at h6
            obtain ⟨hwf6, hn6, hb6⟩ := h6
            simp only at hwf6 hn6 hb6
            have h7 := takeBoolCheck_ok hwf6
            split
            rename_i conversion g7 heq7
            rw [heq7] at h7
            obtain ⟨hwf7, hn7, hc7⟩ := h7
            simp only at hwf7 hn7 hc7
            have h8 := hv son1 g7 hwf7
            split
            · rename_i g8 heq8
              rw [heq8] at h8
              exact Post.fail h8.of_none.1 (by have := h8.of_none.2; omega)
            · rename_i rightNode g8 heq8
              rw [heq8] at h8
              obtain ⟨hwf8, hn8, hc8, hv8⟩ := h8.of_some
              split
              · exact Post.fail hwf8 (by omega)
              · refine Post.ok hwf8 (by omega) ?_ (ValOK.present (ha4.mono (by omega)))
                refine CodeOK.concat (CodeOK.concat (CodeOK.concat (CodeOK.concat
                  (hc5.widen (by omega) (by omega)) (hc7 _ _)) ?_)
                  (hc8.widen (by omega) (Nat.le_refl _))) ?_
                · exact CodeOK.condGoto (by omega) (by omega)
                    (CodeOK.label (by omega) (CodeOK.nil _ _))
                · exact CodeOK.plain (plain_move _ _ _ _)
                    (CodeOK.goto (by intro l hl; simp at hl; omega)
                      (CodeOK.label (by omega)
                        (CodeOK.plain (plain_move _ _ _ _)
                          (CodeOK.label (by omega) (CodeOK.nil _ _)))))
    · exact Post.fail hwf (Nat.le_refl _)

theorem ir_logic_not_ok {visit : Visitor} (hv : VisitorOK visit) :
    VisitorOK (ir_logic_not visit) := by
  intro node g hwf
  unfold ir_logic_not
  split
  · exact Post.fail hwf (Nat.le_refl _)
  · split
    · exact Post.fail hwf (Nat.le_refl _)
    · rename_i son0 _ _
      have h1 := hv son0 g hwf
      split
      · rename_i g1 heq
        rw [heq] at h1
        exact Post.fail h1.of_none.1 h1.of_none.2
      · rename_i operandNode g1 heq
        rw [heq] at h1
        obtain ⟨hwf1, hn1, hc1, hv1⟩ := h1.of_some
        split
        · exact Post.fail hwf1 hn1
        · split
          rename_i result g2 heq2
          obtain ⟨hwf2, hn2, ha2⟩ := newVarValue_eq heq2 hwf1
          split
          rename_i eqZeroInst eqZeroVal g3 heq3
          obtain ⟨hwf3, hn3, hp3, ha3⟩ := newBinary_eq heq3 hwf2
          refine Post.ok hwf3 (by omega) ?_ (ValOK.present (ha2.mono (by omega)))
          exact CodeOK.concat (hc1.widen (Nat.le_refl _) (by omega))
            (CodeOK.plain hp3 (CodeOK.plain (plain_move _ _ _ _) (CodeOK.nil _ _)))

theorem ir_if_ok {visit : Visitor} (hv : VisitorOK visit) : VisitorOK (ir_if visit) := by
  intro node g hwf
  unfold ir_if
  split
  · exact Post.fail hwf (Nat.le_refl _)
  · split
    rename_i thenLabel g1 hl1
    obtain ⟨hwf1, hn1, he1⟩ := newLabel_eq hl1 hwf
    split
    rename_i endLabel g2 hl2
    obtain ⟨hwf2, hn2, he2⟩ := newLabel_eq hl2 hwf1
    split
    · exact Post.fail hwf2 (by omega)
    · rename_i son0 rest _
      have h3 := hv son0 g2 hwf2
      split
      · rename_i g3 heq3
        rw [heq3] at h3
        exact Post.fail h3.of_none.1 (by have := h3.of_none.2; omega)
      · rename_i cond_node g3 heq3
        rw [heq3] at h3
        obtain ⟨hwf3, hn3, hc3, hv3⟩ := h3.of_some
        split
        · exact Post.fail hwf3 (by omega)
        · have hcond : CodeOK g.nextId g3.nextId
              [Instruction.CondGoto ‹Value› thenLabel endLabel, Instruction.Label thenLabel] :=
            CodeOK.condGoto (by omega) (by omega) (CodeOK.label (by omega) (CodeOK.nil _ _))
          have hend : CodeOK g.nextId g3.nextId [Instruction.Label endLabel] :=
            CodeOK.label (by omega) (CodeOK.nil _ _)
          split
          · refine Post.ok hwf3 (by omega) ?_ (ValOK.absent _)
            exact CodeOK.concat (CodeOK.concat (hc3.widen (by omega) (Nat.le_refl _)) hcond) hend
          · rename_i son1 _ _
            have h4 := hv son1 g3 hwf3
            split
            · rename_i then_node g4 heq4
              rw [heq4] at h4
              obtain ⟨hwf4, hn4, hc4, hv4⟩ := h4.of_some
              refine Post.ok hwf4 (by omega) ?_ (ValOK.absent _)
              exact CodeOK.concat (CodeOK.concat (CodeOK.concat
                (hc3.widen (by omega) (by omega)) (hcond.widen (Nat.le_refl _) (by omega)))
                (hc4.widen (by omega) (Nat.le_refl _))) (hend.widen (Nat.le_refl _) (by omega))
            · rename_i g4 heq4
              rw [heq4] at h4
              refine Post.ok h4.of_none.1 (by have := h4.of_none.2; omega) ?_ (ValOK.absent _)
              have := h4.of_none.2
              exact CodeOK.concat (CodeOK.concat (hc3.widen (by omega) (by omega))
                (hcond.widen (Nat.le_refl _) (by omega))) (hend.widen (Nat.le_refl _) (by omega))

theorem ir_if_else_ok {visit : Visitor} (hv : VisitorOK visit) :
    VisitorOK (ir_if_else visit) := by
  intro node g hwf
  unfold ir_if_else
  split
  · exact Post.fail hwf (Nat.le_refl _)
  · split
    rename_i thenLabel g1 hl1
    obtain ⟨hwf1, hn1, he1⟩ := newLabel_eq hl1 hwf
    split
    rename_i elseLabel g2 hl2
    obtain ⟨hwf2, hn2, he2⟩ := newLabel_eq hl2 hwf1
    split
    rename_i endLabel g3 hl3
    obtain ⟨hwf3, hn3, he3⟩ := newLabel_eq hl3 hwf2
    split
    · rename_i son0 son1 son2 _ _
      have h4 := hv son0 g3 hwf3
      split
      · rename_i g4 heq4
        rw [heq4] at h4
        exact Post.fail h4.of_none.1 (by have := h4.of_none.2; omega)
      · rename_i cond_node g4 heq4
        rw [heq4] at h4
        obtain ⟨hwf4, hn4, hc4, hv4⟩ := h4.of_some
        split
        · exact Post.fail hwf4 (by omega)
        · have h5 := hv son1 g4 hwf4
          split
          · rename_i g5 heq5
            rw [heq5] at h5
            exact Post.fail h5.of_none.1 (by have := h5.of_none.2; omega)
          · rename_i then_node g5 heq5
            rw [heq5] at h5
            obtain ⟨hwf5, hn5, hc5, hv5⟩ := h5.of_some
            have h6 := hv son2 g5 hwf5
            split
            · rename_i g6 heq6
              rw [heq6] at h6
              exact Post.fail h6.of_none.1 (by have := h6.of_none.2; omega)
            · rename_i else_node g6 heq6
              rw [heq6] at h6
              obtain ⟨hwf6, hn6, hc6, hv6⟩ := h6.of_some
              refine Post.ok hwf6 (by omega) ?_ (ValOK.absent _)
              refine CodeOK.concat (CodeOK.concat (CodeOK.concat (CodeOK.concat (CodeOK.concat
                (hc4.widen (by omega) (by omega)) ?_) (hc5.widen (by omega) (by omega))) ?_)
                (hc6.widen (by omega) (Nat.le_refl _))) ?_
              · exact CodeOK.condGoto (by omega) (by omega)
                  (CodeOK.label (by omega) (CodeOK.nil _ _))
              · exact CodeOK.goto (by intro l hl; simp at hl; omega)
                  (CodeOK.label (by omega) (CodeOK.nil _ _))
              · exact CodeOK.label (by omega) (CodeOK.nil _ _)
    · exact Post.fail hwf3 (by omega)

theorem StateWF.setLoopLabels {g : IRGenerator} (h : StateWF g) (b c : Option Nat)
    (hb : ∀ l, b = some l → l < g.nextId) (hc : ∀ l, c = some l → l < g.nextId) :
    StateWF (g.setLoopLabels b c) := by
  apply h.updateCurrent
  intro f hf
  obtain ⟨h1, h2, h3, h4, h5, h6⟩ := hf
  exact ⟨h1, hb, hc, h4, h5, h6⟩

theorem ir_while_ok {visit : Visitor} (hv : VisitorOK visit) : VisitorOK (ir_while visit) := by
  intro node g hwf
  unfold ir_while
  split
  · exact Post.fail hwf (Nat.le_refl _)
  · rename_i func hfunc
    have hfwf := hwf.2.1 func hfunc
    split
    rename_i condLabel g1 hl1
    obtain ⟨hwf1, hn1, he1⟩ := newLabel_eq hl1 hwf
    split
    rename_i bodyLabel g2 hl2
    obtain ⟨hwf2, hn2, he2⟩ := newLabel_eq hl2 hwf1
    split
    rename_i endLabel g3 hl3
    obtain ⟨hwf3, hn3, he3⟩ := newLabel_eq hl3 hwf2
    dsimp only
    have hwf4 : StateWF (g3.setLoopLabels (some endLabel) (some condLabel)) :=
      hwf3.setLoopLabels _ _ (by intro l hl; simp at hl; omega) (by intro l hl; simp at hl; omega)
    have hn4 : (g3.setLoopLabels (some endLabel) (some condLabel)).nextId = g3.nextId := rfl
    have hold : ∀ (gx : IRGenerator), StateWF gx → g.nextId ≤ gx.nextId →
        StateWF (gx.setLoopLabels func.breakLabel func.continueLabel) := by
      intro gx hx hle
      exact hx.setLoopLabels _ _
        (fun l hl => by have := hfwf.2.1 l hl; omega)
        (fun l hl => by have := hfwf.2.2.1 l hl; omega)
    split
    · exact Post.fail hwf4 (by rw [hn4]; omega)
    · rename_i son0 rest _
      have h5 := hv son0 _ hwf4
      split
      · rename_i g5 heq5
        rw [heq5] at h5
        exact Post.fail h5.of_none.1 (by have := h5.of_none.2; rw [hn4] at this; omega)
      · rename_i cond_node g5 heq5
        rw [heq5] at h5
        obtain ⟨hwf5, hn5, hc5, hv5⟩ := h5.of_some
        rw [hn4] at hn5 hc5
        split
        · exact Post.fail hwf5 (by omega)
        · rename_i condVal hcv
          split
          · refine Post.ok (hold g5 hwf5 (by omega)) (by show g.nextId ≤ g5.nextId; omega) ?_
              (ValOK.absent _)
            show CodeOK g.nextId g5.nextId _
            exact CodeOK.concat (CodeOK.concat (CodeOK.label (by omega) (CodeOK.nil _ _))
              (hc5.widen (by omega) (Nat.le_refl _)))
              (CodeOK.goto (by intro l hl; simp at hl; omega)
                (CodeOK.label (by omega) (CodeOK.nil _ _)))
          · rename_i branchInst hbr
            have hbranch : ∀ hi, g3.nextId ≤ hi → CodeOK g.nextId hi [branchInst] := by
              intro hi hhi
              split at hbr
              · split at hbr
                · simp only [Option.some.injEq] at hbr
                  subst hbr
                  exact CodeOK.goto (by intro l hl; simp at hl; omega) (CodeOK.nil _ _)
                · simp at hbr
              · simp only [Option.some.injEq] at hbr
                subst hbr
                exact CodeOK.condGoto (by omega) (by omega) (CodeOK.nil _ _)
            split
            · exact Post.fail hwf5 (by omega)
            · rename_i son1 _ _
              have h6 := hv son1 g5 hwf5
              split
              · rename_i g6 heq6
                rw [heq6] at h6
                exact Post.fail h6.of_none.1 (by have := h6.of_none.2; omega)
              · rename_i body_node g6 heq6
                rw [heq6] at h6
                obtain ⟨hwf6, hn6, hc6, hv6⟩ := h6.of_some
                refine Post.ok (hold g6 hwf6 (by omega)) (by show g.nextId ≤ g6.nextId; omega) ?_
                  (ValOK.absent _)
                show CodeOK g.nextId g6.nextId _
                refine CodeOK.concat (CodeOK.concat (CodeOK.concat (CodeOK.concat
                  (CodeOK.label (by omega) (CodeOK.nil _ _))
                  (hc5.widen (by omega) (by omega))) ?_) (hc6.widen (by omega) (Nat.le_refl _))) ?_
                · exact CodeOK.concat (hbranch _ (by omega))
                    (CodeOK.label (by omega) (CodeOK.nil _ _))
                · exact CodeOK.goto (by intro l hl; simp at hl; omega)
                    (CodeOK.label (by omega) (CodeOK.nil _ _))

theorem ir_break_ok (node : ast_node) (g : IRGenerator) (hwf : StateWF g) :
    Post g (ir_break node g) := by
  unfold ir_break
  split
  · exact Post.fail hwf (Nat.le_refl _)
  · rename_i func hfunc
    split
    · exact Post.fail hwf (Nat.le_refl _)
    · rename_i breakLabel hb
      refine Post.ok hwf (Nat.le_refl _) ?_ (ValOK.absent _)
      exact CodeOK.goto (by
        intro l hl
        simp only [Option.some.injEq] at hl
        subst hl
        exact (hwf.2.1 func hfunc).2.1 _ hb) (CodeOK.nil _ _)

theorem ir_continue_ok (node : ast_node) (g : IRGenerator) (hwf : StateWF g) :
    Post g (ir_continue node g) := by
  unfold ir_continue
  split
  · exact Post.fail hwf (Nat.le_refl _)
  · rename_i func hfunc
    split
    · exact Post.fail hwf (Nat.le_refl _)
    · rename_i continueLabel hb
      refine Post.ok hwf (Nat.le_refl _) ?_ (ValOK.absent _)
      exact CodeOK.goto (by
        intro l hl
        simp only [Option.some.injEq] at hl
        subst hl
        exact (hwf.2.1 func hfunc).2.2.1 _ hb) (CodeOK.nil _ _)

theorem ir_assign_ok {visit : Visitor} (hv : VisitorOK visit) : VisitorOK (ir_assign visit) := by
  intro node g hwf
  unfold ir_assign
  split
  · rename_i son1_node son2_node _ _
    have h1 := hv son2_node g hwf
    split
    · rename_i g1 heq
      rw [heq] at h1
      exact Post.fail_error h1.of_none.1 h1.of_none.2 _
    · rename_i right g1 heq
      rw [heq] at h1
      obtain ⟨hwf1, hn1, hc1, hv1⟩ := h1.of_some
      split
      · exact Post.fail_error hwf1 hn1 _
      · rename_i rightVal hrv
        have h2 := hv son1_node g1 hwf1
        split
        · rename_i g2 heq2
          rw [heq2] at h2
          exact Post.fail h2.of_none.1 (Nat.le_trans hn1 h2.of_none.2)
        · rename_i left g2 heq2
          rw [heq2] at h2
          obtain ⟨hwf2, hn2, hc2, hv2⟩ := h2.of_some
          split
          · refine Post.ok hwf2 (by omega) ?_ (ValOK.present ((hv1.elim hrv).mono hn2))
            exact CodeOK.concat (CodeOK.concat (hc1.widen (Nat.le_refl _) (by omega))
              (hc2.widen hn1 (Nat.le_refl _))) (CodeOK.plain (plain_move _ _ _ _) (CodeOK.nil _ _))
          · refine Post.ok hwf2 (by omega) ?_ (ValOK.present ((hv1.elim hrv).mono hn2))
            exact CodeOK.concat (CodeOK.concat (hc1.widen (Nat.le_refl _) (by omega))
              (hc2.widen hn1 (Nat.le_refl _))) (CodeOK.plain (plain_move _ _ _ _) (CodeOK.nil _ _))
  · exact Post.fail hwf (Nat.le_refl _)

theorem ir_return_ok {visit : Visitor} (hv : VisitorOK visit) : VisitorOK (ir_return visit) := by
  intro node g hwf
  unfold ir_return
  split
  · split
    · exact Post.fail hwf (Nat.le_refl _)
    · rename_i currentFunc hfunc
      refine Post.ok hwf (Nat.le_refl _) ?_ (ValOK.absent _)
      exact CodeOK.goto (fun l hl => (hwf.2.1 _ hfunc).2.2.2.1 l hl) (CodeOK.nil _ _)
  · rename_i son_node _ _
    have h1 := hv son_node g hwf
    split
    · rename_i g1 heq
      rw [heq] at h1
      exact Post.fail h1.of_none.1 h1.of_none.2
    · rename_i right g1 heq
      rw [heq] at h1
      obtain ⟨hwf1, hn1, hc1, hv1⟩ := h1.of_some
      split
      · exact Post.fail hwf1 hn1
      · rename_i currentFunc hfunc
        refine Post.ok hwf1 hn1 ?_ hv1
        exact CodeOK.concat hc1 (CodeOK.plain (plain_move _ _ _ _)
          (CodeOK.goto (fun l hl => (hwf1.2.1 _ hfunc).2.2.2.1 l hl) (CodeOK.nil _ _)))

theorem ir_block_sons_ok {visit : Visitor} (hv : VisitorOK visit) (sons : List ast_node) :
    ∀ g, StateWF g →
      StateWF (ir_block_sons visit sons g).2 ∧ g.nextId ≤ (ir_block_sons visit sons g).2.nextId ∧
      ∀ insts, (ir_block_sons visit sons g).1 = some insts →
        CodeOK g.nextId (ir_block_sons visit sons g).2.nextId insts := by
  induction sons with
  | nil =>
    intro g hwf
    refine ⟨hwf, Nat.le_refl _, fun insts h => ?_⟩
    simp [ir_block_sons] at h
    subst h
    exact CodeOK.nil _ _
  | cons son rest ih =>
    intro g hwf
    unfold ir_block_sons
    have h1 := hv son g hwf
    split
    · rename_i g1 heq
      rw [heq] at h1
      exact ⟨h1.of_none.1, h1.of_none.2, fun insts h => by simp at h⟩
    · rename_i temp g1 heq
      rw [heq] at h1
      obtain ⟨hwf1, hn1, hc1, hv1⟩ := h1.of_some
      have h2 := ih g1 hwf1
      split
      · rename_i g2 heq2
        rw [heq2] at h2
        exact ⟨h2.1, Nat.le_trans hn1 h2.2.1, fun insts h => by simp at h⟩
      · rename_i insts g2 heq2
        rw [heq2] at h2
        obtain ⟨hwf2, hn2, hc2⟩ := h2
        simp only at hwf2 hn2 hc2
        refine ⟨hwf2, Nat.le_trans hn1 hn2, fun is h => ?_⟩
        simp only [Option.some.injEq] at h
        subst h
        exact CodeOK.concat (hc1.widen (Nat.le_refl _) hn2) ((hc2 insts rfl).widen hn1 (Nat.le_refl _))

theorem StateWF.enterScope {g : IRGenerator} (h : StateWF g) : StateWF g.enterScope := by
  obtain ⟨h1, h2, h3⟩ := h
  refine ⟨?_, h2, h3⟩
  intro sc hsc entry he
  simp only [IRGenerator.enterScope, List.mem_cons] at hsc
  rcases hsc with hsc | hsc
  · subst hsc; simp at he
  · exact h1 sc hsc entry he

theorem StateWF.leaveScope {g : IRGenerator} (h : StateWF g) : StateWF g.leaveScope := by
  obtain ⟨h1, h2, h3⟩ := h
  refine ⟨?_, h2, h3⟩
  intro sc hsc entry he
  exact h1 sc (List.mem_of_mem_tail hsc) entry he

theorem ir_block_ok {visit : Visitor} (hv : VisitorOK visit) : VisitorOK (ir_block visit) := by
  intro node g hwf
  unfold ir_block
  have hwf0 : StateWF (if node.needScope = true then g.enterScope else g) := by
    split
    · exact hwf.enterScope
    · exact hwf
  have hn0 : (if node.needScope = true then g.enterScope else g).nextId = g.nextId := by
    split <;> rfl
  have h1 := ir_block_sons_ok hv node.sons _ hwf0
  split
  · rename_i g1 heq
    rw [heq] at h1
    exact Post.fail h1.1 (by have := h1.2.1; simp only at this; omega)
  · rename_i insts g1 heq
    rw [heq] at h1
    obtain ⟨hwf1, hn1, hc1⟩ := h1
    simp only at hwf1 hn1 hc1
    have hwf2 : StateWF (if node.needScope = true then g1.leaveScope else g1) := by
      split
      · exact hwf1.leaveScope
      · exact hwf1
    have hn2 : (if node.needScope = true then g1.leaveScope else g1).nextId = g1.nextId := by
      split <;> rfl
    refine Post.ok hwf2 (by omega) ?_ (ValOK.absent _)
    rw [hn2]
    exact (hc1 insts rfl).widen (by omega) (Nat.le_refl _)

/-! ### Allocation discipline: arrays -/

theorem ir_array_def_dims_ok {visit : Visitor} (hv : VisitorOK visit) (sons : List ast_node) :
    ∀ g, StateWF g →
      StateWF (ir_array_def_dims visit sons g).2 ∧
        g.nextId ≤ (ir_array_def_dims visit sons g).2.nextId := by
  induction sons with
  | nil => intro g hwf; exact ⟨hwf, Nat.le_refl _⟩
  | cons son rest ih =>
    intro g hwf
    unfold ir_array_def_dims
    split
    · dsimp only
      split
      · exact ⟨hwf.setLastError _, Nat.le_refl _⟩
      · have h2 := ih g hwf
        split
        · rename_i g1 heq; rw [heq] at h2; exact h2
        · rename_i dims g1 heq; rw [heq] at h2; exact h2
    · have h1 := hv son g hwf
      split
      · rename_i g1 heq
        rw [heq] at h1
        exact ⟨h1.of_none.1.setLastError _, h1.of_none.2⟩
      · rename_i dimExpr g1 heq
        rw [heq] at h1
        obtain ⟨hwf1, hn1, hc1, hv1⟩ := h1.of_some
        split
        · split
          · exact ⟨hwf1.setLastError _, hn1⟩
          · have h2 := ih g1 hwf1
            split
            · rename_i g2 heq2; rw [heq2] at h2; exact ⟨h2.1, Nat.le_trans hn1 h2.2⟩
            · rename_i dims g2 heq2; rw [heq2] at h2; exact ⟨h2.1, Nat.le_trans hn1 h2.2⟩
        · exact ⟨hwf1.setLastError _, hn1⟩

theorem ir_array_def_ok {visit : Visitor} (hv : VisitorOK visit) :
    VisitorOK (ir_array_def visit) := by
  intro node g hwf
  unfold ir_array_def
  split
  · rename_i nameNode _ _ _
    have h1 := ir_array_def_dims_ok hv (arrayDefDimNodes node.sons) g hwf
    split
    · rename_i g1 heq
      rw [heq] at h1
      exact Post.fail h1.1 h1.2
    · rename_i dimensions g1 heq
      rw [heq] at h1
      obtain ⟨hwf1, hn1⟩ := h1
      simp only at hwf1 hn1
      split
      · exact Post.fail_error hwf1 hn1 _
      · split
        · exact Post.fail_error hwf1 hn1 _
        · split
          rename_i arrayVar g2 heq2
          obtain ⟨hwf2, hn2, ha2⟩ := newVarValue_eq heq2 hwf1
          exact Post.ok hwf2 (by omega) (CodeOK.nil _ _) (ValOK.present (ha2.mono (by omega)))
  · exact Post.fail_error hwf (Nat.le_refl _) _

/-- What the index loop guarantees: a well-formed state, a counter that did not
decrease, code and index values within the bounds of the loop. -/
theorem visitIndices_ok {visit : Visitor} (hv : VisitorOK visit) (sons : List ast_node) :
    ∀ g, StateWF g →
      StateWF (visitIndices visit sons g).2 ∧ g.nextId ≤ (visitIndices visit sons g).2.nextId ∧
      ∀ insts indices, (visitIndices visit sons g).1 = some (insts, indices) →
        CodeOK g.nextId (visitIndices visit sons g).2.nextId insts ∧
        ∀ v ∈ indices, v.allocatedBefore (visitIndices visit sons g).2.nextId := by
  induction sons with
  | nil =>
    intro g hwf
    refine ⟨hwf, Nat.le_refl _, fun insts indices h => ?_⟩
    simp [visitIndices] at h
    obtain ⟨rfl, rfl⟩ := h
    exact ⟨CodeOK.nil _ _, fun v hv => by simp at hv⟩
  | cons son rest ih =>
    intro g hwf
    unfold visitIndices
    have h1 := hv son g hwf
    split
    · rename_i g1 heq
      rw [heq] at h1
      exact ⟨h1.of_none.1.setLastError _, h1.of_none.2, fun _ _ h => by simp at h⟩
    · rename_i indexNode g1 heq
      rw [heq] at h1
      obtain ⟨hwf1, hn1, hc1, hv1⟩ := h1.of_some
      split
      · exact ⟨hwf1.setLastError _, hn1, fun _ _ h => by simp at h⟩
      · rename_i indexVal hiv
        have h2 := ih g1 hwf1
        split
        · rename_i g2 heq2
          rw [heq2] at h2
          exact ⟨h2.1, Nat.le_trans hn1 h2.2.1, fun _ _ h => by simp at h⟩
        · rename_i insts indices g2 heq2
          rw [heq2] at h2
          obtain ⟨hwf2, hn2, hr2⟩ := h2
          simp only at hwf2 hn2 hr2
          obtain ⟨hc2, hi2⟩ := hr2 insts indices rfl
          refine ⟨hwf2, Nat.le_trans hn1 hn2, fun is ix h => ?_⟩
          simp only [Option.some.injEq, Prod.mk.injEq] at h
          obtain ⟨rfl, rfl⟩ := h
          refine ⟨CodeOK.concat (hc1.widen (Nat.le_refl _) hn2) (hc2.widen hn1 (Nat.le_refl _)), ?_⟩
          intro v hv
          rcases List.mem_cons.mp hv with hv | hv
          · subst hv; exact (hv1.elim hiv).mono hn2
          · exact hi2 v hv

theorem CodeOK.of_plain {lo hi : Nat} {insts : List Instruction}
    (h : ∀ inst ∈ insts, inst.plain) : CodeOK lo hi insts := by
  intro inst hi'
  have := h inst hi'
  exact ⟨by simp [this.1], by simp [this.2]⟩

theorem regularOffsetLoop_ok (dimensions : List Int) (indices : List Value) :
    ∀ (i : Nat) (linearOffset : Value) (g : IRGenerator), StateWF g →
      linearOffset.allocatedBefore g.nextId →
      StateWF (regularOffsetLoop dimensions i indices linearOffset g).2.2 ∧
      g.nextId ≤ (regularOffsetLoop dimensions i indices linearOffset g).2.2.nextId ∧
      (∀ inst ∈ (regularOffsetLoop dimensions i indices linearOffset g).1, inst.plain) ∧
      (regularOffsetLoop dimensions i indices linearOffset g).2.1.allocatedBefore
        (regularOffsetLoop dimensions i indices linearOffset g).2.2.nextId := by
  induction indices with
  | nil =>
    intro i lo g hwf hlo
    exact ⟨hwf, Nat.le_refl _, fun inst h => by simp [regularOffsetLoop] at h, hlo⟩
  | cons index rest ih =>
    intro i lo g hwf hlo
    unfold regularOffsetLoop
    split
    · split
      rename_i addInst addVal g1 heq1
      obtain ⟨hwf1, hn1, hp1, ha1⟩ := newBinary_eq heq1 hwf
      have h2 := ih (i + 1) addVal g1 hwf1 (ha1.mono (by omega))
      split
      rename_i insts total g2 heq2
      rw [heq2] at h2
      obtain ⟨hwf2, hn2, hp2, ht2⟩ := h2
      simp only at hwf2 hn2 hp2 ht2
      refine ⟨hwf2, by show g.nextId ≤ g2.nextId; omega, ?_, ht2⟩
      intro inst hin
      rcases List.mem_cons.mp hin with h | h
      · subst h; exact hp1
      · exact hp2 inst h
    · split
      rename_i mulInst mulVal g1 heq1
      obtain ⟨hwf1, hn1, hp1, ha1⟩ := newBinary_eq heq1 hwf
      split
      rename_i addInst addVal g2 heq2
      obtain ⟨hwf2, hn2, hp2, ha2⟩ := newBinary_eq heq2 hwf1
      have h3 := ih (i + 1) addVal g2 hwf2 (ha2.mono (by omega))
      split
      rename_i insts total g3 heq3
      rw [heq3] at h3
      obtain ⟨hwf3, hn3, hp3, ht3⟩ := h3
      simp only at hwf3 hn3 hp3 ht3
      refine ⟨hwf3, by show g.nextId ≤ g3.nextId; omega, ?_, ht3⟩
      intro inst hin
      rcases List.mem_cons.mp hin with h | h
      · subst h; exact hp1
      · rcases List.mem_cons.mp h with h | h
        · subst h; exact hp2
        · exact hp3 inst h

theorem regularAccessTail_ok (arrayVar : Value) (dimensions : List Int) (indices : List Value)
    (g : IRGenerator) (hwf : StateWF g) :
    StateWF (regularAccessTail arrayVar dimensions indices g).2 ∧
      g.nextId ≤ (regularAccessTail arrayVar dimensions indices g).2.nextId ∧
      (∀ inst ∈ (regularAccessTail arrayVar dimensions indices g).1.blockInsts, inst.plain) ∧
      ValOK (regularAccessTail arrayVar dimensions indices g).2.nextId
        (regularAccessTail arrayVar dimensions indices g).1.val := by
  unfold regularAccessTail
  split
  · split
    rename_i mulResult g1 h1
    obtain ⟨hwf1, hn1, ha1⟩ := newVarValue_eq h1 hwf
    split
    rename_i addResult g2 h2
    obtain ⟨hwf2, hn2, ha2⟩ := newVarValue_eq h2 hwf1
    split
    rename_i offsetResult g3 h3
    obtain ⟨hwf3, hn3, ha3⟩ := newVarValue_eq h3 hwf2
    split
    rename_i ptrResult g4 h4
    obtain ⟨hwf4, hn4, ha4⟩ := newVarValue_eq h4 hwf3
    split
    rename_i elemValue g5 h5
    obtain ⟨hwf5, hn5, ha5⟩ := newVarValue_eq h5 hwf4
    split
    rename_i mulInst mulVal g6 h6
    obtain ⟨hwf6, hn6, hp6, ha6⟩ := newBinary_eq h6 hwf5
    split
    rename_i addInst addVal g7 h7
    obtain ⟨hwf7, hn7, hp7, ha7⟩ := newBinary_eq h7 hwf6
    split
    rename_i offsetInst offsetVal g8 h8
    obtain ⟨hwf8, hn8, hp8, ha8⟩ := newBinary_eq h8 hwf7
    split
    rename_i ptrInst ptrVal g9 h9
    obtain ⟨hwf9, hn9, hp9, ha9⟩ := newBinary_eq h9 hwf8
    refine ⟨hwf9, by show g.nextId ≤ g9.nextId; omega, ?_, ValOK.present (ha5.mono (by
      show g4.nextId + 1 ≤ g9.nextId; omega))⟩
    intro inst hin
    simp only [List.mem_cons, List.mem_singleton, List.not_mem_nil, or_false] at hin
    rcases hin with h | h | h | h | h | h | h | h | h <;> subst h <;>
      first | assumption | exact plain_move _ _ _ _
  · split
    rename_i loopInsts linearOffset g1 h1
    have hl := regularOffsetLoop_ok dimensions indices 0 (newConstInt 0) g hwf
      (allocatedBefore_newConstInt _ _)
    rw [h1] at hl
    obtain ⟨hwf1, hn1, hp1, ht1⟩ := hl
    simp only at hwf1 hn1 hp1 ht1
    split
    rename_i byteOffsetInst byteOffsetVal g2 h2
    obtain ⟨hwf2, hn2, hp2, ha2⟩ := newBinary_eq h2 hwf1
    split
    rename_i elemPtr g3 h3
    obtain ⟨hwf3, hn3, ha3⟩ := newVarValue_eq h3 hwf2
    split
    rename_i ptrInst ptrVal g4 h4
    obtain ⟨hwf4, hn4, hp4, ha4⟩ := newBinary_eq h4 hwf3
    split
    rename_i elemValue g5 h5
    obtain ⟨hwf5, hn5, ha5⟩ := newVarValue_eq h5 hwf4
    refine ⟨hwf5, by show g.nextId ≤ g5.nextId; omega, ?_, ValOK.present (ha5.mono (by
      show g4.nextId + 1 ≤ g5.nextId; omega))⟩
    intro inst hin
    simp only [List.mem_append, List.mem_cons, List.mem_singleton, List.not_mem_nil,
      or_false] at hin
    rcases hin with h | h | h | h | h
    · exact hp1 inst h
    all_goals subst h
    all_goals first | assumption | exact plain_move _ _ _ _

theorem handleRegularArrayAccess_ok {visit : Visitor} (hv : VisitorOK visit) (node : ast_node)
    (arrayVar : Value) (dimensions : List Int) (g : IRGenerator) (hwf : StateWF g) :
    Post g (handleRegularArrayAccess visit node arrayVar dimensions g) := by
  unfold handleRegularArrayAccess
  split
  · exact Post.fail_error hwf (Nat.le_refl _) _
  · have h1 := visitIndices_ok hv (node.sons.drop 1) g hwf
    split
    · rename_i g1 heq
      rw [heq] at h1
      exact Post.fail h1.1 h1.2.1
    · rename_i indexInsts indices g1 heq
      rw [heq] at h1
      obtain ⟨hwf1, hn1, hr1⟩ := h1
      simp only at hwf1 hn1 hr1
      obtain ⟨hc1, hi1⟩ := hr1 _ _ rfl
      have h2 := regularAccessTail_ok arrayVar dimensions indices g1 hwf1
      split
      rename_i tail g2 heq2
      rw [heq2] at h2
      obtain ⟨hwf2, hn2, hp2, hv2⟩ := h2
      simp only at hwf2 hn2 hp2 hv2
      exact Post.ok hwf2 (by omega) (CodeOK.concat (hc1.widen (Nat.le_refl _) hn2)
        (CodeOK.of_plain hp2)) hv2

theorem paramOffsetLoop_ok (dimensions : List Int) (indices : List Value) :
    ∀ (i : Nat) (linearOffset : Value) (g : IRGenerator), StateWF g →
      linearOffset.allocatedBefore g.nextId →
      StateWF (paramOffsetLoop dimensions i indices linearOffset g).2.2 ∧
      g.nextId ≤ (paramOffsetLoop dimensions i indices linearOffset g).2.2.nextId ∧
      (∀ inst ∈ (paramOffsetLoop dimensions i indices linearOffset g).1, inst.plain) ∧
      (paramOffsetLoop dimensions i indices linearOffset g).2.1.allocatedBefore
        (paramOffsetLoop dimensions i indices linearOffset g).2.2.nextId := by
  induction indices with
  | nil =>
    intro i lo g hwf hlo
    exact ⟨hwf, Nat.le_refl _, fun inst h => by simp [paramOffsetLoop] at h, hlo⟩
  | cons index rest ih =>
    intro i lo g hwf hlo
    unfold paramOffsetLoop
    split
    · split
      · split
        rename_i addInst addVal g1 heq1
        obtain ⟨hwf1, hn1, hp1, ha1⟩ := newBinary_eq heq1 hwf
        have h2 := ih (i + 1) addVal g1 hwf1 (ha1.mono (by omega))
        split
        rename_i insts total g2 heq2
        rw [heq2] at h2
        obtain ⟨hwf2, hn2, hp2, ht2⟩ := h2
        simp only at hwf2 hn2 hp2 ht2
        refine ⟨hwf2, by show g.nextId ≤ g2.nextId; omega, ?_, ht2⟩
        intro inst hin
        rcases List.mem_cons.mp hin with h | h
        · subst h; exact hp1
        · exact hp2 inst h
      · split
        rename_i mulInst mulVal g1 heq1
        obtain ⟨hwf1, hn1, hp1, ha1⟩ := newBinary_eq heq1 hwf
        split
        rename_i addInst addVal g2 heq2
        obtain ⟨hwf2, hn2, hp2, ha2⟩ := newBinary_eq heq2 hwf1
        have h3 := ih (i + 1) addVal g2 hwf2 (ha2.mono (by omega))
        split
        rename_i insts total g3 heq3
        rw [heq3] at h3
        obtain ⟨hwf3, hn3, hp3, ht3⟩ := h3
        simp only at hwf3 hn3 hp3 ht3
        refine ⟨hwf3, by show g.nextId ≤ g3.nextId; omega, ?_, ht3⟩
        intro inst hin
        rcases List.mem_cons.mp hin with h | h
        · subst h; exact hp1
        · rcases List.mem_cons.mp h with h | h
          · subst h; exact hp2
          · exact hp3 inst h
    · exact ⟨hwf, Nat.le_refl _, fun inst h => by simp at h, hlo⟩

theorem handleParameterArrayAccessWithDimensions_ok {visit : Visitor} (hv : VisitorOK visit)
    (node : ast_node) (arrayVar : Value) (dimensions : List Int) (g : IRGenerator)
    (hwf : StateWF g) :
    Post g (handleParameterArrayAccessWithDimensions visit node arrayVar dimensions g) := by
  unfold handleParameterArrayAccessWithDimensions
  have h1 := visitIndices_ok hv (node.sons.drop 1) g hwf
  split
  · rename_i g1 heq
    rw [heq] at h1
    exact Post.fail h1.1 h1.2.1
  · rename_i indexInsts indices g1 heq
    rw [heq] at h1
    obtain ⟨hwf1, hn1, hr1⟩ := h1
    simp only at hwf1 hn1 hr1
    obtain ⟨hc1, hi1⟩ := hr1 _ _ rfl
    have hl := paramOffsetLoop_ok dimensions indices 0 (newConstInt 0) g1 hwf1
      (allocatedBefore_newConstInt _ _)
    split
    rename_i loopInsts linearOffset g2 heq2
    rw [heq2] at hl
    obtain ⟨hwf2, hn2, hp2, ht2⟩ := hl
    simp only at hwf2 hn2 hp2 ht2
    split
    rename_i byteOffsetInst byteOffsetVal g3 h3
    obtain ⟨hwf3, hn3, hp3, ha3⟩ := newBinary_eq h3 hwf2
    split
    rename_i elemPtr g4 h4
    obtain ⟨hwf4, hn4, ha4⟩ := newVarValue_eq h4 hwf3
    split
    rename_i ptrInst ptrVal g5 h5
    obtain ⟨hwf5, hn5, hp5, ha5⟩ := newBinary_eq h5 hwf4
    split
    rename_i elemValue g6 h6
    obtain ⟨hwf6, hn6, ha6⟩ := newVarValue_eq h6 hwf5
    refine Post.ok hwf6 (by omega) ?_ (ValOK.present (ha6.mono (by omega)))
    refine CodeOK.concat (CodeOK.concat (hc1.widen (Nat.le_refl _) (by omega))
      (CodeOK.of_plain hp2)) ?_
    exact CodeOK.plain hp3 (CodeOK.plain hp5 (CodeOK.plain (plain_move _ _ _ _)
      (CodeOK.plain (plain_move _ _ _ _) (CodeOK.nil _ _))))

theorem handleSimplePointerParamAccess_ok {visit : Visitor} (hv : VisitorOK visit)
    (node : ast_node) (arrayVar : Value) (g : IRGenerator) (hwf : StateWF g) :
    Post g (handleSimplePointerParamAccess visit node arrayVar g) := by
  unfold handleSimplePointerParamAccess
  split
  · rename_i _ son1 _ _
    have h1 := hv son1 g hwf
    split
    · rename_i g1 heq
      rw [heq] at h1
      exact Post.fail_error h1.of_none.1 h1.of_none.2 _
    · rename_i indexNode g1 heq
      rw [heq] at h1
      obtain ⟨hwf1, hn1, hc1, hv1⟩ := h1.of_some
      split
      · exact Post.fail_error hwf1 hn1 _
      · split
        rename_i byteOffset g2 h2
        obtain ⟨hwf2, hn2, ha2⟩ := newVarValue_eq h2 hwf1
        split
        rename_i byteOffsetInst byteOffsetVal g3 h3
        obtain ⟨hwf3, hn3, hp3, ha3⟩ := newBinary_eq h3 hwf2
        split
        rename_i elemPtr g4 h4
        obtain ⟨hwf4, hn4, ha4⟩ := newVarValue_eq h4 hwf3
        split
        rename_i ptrInst ptrVal g5 h5
        obtain ⟨hwf5, hn5, hp5, ha5⟩ := newBinary_eq h5 hwf4
        split
        rename_i elemValue g6 h6
        obtain ⟨hwf6, hn6, ha6⟩ := newVarValue_eq h6 hwf5
        refine Post.ok hwf6 (by omega) ?_ (ValOK.present (ha6.mono (by omega)))
        refine CodeOK.concat (hc1.widen (Nat.le_refl _) (by omega)) ?_
        exact CodeOK.plain hp3 (CodeOK.plain (plain_move _ _ _ _) (CodeOK.plain hp5
          (CodeOK.plain (plain_move _ _ _ _) (CodeOK.plain (plain_move _ _ _ _)
            (CodeOK.nil _ _)))))
  · exact Post.fail hwf (Nat.le_refl _)

theorem ir_array_access_ok {visit : Visitor} (hv : VisitorOK visit) :
    VisitorOK (ir_array_access visit) := by
  intro node g hwf
  unfold ir_array_access
  split
  · split
    · exact Post.fail_error hwf (Nat.le_refl _) _
    · split
      · exact Post.fail_error hwf (Nat.le_refl _) _
      · split
        · split
          · split
            · exact handleParameterArrayAccessWithDimensions_ok hv _ _ _ _ hwf
            · exact handleSimplePointerParamAccess_ok hv _ _ _ hwf
          · exact handleSimplePointerParamAccess_ok hv _ _ _ hwf
        · split
          · exact handleRegularArrayAccess_ok hv _ _ _ _ hwf
          · exact Post.fail_error hwf (Nat.le_refl _) _
  · exact Post.fail_error hwf (Nat.le_refl _) _

/-! ### Allocation discipline: calls -/

theorem arrayAccessOffsetLoop_ok {visit : Visitor} (hv : VisitorOK visit)
    (dimensions : List Int) (sons : List ast_node) :
    ∀ (dimIdx : Nat) (totalOffset : Value) (g : IRGenerator), StateWF g →
      totalOffset.allocatedBefore g.nextId →
      StateWF (arrayAccessOffsetLoop visit dimensions dimIdx sons totalOffset g).2 ∧
      g.nextId ≤ (arrayAccessOffsetLoop visit dimensions dimIdx sons totalOffset g).2.nextId ∧
      ∀ insts total,
        (arrayAccessOffsetLoop visit dimensions dimIdx sons totalOffset g).1 =
          some (insts, total) →
        CodeOK g.nextId
          (arrayAccessOffsetLoop visit dimensions dimIdx sons totalOffset g).2.nextId insts ∧
        total.allocatedBefore
          (arrayAccessOffsetLoop visit dimensions dimIdx sons totalOffset g).2.nextId := by
  induction sons with
  | nil =>
    intro i t g hwf ht
    refine ⟨hwf, Nat.le_refl _, fun insts total h => ?_⟩
    simp [arrayAccessOffsetLoop] at h
    obtain ⟨rfl, rfl⟩ := h
    exact ⟨CodeOK.nil _ _, ht⟩
  | cons son rest ih =>
    intro i t g hwf ht
    unfold arrayAccessOffsetLoop
    have h1 := hv son g hwf
    split
    · rename_i g1 heq
      rw [heq] at h1
      exact ⟨h1.of_none.1, h1.of_none.2, fun _ _ h => by simp at h⟩
    · rename_i indexNode g1 heq
      rw [heq] at h1
      obtain ⟨hwf1, hn1, hc1, hv1⟩ := h1.of_some
      split
      · exact ⟨hwf1, hn1, fun _ _ h => by simp at h⟩
      · rename_i indexVal hiv
        split
        · split
          rename_i addInst addVal g2 h2
          obtain ⟨hwf2, hn2, hp2, ha2⟩ := newBinary_eq h2 hwf1
          have h3 := ih (i + 1) addVal g2 hwf2 (ha2.mono (by omega))
          split
          · rename_i g3 heq3
            rw [heq3] at h3
            exact ⟨h3.1, by have := h3.2.1; simp only at this; omega, fun _ _ h => by simp at h⟩
          · rename_i insts total g3 heq3
            rw [heq3] at h3
            obtain ⟨hwf3, hn3, hr3⟩ := h3
            simp only at hwf3 hn3 hr3
            obtain ⟨hc3, ht3⟩ := hr3 _ _ rfl
            refine ⟨hwf3, by show g.nextId ≤ g3.nextId; omega, fun is tt h => ?_⟩
            simp only [Option.some.injEq, Prod.mk.injEq] at h
            obtain ⟨rfl, rfl⟩ := h
            refine ⟨?_, ht3⟩
            show CodeOK g.nextId g3.nextId _
            exact CodeOK.concat (hc1.widen (Nat.le_refl _) (by omega))
              (CodeOK.plain hp2 (hc3.widen (by omega) (Nat.le_refl _)))
        · split
          rename_i mulInst mulVal g2 h2
          obtain ⟨hwf2, hn2, hp2, ha2⟩ := newBinary_eq h2 hwf1
          split
          rename_i addInst addVal g3 h3
          obtain ⟨hwf3, hn3, hp3, ha3⟩ := newBinary_eq h3 hwf2
          have h4 := ih (i + 1) addVal g3 hwf3 (ha3.mono (by omega))
          split
          · rename_i g4 heq4
            rw [heq4] at h4
            exact ⟨h4.1, by have := h4.2.1; simp only at this; omega, fun _ _ h => by simp at h⟩
          · rename_i insts total g4 heq4
            rw [heq4] at h4
            obtain ⟨hwf4, hn4, hr4⟩ := h4
            simp only at hwf4 hn4 hr4
            obtain ⟨hc4, ht4⟩ := hr4 _ _ rfl
            refine ⟨hwf4, by show g.nextId ≤ g4.nextId; omega, fun is tt h => ?_⟩
            simp only [Option.some.injEq, Prod.mk.injEq] at h
            obtain ⟨rfl, rfl⟩ := h
            refine ⟨?_, ht4⟩
            show CodeOK g.nextId g4.nextId _
            exact CodeOK.concat (hc1.widen (Nat.le_refl _) (by omega))
              (CodeOK.plain hp2 (CodeOK.plain hp3 (hc4.widen (by omega) (Nat.le_refl _))))

theorem calculateArrayAccessOffset_ok {visit : Visitor} (hv : VisitorOK visit)
    (arrayAccessNode : ast_node) (g : IRGenerator) (hwf : StateWF g) :
    StateWF (calculateArrayAccessOffset visit arrayAccessNode g).2 ∧
      g.nextId ≤ (calculateArrayAccessOffset visit arrayAccessNode g).2.nextId ∧
      ∀ insts total,
        (calculateArrayAccessOffset visit arrayAccessNode g).1 = some (insts, total) →
        CodeOK g.nextId (calculateArrayAccessOffset visit arrayAccessNode g).2.nextId insts ∧
        total.allocatedBefore (calculateArrayAccessOffset visit arrayAccessNode g).2.nextId := by
  unfold calculateArrayAccessOffset
  split
  · exact ⟨hwf, Nat.le_refl _, fun _ _ h => by simp at h⟩
  · split
    · exact ⟨hwf, Nat.le_refl _, fun _ _ h => by simp at h⟩
    · rename_i nameNode _ _
      split
      · exact ⟨hwf, Nat.le_refl _, fun _ _ h => by simp at h⟩
      · split
        · refine ⟨hwf, Nat.le_refl _, fun insts total h => ?_⟩
          simp only [Option.some.injEq, Prod.mk.injEq] at h
          obtain ⟨rfl, rfl⟩ := h
          exact ⟨CodeOK.nil _ _, allocatedBefore_newConstInt _ _⟩
        · rename_i son1 tl _
          split
          · rename_i dimensions _
            have h1 := arrayAccessOffsetLoop_ok hv dimensions (son1 :: tl) 1 (newConstInt 0) g hwf
              (allocatedBefore_newConstInt _ _)
            split
            · rename_i g1 heq
              rw [heq] at h1
              exact ⟨h1.1, h1.2.1, fun _ _ h => by simp at h⟩
            · rename_i insts totalOffset g1 heq
              rw [heq] at h1
              obtain ⟨hwf1, hn1, hr1⟩ := h1
              simp only at hwf1 hn1 hr1
              obtain ⟨hc1, ht1⟩ := hr1 _ _ rfl
              split
              rename_i byteOffsetInst byteOffsetVal g2 h2
              obtain ⟨hwf2, hn2, hp2, ha2⟩ := newBinary_eq h2 hwf1
              refine ⟨hwf2, by show g.nextId ≤ g2.nextId; omega, fun is tt h => ?_⟩
              simp only [Option.some.injEq, Prod.mk.injEq] at h
              obtain ⟨rfl, rfl⟩ := h
              refine ⟨?_, ha2.mono (by show g1.nextId + 1 ≤ g2.nextId; omega)⟩
              show CodeOK g.nextId g2.nextId _
              exact CodeOK.concat (hc1.widen (Nat.le_refl _) (by omega))
                (CodeOK.plain hp2 (CodeOK.nil _ _))
          · have h1 := hv son1 g hwf
            split
            · rename_i g1 heq
              rw [heq] at h1
              exact ⟨h1.of_none.1, h1.of_none.2, fun _ _ h => by simp at h⟩
            · rename_i indexNode g1 heq
              rw [heq] at h1
              obtain ⟨hwf1, hn1, hc1, hv1⟩ := h1.of_some
              split
              · exact ⟨hwf1, hn1, fun _ _ h => by simp at h⟩
              · split
                rename_i byteOffsetInst byteOffsetVal g2 h2
                obtain ⟨hwf2, hn2, hp2, ha2⟩ := newBinary_eq h2 hwf1
                refine ⟨hwf2, by show g.nextId ≤ g2.nextId; omega, fun is tt h => ?_⟩
                simp only [Option.some.injEq, Prod.mk.injEq] at h
                obtain ⟨rfl, rfl⟩ := h
                refine ⟨?_, ha2.mono (by show g1.nextId + 1 ≤ g2.nextId; omega)⟩
                show CodeOK g.nextId g2.nextId _
                exact CodeOK.concat (hc1.widen (Nat.le_refl _) (by omega))
                  (CodeOK.plain hp2 (CodeOK.nil _ _))

theorem ir_function_call_arg_ok {visit : Visitor} (hv : VisitorOK visit) (funcName : String)
    (shouldPassAsPointer : Bool) (son : ast_node) (g : IRGenerator) (hwf : StateWF g) :
    StateWF (ir_function_call_arg visit funcName shouldPassAsPointer son g).2 ∧
      g.nextId ≤ (ir_function_call_arg visit funcName shouldPassAsPointer son g).2.nextId ∧
      ∀ insts realParam,
        (ir_function_call_arg visit funcName shouldPassAsPointer son g).1 =
          some (insts, realParam) →
        CodeOK g.nextId
          (ir_function_call_arg visit funcName shouldPassAsPointer son g).2.nextId insts := by
  unfold ir_function_call_arg
  split
  · split
    · exact ⟨hwf, Nat.le_refl _, fun _ _ h => by simp at h⟩
    · split
      · exact ⟨hwf.setLastError _, Nat.le_refl _, fun _ _ h => by simp at h⟩
      · have h1 := calculateArrayAccessOffset_ok hv son g hwf
        split
        · rename_i g1 heq
          rw [heq] at h1
          exact ⟨h1.1, h1.2.1, fun _ _ h => by simp at h⟩
        · rename_i insts totalOffset g1 heq
          rw [heq] at h1
          obtain ⟨hwf1, hn1, hr1⟩ := h1
          simp only at hwf1 hn1 hr1
          obtain ⟨hc1, ht1⟩ := hr1 _ _ rfl
          split
          rename_i finalAddrInst finalAddrVal g2 h2
          obtain ⟨hwf2, hn2, hp2, ha2⟩ := newBinary_eq h2 hwf1
          refine ⟨hwf2, by show g.nextId ≤ g2.nextId; omega, fun is rp h => ?_⟩
          simp only [Option.some.injEq, Prod.mk.injEq] at h
          obtain ⟨rfl, rfl⟩ := h
          show CodeOK g.nextId g2.nextId _
          exact CodeOK.concat (hc1.widen (Nat.le_refl _) (by omega))
            (CodeOK.plain hp2 (CodeOK.nil _ _))
  · split
    · split
      · split
        rename_i ptrVar g1 h1
        obtain ⟨hwf1, hn1, ha1⟩ := newVarValue_eq h1 hwf
        split
        rename_i addInst addVal g2 h2
        obtain ⟨hwf2, hn2, hp2, ha2⟩ := newBinary_eq h2 hwf1
        refine ⟨hwf2, by show g.nextId ≤ g2.nextId; omega, fun is rp h => ?_⟩
        simp only [Option.some.injEq, Prod.mk.injEq] at h
        obtain ⟨rfl, rfl⟩ := h
        exact CodeOK.plain hp2 (CodeOK.plain (plain_move _ _ _ _) (CodeOK.nil _ _))
      · have h1 := hv son g hwf
        split
        · rename_i g1 heq
          rw [heq] at h1
          exact ⟨h1.of_none.1.setLastError _, h1.of_none.2, fun _ _ h => by simp at h⟩
        · rename_i temp g1 heq
          rw [heq] at h1
          obtain ⟨hwf1, hn1, hc1, hv1⟩ := h1.of_some
          refine ⟨hwf1, hn1, fun insts rp h => ?_⟩
          simp only [Option.some.injEq, Prod.mk.injEq] at h
          obtain ⟨rfl, rfl⟩ := h
          exact hc1
    · have h1 := hv son g hwf
      split
      · rename_i g1 heq
        rw [heq] at h1
        exact ⟨h1.of_none.1.setLastError _, h1.of_none.2, fun _ _ h => by simp at h⟩
      · rename_i temp g1 heq
        rw [heq] at h1
        obtain ⟨hwf1, hn1, hc1, hv1⟩ := h1.of_some
        refine ⟨hwf1, hn1, fun insts rp h => ?_⟩
        simp only [Option.some.injEq, Prod.mk.injEq] at h
        obtain ⟨rfl, rfl⟩ := h
        exact hc1

theorem ir_function_call_arg_step {visit : Visitor} (hv : VisitorOK visit)
    {funcName : String} {sp : Bool} {son : ast_node} {g g1 : IRGenerator}
    {r : Option (List Instruction × Option Value)} (hwf : StateWF g)
    (h : ir_function_call_arg visit funcName sp son g = (r, g1)) :
    StateWF g1 ∧ g.nextId ≤ g1.nextId ∧
      ∀ insts realParam, r = some (insts, realParam) → CodeOK g.nextId g1.nextId insts := by
  have := ir_function_call_arg_ok hv funcName sp son g hwf
  rw [h] at this
  exact this

theorem ir_function_call_args_ok {visit : Visitor} (hv : VisitorOK visit) (funcName : String)
    (formalParams : List Value) (sons : List ast_node) :
    ∀ (i : Nat) (g : IRGenerator), StateWF g →
      StateWF (ir_function_call_args visit funcName formalParams i sons g).2 ∧
      g.nextId ≤ (ir_function_call_args visit funcName formalParams i sons g).2.nextId ∧
      ∀ insts realParams,
        (ir_function_call_args visit funcName formalParams i sons g).1 =
          some (insts, realParams) →
        CodeOK g.nextId
          (ir_function_call_args visit funcName formalParams i sons g).2.nextId insts := by
  induction sons with
  | nil =>
    intro i g hwf
    refine ⟨hwf, Nat.le_refl _, fun insts rp h => ?_⟩
    simp [ir_function_call_args] at h
    obtain ⟨rfl, rfl⟩ := h
    exact CodeOK.nil _ _
  | cons son rest ih =>
    intro i g hwf
    unfold ir_function_call_args
    split
    · rename_i g1 heq
      have h1 := ir_function_call_arg_step hv hwf heq
      exact ⟨h1.1, h1.2.1, fun _ _ h => by simp at h⟩
    · rename_i insts realParam g1 heq
      obtain ⟨hwf1, hn1, hr1⟩ := ir_function_call_arg_step hv hwf heq
      have hc1 := hr1 _ _ rfl
      have h2 := ih (i + 1) g1 hwf1
      split
      · rename_i g2 heq2
        rw [heq2] at h2
        exact ⟨h2.1, by have := h2.2.1; simp only at this; omega, fun _ _ h => by simp at h⟩
      · rename_i restInsts realParams g2 heq2
        rw [heq2] at h2
        obtain ⟨hwf2, hn2, hr2⟩ := h2
        simp only at hwf2 hn2 hr2
        have hc2 := hr2 _ _ rfl
        refine ⟨hwf2, by show g.nextId ≤ g2.nextId; omega, fun is rp h => ?_⟩
        simp only [Option.some.injEq, Prod.mk.injEq] at h
        obtain ⟨rfl, rfl⟩ := h
        show CodeOK g.nextId g2.nextId _
        exact CodeOK.concat (hc1.widen (Nat.le_refl _) hn2) (hc2.widen hn1 (Nat.le_refl _))

theorem StateWF.noteCall {g : IRGenerator} (h : StateWF g) (argsCount : Nat) :
    StateWF (g.noteCall argsCount) := by
  unfold IRGenerator.noteCall
  apply StateWF.updateCurrent
  · apply h.updateCurrent
    intro f hf
    exact hf
  · intro f hf
    split
    · exact ⟨hf.1, hf.2.1, hf.2.2.1, hf.2.2.2.1, hf.2.2.2.2.1, hf.2.2.2.2.2⟩
    · exact hf

theorem ir_function_call_ok {visit : Visitor} (hv : VisitorOK visit) :
    VisitorOK (ir_function_call visit) := by
  intro node g hwf
  unfold ir_function_call
  split
  · rename_i nameNode paramsNode _ _
    split
    · exact Post.fail_error hwf (Nat.le_refl _) _
    · rename_i calledFunction _
      split
      · exact Post.fail hwf (Nat.le_refl _)
      · have h1 := ir_function_call_args_ok hv nameNode.name calledFunction.params
          paramsNode.sons 0 _ (hwf.noteCall paramsNode.sons.length)
        have hn0 : (g.noteCall paramsNode.sons.length).nextId = g.nextId := rfl
        split
        · rename_i g3 heq
          rw [heq] at h1
          exact Post.fail h1.1 (by have := h1.2.1; simp only at this; omega)
        · rename_i argInsts realParams g3 heq
          rw [heq] at h1
          obtain ⟨hwf3, hn3, hr3⟩ := h1
          simp only at hwf3 hn3 hr3
          have hc3 := hr3 _ _ rfl
          split
          · exact Post.fail_error hwf3 (by omega) _
          · refine Post.ok (hwf3.of_same rfl rfl rfl (Nat.le_succ _))
              (by show g.nextId ≤ g3.nextId + 1; omega) ?_ (ValOK.present ?_)
            · show CodeOK g.nextId (g3.nextId + 1) _
              exact CodeOK.concat (hc3.widen (by omega) (by omega))
                (CodeOK.plain ⟨rfl, rfl⟩ (CodeOK.nil _ _))
            · intro id hid
              simp [Value.allocId] at hid
              show id < g3.nextId + 1
              omega
  · exact Post.fail hwf (Nat.le_refl _)

/-! ### Allocation discipline: declarations -/

theorem CodeOK.single_plain {lo hi : Nat} {inst : Instruction} (h : inst.plain) :
    CodeOK lo hi [inst] :=
  CodeOK.plain h (CodeOK.nil _ _)

theorem ir_variable_declare_ok {visit : Visitor} (hv : VisitorOK visit) :
    VisitorOK (ir_variable_declare visit) := by
  intro node g hwf
  unfold ir_variable_declare
  split
  · rename_i typeNode son1 rest _
    split
    · have h1 := ir_array_def_ok hv son1 g hwf
      split
      · rename_i g1 heq
        rw [heq] at h1
        exact Post.fail h1.of_none.1 h1.of_none.2
      · rename_i r g1 heq
        rw [heq] at h1
        obtain ⟨hwf1, hn1, -, -⟩ := h1.of_some
        exact Post.ok hwf1 hn1 (CodeOK.nil _ _) (ValOK.absent _)
    · split
      rename_i var g1 heqv
      obtain ⟨hwf1, hn1, hvar⟩ := newVarValue_eq heqv hwf
      split
      · rename_i son2 _ _
        split
        · have h2 := hv son2 g1 hwf1
          split
          · rename_i g2 heq2
            rw [heq2] at h2
            exact Post.fail_error h2.of_none.1 (by have := h2.of_none.2; omega) _
          · rename_i init_expr g2 heq2
            rw [heq2] at h2
            obtain ⟨hwf2, hn2, hc2, hv2⟩ := h2.of_some
            split
            · split
              · exact Post.ok hwf2 (by omega) (CodeOK.single_plain (plain_move _ _ _ _))
                  (ValOK.present (hvar.mono (by omega)))
              · exact Post.fail_error hwf2 (by omega) _
            · exact Post.ok hwf2 (by omega)
                (CodeOK.concat (hc2.widen (by omega) (Nat.le_refl _))
                  (CodeOK.single_plain (plain_move _ _ _ _)))
                (ValOK.present (hvar.mono (by omega)))
        · split
          · exact Post.ok (hwf1.of_same rfl rfl rfl (Nat.le_refl _)) (by show g.nextId ≤ g1.nextId; omega)
              (CodeOK.nil _ _) (ValOK.present (by show var.allocatedBefore g1.nextId; exact hvar.mono (by omega)))
          · exact Post.ok hwf1 (by omega) (CodeOK.nil _ _)
              (ValOK.present (hvar.mono (by omega)))
      · split
        · split
          · exact Post.ok hwf1 (by omega) (CodeOK.single_plain (plain_move _ _ _ _))
              (ValOK.present (hvar.mono (by omega)))
          · exact Post.ok hwf1 (by omega) (CodeOK.nil _ _)
              (ValOK.present (hvar.mono (by omega)))
        · exact Post.ok hwf1 (by omega) (CodeOK.nil _ _)
            (ValOK.present (hvar.mono (by omega)))
  · exact Post.fail_error hwf (Nat.le_refl _) _

theorem ir_declare_statment_sons_ok {visit : Visitor} (hv : VisitorOK visit)
    (sons : List ast_node) :
    ∀ g, StateWF g →
      StateWF (ir_declare_statment_sons visit sons g).2 ∧
      g.nextId ≤ (ir_declare_statment_sons visit sons g).2.nextId ∧
      ∀ insts, (ir_declare_statment_sons visit sons g).1 = some insts →
        CodeOK g.nextId (ir_declare_statment_sons visit sons g).2.nextId insts := by
  induction sons with
  | nil =>
    intro g hwf
    refine ⟨hwf, Nat.le_refl _, fun insts h => ?_⟩
    simp [ir_declare_statment_sons] at h
    subst h
    exact CodeOK.nil _ _
  | cons son rest ih =>
    intro g hwf
    unfold ir_declare_statment_sons
    have h1 := ir_variable_declare_ok hv son g hwf
    split
    · rename_i g1 heq
      rw [heq] at h1
      exact ⟨h1.of_none.1, h1.of_none.2, fun insts h => by simp at h⟩
    · rename_i temp g1 heq
      rw [heq] at h1
      obtain ⟨hwf1, hn1, hc1, hv1⟩ := h1.of_some
      have h2 := ih g1 hwf1
      split
      · rename_i g2 heq2
        rw [heq2] at h2
        exact ⟨h2.1, Nat.le_trans hn1 h2.2.1, fun insts h => by simp at h⟩
      · rename_i insts g2 heq2
        rw [heq2] at h2
        obtain ⟨hwf2, hn2, hc2⟩ := h2
        simp only at hwf2 hn2 hc2
        refine ⟨hwf2, Nat.le_trans hn1 hn2, fun is h => ?_⟩
        simp only [Option.some.injEq] at h
        subst h
        exact CodeOK.concat (hc1.widen (Nat.le_refl _) hn2)
          ((hc2 insts rfl).widen hn1 (Nat.le_refl _))

theorem ir_declare_statment_ok {visit : Visitor} (hv : VisitorOK visit) :
    VisitorOK (ir_declare_statment visit) := by
  intro node g hwf
  unfold ir_declare_statment
  split
  · exact Post.fail hwf (Nat.le_refl _)
  · have h1 := ir_declare_statment_sons_ok hv node.sons g hwf
    split
    · rename_i g1 heq
      rw [heq] at h1
      exact Post.fail h1.1 h1.2.1
    · rename_i insts g1 heq
      rw [heq] at h1
      obtain ⟨hwf1, hn1, hc1⟩ := h1
      exact Post.ok hwf1 hn1 (hc1 insts rfl) (ValOK.absent _)

/-! ### Allocation discipline: formal parameters -/

theorem FunctionWF.same {b : Nat} {f f' : Function} (h : FunctionWF b f)
    (hp : f'.params = f.params) (hb : f'.breakLabel = f.breakLabel)
    (hc : f'.continueLabel = f.continueLabel) (he : f'.exitLabel = f.exitLabel)
    (hx : f'.extraData = f.extraData) : FunctionWF b f' := by
  obtain ⟨h1, h2, h3, h4, h5, h6⟩ := h
  refine ⟨?_, ?_, ?_, ?_, ?_, ?_⟩
  · rw [hp]; exact h1
  · rw [hb]; exact h2
  · rw [hc]; exact h3
  · rw [he]; exact h4
  · rw [hx]; exact h5
  · rw [hx]; exact h6

theorem StateWF.addInst {g : IRGenerator} (h : StateWF g) (insts : List Instruction) :
    StateWF (g.addInst insts) :=
  h.updateCurrent _ (fun _ hf => hf.same rfl rfl rfl rfl rfl)

theorem StateWF.setCurrentFunction_some {g : IRGenerator} (h : StateWF g) {f : Function}
    (hf : FunctionWF g.nextId f) : StateWF (g.setCurrentFunction (some f)) := by
  obtain ⟨h1, h2, h3⟩ := h
  refine ⟨h1, ?_, h3⟩
  intro f' hf'
  simp only [IRGenerator.setCurrentFunction, Option.some.injEq] at hf'
  subst hf'
  exact hf

theorem StateWF.setCurrentFunction_none {g : IRGenerator} (h : StateWF g) :
    StateWF (g.setCurrentFunction none) := by
  obtain ⟨h1, h2, h3⟩ := h
  unfold IRGenerator.setCurrentFunction
  split
  · rename_i heq; simp at heq
  · split
    · exact ⟨h1, h2, h3⟩
    · rename_i cur hcur
      refine ⟨h1, ?_, ?_⟩
      · intro f hf; simp at hf
      · intro f hf
        simp only [List.mem_map] at hf
        obtain ⟨x, hx, rfl⟩ := hf
        split
        · exact h2 cur hcur
        · exact h3 x hx

theorem findFunction_wf {g : IRGenerator} (h : StateWF g) {name : String} {f : Function}
    (hf : g.findFunction name = some f) : FunctionWF g.nextId f :=
  h.2.2 f (List.mem_of_find?_eq_some hf)

theorem newFunction_ok {g : IRGenerator} (h : StateWF g) (name : String) (type : IRType)
    (params : List Value) (hp : ∀ p ∈ params, p.allocatedBefore g.nextId) :
    StateWF (g.newFunction name type params).2 ∧
      (g.newFunction name type params).2.nextId = g.nextId ∧
      ∀ f, (g.newFunction name type params).1 = some f → FunctionWF g.nextId f := by
  have hnew : FunctionWF g.nextId { name := name, returnType := type, params := params } :=
    ⟨hp, by simp, by simp, by simp, by simp, by simp⟩
  unfold IRGenerator.newFunction
  split
  · exact ⟨h, rfl, fun f hf => by simp at hf⟩
  · refine ⟨⟨h.1, h.2.1, ?_⟩, rfl, fun f hf => ?_⟩
    · intro f hf
      rcases List.mem_append.mp hf with hf | hf
      · exact h.2.2 f hf
      · simp only [List.mem_singleton] at hf
        subst hf
        exact hnew
    · simp only [Option.some.injEq] at hf
      subst hf
      exact hnew

theorem ir_function_formal_params_loop_ok (sons : List ast_node) (params : List Value) :
    ∀ (i : Nat) (g : IRGenerator), StateWF g → (∀ p ∈ params, p.allocatedBefore g.nextId) →
      StateWF (ir_function_formal_params_loop sons i params g).2 ∧
      g.nextId ≤ (ir_function_formal_params_loop sons i params g).2.nextId := by
  induction params with
  | nil =>
    intro i g hwf _
    exact ⟨hwf, Nat.le_refl _⟩
  | cons param rest ih =>
    intro i g hwf hp
    have hparam := hp param (List.mem_cons_self _ _)
    have hrest : ∀ p ∈ rest, p.allocatedBefore g.nextId :=
      fun p hp' => hp p (List.mem_cons_of_mem _ hp')
    unfold ir_function_formal_params_loop
    split
    · simp only [IRGenerator.newVarValueWithValue]
      exact ih (i + 1) _ ⟨hwf.1.bind hparam, hwf.2.1, hwf.2.2⟩ hrest
    · split
      rename_i localParam g1 heqv
      obtain ⟨hwf1, hn1, hvar⟩ := newVarValue_eq heqv hwf
      have := ih (i + 1) (g1.addInst [.Move (some localParam) (some param) false false])
        (hwf1.addInst _) (fun p hp' => (hrest p hp').mono (by show g.nextId ≤ g1.nextId; omega))
      refine ⟨this.1, ?_⟩
      have h2 := this.2
      have e : (g1.addInst [.Move (some localParam) (some param) false false]).nextId =
        g1.nextId := rfl
      omega

theorem ir_function_formal_params_ok (node : ast_node) (g : IRGenerator) (hwf : StateWF g) :
    Post g (ir_function_formal_params node g) := by
  unfold ir_function_formal_params
  split
  · exact Post.fail_error hwf (Nat.le_refl _) _
  · rename_i currentFunc hcur
    have h1 := ir_function_formal_params_loop_ok node.sons currentFunc.params 0 g hwf
      (hwf.2.1 currentFunc hcur).1
    split
    · rename_i g1 heq
      rw [heq] at h1
      exact Post.fail h1.1 h1.2
    · rename_i u g1 heq
      rw [heq] at h1
      exact Post.ok h1.1 h1.2 (CodeOK.nil _ _) (ValOK.absent _)

theorem paramsFromAst_ok (sons : List ast_node) :
    ∀ g, StateWF g →
      StateWF (paramsFromAst sons g).2 ∧ g.nextId ≤ (paramsFromAst sons g).2.nextId ∧
      ∀ params, (paramsFromAst sons g).1 = some params →
        ∀ p ∈ params, p.allocatedBefore (paramsFromAst sons g).2.nextId := by
  induction sons with
  | nil =>
    intro g hwf
    refine ⟨hwf, Nat.le_refl _, fun params h p hp => ?_⟩
    simp [paramsFromAst] at h
    subst h
    simp at hp
  | cons son rest ih =>
    intro g hwf
    unfold paramsFromAst
    split
    · rename_i typeSon nameSon _ _
      simp only [IRGenerator.newFormalParam]
      have hwf1 : StateWF ({ g with nextId := g.nextId + 1 } : IRGenerator) :=
        hwf.of_same rfl rfl rfl (Nat.le_succ _)
      have h2 := ih _ hwf1
      split
      · rename_i g2 heq2
        rw [heq2] at h2
        exact ⟨h2.1, by have h : g.nextId + 1 ≤ g2.nextId := h2.2.1; show g.nextId ≤ g2.nextId; omega,
          fun _ h => by simp at h⟩
      · rename_i params g2 heq2
        rw [heq2] at h2
        obtain ⟨hwf2, hn2, hp2⟩ := h2
        have hn2' : g.nextId + 1 ≤ g2.nextId := hn2
        refine ⟨hwf2, by show g.nextId ≤ g2.nextId; omega, fun ps h p hp => ?_⟩
        simp only [Option.some.injEq] at h
        subst h
        rcases List.mem_cons.mp hp with hp | hp
        · subst hp
          intro id hid
          simp only [Value.allocId, Option.some.injEq] at hid
          show id < g2.nextId
          omega
        · exact hp2 params rfl p hp
    · exact ⟨hwf.setLastError _, Nat.le_refl _, fun _ h => by simp at h⟩

/-! ### Allocation discipline: function definitions -/

theorem defineEntry_wf {g : IRGenerator} (hwf : StateWF g) {newFunc : Function}
    (hf : FunctionWF g.nextId newFunc) (name : String) :
    StateWF (defineEntry g newFunc name) ∧
      (defineEntry g newFunc name).nextId = g.nextId + 1 := by
  have hwf2 := ((hwf.setCurrentFunction_some hf).enterScope).addInst [Instruction.Entry]
  have key : ∀ g3 : IRGenerator, StateWF g3 → g3.nextId = g.nextId →
      StateWF (({ g3 with nextId := g3.nextId + 1 } : IRGenerator).updateCurrent
        (fun f => { f with exitLabel := some g3.nextId })) ∧
      (({ g3 with nextId := g3.nextId + 1 } : IRGenerator).updateCurrent
        (fun f => { f with exitLabel := some g3.nextId })).nextId = g.nextId + 1 := by
    intro g3 h3 hn3
    refine ⟨?_, by show g3.nextId + 1 = g.nextId + 1; omega⟩
    have hx : StateWF ({ g3 with nextId := g3.nextId + 1 } : IRGenerator) :=
      h3.of_same rfl rfl rfl (Nat.le_succ _)
    refine StateWF.updateCurrent hx _ ?_
    intro f hf'
    obtain ⟨h1, h2, h3', h4, h5, h6⟩ := hf'
    refine ⟨h1, h2, h3', ?_, h5, h6⟩
    intro l hl
    simp only [Option.some.injEq] at hl
    subst hl
    exact Nat.lt_succ_self _
  unfold defineEntry
  dsimp only
  apply key
  · split
    · exact hwf2.addInst _
    · exact hwf2
  · split <;> rfl

theorem bodyEntry_wf {g : IRGenerator} (hwf : StateWF g) (type : IRType) :
    StateWF (bodyEntry type g) ∧ g.nextId ≤ (bodyEntry type g).nextId := by
  unfold bodyEntry
  have hv := newVarValue_ok hwf type ""
  split
  · exact ⟨hwf.updateCurrent _ (fun _ hf => hf.same rfl rfl rfl rfl rfl), Nat.le_refl _⟩
  · refine ⟨hv.1.updateCurrent _ (fun _ hf => hf.same rfl rfl rfl rfl rfl), ?_⟩
    show g.nextId ≤ (g.newVarValue type "").2.nextId
    omega

theorem define_tail_ok {visit : Visitor} (hv : VisitorOK visit)
    (param_node block_node : ast_node) (type : IRType) (name : String) (label : Nat)
    (g : IRGenerator) (newFunc : Function)
    (hwf : StateWF g) (hf : FunctionWF g.nextId newFunc) :
    Post g
      (match ir_function_formal_params param_node (defineEntry g newFunc name) with
       | (none, g6) => (none, g6.setLastError .formalParamsFailed)
       | (some _, g6) =>
         match ir_block visit (block_node.setNeedScope false) (bodyEntry type g6) with
         | (none, g9) => (none, g9)
         | (some block, g9) =>
           (some {},
             (((g9.addInst block.blockInsts).addInst
                 [.Label label, .Exit (returnSlot type g6)]).setCurrentFunction
               none).leaveScope)) := by
  obtain ⟨hwfE, hnE⟩ := defineEntry_wf hwf hf name
  have h1 := ir_function_formal_params_ok param_node _ hwfE
  split
  · rename_i g6 heq
    rw [heq] at h1
    exact Post.fail_error h1.of_none.1 (by have := h1.of_none.2; omega) _
  · rename_i u g6 heq
    rw [heq] at h1
    obtain ⟨hwf6, hn6, -, -⟩ := h1.of_some
    obtain ⟨hwfB, hnB⟩ := bodyEntry_wf hwf6 type
    have h2 := ir_block_ok hv (block_node.setNeedScope false) _ hwfB
    split
    · rename_i g9 heq9
      rw [heq9] at h2
      exact Post.fail h2.of_none.1 (by have := h2.of_none.2; omega)
    · rename_i block g9 heq9
      rw [heq9] at h2
      obtain ⟨hwf9, hn9, -, -⟩ := h2.of_some
      refine Post.ok (((hwf9.addInst _).addInst _).setCurrentFunction_none).leaveScope ?_
        (CodeOK.nil _ _) (ValOK.absent _)
      have e : ((((g9.addInst block.blockInsts).addInst
          [.Label label, .Exit (returnSlot type g6)]).setCurrentFunction none).leaveScope).nextId =
          g9.nextId := by
        simp only [IRGenerator.leaveScope, IRGenerator.setCurrentFunction, IRGenerator.addInst,
          IRGenerator.updateCurrent]
        repeat' split
        all_goals rfl
      omega

/-! ### Allocation discipline: the compile unit and the dispatcher -/

theorem Post.weaken {g0 g : IRGenerator} {out : Lowered} (h : Post g out)
    (hn : g0.nextId ≤ g.nextId) : Post g0 out :=
  ⟨h.1, Nat.le_trans hn h.2.1, fun res hres =>
    ⟨(h.2.2 res hres).1.widen hn (Nat.le_refl _), (h.2.2 res hres).2⟩⟩

/-- The function `ir_function_define` for a function that is not registered yet: the
record is created from the formal parameters of the AST and the definition is lowered
from the entry state of that record. -/
theorem ir_function_define_created (visit : Visitor)
    (node type_node name_node param_node block_node : ast_node) (rest : List ast_node)
    (g g1 g2 : IRGenerator) (params : List Value) (newFunc : Function)
    (hsons : node.sons = type_node :: name_node :: param_node :: block_node :: rest)
    (hcur : g.currentFunc = none)
    (hfind : g.findFunction name_node.name = none)
    (hparams : paramsFromAst param_node.sons g = (some params, g1))
    (hnew : g1.newFunction name_node.name type_node.type params = (some newFunc, g2)) :
    ir_function_define visit node g =
      match ir_function_formal_params param_node (defineEntry g2 newFunc name_node.name) with
      | (none, g6) => (none, g6.setLastError .formalParamsFailed)
      | (some _, g6) =>
        match ir_block visit (block_node.setNeedScope false) (bodyEntry type_node.type g6) with
        | (none, g9) => (none, g9)
        | (some block, g9) =>
          (some {},
            (((g9.addInst block.blockInsts).addInst
                [.Label g2.nextId, .Exit (returnSlot type_node.type g6)]).setCurrentFunction
              none).leaveScope) := by
  simp only [ir_function_define, hsons, IRGenerator.getCurrentFunction, hcur, hfind, hparams,
    hnew]
  by_cases hmain : name_node.name = "main" ∧ ¬ g2.globalVarInitValues.isEmpty
  · by_cases hvoid : type_node.type.isVoidType = true
    · simp [defineEntry, bodyEntry, returnSlot, IRGenerator.newVarValue, hmain, hvoid,
        IRGenerator.newLabel, IRGenerator.setCurrentFunction, IRGenerator.enterScope,
        IRGenerator.addInst, IRGenerator.updateCurrent]
    · simp [defineEntry, bodyEntry, returnSlot, IRGenerator.newVarValue, hmain, hvoid,
        IRGenerator.newLabel, IRGenerator.setCurrentFunction, IRGenerator.enterScope,
        IRGenerator.addInst, IRGenerator.updateCurrent]
  · have hmain' : ¬ (name_node.name = "main" ∧ ¬ g2.globalVarInitValues = []) := by
      simpa using hmain
    by_cases hvoid : type_node.type.isVoidType = true
    · simp [defineEntry, bodyEntry, returnSlot, IRGenerator.newVarValue, hmain', hvoid,
        IRGenerator.newLabel, IRGenerator.setCurrentFunction, IRGenerator.enterScope,
        IRGenerator.addInst, IRGenerator.updateCurrent]
    · simp [defineEntry, bodyEntry, returnSlot, IRGenerator.newVarValue, hmain', hvoid,
        IRGenerator.newLabel, IRGenerator.setCurrentFunction, IRGenerator.enterScope,
        IRGenerator.addInst, IRGenerator.updateCurrent]

theorem ir_function_define_ok {visit : Visitor} (hv : VisitorOK visit) :
    VisitorOK (ir_function_define visit) := by
  intro node g hwf
  cases hsons : node.sons with
  | nil => simp only [ir_function_define, hsons]; exact Post.fail hwf (Nat.le_refl _)
  | cons type_node l1 =>
  cases l1 with
  | nil => simp only [ir_function_define, hsons]; exact Post.fail hwf (Nat.le_refl _)
  | cons name_node l2 =>
  cases l2 with
  | nil => simp only [ir_function_define, hsons]; exact Post.fail hwf (Nat.le_refl _)
  | cons param_node l3 =>
  cases l3 with
  | nil => simp only [ir_function_define, hsons]; exact Post.fail hwf (Nat.le_refl _)
  | cons block_node rest =>
  cases hcur : g.currentFunc with
  | some f =>
    simp only [ir_function_define, hsons, IRGenerator.getCurrentFunction, hcur]
    exact Post.fail_error hwf (Nat.le_refl _) _
  | none =>
    cases hfind : g.findFunction name_node.name with
    | some newFunc =>
      rw [ir_function_define_registered visit node _ _ _ _ _ g newFunc hsons hcur hfind]
      exact define_tail_ok hv param_node block_node type_node.type name_node.name g.nextId g
        newFunc hwf (findFunction_wf hwf hfind)
    | none =>
      have hp := paramsFromAst_ok param_node.sons g hwf
      cases hparams : paramsFromAst param_node.sons g with
      | mk ps g1 =>
      rw [hparams] at hp
      have hn1 : g.nextId ≤ g1.nextId := hp.2.1
      cases ps with
      | none =>
        simp only [ir_function_define, hsons, IRGenerator.getCurrentFunction, hcur, hfind,
          hparams]
        exact Post.fail hp.1 hn1
      | some params =>
        have hn := newFunction_ok hp.1 name_node.name type_node.type params (hp.2.2 params rfl)
        cases hnew : g1.newFunction name_node.name type_node.type params with
        | mk fo g2 =>
        rw [hnew] at hn
        have hn2 : g2.nextId = g1.nextId := hn.2.1
        cases fo with
        | none =>
          simp only [ir_function_define, hsons, IRGenerator.getCurrentFunction, hcur, hfind,
            hparams, hnew]
          exact Post.fail_error hn.1 (by omega) _
        | some newFunc =>
          rw [ir_function_define_created visit node _ _ _ _ _ g g1 g2 params newFunc hsons hcur
            hfind hparams hnew]
          have hfw : FunctionWF g2.nextId newFunc := by
            rw [hn2]
            exact hn.2.2 newFunc rfl
          exact (define_tail_ok hv param_node block_node type_node.type name_node.name g2.nextId
            g2 newFunc hn.1 hfw).weaken (by omega)

theorem collectParams_ok (funcName : String) (sons : List ast_node) :
    ∀ (i : Nat) (g : IRGenerator), StateWF g →
      StateWF (collectParams funcName i sons g).2 ∧
      g.nextId ≤ (collectParams funcName i sons g).2.nextId ∧
      ∀ p ∈ (collectParams funcName i sons g).1,
        p.allocatedBefore (collectParams funcName i sons g).2.nextId := by
  induction sons with
  | nil =>
    intro i g hwf
    exact ⟨hwf, Nat.le_refl _, fun p hp => by simp [collectParams] at hp⟩
  | cons son rest ih =>
    intro i g hwf
    unfold collectParams
    split
    · rename_i typeSon nameSon _ _
      simp only [IRGenerator.newFormalParam]
      have key : ∀ (g1 : IRGenerator) (t : IRType), StateWF g1 → g1.nextId = g.nextId →
          StateWF (collectParams funcName (i + 1) rest
              { g1 with nextId := g1.nextId + 1 }).2 ∧
            g.nextId ≤ (collectParams funcName (i + 1) rest
              { g1 with nextId := g1.nextId + 1 }).2.nextId ∧
            ∀ p ∈ Value.FormalParam g1.nextId t nameSon.name ::
                (collectParams funcName (i + 1) rest { g1 with nextId := g1.nextId + 1 }).1,
              p.allocatedBefore (collectParams funcName (i + 1) rest
                { g1 with nextId := g1.nextId + 1 }).2.nextId := by
        intro g1 t hwf1 hn1
        have hwf2 : StateWF ({ g1 with nextId := g1.nextId + 1 } : IRGenerator) :=
          hwf1.of_same rfl rfl rfl (Nat.le_succ _)
        obtain ⟨h1, h2, h3⟩ := ih (i + 1) _ hwf2
        have h2' : g1.nextId + 1 ≤ (collectParams funcName (i + 1) rest
            { g1 with nextId := g1.nextId + 1 }).2.nextId := h2
        refine ⟨h1, by omega, fun p hp => ?_⟩
        rcases List.mem_cons.mp hp with hp | hp
        · subst hp
          intro id hid
          simp only [Value.allocId, Option.some.injEq] at hid
          omega
        · exact h3 p hp
      split
      · exact key _ _ (hwf.of_same rfl rfl rfl (Nat.le_refl _)) rfl
      · exact key _ _ hwf rfl
    · exact ih (i + 1) g hwf

theorem registerPrototype_ok (son : ast_node) (g : IRGenerator) (hwf : StateWF g) :
    StateWF (registerPrototype son g) ∧ g.nextId ≤ (registerPrototype son g).nextId := by
  unfold registerPrototype
  split
  · rename_i type_node name_node param_node _ _
    have key : ∀ c : List Value × IRGenerator, StateWF c.2 → g.nextId ≤ c.2.nextId →
        (∀ p ∈ c.1, p.allocatedBefore c.2.nextId) →
        StateWF (c.2.newFunction name_node.name type_node.type c.1).2 ∧
          g.nextId ≤ (c.2.newFunction name_node.name type_node.type c.1).2.nextId := by
      intro c h1 h2 h3
      have hn := newFunction_ok h1 name_node.name type_node.type c.1 h3
      exact ⟨hn.1, by rw [hn.2.1]; exact h2⟩
    dsimp only
    split
    · obtain ⟨h1, h2, h3⟩ := collectParams_ok name_node.name param_node.sons 0 g hwf
      exact key _ h1 h2 h3
    · have hwf1 : StateWF ({ g with nextId := g.nextId + 1 } : IRGenerator) :=
        hwf.of_same rfl rfl rfl (Nat.le_succ _)
      have hwf2 : StateWF ({ g with nextId := g.nextId + 1 + 1 } : IRGenerator) :=
        hwf.of_same rfl rfl rfl (Nat.le_add_right _ 2)
      split
      · refine key (_, _) hwf1 (Nat.le_succ _) (fun p hp => ?_)
        simp only [IRGenerator.newFormalParam, List.mem_singleton] at hp
        subst hp
        intro id hid
        simp only [Value.allocId, Option.some.injEq] at hid
        subst hid
        exact Nat.lt_succ_self _
      · split
        · refine key (_, _) hwf2 (Nat.le_add_right _ 2) (fun p hp => ?_)
          simp only [IRGenerator.newFormalParam, List.mem_cons, List.mem_singleton,
            List.not_mem_nil, or_false] at hp
          intro id hid
          show id < g.nextId + 1 + 1
          rcases hp with hp | hp <;> subst hp <;>
            simp only [Value.allocId, Option.some.injEq] at hid <;> omega
        · exact key (_, _) hwf (Nat.le_refl _) (fun p hp => by simp at hp)
  · exact ⟨hwf, Nat.le_refl _⟩

theorem compileUnitPrototypes_ok (sons : List ast_node) :
    ∀ g, StateWF g →
      StateWF (compileUnitPrototypes sons g) ∧ g.nextId ≤ (compileUnitPrototypes sons g).nextId := by
  induction sons with
  | nil => intro g hwf; exact ⟨hwf, Nat.le_refl _⟩
  | cons son rest ih =>
    intro g hwf
    unfold compileUnitPrototypes
    split
    · obtain ⟨h1, h2⟩ := registerPrototype_ok son g hwf
      obtain ⟨h3, h4⟩ := ih _ h1
      exact ⟨h3, Nat.le_trans h2 h4⟩
    · exact ih g hwf

theorem compileUnitGlobals_ok {visit : Visitor} (hv : VisitorOK visit) (sons : List ast_node) :
    ∀ g, StateWF g →
      StateWF (compileUnitGlobals visit sons g).2 ∧
        g.nextId ≤ (compileUnitGlobals visit sons g).2.nextId := by
  induction sons with
  | nil => intro g hwf; exact ⟨hwf, Nat.le_refl _⟩
  | cons son rest ih =>
    intro g hwf
    unfold compileUnitGlobals
    split
    · have h1 := hv son g hwf
      split
      · rename_i g1 heq
        rw [heq] at h1
        exact ⟨h1.of_none.1.setLastError _, h1.of_none.2⟩
      · rename_i r g1 heq
        rw [heq] at h1
        obtain ⟨h3, h4⟩ := ih _ h1.of_some.1
        exact ⟨h3, Nat.le_trans h1.of_some.2.1 h4⟩
    · exact ih g hwf

theorem compileUnitFunctions_ok {visit : Visitor} (hv : VisitorOK visit) (sons : List ast_node) :
    ∀ g, StateWF g →
      StateWF (compileUnitFunctions visit sons g).2 ∧
        g.nextId ≤ (compileUnitFunctions visit sons g).2.nextId := by
  induction sons with
  | nil => intro g hwf; exact ⟨hwf, Nat.le_refl _⟩
  | cons son rest ih =>
    intro g hwf
    unfold compileUnitFunctions
    split
    · have h1 := hv son g hwf
      split
      · rename_i g1 heq
        rw [heq] at h1
        exact ⟨h1.of_none.1, h1.of_none.2⟩
      · rename_i r g1 heq
        rw [heq] at h1
        obtain ⟨h3, h4⟩ := ih _ h1.of_some.1
        exact ⟨h3, Nat.le_trans h1.of_some.2.1 h4⟩
    · exact ih g hwf

theorem setCurrentFunction_none_nextId (g : IRGenerator) :
    (g.setCurrentFunction none).nextId = g.nextId := by
  unfold IRGenerator.setCurrentFunction
  dsimp only
  split <;> rfl

theorem ir_compile_unit_ok {visit : Visitor} (hv : VisitorOK visit) :
    VisitorOK (ir_compile_unit visit) := by
  intro node g hwf
  unfold ir_compile_unit
  have h0 := hwf.setCurrentFunction_none
  have hn0 := setCurrentFunction_none_nextId g
  obtain ⟨h1, h2⟩ := compileUnitGlobals_ok hv node.sons _ h0
  split
  · rename_i g1 heq
    rw [heq] at h1 h2
    exact Post.fail h1 (by simp only at h2; omega)
  · rename_i g1 heq
    rw [heq] at h1 h2
    obtain ⟨h3, h4⟩ := compileUnitPrototypes_ok node.sons g1 h1
    obtain ⟨h5, h6⟩ := compileUnitFunctions_ok hv node.sons _ h3
    split
    · rename_i g2 heq2
      rw [heq2] at h5 h6
      exact Post.fail h5 (by simp only at h2 h6; omega)
    · rename_i g2 heq2
      rw [heq2] at h5 h6
      exact Post.ok h5 (by simp only at h2 h6; omega) (CodeOK.nil _ _) (ValOK.absent _)

theorem dispatch_ok {visit : Visitor} (hv : VisitorOK visit) : VisitorOK (dispatch visit) := by
  intro node g hwf
  unfold dispatch
  split
  exacts [ir_leaf_node_uint_ok node g hwf, ir_leaf_node_var_id_ok node g hwf, Post.unit hwf,
    ir_binary_unchecked_ok _ hv node g hwf, ir_add_ok hv node g hwf, ir_mul_ok hv node g hwf,
    ir_binary_unchecked_ok _ hv node g hwf, ir_binary_unchecked_ok _ hv node g hwf,
    ir_neg_ok hv node g hwf, ir_relational_ok _ hv node g hwf, ir_relational_ok _ hv node g hwf,
    ir_relational_ok _ hv node g hwf, ir_relational_ok _ hv node g hwf,
    ir_relational_ok _ hv node g hwf, ir_relational_ok _ hv node g hwf,
    ir_logic_and_ok hv node g hwf, ir_logic_or_ok hv node g hwf, ir_logic_not_ok hv node g hwf,
    ir_if_ok hv node g hwf, ir_if_else_ok hv node g hwf, ir_while_ok hv node g hwf,
    ir_break_ok node g hwf, ir_continue_ok node g hwf, ir_array_def_ok hv node g hwf,
    ir_array_access_ok hv node g hwf, ir_assign_ok hv node g hwf, ir_return_ok hv node g hwf,
    ir_function_call_ok hv node g hwf, ir_function_define_ok hv node g hwf,
    ir_function_formal_params_ok node g hwf, Post.unit hwf, Post.unit hwf,
    ir_declare_statment_ok hv node g hwf, ir_variable_declare_ok hv node g hwf,
    ir_block_ok hv node g hwf, ir_compile_unit_ok hv node g hwf, ir_default_ok node g hwf]

/-- Every visit keeps the allocation discipline: labels placed by the code of a node
are allocated during its lowering, and jump targets are allocated before its end. -/
theorem ir_visit_ast_node_ok : ∀ n, VisitorOK (ir_visit_ast_node n)
  | 0 => fun _ _ hwf => Post.fail hwf (Nat.le_refl _)
  | n + 1 => dispatch_ok (ir_visit_ast_node_ok n)

/-! ### Control-flow paths -/

theorem labelPosition_get {insts : List Instruction} {l q : Nat}
    (h : labelPosition insts l = some q) : insts.get? q = some (.Label l) := by
  unfold labelPosition at h
  split at h
  · rename_i hlt
    simp only [Option.some.injEq] at h
    subst h
    rw [List.get?_eq_get hlt]
    simp [List.indexOf_get]
  · simp at h

/-- A successor of a position is the next position or the position of a label that
the instruction at the position jumps to. -/
theorem successors_cases {insts : List Instruction} {p q : Nat}
    (h : q ∈ successors insts p) :
    q = p + 1 ∨
      ∃ inst t, insts.get? p = some inst ∧ t ∈ inst.targets ∧
        insts.get? q = some (.Label t) := by
  unfold successors at h
  split at h
  · rename_i target heq
    simp only [Option.mem_toList, Option.mem_def] at h
    exact Or.inr ⟨_, target, heq, by simp [Instruction.targets], labelPosition_get h⟩
  · simp at h
  · rename_i c t f heq
    simp only [List.mem_append, Option.mem_toList, Option.mem_def] at h
    rcases h with h | h
    · exact Or.inr ⟨_, t, heq, by simp [Instruction.targets], labelPosition_get h⟩
    · exact Or.inr ⟨_, f, heq, by simp [Instruction.targets], labelPosition_get h⟩
  · split at h
    · simp at h; exact Or.inl h
    · simp at h
  · simp at h

/-- A region of a sequence that no jump from outside enters: if every label placed
inside the region `[lo, hi)` has a number of at least `bound` and every instruction
outside the region only jumps to labels below `bound`, then a path that starts outside
the region and ends inside it passes through position `lo - 1`. -/
theorem path_enters_region (insts : List Instruction) (lo hi bound : Nat) (hlo : 0 < lo)
    (hin : ∀ q l, lo ≤ q → q < hi → insts.get? q = some (.Label l) → bound ≤ l)
    (hout : ∀ p inst, ¬ (lo ≤ p ∧ p < hi) → insts.get? p = some inst →
      ∀ t ∈ inst.targets, t < bound) :
    ∀ (path : List Nat), IsPath insts path →
      (∀ p, path.head? = some p → ¬ (lo ≤ p ∧ p < hi)) →
      (∀ q, path.getLast? = some q → lo ≤ q ∧ q < hi) →
      path ≠ [] → lo - 1 ∈ path := by
  intro path
  induction path with
  | nil => intro _ _ _ hne; exact absurd rfl hne
  | cons p rest ih =>
    intro hpath hhead hlast _
    cases rest with
    | nil =>
      exact absurd (hlast p rfl) (hhead p rfl)
    | cons q rest' =>
      have hp := hhead p rfl
      have hedge : q ∈ successors insts p := by
        have := hpath
        simp only [IsPath, List.chain'_cons] at this
        exact this.1
      have hrest : IsPath insts (q :: rest') := by
        have := hpath
        simp only [IsPath, List.chain'_cons] at this
        exact this.2
      by_cases hq : lo ≤ q ∧ q < hi
      · rcases successors_cases hedge with h | ⟨inst, t, hget, ht, hlab⟩
        · have : p = lo - 1 := by omega
          simp [this]
        · have h1 := hin q t hq.1 hq.2 hlab
          have h2 := hout p inst hp hget t ht
          omega
      · have := ih hrest (by intro p' hp'; simp at hp'; subst hp'; exact hq)
          (by intro q' hq'; exact hlast q' (by simpa [List.getLast?_cons_cons] using hq'))
          (by simp)
        exact List.mem_cons_of_mem _ this

/-! ### The guard of the second operand -/

/-- What guards the second operand: the code splits into a prefix, the label of the
second operand, the code of the second operand and a suffix; prefix and suffix jump
only to labels below `bound`, and the code of the second operand places only labels
from `bound` on. -/
theorem logic_and_parts {visit : Visitor} (hv : VisitorOK visit) (node : ast_node)
    (g g' : IRGenerator) (r : NodeResult) (hwf : StateWF g)
    (h : ir_logic_and visit node g = (some r, g')) :
    ∃ pre post bound son1 gb gb' rightNode,
      r.blockInsts = pre ++ .Label g.nextId :: (rightNode.blockInsts ++ post) ∧
      node.sons.get? 1 = some son1 ∧
      visit son1 gb = (some rightNode, gb') ∧
      g.nextId < bound ∧
      (∀ inst ∈ pre, ∀ t ∈ inst.targets, t < bound) ∧
      (∀ inst ∈ post, ∀ t ∈ inst.targets, t < bound) ∧
      (∀ inst ∈ rightNode.blockInsts, ∀ l, inst.placedLabel = some l → bound ≤ l) := by
  unfold ir_logic_and at h
  split at h
  · simp at h
  · split at h
    · rename_i son0 son1 _ hsons
      split at h
      rename_i secondOpLabel g1 hl1
      obtain ⟨hwf1, hn1, he1⟩ := newLabel_eq hl1 hwf
      split at h
      rename_i falseLabel g2 hl2
      obtain ⟨hwf2, hn2, he2⟩ := newLabel_eq hl2 hwf1
      split at h
      rename_i endLabel g3 hl3
      obtain ⟨hwf3, hn3, he3⟩ := newLabel_eq hl3 hwf2
      split at h
      rename_i result g4 hr4
      obtain ⟨hwf4, hn4, ha4⟩ := newVarValue_eq hr4 hwf3
      have h5 := hv son0 g4 hwf4
      split at h
      · simp at h
      · rename_i leftNode g5 heq5
        rw [heq5] at h5
        obtain ⟨hwf5, hn5, hc5, hv5⟩ := h5.of_some
        split at h
        · simp at h
        · rename_i leftVal hlv
          have h6 := int_to_bool_ok hwf5 (hv5.elim hlv)
          split at h
          · simp at h
          · rename_i leftBool g6 heq6
            rw [heq6] at h6
            obtain ⟨hwf6, hn6, hb6⟩ := h6
            simp only at hwf6 hn6 hb6
            have h7 := takeBoolCheck_ok hwf6
            split at h
            rename_i conversion g7 heq7
            rw [heq7] at h7
            obtain ⟨hwf7, hn7, hc7⟩ := h7
            simp only at hwf7 hn7 hc7
            have h8 := hv son1 g7 hwf7
            split at h
            · simp at h
            · rename_i rightNode g8 heq8
              rw [heq8] at h8
              obtain ⟨hwf8, hn8, hc8, hv8⟩ := h8.of_some
              split at h
              · simp at h
              · rename_i rightVal hrv
                simp only [Prod.mk.injEq, Option.some.injEq] at h
                obtain ⟨rfl, rfl⟩ := h
                refine ⟨leftNode.blockInsts ++ conversion ++
                    [.CondGoto leftBool secondOpLabel falseLabel],
                  [.Move (some result) (some rightVal) false false, .Goto (some endLabel),
                   .Label falseLabel,
                   .Move (some result) (some (newConstInt 0)) false false, .Label endLabel],
                  g7.nextId, son1, g7, _, rightNode, ?_, ?_, heq8, by omega, ?_, ?_, ?_⟩
                · subst he1
                  simp
                · rw [hsons]; rfl
                · intro inst hinst t ht
                  simp only [List.mem_append, List.mem_singleton] at hinst
                  rcases hinst with (hinst | hinst) | hinst
                  · have := (hc5 inst hinst).2 t ht
                    omega
                  · have := (hc7 0 g7.nextId inst hinst).2 t ht
                    omega
                  · subst hinst
                    simp only [Instruction.targets, List.mem_cons, List.mem_singleton,
                      List.not_mem_nil, or_false] at ht
                    rcases ht with ht | ht <;> omega
                · intro inst hinst t ht
                  simp only [List.mem_cons, List.mem_singleton, List.not_mem_nil,
                    or_false] at hinst
                  rcases hinst with hinst | hinst | hinst | hinst | hinst <;> subst hinst <;>
                    simp only [Instruction.targets, List.mem_singleton, List.not_mem_nil] at ht
                  omega
                · intro inst hinst l hl
                  exact (hc8 inst hinst).1 l hl
    · simp at h

/-- The same decomposition for the code of `||`. -/
theorem logic_or_parts {visit : Visitor} (hv : VisitorOK visit) (node : ast_node)
    (g g' : IRGenerator) (r : NodeResult) (hwf : StateWF g)
    (h : ir_logic_or visit node g = (some r, g')) :
    ∃ pre post bound son1 gb gb' rightNode,
      r.blockInsts = pre ++ .Label g.nextId :: (rightNode.blockInsts ++ post) ∧
      node.sons.get? 1 = some son1 ∧
      visit son1 gb = (some rightNode, gb') ∧
      g.nextId < bound ∧
      (∀ inst ∈ pre, ∀ t ∈ inst.targets, t < bound) ∧
      (∀ inst ∈ post, ∀ t ∈ inst.targets, t < bound) ∧
      (∀ inst ∈ rightNode.blockInsts, ∀ l, inst.placedLabel = some l → bound ≤ l) := by
  unfold ir_logic_or at h
  split at h
  · simp at h
  · split at h
    · rename_i son0 son1 _ hsons
      split at h
      rename_i secondOpLabel g1 hl1
      obtain ⟨hwf1, hn1, he1⟩ := newLabel_eq hl1 hwf
      split at h
      rename_i trueLabel g2 hl2
      obtain ⟨hwf2, hn2, he2⟩ := newLabel_eq hl2 hwf1
      split at h
      rename_i endLabel g3 hl3
      obtain ⟨hwf3, hn3, he3⟩ := newLabel_eq hl3 hwf2
      split at h
      rename_i result g4 hr4
      obtain ⟨hwf4, hn4, ha4⟩ := newVarValue_eq hr4 hwf3
      have h5 := hv son0 g4 hwf4
      split at h
      · simp at h
      · rename_i leftNode g5 heq5
        rw [heq5] at h5
        obtain ⟨hwf5, hn5, hc5, hv5⟩ := h5.of_some
        split at h
        · simp at h
        · rename_i leftVal hlv
          have h6 := int_to_bool_ok hwf5 (hv5.elim hlv)
          split at h
          · simp at h
          · rename_i leftBool g6 heq6
            rw [heq6] at h6
            obtain ⟨hwf6, hn6, hb6⟩ := h6
            simp only at hwf6 hn6 hb6
            have h7 := takeBoolCheck_ok hwf6
            split at h
            rename_i conversion g7 heq7
            rw [heq7] at h7
            obtain ⟨hwf7, hn7, hc7⟩ := h7
            simp only at hwf7 hn7 hc7
            have h8 := hv son1 g7 hwf7
            split at h
            · simp at h
            · rename_i rightNode g8 heq8
              rw [heq8] at h8
              obtain ⟨hwf8, hn8, hc8, hv8⟩ := h8.of_some
              split at h
              · simp at h
              · rename_i rightVal hrv
                simp only [Prod.mk.injEq, Option.some.injEq] at h
                obtain ⟨rfl, rfl⟩ := h
                refine ⟨leftNode.blockInsts ++ conversion ++
                    [.CondGoto leftBool trueLabel secondOpLabel],
                  [.Move (some result) (some rightVal) false false, .Goto (some endLabel),
                   .Label trueLabel,
                   .Move (some result) (some (newConstInt 1)) false false, .Label endLabel],
                  g7.nextId, son1, g7, _, rightNode, ?_, ?_, heq8, by omega, ?_, ?_, ?_⟩
                · subst he1
                  simp
                · rw [hsons]; rfl
                · intro inst hinst t ht
                  simp only [List.mem_append, List.mem_singleton] at hinst
                  rcases hinst with (hinst | hinst) | hinst
                  · have := (hc5 inst hinst).2 t ht
                    omega
                  · have := (hc7 0 g7.nextId inst hinst).2 t ht
                    omega
                  · subst hinst
                    simp only [Instruction.targets, List.mem_cons, List.mem_singleton,
                      List.not_mem_nil, or_false] at ht
                    rcases ht with ht | ht <;> omega
                · intro inst hinst t ht
                  simp only [List.mem_cons, List.mem_singleton, List.not_mem_nil,
                    or_false] at hinst
                  rcases hinst with hinst | hinst | hinst | hinst | hinst <;> subst hinst <;>
                    simp only [Instruction.targets, List.mem_singleton, List.not_mem_nil] at ht
                  omega
                · intro inst hinst l hl
                  exact (hc8 inst hinst).1 l hl
    · simp at h

/-- The instruction at a position of the region between a prefix with its closing
label and a suffix. -/
theorem get?_region (pre mid post : List Instruction) (lab : Instruction) (q : Nat)
    (h1 : pre.length < q) (h2 : q ≤ pre.length + mid.length) :
    (pre ++ lab :: (mid ++ post)).get? q = mid.get? (q - (pre.length + 1)) := by
  rw [List.get?_append_right (by omega)]
  obtain ⟨k, rfl⟩ : ∃ k, q = pre.length + 1 + k := ⟨q - (pre.length + 1), by omega⟩
  have e1 : pre.length + 1 + k - pre.length = k + 1 := by omega
  have e2 : pre.length + 1 + k - (pre.length + 1) = k := by omega
  rw [e1, e2, List.get?_cons_succ, List.get?_append (by omega)]

/-- The instruction at a position outside the region belongs to the prefix, is the
label, or belongs to the suffix. -/
theorem get?_outside (pre mid post : List Instruction) (lab inst : Instruction) (p : Nat)
    (hp : ¬ (pre.length + 1 ≤ p ∧ p < pre.length + 1 + mid.length))
    (h : (pre ++ lab :: (mid ++ post)).get? p = some inst) :
    inst ∈ pre ∨ inst = lab ∨ inst ∈ post := by
  by_cases h1 : p < pre.length
  · rw [List.get?_append h1] at h
    exact Or.inl (List.get?_mem h)
  · rw [List.get?_append_right (by omega)] at h
    by_cases h2 : p = pre.length
    · subst h2
      simp only [Nat.sub_self, List.get?_cons_zero, Option.some.injEq] at h
      exact Or.inr (Or.inl h.symm)
    · obtain ⟨k, rfl⟩ : ∃ k, p = pre.length + 1 + k := ⟨p - (pre.length + 1), by omega⟩
      have e1 : pre.length + 1 + k - pre.length = k + 1 := by omega
      rw [e1, List.get?_cons_succ, List.get?_append_right (by omega)] at h
      exact Or.inr (Or.inr (List.get?_mem h))

/-- A path from the first instruction into the code of the second operand passes
through the position of the label that precedes it. -/
theorem guarded_region (pre mid post : List Instruction) (l0 bound : Nat)
    (hpre : ∀ inst ∈ pre, ∀ t ∈ inst.targets, t < bound)
    (hpost : ∀ inst ∈ post, ∀ t ∈ inst.targets, t < bound)
    (hmid : ∀ inst ∈ mid, ∀ l, inst.placedLabel = some l → bound ≤ l)
    (path : List Nat) (hpath : IsPath (pre ++ .Label l0 :: (mid ++ post)) path)
    (hhead : path.head? = some 0) (q : Nat) (hlast : path.getLast? = some q)
    (hq1 : pre.length < q) (hq2 : q ≤ pre.length + mid.length) :
    pre.length ∈ path := by
  have := path_enters_region (pre ++ .Label l0 :: (mid ++ post)) (pre.length + 1)
    (pre.length + 1 + mid.length) bound (Nat.succ_pos _)
    (by
      intro q l h1 h2 hget
      rw [get?_region pre mid post _ q (by omega) (by omega)] at hget
      exact hmid _ (List.get?_mem hget) l rfl)
    (by
      intro p inst hp hget t ht
      rcases get?_outside pre mid post _ inst p hp hget with h | h | h
      · exact hpre inst h t ht
      · subst h
        simp [Instruction.targets] at ht
      · exact hpost inst h t ht)
    path hpath
    (by
      intro p hp
      rw [hhead] at hp
      simp only [Option.some.injEq] at hp
      subst hp
      omega)
    (by
      intro q' hq'
      rw [hlast] at hq'
      simp only [Option.some.injEq] at hq'
      subst hq'
      omega)
    (by
      intro hnil
      rw [hnil] at hhead
      simp at hhead)
  simpa using this

/-- Claim C3: in the code of `a && b` and of `a || b`, lowered in a well-formed
generator state, the code of the second operand stands right after the label of the
second operand (the first label the handler allocates), and every control-flow path
that starts at the first instruction and ends at an instruction of the code of the
second operand passes through the position of that label. -/
theorem short_circuit_guard (n : Nat) (node : ast_node) (g g' : IRGenerator) (r : NodeResult)
    (hwf : StateWF g)
    (hnt : node.node_type = .AST_OP_LOGIC_AND ∨ node.node_type = .AST_OP_LOGIC_OR)
    (hret : ir_visit_ast_node (n + 1) node g = (some r, g')) :
    ∃ pre post son1 gb gb' rightNode,
      r.blockInsts = pre ++ .Label g.nextId :: (rightNode.blockInsts ++ post) ∧
      node.sons.get? 1 = some son1 ∧
      ir_visit_ast_node n son1 gb = (some rightNode, gb') ∧
      ∀ path : List Nat, IsPath r.blockInsts path → path.head? = some 0 →
        ∀ q, path.getLast? = some q →
          pre.length < q → q ≤ pre.length + rightNode.blockInsts.length →
          pre.length ∈ path := by
  rw [ir_visit_ast_node_succ] at hret
  have hparts : ∃ pre post bound son1 gb gb' rightNode,
      r.blockInsts = pre ++ .Label g.nextId :: (rightNode.blockInsts ++ post) ∧
      node.sons.get? 1 = some son1 ∧
      ir_visit_ast_node n son1 gb = (some rightNode, gb') ∧
      g.nextId < bound ∧
      (∀ inst ∈ pre, ∀ t ∈ inst.targets, t < bound) ∧
      (∀ inst ∈ post, ∀ t ∈ inst.targets, t < bound) ∧
      (∀ inst ∈ rightNode.blockInsts, ∀ l, inst.placedLabel = some l → bound ≤ l) := by
    rcases hnt with hnt | hnt
    · simp only [dispatch, hnt] at hret
      exact logic_and_parts (ir_visit_ast_node_ok n) node g g' r hwf hret
    · simp only [dispatch, hnt] at hret
      exact logic_or_parts (ir_visit_ast_node_ok n) node g g' r hwf hret
  obtain ⟨pre, post, bound, son1, gb, gb', rightNode, h1, h2, h3, -, h5, h6, h7⟩ := hparts
  refine ⟨pre, post, son1, gb, gb', rightNode, h1, h2, h3, ?_⟩
  intro path hpath hhead q hlast hq1 hq2
  rw [h1] at hpath
  exact guarded_region pre rightNode.blockInsts post g.nextId bound h5 h6 h7 path hpath hhead q
    hlast hq1 hq2

/-- The empty generator is well formed. -/
theorem StateWF_initial : StateWF {} := by
  refine ⟨?_, ?_, ?_⟩
  · intro sc hsc entry he
    simp only [List.mem_singleton] at hsc
    subst hsc
    simp at he
  · intro f hf; simp at hf
  · intro f hf; simp at hf

/-- The example generator that knows `p` is well formed. -/
theorem StateWF_exGeneratorWithCallee : StateWF exGeneratorWithCallee := by
  refine ⟨?_, ?_, ?_⟩
  · simp [ScopesWF, exGeneratorWithCallee, Value.allocatedBefore, Value.allocId]
  · simp [FunctionWF, exGeneratorWithCallee, exFunction]
  · simp [FunctionWF, exGeneratorWithCallee, exFunction, Value.allocatedBefore, Value.allocId]

/-- Witness of C3: `x && p(x, x)`; the call of `p` is reached only through the label of
the second operand. -/
theorem short_circuit_guard_witness :
    ∃ pre post son1 gb gb' rightNode,
      ((ir_visit_ast_node 3 exAndCall exGeneratorWithCallee).1.getD {}).blockInsts =
        pre ++ .Label 3 :: (rightNode.blockInsts ++ post) ∧
      exAndCall.sons.get? 1 = some son1 ∧
      ir_visit_ast_node 2 son1 gb = (some rightNode, gb') ∧
      ∀ path : List Nat,
        IsPath ((ir_visit_ast_node 3 exAndCall exGeneratorWithCallee).1.getD {}).blockInsts
          path →
        path.head? = some 0 →
        ∀ q, path.getLast? = some q →
          pre.length < q → q ≤ pre.length + rightNode.blockInsts.length →
          pre.length ∈ path :=
  short_circuit_guard 2 exAndCall exGeneratorWithCallee
    (ir_visit_ast_node 3 exAndCall exGeneratorWithCallee).2
    ((ir_visit_ast_node 3 exAndCall exGeneratorWithCallee).1.getD {})
    StateWF_exGeneratorWithCallee (Or.inl rfl) rfl

/-! ### Element addresses in well-formed states -/

/-- The example generators are well formed. -/
theorem StateWF_exGeneratorWithArray : StateWF exGeneratorWithArray := by
  refine ⟨?_, ?_, ?_⟩
  · simp only [ScopesWF, exGeneratorWithArray, Value.allocatedBefore, Value.allocId,
      List.mem_cons, List.mem_singleton, List.not_mem_nil, or_false, forall_eq_or_imp,
      forall_eq, false_imp_iff, implies_true, and_true]
    refine ⟨?_, ?_⟩ <;> intro id hid <;> simp only [Option.some.injEq] at hid <;> omega
  · simp [FunctionWF, exGeneratorWithArray, exFunction]
  · simp [FunctionWF, exGeneratorWithArray, exFunction]

theorem StateWF_exGeneratorWithPointer : StateWF exGeneratorWithPointer := by
  refine ⟨?_, ?_, ?_⟩
  · simp only [ScopesWF, exGeneratorWithPointer, Value.allocatedBefore, Value.allocId,
      List.mem_cons, List.mem_singleton, List.not_mem_nil, or_false, forall_eq_or_imp,
      forall_eq, false_imp_iff, implies_true, and_true]
    refine ⟨?_, ?_⟩ <;> intro id hid <;> simp only [Option.some.injEq] at hid <;> omega
  · simp [FunctionWF, exGeneratorWithPointer, exPointerFunction, Value.allocatedBefore,
      Value.allocId]
  · simp [FunctionWF, exGeneratorWithPointer, exPointerFunction, Value.allocatedBefore,
      Value.allocId]

theorem StateWF_exGeneratorWithArrayParam : StateWF exGeneratorWithArrayParam :=
  StateWF_exGeneratorWithPointer.of_same rfl rfl rfl (Nat.le_refl _)

theorem StateWF_exGeneratorCallArray : StateWF exGeneratorCallArray := by
  refine ⟨?_, ?_, ?_⟩
  · simp only [ScopesWF, exGeneratorCallArray, Value.allocatedBefore, Value.allocId,
      List.mem_cons, List.mem_singleton, List.not_mem_nil, or_false, forall_eq_or_imp,
      forall_eq, false_imp_iff, implies_true, and_true]
    refine ⟨?_, ?_⟩ <;> intro id hid <;> simp only [Option.some.injEq] at hid <;> omega
  · simp [FunctionWF, exGeneratorCallArray, exFunction]
  · simp [FunctionWF, exGeneratorCallArray, exFunction, Value.allocatedBefore, Value.allocId]

/-- The path of `ir_array_access` for a name that no parameter of the current function
has: for an access, in a well-formed generator state, to an array variable with
positive dimensions `dims` whose product is below `2 ^ 31`, the lowering succeeds, its
code is the code of the indices followed by a tail, and executing the tail from any
machine state leaves in the offset value 4 times the row-major index (the sum of index
times the product of the later dimensions) of the index values, and in the address
value the base plus that offset; on the two-dimensional path and on the general path
alike. -/
theorem regular_access_offset (n : Nat) (node nameNode son1 : ast_node)
    (rest : List ast_node) (g g1 : IRGenerator) (func : Function) (arrayVar : Value)
    (elemType : IRType) (dims : List Int) (indexInsts : List Instruction)
    (indices : List Value)
    (hwf : StateWF g)
    (hnt : node.node_type = .AST_OP_ARRAY_ACCESS)
    (hsons : node.sons = nameNode :: son1 :: rest)
    (hvar : g.findVarValue nameNode.name = some arrayVar)
    (hfunc : g.currentFunc = some func)
    (hparam : isCurrentFunctionParameter g nameNode.name = false)
    (htype : arrayVar.getType = .array elemType dims)
    (hindex : visitIndices (ir_visit_ast_node n) (son1 :: rest) g =
      (some (indexInsts, indices), g1))
    (hpos : ∀ d ∈ dims, 0 < d) (hsize : elementCount dims < 2147483648) :
    ∃ r g2 tail off ptr,
      ir_visit_ast_node (n + 1) node g = (some r, g2) ∧
      r.blockInsts = indexInsts ++ tail ∧ r.offsetValue = some off ∧ r.arrayPtr = some ptr ∧
      ∀ m : Machine,
        (execInsts m tail).read off = 4 * rowMajorIndex dims (indices.map m.read) ∧
        (execInsts m tail).read ptr =
          m.read arrayVar + 4 * rowMajorIndex dims (indices.map m.read) := by
  have h := visitIndices_ok (ir_visit_ast_node_ok n) (son1 :: rest) g hwf
  rw [hindex] at h
  exact regular_access_offset_of_allocated n node nameNode son1 rest g g1 func arrayVar elemType dims
    indexInsts indices hnt hsons hvar hfunc hparam htype hindex hpos hsize
    (h.2.2 indexInsts indices rfl).2 ((hwf.findVarValue hvar).mono h.2.1)

/-- For an access, in a well-formed generator state, with at most `n + 1` indices to
an array parameter whose dimension entry is `[0, d1, ..., dn]` (extents positive,
product below `2 ^ 31`), the lowering succeeds and the tail of its code leaves in the offset
value 4 times the row-major index of the index values over the dimensions
`d0, d1, ..., dn` for every `d0`: the first dimension contributes to no stride, and the
address value holds the base plus that offset. -/
theorem parameter_access_offset (n : Nat) (node nameNode son1 : ast_node)
    (rest : List ast_node) (g g1 : IRGenerator) (func : Function) (arrayVar : Value) (p : Nat)
    (digits : List Nat) (indexInsts : List Instruction) (indices : List Value)
    (hwf : StateWF g)
    (hnt : node.node_type = .AST_OP_ARRAY_ACCESS)
    (hsons : node.sons = nameNode :: son1 :: rest)
    (hvar : g.findVarValue nameNode.name = some arrayVar)
    (hfunc : g.currentFunc = some func)
    (hparam : isCurrentFunctionParameter g nameNode.name = true)
    (hp : func.params.findIdx? (fun param => param.getName == nameNode.name) = some p)
    (hentry : lookupDimensions g.functionParameterDimensions func.name p =
      some (0 :: digits.map (fun d : Nat => (d : Int))))
    (hindex : visitIndices (ir_visit_ast_node n) (son1 :: rest) g =
      (some (indexInsts, indices), g1))
    (hk : rest.length ≤ digits.length)
    (hpos : ∀ d ∈ digits, 0 < d)
    (hsize : elementCount (digits.map (fun d : Nat => (d : Int))) < 2147483648) :
    ∃ r g2 tail off ptr,
      ir_visit_ast_node (n + 1) node g = (some r, g2) ∧
      r.blockInsts = indexInsts ++ tail ∧ r.offsetValue = some off ∧ r.arrayPtr = some ptr ∧
      ∀ (m : Machine) (d0 : Int),
        (execInsts m tail).read off =
          4 * rowMajorIndex (d0 :: digits.map (fun d : Nat => (d : Int))) (indices.map m.read) ∧
        (execInsts m tail).read ptr =
          m.read arrayVar +
            4 * rowMajorIndex (d0 :: digits.map (fun d : Nat => (d : Int)))
              (indices.map m.read) := by
  have h := visitIndices_ok (ir_visit_ast_node_ok n) (son1 :: rest) g hwf
  rw [hindex] at h
  exact parameter_access_offset_of_allocated n node nameNode son1 rest g g1 func arrayVar p digits
    indexInsts indices hnt hsons hvar hfunc hparam hp hentry hindex hk hpos hsize
    (h.2.2 indexInsts indices rfl).2 ((hwf.findVarValue hvar).mono h.2.1)

/-- Index children that lower to a value without touching the generator yield values
allocated before. -/
theorem pure_indices_allocated (n : Nat) (g : IRGenerator) (hwf : StateWF g)
    (idxNodes : List ast_node) (indices : List Value)
    (hpure : List.Forall₂ (fun node v => ∀ k,
      ir_visit_ast_node n node { g with nextId := g.nextId + k } =
        (some { val := some v }, { g with nextId := g.nextId + k })) idxNodes indices) :
    ∀ v ∈ indices, v.allocatedBefore g.nextId := by
  induction hpure with
  | nil => intro v hv; simp at hv
  | @cons node v0 _ _ h _ ih =>
    intro v hv
    rcases List.mem_cons.mp hv with rfl | hv
    · have hpost := ir_visit_ast_node_ok n node g hwf
      have h0 := h 0
      have hg : ({ g with nextId := g.nextId + 0 } : IRGenerator) = g := rfl
      rw [hg] at h0
      rw [h0] at hpost
      exact hpost.of_some.2.2.2 _ rfl
    · exact ih v hv

/-- Index children that are leaves: when, in a well-formed generator state, an argument
for a pointer-typed formal is an element access to a variable of array type with
dimensions `dims` (positive, product below `2 ^ 31`) whose index children lower without
code, the address passed is the base plus 4 times
the row-major index over `dims`, the dimensions of the type of the variable indexed in
the caller, for every callee and every content of the dimension table. -/
theorem call_argument_leaf_indices (n : Nat) (funcName : String)
    (son nameNode idx1 : ast_node) (rest : List ast_node) (g : IRGenerator) (func : Function)
    (arrayVar : Value) (elemType : IRType) (dims : List Int) (indices : List Value)
    (hwf : StateWF g)
    (hnt : son.node_type = .AST_OP_ARRAY_ACCESS)
    (hsons : son.sons = nameNode :: idx1 :: rest)
    (hvar : g.findVarValue nameNode.name = some arrayVar)
    (hfunc : g.currentFunc = some func)
    (htype : arrayVar.getType = .array elemType dims)
    (hpure : List.Forall₂ (fun node v => ∀ k,
      ir_visit_ast_node n node { g with nextId := g.nextId + k } =
        (some { val := some v }, { g with nextId := g.nextId + k })) (idx1 :: rest) indices)
    (hpos : ∀ d ∈ dims, 0 < d) (hsize : elementCount dims < 2147483648) :
    ∃ insts addr g1,
      ir_function_call_arg (ir_visit_ast_node n) funcName true son g =
        (some (insts, some addr), g1) ∧
      ∀ m : Machine,
        (execInsts m insts).read addr =
          m.read arrayVar + 4 * rowMajorIndex dims (indices.map m.read) :=
  call_argument_leaf_indices_of_allocated n funcName son nameNode idx1 rest g func arrayVar
    elemType dims indices hnt hsons hvar hfunc htype hpure hpos hsize
    (pure_indices_allocated n g hwf _ _ hpure) (hwf.findVarValue hvar)

/-- Claim C26: when, in a well-formed generator state, the indexed name is a parameter
of the current function and the dimension table has no entry for it, the access lowers the first index expression only
(the code is that of the first index followed by five instructions, and the generator
state is the one after the first index with five more allocations, whatever further
index children there are), and the address these instructions compute is the value of
the parameter plus 4 times the value of the first index. -/
theorem simple_pointer_access (n : Nat) (node nameNode son1 : ast_node)
    (rest : List ast_node) (g g1 : IRGenerator) (func func1 : Function)
    (arrayVar indexVal : Value) (indexNode : NodeResult)
    (hwf : StateWF g)
    (hnt : node.node_type = .AST_OP_ARRAY_ACCESS)
    (hsons : node.sons = nameNode :: son1 :: rest)
    (hvar : g.findVarValue nameNode.name = some arrayVar)
    (hfunc : g.currentFunc = some func)
    (hparam : isCurrentFunctionParameter g nameNode.name = true)
    (hnodims : ∀ p, func.params.findIdx? (fun param => param.getName == nameNode.name) = some p →
      lookupDimensions g.functionParameterDimensions func.name p = none)
    (hindex : ir_visit_ast_node n son1 g = (some indexNode, g1))
    (hval : indexNode.val = some indexVal)
    (hfunc1 : g1.currentFunc = some func1) :
    ir_visit_ast_node (n + 1) node g =
        (some { blockInsts := indexNode.blockInsts ++
                  [.Binary (g1.nextId + 1) .IRINST_OP_MUL_I (some indexVal) (some (.ConstInt 4))
                     .int32,
                   .Move (some (temporary g1.nextId .int32))
                     (some (.InstructionResult (g1.nextId + 1) .int32)) false false,
                   .Binary (g1.nextId + 3) .IRINST_OP_ADD_I (some arrayVar)
                     (some (temporary g1.nextId .int32)) (.pointer .int32),
                   .Move (some (temporary (g1.nextId + 2) (.pointer .int32)))
                     (some (.InstructionResult (g1.nextId + 3) (.pointer .int32))) false false,
                   .Move (some (temporary (g1.nextId + 4) .int32))
                     (some (temporary (g1.nextId + 2) (.pointer .int32))) false true],
                arrayVar := some arrayVar,
                offsetValue := some (temporary g1.nextId .int32),
                arrayPtr := some (temporary (g1.nextId + 2) (.pointer .int32)),
                val := some (temporary (g1.nextId + 4) .int32) },
          { g1 with nextId := g1.nextId + 5 }) ∧
      ∀ m : Machine,
        (execInsts m
          [.Binary (g1.nextId + 1) .IRINST_OP_MUL_I (some indexVal) (some (.ConstInt 4)) .int32,
           .Move (some (temporary g1.nextId .int32))
             (some (.InstructionResult (g1.nextId + 1) .int32)) false false,
           .Binary (g1.nextId + 3) .IRINST_OP_ADD_I (some arrayVar)
             (some (temporary g1.nextId .int32)) (.pointer .int32),
           .Move (some (temporary (g1.nextId + 2) (.pointer .int32)))
             (some (.InstructionResult (g1.nextId + 3) (.pointer .int32))) false false,
           .Move (some (temporary (g1.nextId + 4) .int32))
             (some (temporary (g1.nextId + 2) (.pointer .int32))) false true]).read
          (temporary (g1.nextId + 2) (.pointer .int32)) =
        m.read arrayVar + 4 * m.read indexVal := by
  have hpost := ir_visit_ast_node_ok n son1 g hwf
  rw [hindex] at hpost
  obtain ⟨-, hn, -, hv⟩ := hpost.of_some
  have h := simple_pointer_access_of_allocated n node nameNode son1 rest g g1 func func1 arrayVar indexVal
    indexNode hnt hsons hvar hfunc hparam hnodims hindex hval hfunc1
  exact ⟨h.1, fun m => h.2 m (hv _ hval) ((hwf.findVarValue hvar).mono hn)⟩

/-- Witness of C26: `p[x][7]` inside `int f(int p[])` with an empty dimension table;
the literal 7 leaves no trace in the code. -/
theorem simple_pointer_access_witness :
    (ir_visit_ast_node 2 (exAccess "p" [exVar "x", exLit 7]) exGeneratorWithPointer).1.map
        (fun r => r.blockInsts) =
      some [.Binary 3 .IRINST_OP_MUL_I (some (.LocalVariable 1 .int32 "x"))
              (some (.ConstInt 4)) .int32,
            .Move (some (.LocalVariable 2 .int32 "")) (some (.InstructionResult 3 .int32))
              false false,
            .Binary 5 .IRINST_OP_ADD_I (some (.FormalParam 0 (.pointer .int32) "p"))
              (some (.LocalVariable 2 .int32 "")) (.pointer .int32),
            .Move (some (.LocalVariable 4 (.pointer .int32) ""))
              (some (.InstructionResult 5 (.pointer .int32))) false false,
            .Move (some (.LocalVariable 6 .int32 ""))
              (some (.LocalVariable 4 (.pointer .int32) "")) false true] := by
  rw [(simple_pointer_access 1 (exAccess "p" [exVar "x", exLit 7]) (exVar "p") (exVar "x")
    [exLit 7] exGeneratorWithPointer exGeneratorWithPointer exPointerFunction exPointerFunction
    (.FormalParam 0 (.pointer .int32) "p") (.LocalVariable 1 .int32 "x")
    { val := some (.LocalVariable 1 .int32 "x") } StateWF_exGeneratorWithPointer
    rfl rfl rfl rfl rfl (fun _ _ => rfl) rfl rfl rfl).1]
  rfl

/-- An instance: `a[1][2]` with `int a[2][3]` (linear index 5, byte offset 20); for
`a[0][0]` the formula gives offset 0. -/
theorem regular_access_offset_witness :
    (∃ r g2 tail off ptr,
      ir_visit_ast_node 2 (exAccess "a" [exLit 1, exLit 2]) exGeneratorWithArray = (some r, g2) ∧
      r.blockInsts = [] ++ tail ∧ r.offsetValue = some off ∧ r.arrayPtr = some ptr ∧
      ∀ m : Machine,
        (execInsts m tail).read off = 4 * rowMajorIndex [2, 3] [1, 2] ∧
        (execInsts m tail).read ptr =
          m.read (.LocalVariable 1 (.array .int32 [2, 3]) "a") +
            4 * rowMajorIndex [2, 3] [1, 2]) ∧
      4 * rowMajorIndex [2, 3] [1, 2] = 20 ∧ 4 * rowMajorIndex [2, 3] [0, 0] = 0 :=
  ⟨regular_access_offset 1 (exAccess "a" [exLit 1, exLit 2]) (exVar "a") (exLit 1) [exLit 2]
    exGeneratorWithArray exGeneratorWithArray exFunction
    (.LocalVariable 1 (.array .int32 [2, 3]) "a") .int32 [2, 3] [] [.ConstInt 1, .ConstInt 2]
    StateWF_exGeneratorWithArray rfl rfl rfl rfl rfl rfl rfl (by decide) (by decide),
    by decide, by decide⟩

/-- An instance: `p[x][2]` inside `int f(int p[][3])` with the entry `[0, 3]`. -/
theorem parameter_access_offset_witness :
    ∃ r g2 tail off ptr,
      ir_visit_ast_node 2 (exAccess "p" [exVar "x", exLit 2]) exGeneratorWithArrayParam =
        (some r, g2) ∧
      r.blockInsts = [] ++ tail ∧ r.offsetValue = some off ∧ r.arrayPtr = some ptr ∧
      ∀ (m : Machine) (d0 : Int),
        (execInsts m tail).read off =
          4 * rowMajorIndex [d0, 3] [m.read (.LocalVariable 1 .int32 "x"), 2] ∧
        (execInsts m tail).read ptr =
          m.read (.FormalParam 0 (.pointer .int32) "p") +
            4 * rowMajorIndex [d0, 3] [m.read (.LocalVariable 1 .int32 "x"), 2] :=
  parameter_access_offset 1 (exAccess "p" [exVar "x", exLit 2]) (exVar "p") (exVar "x")
    [exLit 2] exGeneratorWithArrayParam exGeneratorWithArrayParam exPointerFunction
    (.FormalParam 0 (.pointer .int32) "p") 0 [3] [] [.LocalVariable 1 .int32 "x", .ConstInt 2]
    StateWF_exGeneratorWithArrayParam rfl rfl rfl rfl rfl rfl rfl rfl (by decide) (by decide)
    (by decide)

/-- An instance: the argument `a[x]` with `int a[4][2][3]` in the caller. -/
theorem call_argument_leaf_indices_witness :
    ∃ insts addr g1,
      ir_function_call_arg (ir_visit_ast_node 1) "g" true (exAccess "a" [exVar "x"])
          exGeneratorCallArray = (some (insts, some addr), g1) ∧
      ∀ m : Machine,
        (execInsts m insts).read addr =
          m.read (.LocalVariable 1 (.array .int32 [4, 2, 3]) "a") +
            4 * rowMajorIndex [4, 2, 3] [m.read (.LocalVariable 0 .int32 "x")] :=
  call_argument_leaf_indices 1 "g" (exAccess "a" [exVar "x"]) (exVar "a") (exVar "x") []
    exGeneratorCallArray exFunction (.LocalVariable 1 (.array .int32 [4, 2, 3]) "a") .int32
    [4, 2, 3] [.LocalVariable 0 .int32 "x"] StateWF_exGeneratorCallArray rfl rfl rfl rfl rfl
    (List.Forall₂.cons (fun _ => rfl) List.Forall₂.nil) (by decide) (by decide)

/-! ### Comparisons and logical negation -/

/-- Claim C31: a relational node (lt, gt, le, ge, eq, ne) whose operands lower to
values inside a function appends, after the code of the two operands, a comparison
with the matching opcode and result type Bool followed by a move of that comparison
into a fresh Bool temporary; the temporary is the value of the node, and neither
instruction is a jump. -/
theorem relational_layout (n : Nat) (node src1 src2 : ast_node) (rest : List ast_node)
    (op : IRInstOperator) (g g1 g2 : IRGenerator) (func2 : Function) (left right : NodeResult)
    (leftVal rightVal : Value)
    (hop : relationalOpcode node.node_type = some op)
    (hsons : node.sons = src1 :: src2 :: rest)
    (hleft : ir_visit_ast_node n src1 g = (some left, g1))
    (hright : ir_visit_ast_node n src2 g1 = (some right, g2))
    (hlv : left.val = some leftVal) (hrv : right.val = some rightVal)
    (hfunc : g2.currentFunc = some func2) :
    ir_visit_ast_node (n + 1) node g =
        (some { blockInsts := left.blockInsts ++ right.blockInsts ++
                  [.Binary (g2.nextId + 1) op (some leftVal) (some rightVal) .bool,
                   .Move (some (temporary g2.nextId .bool))
                     (some (.InstructionResult (g2.nextId + 1) .bool)) false false],
                val := some (temporary g2.nextId .bool) },
          { g2 with nextId := g2.nextId + 2 }) ∧
      Instruction.isJump (.Binary (g2.nextId + 1) op (some leftVal) (some rightVal) .bool) =
        false ∧
      Instruction.isJump (.Move (some (temporary g2.nextId .bool))
        (some (.InstructionResult (g2.nextId + 1) .bool)) false false) = false := by
  refine ⟨?_, rfl, rfl⟩
  rw [ir_visit_ast_node_succ]
  cases hnt : node.node_type <;> simp [hnt, relationalOpcode] at hop <;> subst hop
  · simp [dispatch, hnt, ir_lt, ir_relational, hsons, hleft, hright, hlv, hrv,
      IRGenerator.getCurrentFunction, hfunc, IRGenerator.newVarValue, IRGenerator.newBinary,
      temporary, Nat.add_assoc]
  · simp [dispatch, hnt, ir_gt, ir_relational, hsons, hleft, hright, hlv, hrv,
      IRGenerator.getCurrentFunction, hfunc, IRGenerator.newVarValue, IRGenerator.newBinary,
      temporary, Nat.add_assoc]
  · simp [dispatch, hnt, ir_le, ir_relational, hsons, hleft, hright, hlv, hrv,
      IRGenerator.getCurrentFunction, hfunc, IRGenerator.newVarValue, IRGenerator.newBinary,
      temporary, Nat.add_assoc]
  · simp [dispatch, hnt, ir_ge, ir_relational, hsons, hleft, hright, hlv, hrv,
      IRGenerator.getCurrentFunction, hfunc, IRGenerator.newVarValue, IRGenerator.newBinary,
      temporary, Nat.add_assoc]
  · simp [dispatch, hnt, ir_eq, ir_relational, hsons, hleft, hright, hlv, hrv,
      IRGenerator.getCurrentFunction, hfunc, IRGenerator.newVarValue, IRGenerator.newBinary,
      temporary, Nat.add_assoc]
  · simp [dispatch, hnt, ir_ne, ir_relational, hsons, hleft, hright, hlv, hrv,
      IRGenerator.getCurrentFunction, hfunc, IRGenerator.newVarValue, IRGenerator.newBinary,
      temporary, Nat.add_assoc]

/-- Witness of C31: `x < 1` inside `f`. -/
theorem relational_layout_witness :
    ir_visit_ast_node 2 exLess exGenerator =
        (some { blockInsts := [] ++ [] ++
                  [.Binary 2 .IRINST_OP_LT_I (some (.LocalVariable 0 .int32 "x"))
                     (some (.ConstInt 1)) .bool,
                   .Move (some (temporary 1 .bool)) (some (.InstructionResult 2 .bool))
                     false false],
                val := some (temporary 1 .bool) },
          { exGenerator with nextId := 3 }) :=
  (relational_layout 1 exLess (exVar "x") (exLit 1) [] .IRINST_OP_LT_I exGenerator exGenerator
    exGenerator exFunction { val := some (.LocalVariable 0 .int32 "x") }
    { val := some (.ConstInt 1) } (.LocalVariable 0 .int32 "x") (.ConstInt 1)
    rfl rfl rfl rfl rfl rfl rfl).1

/-- Claim C31, counterexample: for `x < 1` two instructions are appended, and the value
of the node is the temporary written by the move, not the comparison, which is the
first of the two instructions. -/
theorem relational_appends_move :
    (ir_visit_ast_node 2 exLess exGenerator).1.map (fun r => (r.blockInsts.length, r.val)) =
        some (2, some (.LocalVariable 1 .bool "")) ∧
      (ir_visit_ast_node 2 exLess exGenerator).1.map (fun r => r.blockInsts.map
          Instruction.asValue) =
        some [some (.InstructionResult 2 .bool), none] := by
  decide!

/-- Claim C33: a logical NOT whose operand lowers to a value inside a function emits
the code of the operand, then the comparison `operand == 0` with result type Bool, then
a move of that comparison into a fresh temporary of type Int32; the temporary is the
value of the node. -/
theorem logic_not_layout (n : Nat) (node son0 : ast_node) (rest : List ast_node)
    (g g1 : IRGenerator) (func func1 : Function) (operandNode : NodeResult)
    (operandVal : Value)
    (hnt : node.node_type = .AST_OP_LOGIC_NOT)
    (hsons : node.sons = son0 :: rest)
    (hfunc : g.currentFunc = some func)
    (hoperand : ir_visit_ast_node n son0 g = (some operandNode, g1))
    (hval : operandNode.val = some operandVal)
    (hfunc1 : g1.currentFunc = some func1) :
    ir_visit_ast_node (n + 1) node g =
        (some { blockInsts := operandNode.blockInsts ++
                  [.Binary (g1.nextId + 1) .IRINST_OP_EQ_I (some operandVal)
                     (some (.ConstInt 0)) .bool,
                   .Move (some (temporary g1.nextId .int32))
                     (some (.InstructionResult (g1.nextId + 1) .bool)) false false],
                val := some (temporary g1.nextId .int32) },
          { g1 with nextId := g1.nextId + 2 }) ∧
      (temporary g1.nextId .int32).getType = .int32 := by
  refine ⟨?_, rfl⟩
  rw [ir_visit_ast_node_succ]
  simp [dispatch, hnt, ir_logic_not, IRGenerator.getCurrentFunction, hfunc, hsons, hoperand,
    hval, IRGenerator.newVarValue, hfunc1, IRGenerator.newBinary, temporary, newConstInt,
    Nat.add_assoc]
  rfl

/-- Witness of C33: `!x` inside `f`. -/
theorem logic_not_layout_witness :
    ir_visit_ast_node 2 exNot exGenerator =
        (some { blockInsts := [] ++
                  [.Binary 2 .IRINST_OP_EQ_I (some (.LocalVariable 0 .int32 "x"))
                     (some (.ConstInt 0)) .bool,
                   .Move (some (temporary 1 .int32)) (some (.InstructionResult 2 .bool))
                     false false],
                val := some (temporary 1 .int32) },
          { exGenerator with nextId := 3 }) :=
  (logic_not_layout 1 exNot (exVar "x") [] exGenerator exGenerator exFunction exFunction
    { val := some (.LocalVariable 0 .int32 "x") } (.LocalVariable 0 .int32 "x")
    rfl rfl rfl rfl rfl rfl).1

/-- Claim C33, counterexample: the value of `!x` has type Int32, and the operand is
followed by two instructions. -/
theorem logic_not_value_is_int32 :
    ((ir_visit_ast_node 2 exNot exGenerator).1.bind (fun r => r.val)).map Value.getType =
        some .int32 ∧
      (ir_visit_ast_node 2 exNot exGenerator).1.map (fun r => r.blockInsts.length) =
        some 2 := by
  decide!

/-! ### Boolean conversion and pointer types -/

/-- Claim C34: inside a function, `int_to_bool` returns a value of the one-byte integer
type (Bool) itself and leaves the generator unchanged; for a value of any other type it
builds the comparison `value != 0` with result type Bool and a move of it into a fresh
Bool temporary, returns the temporary, and hands exactly these two instructions to
the caller through the extra data of the function. -/
theorem int_to_bool_conversion (val : Value) (g : IRGenerator) (func : Function)
    (hfunc : g.currentFunc = some func) :
    (val.getType.isInt1Byte = true → int_to_bool val g = (some val, g)) ∧
    (val.getType.isInt1Byte = false →
      int_to_bool val g =
        (some (temporary g.nextId .bool),
         { g with
           nextId := g.nextId + 2,
           currentFunc := some { func with
             extraData :=
               { boolCheckInst := some (.Binary (g.nextId + 1) .IRINST_OP_NE_I (some val)
                   (some (.ConstInt 0)) .bool),
                 moveInst := some (.Move (some (temporary g.nextId .bool))
                   (some (.InstructionResult (g.nextId + 1) .bool)) false false) } } }) ∧
      (takeBoolCheck (int_to_bool val g).2).1 =
        [.Binary (g.nextId + 1) .IRINST_OP_NE_I (some val) (some (.ConstInt 0)) .bool,
         .Move (some (temporary g.nextId .bool))
           (some (.InstructionResult (g.nextId + 1) .bool)) false false]) := by
  constructor
  · intro h
    simp [int_to_bool, IRGenerator.getCurrentFunction, hfunc, h]
  · intro h
    have e : int_to_bool val g =
        (some (temporary g.nextId .bool),
         { g with
           nextId := g.nextId + 2,
           currentFunc := some { func with
             extraData :=
               { boolCheckInst := some (.Binary (g.nextId + 1) .IRINST_OP_NE_I (some val)
                   (some (.ConstInt 0)) .bool),
                 moveInst := some (.Move (some (temporary g.nextId .bool))
                   (some (.InstructionResult (g.nextId + 1) .bool)) false false) } } }) := by
      simp [int_to_bool, IRGenerator.getCurrentFunction, hfunc, h, IRGenerator.newVarValue,
        IRGenerator.newBinary, IRGenerator.updateCurrent, temporary, newConstInt,
        Nat.add_assoc]
      rfl
    refine ⟨e, ?_⟩
    rw [e]
    rfl

/-- Witness of C34: the conversion of the variable `x` of type Int32. -/
theorem int_to_bool_conversion_witness :
    int_to_bool (.LocalVariable 0 .int32 "x") exGenerator =
      (some (temporary 1 .bool),
       { exGenerator with
         nextId := 3,
         currentFunc := some { exFunction with
           extraData :=
             { boolCheckInst := some (.Binary 2 .IRINST_OP_NE_I
                 (some (.LocalVariable 0 .int32 "x")) (some (.ConstInt 0)) .bool),
               moveInst := some (.Move (some (temporary 1 .bool))
                 (some (.InstructionResult 2 .bool)) false false) } } }) :=
  ((int_to_bool_conversion (.LocalVariable 0 .int32 "x") exGenerator exFunction rfl).2 rfl).1

/-- A type wrapped at least once is a pointer type. -/
theorem wrapPointer_isPointerType (n : Nat) (t : IRType) :
    (wrapPointer (n + 1) t).isPointerType = true := rfl

/-- Claim C37: a type that is not a pointer, wrapped in `n ≥ 1` nested pointer
constructions, has depth `n` and root type `T`; the pointee of a pointer to `P` is `P`. -/
theorem pointer_depth_and_root (t : IRType) (n : Nat) (ht : t.isPointerType = false)
    (hn : 1 ≤ n) :
    (wrapPointer n t).getDepth = n ∧ (wrapPointer n t).getRootType = t ∧
      ∀ p : IRType, (IRType.pointer p).getPointeeType = some p := by
  refine ⟨?_, ?_, fun p => rfl⟩
  · induction n with
    | zero => omega
    | succ k ih =>
      cases k with
      | zero => simp [wrapPointer, IRType.getDepth, ht]
      | succ j =>
        have := ih (by omega)
        simp only [wrapPointer, IRType.getDepth, IRType.isPointerType, if_true] at this ⊢
        omega
  · induction n with
    | zero => omega
    | succ k ih =>
      cases k with
      | zero => simp [wrapPointer, IRType.getRootType, ht]
      | succ j =>
        have := ih (by omega)
        simp only [wrapPointer, IRType.getRootType, IRType.isPointerType, if_true] at this ⊢
        exact this

/-- Witness of C37: three levels of pointer over `[3 x i32]`. -/
theorem pointer_depth_and_root_witness :
    (wrapPointer 3 (.array .int32 [3])).getDepth = 3 ∧
      (wrapPointer 3 (.array .int32 [3])).getRootType = .array .int32 [3] ∧
      ∀ p : IRType, (IRType.pointer p).getPointeeType = some p :=
  pointer_depth_and_root (.array .int32 [3]) 3 rfl (by decide)

/-! ### The value of a logical expression -/

/-- The variable `newVarValue` creates carries the current allocation number. -/
theorem newVarValue_allocId (g : IRGenerator) (type : IRType) (name : String) :
    (g.newVarValue type name).1.allocId = some g.nextId := by
  unfold IRGenerator.newVarValue
  dsimp only
  split <;> rfl

/-- The allocation number of the variable that `newVarValue` returned. -/
theorem newVarValue_allocId_eq {g g1 : IRGenerator} {type : IRType} {name : String}
    {v : Value} (h : g.newVarValue type name = (v, g1)) : v.allocId = some g.nextId := by
  have := newVarValue_allocId g type name
  rw [h] at this
  exact this

/-- The tail of a successful `&&`: the code of the right operand is followed by the
move of its value, as it is, into the result temporary. -/
theorem logic_and_tail (visit : Visitor) (node : ast_node) (g g' : IRGenerator)
    (r : NodeResult) (h : ir_logic_and visit node g = (some r, g')) :
    ∃ pre son1 gb rightNode rightVal result endLabel falseLabel,
      node.sons.get? 1 = some son1 ∧
      visit son1 gb = (some rightNode, g') ∧ rightNode.val = some rightVal ∧
      r.val = some result ∧ result.allocId ≠ none ∧
      r.blockInsts = pre ++ rightNode.blockInsts ++
        [.Move (some result) (some rightVal) false false, .Goto (some endLabel),
         .Label falseLabel, .Move (some result) (some (.ConstInt 0)) false false,
         .Label endLabel] := by
  unfold ir_logic_and at h
  split at h
  · simp at h
  · split at h
    · rename_i son0 son1 _ hsons
      split at h
      split at h
      split at h
      split at h
      rename_i result g4 hr4
      split at h
      · simp at h
      · split at h
        · simp at h
        · split at h
          · simp at h
          · split at h
            split at h
            · simp at h
            · rename_i rightNode g8 heq8
              split at h
              · simp at h
              · rename_i rightVal hrv
                simp only [Prod.mk.injEq, Option.some.injEq] at h
                obtain ⟨rfl, rfl⟩ := h
                refine ⟨_, son1, _, rightNode, rightVal, result, _, _, by rw [hsons]; rfl,
                  heq8, hrv, rfl, ?_, rfl⟩
                rw [newVarValue_allocId_eq hr4]
                simp
    · simp at h

/-- The tail of a successful `||`, the mirror of `logic_and_tail`. -/
theorem logic_or_tail (visit : Visitor) (node : ast_node) (g g' : IRGenerator)
    (r : NodeResult) (h : ir_logic_or visit node g = (some r, g')) :
    ∃ pre son1 gb rightNode rightVal result endLabel trueLabel,
      node.sons.get? 1 = some son1 ∧
      visit son1 gb = (some rightNode, g') ∧ rightNode.val = some rightVal ∧
      r.val = some result ∧ result.allocId ≠ none ∧
      r.blockInsts = pre ++ rightNode.blockInsts ++
        [.Move (some result) (some rightVal) false false, .Goto (some endLabel),
         .Label trueLabel, .Move (some result) (some (.ConstInt 1)) false false,
         .Label endLabel] := by
  unfold ir_logic_or at h
  split at h
  · simp at h
  · split at h
    · rename_i son0 son1 _ hsons
      split at h
      split at h
      split at h
      split at h
      rename_i result g4 hr4
      split at h
      · simp at h
      · split at h
        · simp at h
        · split at h
          · simp at h
          · split at h
            split at h
            · simp at h
            · rename_i rightNode g8 heq8
              split at h
              · simp at h
              · rename_i rightVal hrv
                simp only [Prod.mk.injEq, Option.some.injEq] at h
                obtain ⟨rfl, rfl⟩ := h
                refine ⟨_, son1, _, rightNode, rightVal, result, _, _, by rw [hsons]; rfl,
                  heq8, hrv, rfl, ?_, rfl⟩
                rw [newVarValue_allocId_eq hr4]
                simp
    · simp at h

/-- After a plain move the destination holds what the source held. -/
theorem exec_move_read_dst (m : Machine) (dst src : Value) (h : dst.allocId ≠ none) :
    (execInst m (.Move (some dst) (some src) false false)).read dst = m.read src := by
  cases dst <;> simp [execInst, Machine.read, Machine.write, Value.allocId] at h ⊢

/-- Claim C39: the code of a successful `&&` or `||` ends with the code of the right
operand, a move of the value of the right operand into the result, a jump to the end
label, and the short-circuit arm that stores the constant 0 (for `&&`) or 1 (for `||`);
the move between the code of the right operand and the jump is a plain move, so the
result holds the value of the right operand as it is, without a comparison with 0. -/
theorem logic_right_value_unchanged (n : Nat) (node : ast_node) (g g' : IRGenerator)
    (r : NodeResult)
    (hnt : node.node_type = .AST_OP_LOGIC_AND ∨ node.node_type = .AST_OP_LOGIC_OR)
    (hret : ir_visit_ast_node (n + 1) node g = (some r, g')) :
    ∃ pre son1 gb rightNode rightVal result endLabel shortLabel,
      node.sons.get? 1 = some son1 ∧
      ir_visit_ast_node n son1 gb = (some rightNode, g') ∧ rightNode.val = some rightVal ∧
      r.val = some result ∧
      r.blockInsts = pre ++ rightNode.blockInsts ++
        [.Move (some result) (some rightVal) false false, .Goto (some endLabel),
         .Label shortLabel,
         .Move (some result)
           (some (.ConstInt (if node.node_type = .AST_OP_LOGIC_AND then 0 else 1))) false false,
         .Label endLabel] ∧
      ∀ m : Machine,
        (execInst m (.Move (some result) (some rightVal) false false)).read result =
          m.read rightVal := by
  rw [ir_visit_ast_node_succ] at hret
  rcases hnt with hnt | hnt
  · simp only [dispatch, hnt] at hret
    obtain ⟨pre, son1, gb, rightNode, rightVal, result, endLabel, lab, h1, h2, h3, h4, h5, h6⟩ :=
      logic_and_tail _ node g g' r hret
    exact ⟨pre, son1, gb, rightNode, rightVal, result, endLabel, lab, h1, h2, h3, h4,
      by rw [h6, hnt]; rfl, fun m => exec_move_read_dst m result rightVal h5⟩
  · simp only [dispatch, hnt] at hret
    obtain ⟨pre, son1, gb, rightNode, rightVal, result, endLabel, lab, h1, h2, h3, h4, h5, h6⟩ :=
      logic_or_tail _ node g g' r hret
    exact ⟨pre, son1, gb, rightNode, rightVal, result, endLabel, lab, h1, h2, h3, h4,
      by rw [h6, hnt]; rfl, fun m => exec_move_read_dst m result rightVal h5⟩

/-- Witness of C39: `x || 7` inside `f`; the result receives the constant 7. -/
theorem logic_right_value_unchanged_witness :
    ∃ pre son1 gb rightNode rightVal result endLabel shortLabel,
      exOrSeven.sons.get? 1 = some son1 ∧
      ir_visit_ast_node 1 son1 gb =
        (some rightNode, (ir_visit_ast_node 2 exOrSeven exGenerator).2) ∧
      rightNode.val = some rightVal ∧
      ((ir_visit_ast_node 2 exOrSeven exGenerator).1.getD {}).val = some result ∧
      ((ir_visit_ast_node 2 exOrSeven exGenerator).1.getD {}).blockInsts =
        pre ++ rightNode.blockInsts ++
        [.Move (some result) (some rightVal) false false, .Goto (some endLabel),
         .Label shortLabel,
         .Move (some result)
           (some (.ConstInt (if exOrSeven.node_type = .AST_OP_LOGIC_AND then 0 else 1)))
           false false,
         .Label endLabel] ∧
      ∀ m : Machine,
        (execInst m (.Move (some result) (some rightVal) false false)).read result =
          m.read rightVal :=
  logic_right_value_unchanged 1 exOrSeven exGenerator
    (ir_visit_ast_node 2 exOrSeven exGenerator).2
    ((ir_visit_ast_node 2 exOrSeven exGenerator).1.getD {}) (Or.inr rfl) rfl

/-! ### Assignments -/

/-- Claim C40: an assignment whose two sides lower successfully emits the code of the
right side, then the code of the left side, then one move: a store through the element
pointer when the target is an array access, a plain move to the value of the left side
otherwise; the value of the assignment is the value of the right side. -/
theorem assign_layout (n : Nat) (node son1 son2 : ast_node) (rest : List ast_node)
    (g g1 g2 : IRGenerator) (right left : NodeResult) (rightVal : Value)
    (hnt : node.node_type = .AST_OP_ASSIGN)
    (hsons : node.sons = son1 :: son2 :: rest)
    (hright : ir_visit_ast_node n son2 g = (some right, g1))
    (hval : right.val = some rightVal)
    (hleft : ir_visit_ast_node n son1 g1 = (some left, g2)) :
    ∃ move,
      ir_visit_ast_node (n + 1) node g =
        (some { blockInsts := right.blockInsts ++ left.blockInsts ++ [move],
                val := some rightVal }, g2) ∧
      (son1.node_type = .AST_OP_ARRAY_ACCESS →
        ∃ ptr, left.arrayPtr = some ptr ∧ move = .Move (some ptr) (some rightVal) true false) ∧
      (son1.node_type ≠ .AST_OP_ARRAY_ACCESS →
        move = .Move left.val (some rightVal) false false) := by
  by_cases hkind : son1.node_type = .AST_OP_ARRAY_ACCESS
  · cases n with
    | zero => simp [ir_visit_ast_node] at hleft
    | succ k =>
      have hacc : ir_array_access (ir_visit_ast_node k) son1 g1 = (some left, g2) := by
        rw [ir_visit_ast_node_succ] at hleft
        simpa only [dispatch, hkind] using hleft
      obtain ⟨ptr, elem, hptr, -, -⟩ := array_access_ends_with_load _ _ _ _ _ hacc
      refine ⟨.Move (some ptr) (some rightVal) true false, ?_, fun _ => ⟨ptr, hptr, rfl⟩,
        fun h => absurd hkind h⟩
      rw [ir_visit_ast_node_succ]
      simp [dispatch, hnt, ir_assign, hsons, hright, hval, hleft, hkind, hptr]
  · refine ⟨.Move left.val (some rightVal) false false, ?_, fun h => absurd h hkind,
      fun _ => rfl⟩
    rw [ir_visit_ast_node_succ]
    simp [dispatch, hnt, ir_assign, hsons, hright, hval, hleft, hkind]

/-- Witness of C40: `x = 5` inside `f`. -/
theorem assign_layout_witness :
    ∃ move,
      ir_visit_ast_node 2 (exAssign "x" 5) exGenerator =
        (some { blockInsts := [] ++ [] ++ [move], val := some (.ConstInt 5) }, exGenerator) ∧
      ((exVar "x").node_type = .AST_OP_ARRAY_ACCESS →
        ∃ ptr, (none : Option Value) = some ptr ∧
          move = .Move (some ptr) (some (.ConstInt 5)) true false) ∧
      ((exVar "x").node_type ≠ .AST_OP_ARRAY_ACCESS →
        move = .Move (some (.LocalVariable 0 .int32 "x")) (some (.ConstInt 5)) false false) :=
  assign_layout 1 (exAssign "x" 5) (exVar "x") (exLit 5) [] exGenerator exGenerator exGenerator
    { val := some (.ConstInt 5) } { val := some (.LocalVariable 0 .int32 "x") } (.ConstInt 5)
    rfl rfl rfl rfl rfl

/-! ### Element addresses of array parameters in calls -/

/-- Claim C38: inside `int f(int a[][3])`, whose parameter has the dimension entry
`[0, 3]`, the argument `a[1]` of a call is passed as `a + 1 * 4`, while the element
access `a[1]` in the same place computes the address `a + (1 * 3) * 4`. -/
theorem row_argument_offset_differs :
    lookupDimensions (ir_visit_ast_node 9 exRowCallUnit {}).2.functionParameterDimensions
        "f" 0 = some [0, 3] ∧
      lookupDimensions (ir_visit_ast_node 9 exRowAccessUnit {}).2.functionParameterDimensions
        "f" 0 = some [0, 3] ∧
      exCodeOf exRowCallUnit "f" 3 =
        [.Binary 11 .IRINST_OP_MUL_I (some (.ConstInt 1)) (some (.ConstInt 4)) .int32,
         .Binary 12 .IRINST_OP_ADD_I (some (.FormalParam 1 (.pointer .int32) "a"))
           (some (.InstructionResult 11 .int32)) (.pointer .int32),
         .FuncCall 13 "g" [some (.InstructionResult 12 (.pointer .int32))] .int32] ∧
      exCodeOf exRowAccessUnit "f" 4 =
        [.Binary 11 .IRINST_OP_MUL_I (some (.ConstInt 1)) (some (.ConstInt 3)) .int32,
         .Binary 12 .IRINST_OP_ADD_I (some (.ConstInt 0))
           (some (.InstructionResult 11 .int32)) .int32,
         .Binary 13 .IRINST_OP_MUL_I (some (.InstructionResult 12 .int32))
           (some (.ConstInt 4)) .int32,
         .Binary 15 .IRINST_OP_ADD_I (some (.FormalParam 1 (.pointer .int32) "a"))
           (some (.InstructionResult 13 .int32)) (.pointer .int32)] ∧
      (∀ m : Machine,
        (execInsts m (exCodeOf exRowCallUnit "f" 2)).read
            (.InstructionResult 12 (.pointer .int32)) =
          m.read (.FormalParam 1 (.pointer .int32) "a") + 4 ∧
        (execInsts m (exCodeOf exRowAccessUnit "f" 4)).read
            (.InstructionResult 15 (.pointer .int32)) =
          m.read (.FormalParam 1 (.pointer .int32) "a") + 12) := by
  have h1 : exCodeOf exRowCallUnit "f" 2 =
      [.Binary 11 .IRINST_OP_MUL_I (some (.ConstInt 1)) (some (.ConstInt 4)) .int32,
       .Binary 12 .IRINST_OP_ADD_I (some (.FormalParam 1 (.pointer .int32) "a"))
         (some (.InstructionResult 11 .int32)) (.pointer .int32)] := by decide!
  have h2 : exCodeOf exRowAccessUnit "f" 4 =
        [.Binary 11 .IRINST_OP_MUL_I (some (.ConstInt 1)) (some (.ConstInt 3)) .int32,
         .Binary 12 .IRINST_OP_ADD_I (some (.ConstInt 0))
           (some (.InstructionResult 11 .int32)) .int32,
         .Binary 13 .IRINST_OP_MUL_I (some (.InstructionResult 12 .int32))
           (some (.ConstInt 4)) .int32,
         .Binary 15 .IRINST_OP_ADD_I (some (.FormalParam 1 (.pointer .int32) "a"))
           (some (.InstructionResult 13 .int32)) (.pointer .int32)] := by decide!
  refine ⟨by decide!, by decide!, by decide!, h2, fun m => ?_⟩
  rw [h1, h2]
  simp only [execInsts, List.foldl]
  simp [exec_binary_read, evalOperator, Machine.read_const]

/-! ### The instruction selector: remainder and comparisons -/

/-- The truncating remainder lies between 0 and the dividend. -/
theorem tmod_between (a b : Int) :
    (0 ≤ a → 0 ≤ Int.tmod a b ∧ Int.tmod a b ≤ a) ∧
    (a ≤ 0 → a ≤ Int.tmod a b ∧ Int.tmod a b ≤ 0) := by
  rcases a with m | m <;> rcases b with n | n
  all_goals simp only [Int.tmod, Int.ofNat_eq_coe, Nat.succ_eq_add_one, Int.negSucc_eq]
  all_goals constructor
  all_goals intro h
  all_goals
    have h1 := Nat.mod_le m n
    have h2 := Nat.mod_le m (n + 1)
    have h3 := Nat.mod_le (m + 1) n
    have h4 := Nat.mod_le (m + 1) (n + 1)
    omega

/-- The 32-bit computation `a - ((a / b) * b)` with wrap-around after every step gives
the exact value when `a` is a 32-bit value; this covers the quotient of the least
integer by -1, which wraps. -/
theorem sdiv_mul_sub (a b : Int) (ha : -2147483648 ≤ a ∧ a < 2147483648) :
    toInt32 (a - toInt32 (toInt32 (Int.tdiv a b) * b)) = a - Int.tdiv a b * b := by
  have hdef := Int.tmod_add_tdiv' a b
  have hr := tmod_between a b
  have hk : toInt32 (Int.tdiv a b) * b =
      Int.tdiv a b * b - 4294967296 * (((Int.tdiv a b + 2147483648) / 4294967296) * b) := by
    unfold toInt32
    have := Int.emod_def (Int.tdiv a b + 2147483648) 4294967296
    rw [this]; ring
  rw [hk]
  unfold toInt32
  rcases Int.le_total 0 a with h | h
  · have := hr.1 h; omega
  · have := hr.2 h; omega

theorem setReg_reg (m : ArmState) (no x : Int) :
    m.setReg (.reg no) x = some { m with regs := fun r => if r = no then x else m.regs r } :=
  rfl

theorem execArmInst_sdiv (m : ArmState) (R A B : Int) (h : m.regs B ≠ 0) :
    execArmInst m (.inst "sdiv" (.reg R) (.reg A) (some (.reg B))) =
      some { m with regs := fun r =>
        if r = R then toInt32 (Int.tdiv (m.regs A) (m.regs B)) else m.regs r } := by
  simp only [execArmInst, ArmState.operand, h, if_false]
  rfl

theorem execArmInst_mul (m : ArmState) (R A B : Int) :
    execArmInst m (.inst "mul" (.reg R) (.reg A) (some (.reg B))) =
      some { m with regs := fun r =>
        if r = R then toInt32 (m.regs A * m.regs B) else m.regs r } :=
  rfl

theorem execArmInst_sub (m : ArmState) (R A B : Int) :
    execArmInst m (.inst "sub" (.reg R) (.reg A) (some (.reg B))) =
      some { m with regs := fun r =>
        if r = R then toInt32 (m.regs A - m.regs B) else m.regs r } :=
  rfl

theorem execArm_cons_some {m m1 : ArmState} {i : ArmInst} {rest : List ArmInst}
    (h : execArmInst m i = some m1) : execArm m (i :: rest) = execArm m1 rest := by
  simp [execArm, h]

/-- The three instructions of the remainder, run from a state where `A` holds `a` and
`B` holds a nonzero `b` and `R` is a third register, leave `a - (a / b) * b` in `R`. -/
theorem mod_sequence_sem (m : ArmState) (R A B a b : Int)
    (ha : -2147483648 ≤ a ∧ a < 2147483648) (hb0 : b ≠ 0)
    (hA : m.regs A = a) (hB : m.regs B = b) (hRA : R ≠ A) (hRB : R ≠ B) :
    ∃ m', execArm m
        [.inst "sdiv" (.reg R) (.reg A) (some (.reg B)),
         .inst "mul" (.reg R) (.reg R) (some (.reg B)),
         .inst "sub" (.reg R) (.reg A) (some (.reg R))] = some m' ∧
      m'.regs R = a - Int.tdiv a b * b := by
  have hAR : ¬ A = R := fun h => hRA h.symm
  have hBR : ¬ B = R := fun h => hRB h.symm
  rw [execArm_cons_some (execArmInst_sdiv m R A B (hB ▸ hb0)), execArm_cons_some (execArmInst_mul _ R R B),
    execArm_cons_some (execArmInst_sub _ R A R)]
  refine ⟨_, rfl, ?_⟩
  simp [hAR, hBR, hA, hB, sdiv_mul_sub a b ha]

/-- The code `translate_mod_int32` emits for a binary instruction: operand loads, the
three instructions of the remainder, and the store of the result when the result has
no register of its own. -/
theorem translate_mod_int32_layout {σ : Type} (env : SelectorEnv σ) (id : Nat)
    (op : IRInstOperator) (arg1 arg2 : Value) (type : IRType) (s : InstSelectorArm32 σ) :
    ∃ s' loads stores R A B,
      translate_mod_int32 env (.Binary id op (some arg1) (some arg2) type) s = some s' ∧
      s'.iloc = s.iloc ++ loads ++
        [.inst "sdiv" (.reg R) (.reg A) (some (.reg B)),
         .inst "mul" (.reg R) (.reg R) (some (.reg B)),
         .inst "sub" (.reg R) (.reg A) (some (.reg R))] ++ stores ∧
      (∀ i ∈ loads, i = .load_var A arg1 ∨ i = .load_var B arg2) ∧
      (∀ i ∈ stores,
        i = .store_var R (.InstructionResult id type) env.ARM32_TMP_REG_NO) := by
  by_cases h1 : env.getRegId arg1 = -1 <;> by_cases h2 : env.getRegId arg2 = -1 <;>
    by_cases h3 : env.getRegId (.InstructionResult id type) = -1
  all_goals simp only [translate_mod_int32, Instruction.asValue, Instruction.getOperand, h1, h2,
    h3, if_true, if_false, regName]
  · refine ⟨_, [.load_var (env.Allocate arg1 s.simpleRegisterAllocator).1 arg1,
      .load_var (env.Allocate arg2 (env.Allocate arg1 s.simpleRegisterAllocator).2).1 arg2],
      [.store_var (env.Allocate (.InstructionResult id type) (env.Allocate arg2 (env.Allocate arg1 s.simpleRegisterAllocator).2).2).1 (.InstructionResult id type) env.ARM32_TMP_REG_NO],
      (env.Allocate (.InstructionResult id type) (env.Allocate arg2 (env.Allocate arg1 s.simpleRegisterAllocator).2).2).1,
      (env.Allocate arg1 s.simpleRegisterAllocator).1,
      (env.Allocate arg2 (env.Allocate arg1 s.simpleRegisterAllocator).2).1, rfl, ?_, ?_, ?_⟩ <;>
      simp
  · refine ⟨_, [.load_var (env.Allocate arg1 s.simpleRegisterAllocator).1 arg1,
      .load_var (env.Allocate arg2 (env.Allocate arg1 s.simpleRegisterAllocator).2).1 arg2],
      [],
      (env.getRegId (.InstructionResult id type)),
      (env.Allocate arg1 s.simpleRegisterAllocator).1,
      (env.Allocate arg2 (env.Allocate arg1 s.simpleRegisterAllocator).2).1, rfl, ?_, ?_, ?_⟩ <;>
      simp
  · refine ⟨_, [.load_var (env.Allocate arg1 s.simpleRegisterAllocator).1 arg1],
      [.store_var (env.Allocate (.InstructionResult id type) (env.Allocate arg1 s.simpleRegisterAllocator).2).1 (.InstructionResult id type) env.ARM32_TMP_REG_NO],
      (env.Allocate (.InstructionResult id type) (env.Allocate arg1 s.simpleRegisterAllocator).2).1,
      (env.Allocate arg1 s.simpleRegisterAllocator).1,
      (env.getRegId arg2), rfl, ?_, ?_, ?_⟩ <;>
      simp
  · refine ⟨_, [.load_var (env.Allocate arg1 s.simpleRegisterAllocator).1 arg1],
      [],
      (env.getRegId (.InstructionResult id type)),
      (env.Allocate arg1 s.simpleRegisterAllocator).1,
      (env.getRegId arg2), rfl, ?_, ?_, ?_⟩ <;>
      simp
  · refine ⟨_, [.load_var (env.Allocate arg2 s.simpleRegisterAllocator).1 arg2],
      [.store_var (env.Allocate (.InstructionResult id type) (env.Allocate arg2 s.simpleRegisterAllocator).2).1 (.InstructionResult id type) env.ARM32_TMP_REG_NO],
      (env.Allocate (.InstructionResult id type) (env.Allocate arg2 s.simpleRegisterAllocator).2).1,
      (env.getRegId arg1),
      (env.Allocate arg2 s.simpleRegisterAllocator).1, rfl, ?_, ?_, ?_⟩ <;>
      simp
  · refine ⟨_, [.load_var (env.Allocate arg2 s.simpleRegisterAllocator).1 arg2],
      [],
      (env.getRegId (.InstructionResult id type)),
      (env.getRegId arg1),
      (env.Allocate arg2 s.simpleRegisterAllocator).1, rfl, ?_, ?_, ?_⟩ <;>
      simp
  · refine ⟨_, [],
      [.store_var (env.Allocate (.InstructionResult id type) s.simpleRegisterAllocator).1 (.InstructionResult id type) env.ARM32_TMP_REG_NO],
      (env.Allocate (.InstructionResult id type) s.simpleRegisterAllocator).1,
      (env.getRegId arg1),
      (env.getRegId arg2), rfl, ?_, ?_, ?_⟩ <;>
      simp
  · refine ⟨_, [],
      [],
      (env.getRegId (.InstructionResult id type)),
      (env.getRegId arg1),
      (env.getRegId arg2), rfl, ?_, ?_, ?_⟩ <;>
      simp

theorem execArmInst_cmp (m : ArmState) (A B : Int) :
    execArmInst m (.inst "cmp" (.reg A) (.reg B) none) =
      some { m with
        flagN := decide (toInt32 (m.regs A - m.regs B) < 0),
        flagZ := decide (toInt32 (m.regs A - m.regs B) = 0),
        flagC := decide (m.regs B % 4294967296 ≤ m.regs A % 4294967296),
        flagV := decide (toInt32 (m.regs A - m.regs B) ≠ m.regs A - m.regs B) } :=
  rfl

theorem execArmInst_mov (m : ArmState) (R v : Int) :
    execArmInst m (.inst "mov" (.reg R) (.imm v) none) =
      some { m with regs := fun r => if r = R then toInt32 v else m.regs r } :=
  rfl

theorem execArmInst_movcc (m : ArmState) (R v : Int) (op : IRInstOperator) (c : String)
    (hc : relationalName op = some c) :
    execArmInst m (.inst ("mov" ++ c) (.reg R) (.imm v) none) =
      match m.condition c with
      | some true => some { m with regs := fun r => if r = R then toInt32 v else m.regs r }
      | some false => some m
      | none => none := by
  cases op <;> simp [relationalName] at hc <;> subst hc <;> rfl

/-- The flags a 32-bit comparison leaves decide the six relations as the signed order of
the operands. -/
theorem cmp_condition (a b : Int) (ha : -2147483648 ≤ a ∧ a < 2147483648)
    (hb : -2147483648 ≤ b ∧ b < 2147483648) (m : ArmState)
    (hN : m.flagN = decide (toInt32 (a - b) < 0))
    (hZ : m.flagZ = decide (toInt32 (a - b) = 0))
    (hV : m.flagV = decide (toInt32 (a - b) ≠ a - b))
    (op : IRInstOperator) (c : String) (hc : relationalName op = some c) :
    m.condition c = some (decide (evalOperator op a b = 1)) := by
  have key : toInt32 (a - b) = a - b ∨
      (toInt32 (a - b) = a - b - 4294967296 ∧ 2147483648 ≤ a - b) ∨
      (toInt32 (a - b) = a - b + 4294967296 ∧ a - b < -2147483648) := by
    unfold toInt32; omega
  cases op <;> simp [relationalName] at hc <;> subst hc <;>
    simp only [ArmState.condition, evalOperator, hN, hZ, hV, Option.some.injEq] <;>
    rcases key with k | ⟨k, k2⟩ | ⟨k, k2⟩ <;> rw [k] <;>
    rw [Bool.eq_iff_iff] <;> simp <;> omega

/-- The code `translate_cmp_int32` emits for a binary instruction: operand loads, the
comparison, the default 0, the predicated 1, and the store of the result when the
result has no register of its own. -/
theorem translate_cmp_int32_layout {σ : Type} (env : SelectorEnv σ) (id : Nat)
    (op : IRInstOperator) (arg1 arg2 : Value) (type : IRType) (condition : String)
    (s : InstSelectorArm32 σ) :
    ∃ s' loads stores R A B,
      translate_cmp_int32 env (.Binary id op (some arg1) (some arg2) type) condition s =
        some s' ∧
      s'.iloc = s.iloc ++ loads ++
        [.inst "cmp" (.reg A) (.reg B) none,
         .inst "mov" (.reg R) (.imm 0) none,
         .inst ("mov" ++ condition) (.reg R) (.imm 1) none] ++ stores ∧
      (∀ i ∈ loads, i = .load_var A arg1 ∨ i = .load_var B arg2) ∧
      (∀ i ∈ stores,
        i = .store_var R (.InstructionResult id type) env.ARM32_TMP_REG_NO) := by
  by_cases h1 : env.getRegId arg1 = -1 <;> by_cases h2 : env.getRegId arg2 = -1 <;>
    by_cases h3 : env.getRegId (.InstructionResult id type) = -1
  all_goals simp only [translate_cmp_int32, Instruction.asValue, Instruction.getOperand, h1, h2,
    h3, if_true, if_false, regName]
  · refine ⟨_, [.load_var (env.Allocate arg1 s.simpleRegisterAllocator).1 arg1,
      .load_var (env.Allocate arg2 (env.Allocate arg1 s.simpleRegisterAllocator).2).1 arg2],
      [.store_var (env.Allocate (.InstructionResult id type) (env.Allocate arg2 (env.Allocate arg1 s.simpleRegisterAllocator).2).2).1 (.InstructionResult id type) env.ARM32_TMP_REG_NO],
      (env.Allocate (.InstructionResult id type) (env.Allocate arg2 (env.Allocate arg1 s.simpleRegisterAllocator).2).2).1,
      (env.Allocate arg1 s.simpleRegisterAllocator).1,
      (env.Allocate arg2 (env.Allocate arg1 s.simpleRegisterAllocator).2).1, rfl, ?_, ?_, ?_⟩ <;>
      simp
  · refine ⟨_, [.load_var (env.Allocate arg1 s.simpleRegisterAllocator).1 arg1,
      .load_var (env.Allocate arg2 (env.Allocate arg1 s.simpleRegisterAllocator).2).1 arg2],
      [],
      (env.getRegId (.InstructionResult id type)),
      (env.Allocate arg1 s.simpleRegisterAllocator).1,
      (env.Allocate arg2 (env.Allocate arg1 s.simpleRegisterAllocator).2).1, rfl, ?_, ?_, ?_⟩ <;>
      simp
  · refine ⟨_, [.load_var (env.Allocate arg1 s.simpleRegisterAllocator).1 arg1],
      [.store_var (env.Allocate (.InstructionResult id type) (env.Allocate arg1 s.simpleRegisterAllocator).2).1 (.InstructionResult id type) env.ARM32_TMP_REG_NO],
      (env.Allocate (.InstructionResult id type) (env.Allocate arg1 s.simpleRegisterAllocator).2).1,
      (env.Allocate arg1 s.simpleRegisterAllocator).1,
      (env.getRegId arg2), rfl, ?_, ?_, ?_⟩ <;>
      simp
  · refine ⟨_, [.load_var (env.Allocate arg1 s.simpleRegisterAllocator).1 arg1],
      [],
      (env.getRegId (.InstructionResult id type)),
      (env.Allocate arg1 s.simpleRegisterAllocator).1,
      (env.getRegId arg2), rfl, ?_, ?_, ?_⟩ <;>
      simp
  · refine ⟨_, [.load_var (env.Allocate arg2 s.simpleRegisterAllocator).1 arg2],
      [.store_var (env.Allocate (.InstructionResult id type) (env.Allocate arg2 s.simpleRegisterAllocator).2).1 (.InstructionResult id type) env.ARM32_TMP_REG_NO],
      (env.Allocate (.InstructionResult id type) (env.Allocate arg2 s.simpleRegisterAllocator).2).1,
      (env.getRegId arg1),
      (env.Allocate arg2 s.simpleRegisterAllocator).1, rfl, ?_, ?_, ?_⟩ <;>
      simp
  · refine ⟨_, [.load_var (env.Allocate arg2 s.simpleRegisterAllocator).1 arg2],
      [],
      (env.getRegId (.InstructionResult id type)),
      (env.getRegId arg1),
      (env.Allocate arg2 s.simpleRegisterAllocator).1, rfl, ?_, ?_, ?_⟩ <;>
      simp
  · refine ⟨_, [],
      [.store_var (env.Allocate (.InstructionResult id type) s.simpleRegisterAllocator).1 (.InstructionResult id type) env.ARM32_TMP_REG_NO],
      (env.Allocate (.InstructionResult id type) s.simpleRegisterAllocator).1,
      (env.getRegId arg1),
      (env.getRegId arg2), rfl, ?_, ?_, ?_⟩ <;>
      simp
  · refine ⟨_, [],
      [],
      (env.getRegId (.InstructionResult id type)),
      (env.getRegId arg1),
      (env.getRegId arg2), rfl, ?_, ?_, ?_⟩ <;>
      simp

/-- The table binds each relational opcode to the handler that passes the name of the
opcode as the condition. -/
theorem translate_relational {σ : Type} (env : SelectorEnv σ) (id : Nat)
    (op : IRInstOperator) (src1 src2 : Option Value) (type : IRType) (c : String)
    (hc : relationalName op = some c) (s : InstSelectorArm32 σ) :
    translate env (.Binary id op src1 src2 type) s =
      translate_cmp_int32 env (.Binary id op src1 src2 type) c s := by
  cases op <;> simp [relationalName] at hc <;> subst hc <;> rfl

theorem evalOperator_relational (op : IRInstOperator) (c : String)
    (hc : relationalName op = some c) (a b : Int) :
    evalOperator op a b = 0 ∨ evalOperator op a b = 1 := by
  cases op <;> simp [relationalName] at hc <;> simp only [evalOperator] <;> split_ifs <;> simp

/-- The three instructions of a comparison, run from a state where `A` holds `a` and `B`
holds `b`, leave in `R` the truth value of the relation. -/
theorem cmp_sequence_sem (m : ArmState) (R A B a b : Int) (op : IRInstOperator) (c : String)
    (hc : relationalName op = some c)
    (ha : -2147483648 ≤ a ∧ a < 2147483648) (hb : -2147483648 ≤ b ∧ b < 2147483648)
    (hA : m.regs A = a) (hB : m.regs B = b) :
    ∃ m', execArm m
        [.inst "cmp" (.reg A) (.reg B) none,
         .inst "mov" (.reg R) (.imm 0) none,
         .inst ("mov" ++ c) (.reg R) (.imm 1) none] = some m' ∧
      m'.regs R = evalOperator op a b := by
  rw [execArm_cons_some (execArmInst_cmp m A B), execArm_cons_some (execArmInst_mov _ R 0)]
  simp only [execArm, execArmInst_movcc _ R 1 op c hc]
  rw [cmp_condition a b ha hb _ (by simp [hA, hB]) (by simp [hA, hB]) (by simp [hA, hB]) op c hc]
  rcases evalOperator_relational op c hc a b with h | h
  · simp [h, toInt32]
  · simp [h, toInt32]

/-- Claim C35: for a remainder instruction with both operands, `translate_mod_int32`
(reached through the table for the opcode mod) emits, after the loads of the operands
that have no register, exactly `sdiv R, A, B`, `mul R, R, B`, `sub R, A, R`, followed
only by the store of the result when the result has no register; run on a machine
where `A` holds a 32-bit value `a`, `B` holds `b ≠ 0` and `R` is neither `A` nor `B`,
the three instructions leave `a - (a / b) * b` in `R` (truncating division), which is
the remainder of `a` by `b`. -/
theorem mod_synthesis {σ : Type} (env : SelectorEnv σ) (id : Nat) (arg1 arg2 : Value)
    (type : IRType) (s : InstSelectorArm32 σ) (a b : Int)
    (ha : -2147483648 ≤ a ∧ a < 2147483648) (hb0 : b ≠ 0) :
    ∃ s' loads stores R A B,
      translate env (.Binary id .IRINST_OP_MOD_I (some arg1) (some arg2) type) s = some s' ∧
      translate_mod_int32 env (.Binary id .IRINST_OP_MOD_I (some arg1) (some arg2) type) s =
        some s' ∧
      s'.iloc = s.iloc ++ loads ++
        [.inst "sdiv" (.reg R) (.reg A) (some (.reg B)),
         .inst "mul" (.reg R) (.reg R) (some (.reg B)),
         .inst "sub" (.reg R) (.reg A) (some (.reg R))] ++ stores ∧
      (∀ i ∈ loads, i = .load_var A arg1 ∨ i = .load_var B arg2) ∧
      (∀ i ∈ stores,
        i = .store_var R (.InstructionResult id type) env.ARM32_TMP_REG_NO) ∧
      ∀ m : ArmState, m.regs A = a → m.regs B = b → R ≠ A → R ≠ B →
        ∃ m', execArm m
            [.inst "sdiv" (.reg R) (.reg A) (some (.reg B)),
             .inst "mul" (.reg R) (.reg R) (some (.reg B)),
             .inst "sub" (.reg R) (.reg A) (some (.reg R))] = some m' ∧
          m'.regs R = a - Int.tdiv a b * b ∧ a - Int.tdiv a b * b = Int.tmod a b := by
  obtain ⟨s', loads, stores, R, A, B, h1, h2, h3, h4⟩ :=
    translate_mod_int32_layout env id .IRINST_OP_MOD_I arg1 arg2 type s
  refine ⟨s', loads, stores, R, A, B, h1, h1, h2, h3, h4, fun m hA hB hRA hRB => ?_⟩
  obtain ⟨m', e1, e2⟩ := mod_sequence_sem m R A B a b ha hb0 hA hB hRA hRB
  refine ⟨m', e1, e2, ?_⟩
  have := Int.tmod_add_tdiv' a b
  omega

/-- Witness of C35: `%3 = mod x, y` with no value in a register and an allocator that
hands out r4, r5, r6; with -7 in r4 and 2 in r5 the sequence leaves -1 in r6. -/
theorem mod_synthesis_witness :
    (∃ s' loads stores R A B,
      translate exSelectorEnv exModInst ⟨0, []⟩ = some s' ∧
      translate_mod_int32 exSelectorEnv exModInst ⟨0, []⟩ = some s' ∧
      s'.iloc = [] ++ loads ++
        [.inst "sdiv" (.reg R) (.reg A) (some (.reg B)),
         .inst "mul" (.reg R) (.reg R) (some (.reg B)),
         .inst "sub" (.reg R) (.reg A) (some (.reg R))] ++ stores ∧
      (∀ i ∈ loads, i = .load_var A (.LocalVariable 0 .int32 "x") ∨
        i = .load_var B (.LocalVariable 1 .int32 "y")) ∧
      (∀ i ∈ stores, i = .store_var R (.InstructionResult 3 .int32) 10) ∧
      ∀ m : ArmState, m.regs A = -7 → m.regs B = 2 → R ≠ A → R ≠ B →
        ∃ m', execArm m
            [.inst "sdiv" (.reg R) (.reg A) (some (.reg B)),
             .inst "mul" (.reg R) (.reg R) (some (.reg B)),
             .inst "sub" (.reg R) (.reg A) (some (.reg R))] = some m' ∧
          m'.regs R = -7 - Int.tdiv (-7) 2 * 2 ∧
          -7 - Int.tdiv (-7) 2 * 2 = Int.tmod (-7) 2) ∧
      (translate exSelectorEnv exModInst ⟨0, []⟩).map (fun s => s.iloc) =
        some [.load_var 4 (.LocalVariable 0 .int32 "x"),
              .load_var 5 (.LocalVariable 1 .int32 "y"),
              .inst "sdiv" (.reg 6) (.reg 4) (some (.reg 5)),
              .inst "mul" (.reg 6) (.reg 6) (some (.reg 5)),
              .inst "sub" (.reg 6) (.reg 4) (some (.reg 6)),
              .store_var 6 (.InstructionResult 3 .int32) 10] ∧
      (execArm exArmState
          [.inst "sdiv" (.reg 6) (.reg 4) (some (.reg 5)),
           .inst "mul" (.reg 6) (.reg 6) (some (.reg 5)),
           .inst "sub" (.reg 6) (.reg 4) (some (.reg 6))]).map (fun m => m.regs 6) =
        some (-1) ∧
      Int.tmod (-7) 2 = -1 :=
  ⟨mod_synthesis exSelectorEnv 3 (.LocalVariable 0 .int32 "x") (.LocalVariable 1 .int32 "y")
      .int32 ⟨0, []⟩ (-7) 2 (by decide) (by decide),
    by decide, by rfl, by decide⟩

/-- Claim C36: for a relational instruction with opcode lt, gt, le, ge, eq or ne and
both operands, the selector emits, after the loads of the operands that have no
register, exactly `cmp A, B`, `mov R, #0`, `mov<c> R, #1`, where `c` is the name of the
opcode, followed only by the store of the result when the result has no register; run
on a machine where `A` and `B` hold the 32-bit values `a` and `b`, the three
instructions leave in `R` the value 1 when the relation holds between `a` and `b` as
signed integers and 0 otherwise (`evalOperator` of the opcode). -/
theorem relational_synthesis {σ : Type} (env : SelectorEnv σ) (id : Nat)
    (op : IRInstOperator) (c : String) (arg1 arg2 : Value) (type : IRType)
    (s : InstSelectorArm32 σ) (a b : Int)
    (hc : relationalName op = some c)
    (ha : -2147483648 ≤ a ∧ a < 2147483648) (hb : -2147483648 ≤ b ∧ b < 2147483648) :
    ∃ s' loads stores R A B,
      translate env (.Binary id op (some arg1) (some arg2) type) s = some s' ∧
      s'.iloc = s.iloc ++ loads ++
        [.inst "cmp" (.reg A) (.reg B) none,
         .inst "mov" (.reg R) (.imm 0) none,
         .inst ("mov" ++ c) (.reg R) (.imm 1) none] ++ stores ∧
      (∀ i ∈ loads, i = .load_var A arg1 ∨ i = .load_var B arg2) ∧
      (∀ i ∈ stores,
        i = .store_var R (.InstructionResult id type) env.ARM32_TMP_REG_NO) ∧
      ∀ m : ArmState, m.regs A = a → m.regs B = b →
        ∃ m', execArm m
            [.inst "cmp" (.reg A) (.reg B) none,
             .inst "mov" (.reg R) (.imm 0) none,
             .inst ("mov" ++ c) (.reg R) (.imm 1) none] = some m' ∧
          m'.regs R = evalOperator op a b ∧
          (evalOperator op a b = 0 ∨ evalOperator op a b = 1) := by
  obtain ⟨s', loads, stores, R, A, B, h1, h2, h3, h4⟩ :=
    translate_cmp_int32_layout env id op arg1 arg2 type c s
  refine ⟨s', loads, stores, R, A, B, ?_, h2, h3, h4, fun m hA hB => ?_⟩
  · rw [translate_relational env id op _ _ type c hc]; exact h1
  · obtain ⟨m', e1, e2⟩ := cmp_sequence_sem m R A B a b op c hc ha hb hA hB
    exact ⟨m', e1, e2, evalOperator_relational op c hc a b⟩

/-- Witness of C36: `%3 = le x, y`; with -7 and 2 in the operand registers the result is
1, with the operands exchanged it is 0. -/
theorem relational_synthesis_witness :
    (∃ s' loads stores R A B,
      translate exSelectorEnv exLeInst ⟨0, []⟩ = some s' ∧
      s'.iloc = [] ++ loads ++
        [.inst "cmp" (.reg A) (.reg B) none,
         .inst "mov" (.reg R) (.imm 0) none,
         .inst ("mov" ++ "le") (.reg R) (.imm 1) none] ++ stores ∧
      (∀ i ∈ loads, i = .load_var A (.LocalVariable 0 .int32 "x") ∨
        i = .load_var B (.LocalVariable 1 .int32 "y")) ∧
      (∀ i ∈ stores, i = .store_var R (.InstructionResult 3 .bool) 10) ∧
      ∀ m : ArmState, m.regs A = -7 → m.regs B = 2 →
        ∃ m', execArm m
            [.inst "cmp" (.reg A) (.reg B) none,
             .inst "mov" (.reg R) (.imm 0) none,
             .inst ("mov" ++ "le") (.reg R) (.imm 1) none] = some m' ∧
          m'.regs R = evalOperator .IRINST_OP_LE_I (-7) 2 ∧
          (evalOperator .IRINST_OP_LE_I (-7) 2 = 0 ∨
            evalOperator .IRINST_OP_LE_I (-7) 2 = 1)) ∧
      (translate exSelectorEnv exLeInst ⟨0, []⟩).map (fun s => s.iloc) =
        some [.load_var 4 (.LocalVariable 0 .int32 "x"),
              .load_var 5 (.LocalVariable 1 .int32 "y"),
              .inst "cmp" (.reg 4) (.reg 5) none,
              .inst "mov" (.reg 6) (.imm 0) none,
              .inst "movle" (.reg 6) (.imm 1) none,
              .store_var 6 (.InstructionResult 3 .bool) 10] ∧
      (execArm exArmState
          [.inst "cmp" (.reg 4) (.reg 5) none,
           .inst "mov" (.reg 6) (.imm 0) none,
           .inst "movle" (.reg 6) (.imm 1) none]).map (fun m => m.regs 6) = some 1 ∧
      (execArm exArmState
          [.inst "cmp" (.reg 5) (.reg 4) none,
           .inst "mov" (.reg 6) (.imm 0) none,
           .inst "movle" (.reg 6) (.imm 1) none]).map (fun m => m.regs 6) = some 0 :=
  ⟨relational_synthesis exSelectorEnv 3 .IRINST_OP_LE_I "le" (.LocalVariable 0 .int32 "x")
      (.LocalVariable 1 .int32 "y") .bool ⟨0, []⟩ (-7) 2 rfl (by decide) (by decide),
    by decide, by rfl, by rfl⟩

/-! ### Comparisons have result type Bool -/

set_option linter.unusedTactic false
set_option linter.unreachableTactic false

theorem codeTyped_nil : CodeTyped [] := by
  intro inst h; simp at h

theorem codeTyped_append {a b : List Instruction} (ha : CodeTyped a) (hb : CodeTyped b) :
    CodeTyped (a ++ b) := by
  intro inst h
  rcases List.mem_append.mp h with h | h
  · exact ha inst h
  · exact hb inst h

theorem codeTyped_cons {inst : Instruction} {a : List Instruction} (h1 : inst.cmpTyped)
    (ha : CodeTyped a) : CodeTyped (inst :: a) := by
  intro i h
  rcases List.mem_cons.mp h with h | h
  · subst h; exact h1
  · exact ha i h

theorem cmpTyped_bool (id : Nat) (op : IRInstOperator) (a b : Option Value) :
    (Instruction.Binary id op a b .bool).cmpTyped :=
  fun _ => rfl

theorem cmpTyped_of_not {id : Nat} {op : IRInstOperator} {a b : Option Value} {t : IRType}
    (h : op.isComparison = false) : (Instruction.Binary id op a b t).cmpTyped := by
  intro h2; rw [h] at h2; cases h2

theorem typedBy_ok {α : Type} {code : α → List Instruction} {r : α} {g : IRGenerator}
    (hg : StateTyped g.currentFunc g.functions) (hc : CodeTyped (code r)) :
    TypedBy code (some r, g) :=
  ⟨hg, fun r1 h => by cases h; exact hc⟩

theorem typedBy_fail {α : Type} {code : α → List Instruction} {g : IRGenerator}
    (hg : StateTyped g.currentFunc g.functions) : TypedBy code (none, g) :=
  ⟨hg, fun r1 h => by cases h⟩

theorem typedBy_state {α : Type} {code : α → List Instruction} {x : Option α × IRGenerator}
    {r : Option α} {g1 : IRGenerator} (h : x = (r, g1)) (hx : TypedBy code x) :
    StateTyped g1.currentFunc g1.functions := by
  subst h; exact hx.1

theorem typedBy_node {x : Lowered} {r : NodeResult} {g1 : IRGenerator}
    (h : x = (some r, g1)) (hx : TypedBy (fun r : NodeResult => r.blockInsts) x) :
    CodeTyped r.blockInsts := by
  subst h; exact hx.2 r rfl

theorem typedBy_list {x : Option (List Instruction) × IRGenerator} {r : List Instruction}
    {g1 : IRGenerator} (h : x = (some r, g1))
    (hx : TypedBy (fun r : List Instruction => r) x) : CodeTyped r := by
  subst h; exact hx.2 r rfl

theorem typedBy_first {β : Type} {x : Option (List Instruction × β) × IRGenerator}
    {r : List Instruction} {b : β} {g1 : IRGenerator} (h : x = (some (r, b), g1))
    (hx : TypedBy (fun r : List Instruction × β => r.1) x) : CodeTyped r := by
  subst h; exact hx.2 (r, b) rfl

theorem typedNow_intro {α : Type} {code : α → List Instruction} {r : α} {g : IRGenerator}
    (hg : StateTyped g.currentFunc g.functions) (hc : CodeTyped (code r)) :
    TypedNow code (r, g) :=
  ⟨hg, hc⟩

theorem typedNow_state {α : Type} {code : α → List Instruction} {x : α × IRGenerator}
    {r : α} {g1 : IRGenerator} (h : x = (r, g1)) (hx : TypedNow code x) :
    StateTyped g1.currentFunc g1.functions := by
  subst h; exact hx.1

theorem typedNow_node {x : NodeResult × IRGenerator} {r : NodeResult} {g1 : IRGenerator}
    (h : x = (r, g1)) (hx : TypedNow (fun r : NodeResult => r.blockInsts) x) :
    CodeTyped r.blockInsts := by
  subst h; exact hx.2

theorem typedNow_list {x : List Instruction × IRGenerator} {r : List Instruction}
    {g1 : IRGenerator} (h : x = (r, g1)) (hx : TypedNow (fun r : List Instruction => r) x) :
    CodeTyped r := by
  subst h; exact hx.2

theorem typedTriple_intro {insts : List Instruction} {v : Value} {g : IRGenerator}
    (hg : StateTyped g.currentFunc g.functions) (hc : CodeTyped insts) :
    TypedTriple (insts, v, g) :=
  ⟨hg, hc⟩

theorem typedTriple_state {x : List Instruction × Value × IRGenerator}
    {insts : List Instruction} {v : Value} {g1 : IRGenerator} (h : x = (insts, v, g1))
    (hx : TypedTriple x) : StateTyped g1.currentFunc g1.functions := by
  subst h; exact hx.1

theorem typedTriple_code {x : List Instruction × Value × IRGenerator}
    {insts : List Instruction} {v : Value} {g1 : IRGenerator} (h : x = (insts, v, g1))
    (hx : TypedTriple x) : CodeTyped insts := by
  subst h; exact hx.2

theorem typedNow_snd {α : Type} {code : α → List Instruction} {x : α × IRGenerator}
    (hx : TypedNow code x) : StateTyped x.2.currentFunc x.2.functions :=
  hx.1

theorem typedNow_fst_node {x : NodeResult × IRGenerator}
    (hx : TypedNow (fun r : NodeResult => r.blockInsts) x) : CodeTyped x.1.blockInsts :=
  hx.2

theorem typedNow_fst_list {x : List Instruction × IRGenerator}
    (hx : TypedNow (fun r : List Instruction => r) x) : CodeTyped x.1 :=
  hx.2

theorem typedTriple_snd {x : List Instruction × Value × IRGenerator} (hx : TypedTriple x) :
    StateTyped x.2.2.currentFunc x.2.2.functions :=
  hx.1

theorem typedTriple_fst {x : List Instruction × Value × IRGenerator} (hx : TypedTriple x) :
    CodeTyped x.1 :=
  hx.2

theorem eq_state {α : Type} {x : α × IRGenerator} {r : α} {g1 : IRGenerator}
    (h : x = (r, g1)) (hx : StateTyped x.2.currentFunc x.2.functions) :
    StateTyped g1.currentFunc g1.functions := by
  subst h; exact hx

theorem slotTyped_none : SlotTyped none :=
  fun _ h => nomatch h

theorem functionTyped_new (name : String) (t : IRType) (ps : List Value) :
    FunctionTyped { name := name, returnType := t, params := ps } :=
  ⟨codeTyped_nil, slotTyped_none, slotTyped_none⟩

theorem none_typed : ∀ fn : Function, (none : Option Function) = some fn → FunctionTyped fn :=
  fun _ h => nomatch h

theorem some_typed {f : Function} (hf : FunctionTyped f) :
    ∀ fn : Function, some f = some fn → FunctionTyped fn := by
  intro fn h; cases h; exact hf

theorem functionTyped_of_same {f f' : Function} (h1 : f'.interCode = f.interCode)
    (h2 : f'.extraData = f.extraData) (hf : FunctionTyped f) : FunctionTyped f' := by
  unfold FunctionTyped at *
  rw [h1, h2]; exact hf

theorem updateCurrent_typed {g : IRGenerator} {u : Function → Function}
    (hu : ∀ f, FunctionTyped f → FunctionTyped (u f))
    (hg : StateTyped g.currentFunc g.functions) :
    StateTyped (g.updateCurrent u).currentFunc (g.updateCurrent u).functions := by
  refine ⟨fun f hf => ?_, hg.2⟩
  unfold IRGenerator.updateCurrent at hf
  cases hc : g.currentFunc with
  | none => rw [hc] at hf; exact nomatch hf
  | some f0 =>
    rw [hc] at hf
    simp only [Option.map_some', Option.some.injEq] at hf
    subst hf
    exact hu _ (hg.1 _ hc)

theorem setLoopLabels_typed {g : IRGenerator} {b c : Option Nat}
    (hg : StateTyped g.currentFunc g.functions) :
    StateTyped (g.setLoopLabels b c).currentFunc (g.setLoopLabels b c).functions :=
  updateCurrent_typed (fun _ hf => functionTyped_of_same rfl rfl hf) hg

theorem noteCall_typed {g : IRGenerator} {n : Nat}
    (hg : StateTyped g.currentFunc g.functions) :
    StateTyped (g.noteCall n).currentFunc (g.noteCall n).functions := by
  refine updateCurrent_typed (fun f hf => ?_)
    (updateCurrent_typed (fun _ hf => functionTyped_of_same rfl rfl hf) hg)
  split
  · exact ⟨hf.1, hf.2.1, hf.2.2⟩
  · exact hf

theorem addInst_typed {g : IRGenerator} {insts : List Instruction} (hc : CodeTyped insts)
    (hg : StateTyped g.currentFunc g.functions) :
    StateTyped (g.addInst insts).currentFunc (g.addInst insts).functions :=
  updateCurrent_typed (fun _ hf => ⟨codeTyped_append hf.1 hc, hf.2.1, hf.2.2⟩) hg

theorem setCurrentFunction_typed {g : IRGenerator} {f : Option Function}
    (hf : ∀ fn, f = some fn → FunctionTyped fn)
    (hg : StateTyped g.currentFunc g.functions) :
    StateTyped (g.setCurrentFunction f).currentFunc (g.setCurrentFunction f).functions := by
  cases f with
  | some fn =>
    refine ⟨fun f0 h0 => ?_, hg.2⟩
    simp only [IRGenerator.setCurrentFunction, Option.some.injEq] at h0
    subst h0
    exact hf _ rfl
  | none =>
    simp only [IRGenerator.setCurrentFunction]
    split
    · exact hg
    · rename_i cur hc
      refine ⟨none_typed, fun f0 h0 => ?_⟩
      simp only [List.mem_map] at h0
      obtain ⟨h, hmem, rfl⟩ := h0
      split
      · exact hg.1 _ hc
      · exact hg.2 _ hmem

theorem findFunction_typed {g : IRGenerator} {name : String} {f : Function}
    (h : g.findFunction name = some f) (hg : StateTyped g.currentFunc g.functions) :
    FunctionTyped f :=
  hg.2 _ (List.mem_of_find?_eq_some h)

theorem newFunction_typed (g : IRGenerator) (name : String) (t : IRType) (ps : List Value)
    (hg : StateTyped g.currentFunc g.functions) :
    StateTyped (g.newFunction name t ps).2.currentFunc (g.newFunction name t ps).2.functions ∧
      ∀ f, (g.newFunction name t ps).1 = some f → FunctionTyped f := by
  simp only [IRGenerator.newFunction]
  split
  · exact ⟨hg, fun f h => nomatch h⟩
  · refine ⟨⟨hg.1, fun f hf => ?_⟩, fun f h => ?_⟩
    · rcases List.mem_append.mp hf with h | h
      · exact hg.2 _ h
      · simp only [List.mem_singleton] at h
        subst h
        exact functionTyped_new _ _ _
    · simp only [Option.some.injEq] at h
      subst h
      exact functionTyped_new _ _ _

/-- The conversion `int_to_bool` leaves a comparison of type Bool and a move in the
slots of the current function. -/
theorem int_to_bool_typed (val : Value) (g : IRGenerator)
    (hg : StateTyped g.currentFunc g.functions) :
    TypedBy (fun _ => []) (int_to_bool val g) := by
  simp only [int_to_bool, IRGenerator.getCurrentFunction, IRGenerator.newVarValue,
    IRGenerator.newBinary]
  split
  · exact typedBy_fail hg
  · split
    · exact typedBy_ok hg codeTyped_nil
    · refine typedBy_ok (updateCurrent_typed (fun f hf => ?_) hg) codeTyped_nil
      refine ⟨hf.1, fun inst h => ?_, fun inst h => ?_⟩
      · simp only [Option.some.injEq] at h; subst h; exact cmpTyped_bool _ _ _ _
      · simp only [Option.some.injEq] at h; subst h; exact trivial

/-- The instructions taken out of the slots are well typed. -/
theorem takeBoolCheck_typed (g : IRGenerator)
    (hg : StateTyped g.currentFunc g.functions) :
    TypedNow (fun r : List Instruction => r) (takeBoolCheck g) := by
  simp only [takeBoolCheck]
  split
  · exact typedNow_intro hg codeTyped_nil
  · rename_i func hfunc
    split
    · exact typedNow_intro hg codeTyped_nil
    · rename_i inst hinst
      refine typedNow_intro (updateCurrent_typed (fun f hf => ?_) hg) ?_
      · exact ⟨hf.1, slotTyped_none, slotTyped_none⟩
      · refine codeTyped_cons ((hg.1 _ hfunc).2.1 _ hinst) ?_
        split
        · rename_i mv hmv
          exact codeTyped_cons ((hg.1 _ hfunc).2.2 _ hmv) codeTyped_nil
        · exact codeTyped_nil

theorem codeTyped_globalInitMoves (g : IRGenerator) (table : List (String × Int)) :
    CodeTyped (globalInitMoves g table) := by
  induction table with
  | nil => exact codeTyped_nil
  | cons entry rest ih =>
    obtain ⟨varName, initValue⟩ := entry
    simp only [globalInitMoves]
    split
    · exact codeTyped_cons trivial ih
    · exact ih

theorem ir_default_typed (node : ast_node)
    (g : IRGenerator) (hg : StateTyped g.currentFunc g.functions) :
    TypedBy (fun r : NodeResult => r.blockInsts) (ir_default node g) := by
  simp only [ir_default, IRGenerator.setLastError, IRGenerator.newBinary,
      IRGenerator.newLabel, IRGenerator.newVarValue,
      IRGenerator.newVarValueWithValue, IRGenerator.getCurrentFunction,
      IRGenerator.enterScope, IRGenerator.leaveScope, IRGenerator.newFormalParam]
  repeat' split
  all_goals
    repeat (first
      | assumption
      | exact codeTyped_nil
      | exact trivial
      | exact cmpTyped_bool _ _ _ _
      | exact cmpTyped_of_not rfl
      | refine typedBy_ok ?_ ?_
      | refine typedBy_fail ?_
      | refine codeTyped_append ?_ ?_
      | refine codeTyped_cons ?_ ?_
      | dsimp only
      | split)

theorem ir_leaf_node_type_typed (node : ast_node)
    (g : IRGenerator) (hg : StateTyped g.currentFunc g.functions) :
    TypedBy (fun r : NodeResult => r.blockInsts) (ir_leaf_node_type node g) := by
  simp only [ir_leaf_node_type, IRGenerator.setLastError, IRGenerator.newBinary,
      IRGenerator.newLabel, IRGenerator.newVarValue,
      IRGenerator.newVarValueWithValue, IRGenerator.getCurrentFunction,
      IRGenerator.enterScope, IRGenerator.leaveScope, IRGenerator.newFormalParam]
  repeat' split
  all_goals
    repeat (first
      | assumption
      | exact codeTyped_nil
      | exact trivial
      | exact cmpTyped_bool _ _ _ _
      | exact cmpTyped_of_not rfl
      | refine typedBy_ok ?_ ?_
      | refine typedBy_fail ?_
      | refine codeTyped_append ?_ ?_
      | refine codeTyped_cons ?_ ?_
      | dsimp only
      | split)

theorem ir_empty_stmt_typed (node : ast_node)
    (g : IRGenerator) (hg : StateTyped g.currentFunc g.functions) :
    TypedBy (fun r : NodeResult => r.blockInsts) (ir_empty_stmt node g) := by
  simp only [ir_empty_stmt, IRGenerator.setLastError, IRGenerator.newBinary,
      IRGenerator.newLabel, IRGenerator.newVarValue,
      IRGenerator.newVarValueWithValue, IRGenerator.getCurrentFunction,
      IRGenerator.enterScope, IRGenerator.leaveScope, IRGenerator.newFormalParam]
  repeat' split
  all_goals
    repeat (first
      | assumption
      | exact codeTyped_nil
      | exact trivial
      | exact cmpTyped_bool _ _ _ _
      | exact cmpTyped_of_not rfl
      | refine typedBy_ok ?_ ?_
      | refine typedBy_fail ?_
      | refine codeTyped_append ?_ ?_
      | refine codeTyped_cons ?_ ?_
      | dsimp only
      | split)

theorem ir_function_formal_param_array_typed (node : ast_node)
    (g : IRGenerator) (hg : StateTyped g.currentFunc g.functions) :
    TypedBy (fun r : NodeResult => r.blockInsts) (ir_function_formal_param_array node g) := by
  simp only [ir_function_formal_param_array, IRGenerator.setLastError,
      IRGenerator.newBinary, IRGenerator.newLabel, IRGenerator.newVarValue,
      IRGenerator.newVarValueWithValue, IRGenerator.getCurrentFunction,
      IRGenerator.enterScope, IRGenerator.leaveScope, IRGenerator.newFormalParam]
  repeat' split
  all_goals
    repeat (first
      | assumption
      | exact codeTyped_nil
      | exact trivial
      | exact cmpTyped_bool _ _ _ _
      | exact cmpTyped_of_not rfl
      | refine typedBy_ok ?_ ?_
      | refine typedBy_fail ?_
      | refine codeTyped_append ?_ ?_
      | refine codeTyped_cons ?_ ?_
      | dsimp only
      | split)

theorem ir_leaf_node_uint_typed (node : ast_node)
    (g : IRGenerator) (hg : StateTyped g.currentFunc g.functions) :
    TypedBy (fun r : NodeResult => r.blockInsts) (ir_leaf_node_uint node g) := by
  simp only [ir_leaf_node_uint, IRGenerator.setLastError, IRGenerator.newBinary,
      IRGenerator.newLabel, IRGenerator.newVarValue,
      IRGenerator.newVarValueWithValue, IRGenerator.getCurrentFunction,
      IRGenerator.enterScope, IRGenerator.leaveScope, IRGenerator.newFormalParam]
  repeat' split
  all_goals
    repeat (first
      | assumption
      | exact codeTyped_nil
      | exact trivial
      | exact cmpTyped_bool _ _ _ _
      | exact cmpTyped_of_not rfl
      | refine typedBy_ok ?_ ?_
      | refine typedBy_fail ?_
      | refine codeTyped_append ?_ ?_
      | refine codeTyped_cons ?_ ?_
      | dsimp only
      | split)

theorem ir_leaf_node_var_id_typed (node : ast_node)
    (g : IRGenerator) (hg : StateTyped g.currentFunc g.functions) :
    TypedBy (fun r : NodeResult => r.blockInsts) (ir_leaf_node_var_id node g) := by
  simp only [ir_leaf_node_var_id, IRGenerator.setLastError, IRGenerator.newBinary,
      IRGenerator.newLabel, IRGenerator.newVarValue,
      IRGenerator.newVarValueWithValue, IRGenerator.getCurrentFunction,
      IRGenerator.enterScope, IRGenerator.leaveScope, IRGenerator.newFormalParam]
  repeat' split
  all_goals
    repeat (first
      | assumption
      | exact codeTyped_nil
      | exact trivial
      | exact cmpTyped_bool _ _ _ _
      | exact cmpTyped_of_not rfl
      | refine typedBy_ok ?_ ?_
      | refine typedBy_fail ?_
      | refine codeTyped_append ?_ ?_
      | refine codeTyped_cons ?_ ?_
      | dsimp only
      | split)

theorem ir_break_typed (node : ast_node)
    (g : IRGenerator) (hg : StateTyped g.currentFunc g.functions) :
    TypedBy (fun r : NodeResult => r.blockInsts) (ir_break node g) := by
  simp only [ir_break, IRGenerator.setLastError, IRGenerator.newBinary,
      IRGenerator.newLabel, IRGenerator.newVarValue,
      IRGenerator.newVarValueWithValue, IRGenerator.getCurrentFunction,
      IRGenerator.enterScope, IRGenerator.leaveScope, IRGenerator.newFormalParam]
  repeat' split
  all_goals
    repeat (first
      | assumption
      | exact codeTyped_nil
      | exact trivial
      | exact cmpTyped_bool _ _ _ _
      | exact cmpTyped_of_not rfl
      | refine typedBy_ok ?_ ?_
      | refine typedBy_fail ?_
      | refine codeTyped_append ?_ ?_
      | refine codeTyped_cons ?_ ?_
      | dsimp only
      | split)

theorem ir_continue_typed (node : ast_node)
    (g : IRGenerator) (hg : StateTyped g.currentFunc g.functions) :
    TypedBy (fun r : NodeResult => r.blockInsts) (ir_continue node g) := by
  simp only [ir_continue, IRGenerator.setLastError, IRGenerator.newBinary,
      IRGenerator.newLabel, IRGenerator.newVarValue,
      IRGenerator.newVarValueWithValue, IRGenerator.getCurrentFunction,
      IRGenerator.enterScope, IRGenerator.leaveScope, IRGenerator.newFormalParam]
  repeat' split
  all_goals
    repeat (first
      | assumption
      | exact codeTyped_nil
      | exact trivial
      | exact cmpTyped_bool _ _ _ _
      | exact cmpTyped_of_not rfl
      | refine typedBy_ok ?_ ?_
      | refine typedBy_fail ?_
      | refine codeTyped_append ?_ ?_
      | refine codeTyped_cons ?_ ?_
      | dsimp only
      | split)

theorem ir_add_typed {visit : Visitor} (hv : VisitorTyped visit) (node : ast_node)
    (g : IRGenerator) (hg : StateTyped g.currentFunc g.functions) :
    TypedBy (fun r : NodeResult => r.blockInsts) (ir_add visit node g) := by
  simp only [ir_add, IRGenerator.setLastError, IRGenerator.newBinary, IRGenerator.newLabel,
      IRGenerator.newVarValue, IRGenerator.newVarValueWithValue,
      IRGenerator.getCurrentFunction, IRGenerator.enterScope,
      IRGenerator.leaveScope, IRGenerator.newFormalParam]
  repeat' split
  all_goals
    repeat (first
      | assumption
      | exact codeTyped_nil
      | exact trivial
      | exact cmpTyped_bool _ _ _ _
      | exact cmpTyped_of_not rfl
      | refine typedBy_ok ?_ ?_
      | refine typedBy_fail ?_
      | refine codeTyped_append ?_ ?_
      | refine codeTyped_cons ?_ ?_
      | refine typedBy_state (by assumption) (hv _ _ ?_)
      | refine typedBy_node (by assumption) (hv _ _ ?_)
      | refine hv _ _ ?_
      | dsimp only
      | split)

theorem ir_mul_typed {visit : Visitor} (hv : VisitorTyped visit) (node : ast_node)
    (g : IRGenerator) (hg : StateTyped g.currentFunc g.functions) :
    TypedBy (fun r : NodeResult => r.blockInsts) (ir_mul visit node g) := by
  simp only [ir_mul, IRGenerator.setLastError, IRGenerator.newBinary, IRGenerator.newLabel,
      IRGenerator.newVarValue, IRGenerator.newVarValueWithValue,
      IRGenerator.getCurrentFunction, IRGenerator.enterScope,
      IRGenerator.leaveScope, IRGenerator.newFormalParam]
  repeat' split
  all_goals
    repeat (first
      | assumption
      | exact codeTyped_nil
      | exact trivial
      | exact cmpTyped_bool _ _ _ _
      | exact cmpTyped_of_not rfl
      | refine typedBy_ok ?_ ?_
      | refine typedBy_fail ?_
      | refine codeTyped_append ?_ ?_
      | refine codeTyped_cons ?_ ?_
      | refine typedBy_state (by assumption) (hv _ _ ?_)
      | refine typedBy_node (by assumption) (hv _ _ ?_)
      | refine hv _ _ ?_
      | dsimp only
      | split)

theorem ir_sub_typed {visit : Visitor} (hv : VisitorTyped visit) (node : ast_node)
    (g : IRGenerator) (hg : StateTyped g.currentFunc g.functions) :
    TypedBy (fun r : NodeResult => r.blockInsts) (ir_sub visit node g) := by
  simp only [ir_sub, ir_binary_unchecked, IRGenerator.setLastError, IRGenerator.newBinary,
      IRGenerator.newLabel, IRGenerator.newVarValue,
      IRGenerator.newVarValueWithValue, IRGenerator.getCurrentFunction,
      IRGenerator.enterScope, IRGenerator.leaveScope, IRGenerator.newFormalParam]
  repeat' split
  all_goals
    repeat (first
      | assumption
      | exact codeTyped_nil
      | exact trivial
      | exact cmpTyped_bool _ _ _ _
      | exact cmpTyped_of_not rfl
      | refine typedBy_ok ?_ ?_
      | refine typedBy_fail ?_
      | refine codeTyped_append ?_ ?_
      | refine codeTyped_cons ?_ ?_
      | refine typedBy_state (by assumption) (hv _ _ ?_)
      | refine typedBy_node (by assumption) (hv _ _ ?_)
      | refine hv _ _ ?_
      | dsimp only
      | split)

theorem ir_div_typed {visit : Visitor} (hv : VisitorTyped visit) (node : ast_node)
    (g : IRGenerator) (hg : StateTyped g.currentFunc g.functions) :
    TypedBy (fun r : NodeResult => r.blockInsts) (ir_div visit node g) := by
  simp only [ir_div, ir_binary_unchecked, IRGenerator.setLastError, IRGenerator.newBinary,
      IRGenerator.newLabel, IRGenerator.newVarValue,
      IRGenerator.newVarValueWithValue, IRGenerator.getCurrentFunction,
      IRGenerator.enterScope, IRGenerator.leaveScope, IRGenerator.newFormalParam]
  repeat' split
  all_goals
    repeat (first
      | assumption
      | exact codeTyped_nil
      | exact trivial
      | exact cmpTyped_bool _ _ _ _
      | exact cmpTyped_of_not rfl
      | refine typedBy_ok ?_ ?_
      | refine typedBy_fail ?_
      | refine codeTyped_append ?_ ?_
      | refine codeTyped_cons ?_ ?_
      | refine typedBy_state (by assumption) (hv _ _ ?_)
      | refine typedBy_node (by assumption) (hv _ _ ?_)
      | refine hv _ _ ?_
      | dsimp only
      | split)

theorem ir_mod_typed {visit : Visitor} (hv : VisitorTyped visit) (node : ast_node)
    (g : IRGenerator) (hg : StateTyped g.currentFunc g.functions) :
    TypedBy (fun r : NodeResult => r.blockInsts) (ir_mod visit node g) := by
  simp only [ir_mod, ir_binary_unchecked, IRGenerator.setLastError, IRGenerator.newBinary,
      IRGenerator.newLabel, IRGenerator.newVarValue,
      IRGenerator.newVarValueWithValue, IRGenerator.getCurrentFunction,
      IRGenerator.enterScope, IRGenerator.leaveScope, IRGenerator.newFormalParam]
  repeat' split
  all_goals
    repeat (first
      | assumption
      | exact codeTyped_nil
      | exact trivial
      | exact cmpTyped_bool _ _ _ _
      | exact cmpTyped_of_not rfl
      | refine typedBy_ok ?_ ?_
      | refine typedBy_fail ?_
      | refine codeTyped_append ?_ ?_
      | refine codeTyped_cons ?_ ?_
      | refine typedBy_state (by assumption) (hv _ _ ?_)
      | refine typedBy_node (by assumption) (hv _ _ ?_)
      | refine hv _ _ ?_
      | dsimp only
      | split)

theorem ir_neg_typed {visit : Visitor} (hv : VisitorTyped visit) (node : ast_node)
    (g : IRGenerator) (hg : StateTyped g.currentFunc g.functions) :
    TypedBy (fun r : NodeResult => r.blockInsts) (ir_neg visit node g) := by
  simp only [ir_neg, IRGenerator.setLastError, IRGenerator.newBinary, IRGenerator.newLabel,
      IRGenerator.newVarValue, IRGenerator.newVarValueWithValue,
      IRGenerator.getCurrentFunction, IRGenerator.enterScope,
      IRGenerator.leaveScope, IRGenerator.newFormalParam]
  repeat' split
  all_goals
    repeat (first
      | assumption
      | exact codeTyped_nil
      | exact trivial
      | exact cmpTyped_bool _ _ _ _
      | exact cmpTyped_of_not rfl
      | refine typedBy_ok ?_ ?_
      | refine typedBy_fail ?_
      | refine codeTyped_append ?_ ?_
      | refine codeTyped_cons ?_ ?_
      | refine typedBy_state (by assumption) (hv _ _ ?_)
      | refine typedBy_node (by assumption) (hv _ _ ?_)
      | refine hv _ _ ?_
      | dsimp only
      | split)

theorem ir_lt_typed {visit : Visitor} (hv : VisitorTyped visit) (node : ast_node)
    (g : IRGenerator) (hg : StateTyped g.currentFunc g.functions) :
    TypedBy (fun r : NodeResult => r.blockInsts) (ir_lt visit node g) := by
  simp only [ir_lt, ir_relational, IRGenerator.setLastError, IRGenerator.newBinary,
      IRGenerator.newLabel, IRGenerator.newVarValue,
      IRGenerator.newVarValueWithValue, IRGenerator.getCurrentFunction,
      IRGenerator.enterScope, IRGenerator.leaveScope, IRGenerator.newFormalParam]
  repeat' split
  all_goals
    repeat (first
      | assumption
      | exact codeTyped_nil
      | exact trivial
      | exact cmpTyped_bool _ _ _ _
      | exact cmpTyped_of_not rfl
      | refine typedBy_ok ?_ ?_
      | refine typedBy_fail ?_
      | refine codeTyped_append ?_ ?_
      | refine codeTyped_cons ?_ ?_
      | refine typedBy_state (by assumption) (hv _ _ ?_)
      | refine typedBy_node (by assumption) (hv _ _ ?_)
      | refine hv _ _ ?_
      | dsimp only
      | split)

theorem ir_gt_typed {visit : Visitor} (hv : VisitorTyped visit) (node : ast_node)
    (g : IRGenerator) (hg : StateTyped g.currentFunc g.functions) :
    TypedBy (fun r : NodeResult => r.blockInsts) (ir_gt visit node g) := by
  simp only [ir_gt, ir_relational, IRGenerator.setLastError, IRGenerator.newBinary,
      IRGenerator.newLabel, IRGenerator.newVarValue,
      IRGenerator.newVarValueWithValue, IRGenerator.getCurrentFunction,
      IRGenerator.enterScope, IRGenerator.leaveScope, IRGenerator.newFormalParam]
  repeat' split
  all_goals
    repeat (first
      | assumption
      | exact codeTyped_nil
      | exact trivial
      | exact cmpTyped_bool _ _ _ _
      | exact cmpTyped_of_not rfl
      | refine typedBy_ok ?_ ?_
      | refine typedBy_fail ?_
      | refine codeTyped_append ?_ ?_
      | refine codeTyped_cons ?_ ?_
      | refine typedBy_state (by assumption) (hv _ _ ?_)
      | refine typedBy_node (by assumption) (hv _ _ ?_)
      | refine hv _ _ ?_
      | dsimp only
      | split)

theorem ir_le_typed {visit : Visitor} (hv : VisitorTyped visit) (node : ast_node)
    (g : IRGenerator) (hg : StateTyped g.currentFunc g.functions) :
    TypedBy (fun r : NodeResult => r.blockInsts) (ir_le visit node g) := by
  simp only [ir_le, ir_relational, IRGenerator.setLastError, IRGenerator.newBinary,
      IRGenerator.newLabel, IRGenerator.newVarValue,
      IRGenerator.newVarValueWithValue, IRGenerator.getCurrentFunction,
      IRGenerator.enterScope, IRGenerator.leaveScope, IRGenerator.newFormalParam]
  repeat' split
  all_goals
    repeat (first
      | assumption
      | exact codeTyped_nil
      | exact trivial
      | exact cmpTyped_bool _ _ _ _
      | exact cmpTyped_of_not rfl
      | refine typedBy_ok ?_ ?_
      | refine typedBy_fail ?_
      | refine codeTyped_append ?_ ?_
      | refine codeTyped_cons ?_ ?_
      | refine typedBy_state (by assumption) (hv _ _ ?_)
      | refine typedBy_node (by assumption) (hv _ _ ?_)
      | refine hv _ _ ?_
      | dsimp only
      | split)

theorem ir_ge_typed {visit : Visitor} (hv : VisitorTyped visit) (node : ast_node)
    (g : IRGenerator) (hg : StateTyped g.currentFunc g.functions) :
    TypedBy (fun r : NodeResult => r.blockInsts) (ir_ge visit node g) := by
  simp only [ir_ge, ir_relational, IRGenerator.setLastError, IRGenerator.newBinary,
      IRGenerator.newLabel, IRGenerator.newVarValue,
      IRGenerator.newVarValueWithValue, IRGenerator.getCurrentFunction,
      IRGenerator.enterScope, IRGenerator.leaveScope, IRGenerator.newFormalParam]
  repeat' split
  all_goals
    repeat (first
      | assumption
      | exact codeTyped_nil
      | exact trivial
      | exact cmpTyped_bool _ _ _ _
      | exact cmpTyped_of_not rfl
      | refine typedBy_ok ?_ ?_
      | refine typedBy_fail ?_
      | refine codeTyped_append ?_ ?_
      | refine codeTyped_cons ?_ ?_
      | refine typedBy_state (by assumption) (hv _ _ ?_)
      | refine typedBy_node (by assumption) (hv _ _ ?_)
      | refine hv _ _ ?_
      | dsimp only
      | split)

theorem ir_eq_typed {visit : Visitor} (hv : VisitorTyped visit) (node : ast_node)
    (g : IRGenerator) (hg : StateTyped g.currentFunc g.functions) :
    TypedBy (fun r : NodeResult => r.blockInsts) (ir_eq visit node g) := by
  simp only [ir_eq, ir_relational, IRGenerator.setLastError, IRGenerator.newBinary,
      IRGenerator.newLabel, IRGenerator.newVarValue,
      IRGenerator.newVarValueWithValue, IRGenerator.getCurrentFunction,
      IRGenerator.enterScope, IRGenerator.leaveScope, IRGenerator.newFormalParam]
  repeat' split
  all_goals
    repeat (first
      | assumption
      | exact codeTyped_nil
      | exact trivial
      | exact cmpTyped_bool _ _ _ _
      | exact cmpTyped_of_not rfl
      | refine typedBy_ok ?_ ?_
      | refine typedBy_fail ?_
      | refine codeTyped_append ?_ ?_
      | refine codeTyped_cons ?_ ?_
      | refine typedBy_state (by assumption) (hv _ _ ?_)
      | refine typedBy_node (by assumption) (hv _ _ ?_)
      | refine hv _ _ ?_
      | dsimp only
      | split)

theorem ir_ne_typed {visit : Visitor} (hv : VisitorTyped visit) (node : ast_node)
    (g : IRGenerator) (hg : StateTyped g.currentFunc g.functions) :
    TypedBy (fun r : NodeResult => r.blockInsts) (ir_ne visit node g) := by
  simp only [ir_ne, ir_relational, IRGenerator.setLastError, IRGenerator.newBinary,
      IRGenerator.newLabel, IRGenerator.newVarValue,
      IRGenerator.newVarValueWithValue, IRGenerator.getCurrentFunction,
      IRGenerator.enterScope, IRGenerator.leaveScope, IRGenerator.newFormalParam]
  repeat' split
  all_goals
    repeat (first
      | assumption
      | exact codeTyped_nil
      | exact trivial
      | exact cmpTyped_bool _ _ _ _
      | exact cmpTyped_of_not rfl
      | refine typedBy_ok ?_ ?_
      | refine typedBy_fail ?_
      | refine codeTyped_append ?_ ?_
      | refine codeTyped_cons ?_ ?_
      | refine typedBy_state (by assumption) (hv _ _ ?_)
      | refine typedBy_node (by assumption) (hv _ _ ?_)
      | refine hv _ _ ?_
      | dsimp only
      | split)

theorem ir_logic_and_typed {visit : Visitor} (hv : VisitorTyped visit) (node : ast_node)
    (g : IRGenerator) (hg : StateTyped g.currentFunc g.functions) :
    TypedBy (fun r : NodeResult => r.blockInsts) (ir_logic_and visit node g) := by
  simp only [ir_logic_and, IRGenerator.setLastError, IRGenerator.newBinary,
      IRGenerator.newLabel, IRGenerator.newVarValue,
      IRGenerator.newVarValueWithValue, IRGenerator.getCurrentFunction,
      IRGenerator.enterScope, IRGenerator.leaveScope, IRGenerator.newFormalParam]
  repeat' split
  all_goals
    repeat (first
      | assumption
      | exact codeTyped_nil
      | exact trivial
      | exact cmpTyped_bool _ _ _ _
      | exact cmpTyped_of_not rfl
      | refine typedBy_ok ?_ ?_
      | refine typedBy_fail ?_
      | refine codeTyped_append ?_ ?_
      | refine codeTyped_cons ?_ ?_
      | refine typedBy_state (by assumption) (hv _ _ ?_)
      | refine typedBy_node (by assumption) (hv _ _ ?_)
      | refine hv _ _ ?_
      | refine typedBy_state (by assumption) (int_to_bool_typed _ _ ?_)
      | refine typedNow_snd (takeBoolCheck_typed _ ?_)
      | refine typedNow_fst_list (takeBoolCheck_typed _ ?_)
      | dsimp only
      | split)

theorem ir_logic_or_typed {visit : Visitor} (hv : VisitorTyped visit) (node : ast_node)
    (g : IRGenerator) (hg : StateTyped g.currentFunc g.functions) :
    TypedBy (fun r : NodeResult => r.blockInsts) (ir_logic_or visit node g) := by
  simp only [ir_logic_or, IRGenerator.setLastError, IRGenerator.newBinary,
      IRGenerator.newLabel, IRGenerator.newVarValue,
      IRGenerator.newVarValueWithValue, IRGenerator.getCurrentFunction,
      IRGenerator.enterScope, IRGenerator.leaveScope, IRGenerator.newFormalParam]
  repeat' split
  all_goals
    repeat (first
      | assumption
      | exact codeTyped_nil
      | exact trivial
      | exact cmpTyped_bool _ _ _ _
      | exact cmpTyped_of_not rfl
      | refine typedBy_ok ?_ ?_
      | refine typedBy_fail ?_
      | refine codeTyped_append ?_ ?_
      | refine codeTyped_cons ?_ ?_
      | refine typedBy_state (by assumption) (hv _ _ ?_)
      | refine typedBy_node (by assumption) (hv _ _ ?_)
      | refine hv _ _ ?_
      | refine typedBy_state (by assumption) (int_to_bool_typed _ _ ?_)
      | refine typedNow_snd (takeBoolCheck_typed _ ?_)
      | refine typedNow_fst_list (takeBoolCheck_typed _ ?_)
      | dsimp only
      | split)

theorem ir_logic_not_typed {visit : Visitor} (hv : VisitorTyped visit) (node : ast_node)
    (g : IRGenerator) (hg : StateTyped g.currentFunc g.functions) :
    TypedBy (fun r : NodeResult => r.blockInsts) (ir_logic_not visit node g) := by
  simp only [ir_logic_not, IRGenerator.setLastError, IRGenerator.newBinary,
      IRGenerator.newLabel, IRGenerator.newVarValue,
      IRGenerator.newVarValueWithValue, IRGenerator.getCurrentFunction,
      IRGenerator.enterScope, IRGenerator.leaveScope, IRGenerator.newFormalParam]
  repeat' split
  all_goals
    repeat (first
      | assumption
      | exact codeTyped_nil
      | exact trivial
      | exact cmpTyped_bool _ _ _ _
      | exact cmpTyped_of_not rfl
      | refine typedBy_ok ?_ ?_
      | refine typedBy_fail ?_
      | refine codeTyped_append ?_ ?_
      | refine codeTyped_cons ?_ ?_
      | refine typedBy_state (by assumption) (hv _ _ ?_)
      | refine typedBy_node (by assumption) (hv _ _ ?_)
      | refine hv _ _ ?_
      | dsimp only
      | split)

theorem ir_if_typed {visit : Visitor} (hv : VisitorTyped visit) (node : ast_node)
    (g : IRGenerator) (hg : StateTyped g.currentFunc g.functions) :
    TypedBy (fun r : NodeResult => r.blockInsts) (ir_if visit node g) := by
  simp only [ir_if, IRGenerator.setLastError, IRGenerator.newBinary, IRGenerator.newLabel,
      IRGenerator.newVarValue, IRGenerator.newVarValueWithValue,
      IRGenerator.getCurrentFunction, IRGenerator.enterScope,
      IRGenerator.leaveScope, IRGenerator.newFormalParam]
  repeat' split
  all_goals
    repeat (first
      | assumption
      | exact codeTyped_nil
      | exact trivial
      | exact cmpTyped_bool _ _ _ _
      | exact cmpTyped_of_not rfl
      | refine typedBy_ok ?_ ?_
      | refine typedBy_fail ?_
      | refine codeTyped_append ?_ ?_
      | refine codeTyped_cons ?_ ?_
      | refine typedBy_state (by assumption) (hv _ _ ?_)
      | refine typedBy_node (by assumption) (hv _ _ ?_)
      | refine hv _ _ ?_
      | dsimp only
      | split)

theorem ir_if_else_typed {visit : Visitor} (hv : VisitorTyped visit) (node : ast_node)
    (g : IRGenerator) (hg : StateTyped g.currentFunc g.functions) :
    TypedBy (fun r : NodeResult => r.blockInsts) (ir_if_else visit node g) := by
  simp only [ir_if_else, IRGenerator.setLastError, IRGenerator.newBinary,
      IRGenerator.newLabel, IRGenerator.newVarValue,
      IRGenerator.newVarValueWithValue, IRGenerator.getCurrentFunction,
      IRGenerator.enterScope, IRGenerator.leaveScope, IRGenerator.newFormalParam]
  repeat' split
  all_goals
    repeat (first
      | assumption
      | exact codeTyped_nil
      | exact trivial
      | exact cmpTyped_bool _ _ _ _
      | exact cmpTyped_of_not rfl
      | refine typedBy_ok ?_ ?_
      | refine typedBy_fail ?_
      | refine codeTyped_append ?_ ?_
      | refine codeTyped_cons ?_ ?_
      | refine typedBy_state (by assumption) (hv _ _ ?_)
      | refine typedBy_node (by assumption) (hv _ _ ?_)
      | refine hv _ _ ?_
      | dsimp only
      | split)

theorem ir_while_typed {visit : Visitor} (hv : VisitorTyped visit) (node : ast_node)
    (g : IRGenerator) (hg : StateTyped g.currentFunc g.functions) :
    TypedBy (fun r : NodeResult => r.blockInsts) (ir_while visit node g) := by
  simp only [ir_while, IRGenerator.setLastError, IRGenerator.newBinary,
      IRGenerator.newLabel, IRGenerator.newVarValue,
      IRGenerator.newVarValueWithValue, IRGenerator.getCurrentFunction,
      IRGenerator.enterScope, IRGenerator.leaveScope, IRGenerator.newFormalParam]
  repeat' split
  all_goals
    repeat (first
      | assumption
      | exact codeTyped_nil
      | exact trivial
      | exact cmpTyped_bool _ _ _ _
      | exact cmpTyped_of_not rfl
      | refine typedBy_ok ?_ ?_
      | refine typedBy_fail ?_
      | refine codeTyped_append ?_ ?_
      | refine codeTyped_cons ?_ ?_
      | refine typedBy_state (by assumption) (hv _ _ ?_)
      | refine typedBy_node (by assumption) (hv _ _ ?_)
      | refine hv _ _ ?_
      | refine setLoopLabels_typed ?_
      | (show Instruction.cmpTyped _; have hbr := ‹(_ : Option Instruction) = some _›; revert hbr; (repeat' split) <;> (intro hbr; first | (cases hbr; exact trivial) | cases hbr))
      | dsimp only
      | split)

theorem ir_assign_typed {visit : Visitor} (hv : VisitorTyped visit) (node : ast_node)
    (g : IRGenerator) (hg : StateTyped g.currentFunc g.functions) :
    TypedBy (fun r : NodeResult => r.blockInsts) (ir_assign visit node g) := by
  simp only [ir_assign, IRGenerator.setLastError, IRGenerator.newBinary,
      IRGenerator.newLabel, IRGenerator.newVarValue,
      IRGenerator.newVarValueWithValue, IRGenerator.getCurrentFunction,
      IRGenerator.enterScope, IRGenerator.leaveScope, IRGenerator.newFormalParam]
  repeat' split
  all_goals
    repeat (first
      | assumption
      | exact codeTyped_nil
      | exact trivial
      | exact cmpTyped_bool _ _ _ _
      | exact cmpTyped_of_not rfl
      | refine typedBy_ok ?_ ?_
      | refine typedBy_fail ?_
      | refine codeTyped_append ?_ ?_
      | refine codeTyped_cons ?_ ?_
      | refine typedBy_state (by assumption) (hv _ _ ?_)
      | refine typedBy_node (by assumption) (hv _ _ ?_)
      | refine hv _ _ ?_
      | dsimp only
      | split)

theorem ir_return_typed {visit : Visitor} (hv : VisitorTyped visit) (node : ast_node)
    (g : IRGenerator) (hg : StateTyped g.currentFunc g.functions) :
    TypedBy (fun r : NodeResult => r.blockInsts) (ir_return visit node g) := by
  simp only [ir_return, IRGenerator.setLastError, IRGenerator.newBinary,
      IRGenerator.newLabel, IRGenerator.newVarValue,
      IRGenerator.newVarValueWithValue, IRGenerator.getCurrentFunction,
      IRGenerator.enterScope, IRGenerator.leaveScope, IRGenerator.newFormalParam]
  repeat' split
  all_goals
    repeat (first
      | assumption
      | exact codeTyped_nil
      | exact trivial
      | exact cmpTyped_bool _ _ _ _
      | exact cmpTyped_of_not rfl
      | refine typedBy_ok ?_ ?_
      | refine typedBy_fail ?_
      | refine codeTyped_append ?_ ?_
      | refine codeTyped_cons ?_ ?_
      | refine typedBy_state (by assumption) (hv _ _ ?_)
      | refine typedBy_node (by assumption) (hv _ _ ?_)
      | refine hv _ _ ?_
      | dsimp only
      | split)

theorem ir_block_sons_typed {visit : Visitor} (hv : VisitorTyped visit) 
    (sons : List ast_node) :
    ∀  (g : IRGenerator), StateTyped g.currentFunc g.functions →
      TypedBy (fun r : List Instruction => r) (ir_block_sons visit sons g) := by
  induction sons with
  | nil =>
    intro  g hg
    simp only [ir_block_sons]
    repeat' split
    all_goals
      repeat (first
        | assumption
        | exact codeTyped_nil
        | exact trivial
        | exact cmpTyped_bool _ _ _ _
        | exact cmpTyped_of_not rfl
        | refine typedBy_ok ?_ ?_
        | refine typedBy_fail ?_
        | refine codeTyped_append ?_ ?_
        | refine codeTyped_cons ?_ ?_
        | refine typedBy_state (by assumption) (hv _ _ ?_)
        | refine typedBy_node (by assumption) (hv _ _ ?_)
        | refine hv _ _ ?_
        | dsimp only
        | split)
  | cons head rest ih =>
    intro  g hg
    simp only [ir_block_sons, IRGenerator.setLastError, IRGenerator.newBinary,
        IRGenerator.newLabel, IRGenerator.newVarValue,
        IRGenerator.newVarValueWithValue, IRGenerator.getCurrentFunction,
        IRGenerator.enterScope, IRGenerator.leaveScope, IRGenerator.newFormalParam]
    repeat' split
    all_goals
      repeat (first
        | assumption
        | exact codeTyped_nil
        | exact trivial
        | exact cmpTyped_bool _ _ _ _
        | exact cmpTyped_of_not rfl
        | refine typedBy_ok ?_ ?_
        | refine typedBy_fail ?_
        | refine codeTyped_append ?_ ?_
        | refine codeTyped_cons ?_ ?_
        | refine typedBy_state (by assumption) (hv _ _ ?_)
        | refine typedBy_node (by assumption) (hv _ _ ?_)
        | refine hv _ _ ?_
        | refine typedBy_state (by assumption) (ih _ ?_)
        | refine typedBy_list (by assumption) (ih _ ?_)
        | refine ih _ ?_
        | dsimp only
        | split)

theorem ir_block_typed {visit : Visitor} (hv : VisitorTyped visit) (node : ast_node)
    (g : IRGenerator) (hg : StateTyped g.currentFunc g.functions) :
    TypedBy (fun r : NodeResult => r.blockInsts) (ir_block visit node g) := by
  simp only [ir_block, IRGenerator.setLastError, IRGenerator.newBinary,
      IRGenerator.newLabel, IRGenerator.newVarValue,
      IRGenerator.newVarValueWithValue, IRGenerator.getCurrentFunction,
      IRGenerator.enterScope, IRGenerator.leaveScope, IRGenerator.newFormalParam]
  repeat' split
  all_goals
    repeat (first
      | assumption
      | exact codeTyped_nil
      | exact trivial
      | exact cmpTyped_bool _ _ _ _
      | exact cmpTyped_of_not rfl
      | refine typedBy_ok ?_ ?_
      | refine typedBy_fail ?_
      | refine codeTyped_append ?_ ?_
      | refine codeTyped_cons ?_ ?_
      | refine typedBy_state (by assumption) (hv _ _ ?_)
      | refine typedBy_node (by assumption) (hv _ _ ?_)
      | refine hv _ _ ?_
      | refine typedBy_state (by assumption) (ir_block_sons_typed hv _ _ ?_)
      | refine typedBy_list (by assumption) (ir_block_sons_typed hv _ _ ?_)
      | refine ir_block_sons_typed hv _ _ ?_
      | dsimp only
      | split)

theorem ir_array_def_dims_typed {visit : Visitor} (hv : VisitorTyped visit) 
    (sons : List ast_node) :
    ∀  (g : IRGenerator), StateTyped g.currentFunc g.functions →
      TypedBy (fun _ => []) (ir_array_def_dims visit sons g) := by
  induction sons with
  | nil =>
    intro  g hg
    simp only [ir_array_def_dims]
    repeat' split
    all_goals
      repeat (first
        | assumption
        | exact codeTyped_nil
        | exact trivial
        | exact cmpTyped_bool _ _ _ _
        | exact cmpTyped_of_not rfl
        | refine typedBy_ok ?_ ?_
        | refine typedBy_fail ?_
        | refine codeTyped_append ?_ ?_
        | refine codeTyped_cons ?_ ?_
        | refine typedBy_state (by assumption) (hv _ _ ?_)
        | refine typedBy_node (by assumption) (hv _ _ ?_)
        | refine hv _ _ ?_
        | dsimp only
        | split)
  | cons head rest ih =>
    intro  g hg
    simp only [ir_array_def_dims, IRGenerator.setLastError, IRGenerator.newBinary,
        IRGenerator.newLabel, IRGenerator.newVarValue,
        IRGenerator.newVarValueWithValue, IRGenerator.getCurrentFunction,
        IRGenerator.enterScope, IRGenerator.leaveScope, IRGenerator.newFormalParam]
    repeat' split
    all_goals
      repeat (first
        | assumption
        | exact codeTyped_nil
        | exact trivial
        | exact cmpTyped_bool _ _ _ _
        | exact cmpTyped_of_not rfl
        | refine typedBy_ok ?_ ?_
        | refine typedBy_fail ?_
        | refine codeTyped_append ?_ ?_
        | refine codeTyped_cons ?_ ?_
        | refine typedBy_state (by assumption) (hv _ _ ?_)
        | refine typedBy_node (by assumption) (hv _ _ ?_)
        | refine hv _ _ ?_
        | refine typedBy_state (by assumption) (ih _ ?_)
        | refine ih _ ?_
        | dsimp only
        | split)

theorem ir_array_def_typed {visit : Visitor} (hv : VisitorTyped visit) (node : ast_node)
    (g : IRGenerator) (hg : StateTyped g.currentFunc g.functions) :
    TypedBy (fun r : NodeResult => r.blockInsts) (ir_array_def visit node g) := by
  simp only [ir_array_def, IRGenerator.setLastError, IRGenerator.newBinary,
      IRGenerator.newLabel, IRGenerator.newVarValue,
      IRGenerator.newVarValueWithValue, IRGenerator.getCurrentFunction,
      IRGenerator.enterScope, IRGenerator.leaveScope, IRGenerator.newFormalParam]
  repeat' split
  all_goals
    repeat (first
      | assumption
      | exact codeTyped_nil
      | exact trivial
      | exact cmpTyped_bool _ _ _ _
      | exact cmpTyped_of_not rfl
      | refine typedBy_ok ?_ ?_
      | refine typedBy_fail ?_
      | refine codeTyped_append ?_ ?_
      | refine codeTyped_cons ?_ ?_
      | refine typedBy_state (by assumption) (hv _ _ ?_)
      | refine typedBy_node (by assumption) (hv _ _ ?_)
      | refine hv _ _ ?_
      | refine typedBy_state (by assumption) (ir_array_def_dims_typed hv _ _ ?_)
      | refine ir_array_def_dims_typed hv _ _ ?_
      | dsimp only
      | split)

theorem visitIndices_typed {visit : Visitor} (hv : VisitorTyped visit) 
    (sons : List ast_node) :
    ∀  (g : IRGenerator), StateTyped g.currentFunc g.functions →
      TypedBy (fun r => r.1) (visitIndices visit sons g) := by
  induction sons with
  | nil =>
    intro  g hg
    simp only [visitIndices]
    repeat' split
    all_goals
      repeat (first
        | assumption
        | exact codeTyped_nil
        | exact trivial
        | exact cmpTyped_bool _ _ _ _
        | exact cmpTyped_of_not rfl
        | refine typedBy_ok ?_ ?_
        | refine typedBy_fail ?_
        | refine codeTyped_append ?_ ?_
        | refine codeTyped_cons ?_ ?_
        | refine typedBy_state (by assumption) (hv _ _ ?_)
        | refine typedBy_node (by assumption) (hv _ _ ?_)
        | refine hv _ _ ?_
        | dsimp only
        | split)
  | cons head rest ih =>
    intro  g hg
    simp only [visitIndices, IRGenerator.setLastError, IRGenerator.newBinary,
        IRGenerator.newLabel, IRGenerator.newVarValue,
        IRGenerator.newVarValueWithValue, IRGenerator.getCurrentFunction,
        IRGenerator.enterScope, IRGenerator.leaveScope, IRGenerator.newFormalParam]
    repeat' split
    all_goals
      repeat (first
        | assumption
        | exact codeTyped_nil
        | exact trivial
        | exact cmpTyped_bool _ _ _ _
        | exact cmpTyped_of_not rfl
        | refine typedBy_ok ?_ ?_
        | refine typedBy_fail ?_
        | refine codeTyped_append ?_ ?_
        | refine codeTyped_cons ?_ ?_
        | refine typedBy_state (by assumption) (hv _ _ ?_)
        | refine typedBy_node (by assumption) (hv _ _ ?_)
        | refine hv _ _ ?_
        | refine typedBy_state (by assumption) (ih _ ?_)
        | refine typedBy_first (by assumption) (ih _ ?_)
        | refine ih _ ?_
        | dsimp only
        | split)

theorem regularOffsetLoop_typed (dimensions : List Int)
    (indices : List Value) :
    ∀ (i : Nat) (off : Value) (g : IRGenerator), StateTyped g.currentFunc g.functions →
      TypedTriple (regularOffsetLoop dimensions i indices off g) := by
  induction indices with
  | nil =>
    intro i off g hg
    simp only [regularOffsetLoop]
    repeat' split
    all_goals
      repeat (first
        | assumption
        | exact codeTyped_nil
        | exact trivial
        | exact cmpTyped_bool _ _ _ _
        | exact cmpTyped_of_not rfl
        | refine typedBy_ok ?_ ?_
        | refine typedBy_fail ?_
        | refine codeTyped_append ?_ ?_
        | refine codeTyped_cons ?_ ?_
        | refine typedTriple_intro ?_ ?_
        | dsimp only
        | split)
  | cons head rest ih =>
    intro i off g hg
    simp only [regularOffsetLoop, IRGenerator.setLastError, IRGenerator.newBinary,
        IRGenerator.newLabel, IRGenerator.newVarValue,
        IRGenerator.newVarValueWithValue, IRGenerator.getCurrentFunction,
        IRGenerator.enterScope, IRGenerator.leaveScope, IRGenerator.newFormalParam]
    repeat' split
    all_goals
      repeat (first
        | assumption
        | exact codeTyped_nil
        | exact trivial
        | exact cmpTyped_bool _ _ _ _
        | exact cmpTyped_of_not rfl
        | refine typedBy_ok ?_ ?_
        | refine typedBy_fail ?_
        | refine codeTyped_append ?_ ?_
        | refine codeTyped_cons ?_ ?_
        | refine typedTriple_intro ?_ ?_
        | refine typedTriple_snd (ih _ _ _ ?_)
        | refine typedTriple_fst (ih _ _ _ ?_)
        | refine typedTriple_state (by assumption) (ih _ _ _ ?_)
        | refine typedTriple_code (by assumption) (ih _ _ _ ?_)
        | refine ih _ _ _ ?_
        | dsimp only
        | split)

theorem regularAccessTail_typed (arrayVar : Value) (dimensions : List Int) (indices : List Value)
    (g : IRGenerator) (hg : StateTyped g.currentFunc g.functions) :
    TypedNow (fun r : NodeResult => r.blockInsts) (regularAccessTail arrayVar dimensions indices g) := by
  simp only [regularAccessTail, IRGenerator.setLastError, IRGenerator.newBinary,
      IRGenerator.newLabel, IRGenerator.newVarValue,
      IRGenerator.newVarValueWithValue, IRGenerator.getCurrentFunction,
      IRGenerator.enterScope, IRGenerator.leaveScope, IRGenerator.newFormalParam]
  repeat' split
  all_goals
    repeat (first
      | assumption
      | exact codeTyped_nil
      | exact trivial
      | exact cmpTyped_bool _ _ _ _
      | exact cmpTyped_of_not rfl
      | refine typedBy_ok ?_ ?_
      | refine typedBy_fail ?_
      | refine codeTyped_append ?_ ?_
      | refine codeTyped_cons ?_ ?_
      | refine typedNow_intro ?_ ?_
      | refine typedTriple_snd (regularOffsetLoop_typed _ _ _ _ _ ?_)
      | refine typedTriple_fst (regularOffsetLoop_typed _ _ _ _ _ ?_)
      | refine typedTriple_state (by assumption) (regularOffsetLoop_typed _ _ _ _ _ ?_)
      | refine typedTriple_code (by assumption) (regularOffsetLoop_typed _ _ _ _ _ ?_)
      | refine regularOffsetLoop_typed _ _ _ _ _ ?_
      | dsimp only
      | split)

theorem handleRegularArrayAccess_typed {visit : Visitor} (hv : VisitorTyped visit) (node : ast_node) (arrayVar : Value) (dimensions : List Int)
    (g : IRGenerator) (hg : StateTyped g.currentFunc g.functions) :
    TypedBy (fun r : NodeResult => r.blockInsts) (handleRegularArrayAccess visit node arrayVar dimensions g) := by
  simp only [handleRegularArrayAccess, IRGenerator.setLastError, IRGenerator.newBinary,
      IRGenerator.newLabel, IRGenerator.newVarValue,
      IRGenerator.newVarValueWithValue, IRGenerator.getCurrentFunction,
      IRGenerator.enterScope, IRGenerator.leaveScope, IRGenerator.newFormalParam]
  repeat' split
  all_goals
    repeat (first
      | assumption
      | exact codeTyped_nil
      | exact trivial
      | exact cmpTyped_bool _ _ _ _
      | exact cmpTyped_of_not rfl
      | refine typedBy_ok ?_ ?_
      | refine typedBy_fail ?_
      | refine codeTyped_append ?_ ?_
      | refine codeTyped_cons ?_ ?_
      | refine typedBy_state (by assumption) (hv _ _ ?_)
      | refine typedBy_node (by assumption) (hv _ _ ?_)
      | refine hv _ _ ?_
      | refine typedBy_state (by assumption) (visitIndices_typed hv _ _ ?_)
      | refine typedBy_first (by assumption) (visitIndices_typed hv _ _ ?_)
      | refine visitIndices_typed hv _ _ ?_
      | refine typedNow_snd (regularAccessTail_typed _ _ _ _ ?_)
      | refine typedNow_fst_node (regularAccessTail_typed _ _ _ _ ?_)
      | refine typedNow_state (by assumption) (regularAccessTail_typed _ _ _ _ ?_)
      | refine typedNow_node (by assumption) (regularAccessTail_typed _ _ _ _ ?_)
      | dsimp only
      | split)

theorem paramOffsetLoop_typed (dimensions : List Int)
    (indices : List Value) :
    ∀ (i : Nat) (off : Value) (g : IRGenerator), StateTyped g.currentFunc g.functions →
      TypedTriple (paramOffsetLoop dimensions i indices off g) := by
  induction indices with
  | nil =>
    intro i off g hg
    simp only [paramOffsetLoop]
    repeat' split
    all_goals
      repeat (first
        | assumption
        | exact codeTyped_nil
        | exact trivial
        | exact cmpTyped_bool _ _ _ _
        | exact cmpTyped_of_not rfl
        | refine typedBy_ok ?_ ?_
        | refine typedBy_fail ?_
        | refine codeTyped_append ?_ ?_
        | refine codeTyped_cons ?_ ?_
        | refine typedTriple_intro ?_ ?_
        | dsimp only
        | split)
  | cons head rest ih =>
    intro i off g hg
    simp only [paramOffsetLoop, IRGenerator.setLastError, IRGenerator.newBinary,
        IRGenerator.newLabel, IRGenerator.newVarValue,
        IRGenerator.newVarValueWithValue, IRGenerator.getCurrentFunction,
        IRGenerator.enterScope, IRGenerator.leaveScope, IRGenerator.newFormalParam]
    repeat' split
    all_goals
      repeat (first
        | assumption
        | exact codeTyped_nil
        | exact trivial
        | exact cmpTyped_bool _ _ _ _
        | exact cmpTyped_of_not rfl
        | refine typedBy_ok ?_ ?_
        | refine typedBy_fail ?_
        | refine codeTyped_append ?_ ?_
        | refine codeTyped_cons ?_ ?_
        | refine typedTriple_intro ?_ ?_
        | refine typedTriple_snd (ih _ _ _ ?_)
        | refine typedTriple_fst (ih _ _ _ ?_)
        | refine typedTriple_state (by assumption) (ih _ _ _ ?_)
        | refine typedTriple_code (by assumption) (ih _ _ _ ?_)
        | refine ih _ _ _ ?_
        | dsimp only
        | split)

theorem handleParameterArrayAccessWithDimensions_typed {visit : Visitor} (hv : VisitorTyped visit) (node : ast_node) (arrayVar : Value) (dimensions : List Int)
    (g : IRGenerator) (hg : StateTyped g.currentFunc g.functions) :
    TypedBy (fun r : NodeResult => r.blockInsts) (handleParameterArrayAccessWithDimensions visit node arrayVar dimensions g) := by
  simp only [handleParameterArrayAccessWithDimensions, IRGenerator.setLastError,
      IRGenerator.newBinary, IRGenerator.newLabel, IRGenerator.newVarValue,
      IRGenerator.newVarValueWithValue, IRGenerator.getCurrentFunction,
      IRGenerator.enterScope, IRGenerator.leaveScope, IRGenerator.newFormalParam]
  repeat' split
  all_goals
    repeat (first
      | assumption
      | exact codeTyped_nil
      | exact trivial
      | exact cmpTyped_bool _ _ _ _
      | exact cmpTyped_of_not rfl
      | refine typedBy_ok ?_ ?_
      | refine typedBy_fail ?_
      | refine codeTyped_append ?_ ?_
      | refine codeTyped_cons ?_ ?_
      | refine typedBy_state (by assumption) (hv _ _ ?_)
      | refine typedBy_node (by assumption) (hv _ _ ?_)
      | refine hv _ _ ?_
      | refine typedBy_state (by assumption) (visitIndices_typed hv _ _ ?_)
      | refine typedBy_first (by assumption) (visitIndices_typed hv _ _ ?_)
      | refine visitIndices_typed hv _ _ ?_
      | refine typedTriple_snd (paramOffsetLoop_typed _ _ _ _ _ ?_)
      | refine typedTriple_fst (paramOffsetLoop_typed _ _ _ _ _ ?_)
      | refine typedTriple_state (by assumption) (paramOffsetLoop_typed _ _ _ _ _ ?_)
      | refine typedTriple_code (by assumption) (paramOffsetLoop_typed _ _ _ _ _ ?_)
      | refine paramOffsetLoop_typed _ _ _ _ _ ?_
      | dsimp only
      | split)

theorem handleSimplePointerParamAccess_typed {visit : Visitor} (hv : VisitorTyped visit) (node : ast_node) (arrayVar : Value)
    (g : IRGenerator) (hg : StateTyped g.currentFunc g.functions) :
    TypedBy (fun r : NodeResult => r.blockInsts) (handleSimplePointerParamAccess visit node arrayVar g) := by
  simp only [handleSimplePointerParamAccess, IRGenerator.setLastError,
      IRGenerator.newBinary, IRGenerator.newLabel, IRGenerator.newVarValue,
      IRGenerator.newVarValueWithValue, IRGenerator.getCurrentFunction,
      IRGenerator.enterScope, IRGenerator.leaveScope, IRGenerator.newFormalParam]
  repeat' split
  all_goals
    repeat (first
      | assumption
      | exact codeTyped_nil
      | exact trivial
      | exact cmpTyped_bool _ _ _ _
      | exact cmpTyped_of_not rfl
      | refine typedBy_ok ?_ ?_
      | refine typedBy_fail ?_
      | refine codeTyped_append ?_ ?_
      | refine codeTyped_cons ?_ ?_
      | refine typedBy_state (by assumption) (hv _ _ ?_)
      | refine typedBy_node (by assumption) (hv _ _ ?_)
      | refine hv _ _ ?_
      | dsimp only
      | split)

theorem ir_array_access_typed {visit : Visitor} (hv : VisitorTyped visit) (node : ast_node)
    (g : IRGenerator) (hg : StateTyped g.currentFunc g.functions) :
    TypedBy (fun r : NodeResult => r.blockInsts) (ir_array_access visit node g) := by
  simp only [ir_array_access, IRGenerator.setLastError, IRGenerator.newBinary,
      IRGenerator.newLabel, IRGenerator.newVarValue,
      IRGenerator.newVarValueWithValue, IRGenerator.getCurrentFunction,
      IRGenerator.enterScope, IRGenerator.leaveScope, IRGenerator.newFormalParam]
  repeat' split
  all_goals
    repeat (first
      | assumption
      | exact codeTyped_nil
      | exact trivial
      | exact cmpTyped_bool _ _ _ _
      | exact cmpTyped_of_not rfl
      | refine typedBy_ok ?_ ?_
      | refine typedBy_fail ?_
      | refine codeTyped_append ?_ ?_
      | refine codeTyped_cons ?_ ?_
      | refine typedBy_state (by assumption) (hv _ _ ?_)
      | refine typedBy_node (by assumption) (hv _ _ ?_)
      | refine hv _ _ ?_
      | refine typedBy_state (by assumption) (handleRegularArrayAccess_typed hv _ _ _ _ ?_)
      | refine typedBy_node (by assumption) (handleRegularArrayAccess_typed hv _ _ _ _ ?_)
      | refine handleRegularArrayAccess_typed hv _ _ _ _ ?_
      | refine typedBy_state (by assumption) (handleParameterArrayAccessWithDimensions_typed hv _ _ _ _ ?_)
      | refine typedBy_node (by assumption) (handleParameterArrayAccessWithDimensions_typed hv _ _ _ _ ?_)
      | refine handleParameterArrayAccessWithDimensions_typed hv _ _ _ _ ?_
      | refine typedBy_state (by assumption) (handleSimplePointerParamAccess_typed hv _ _ _ ?_)
      | refine typedBy_node (by assumption) (handleSimplePointerParamAccess_typed hv _ _ _ ?_)
      | refine handleSimplePointerParamAccess_typed hv _ _ _ ?_
      | dsimp only
      | split)

theorem arrayAccessOffsetLoop_typed {visit : Visitor} (hv : VisitorTyped visit) (dimensions : List Int)
    (sons : List ast_node) :
    ∀ (dimIdx : Nat) (off : Value) (g : IRGenerator), StateTyped g.currentFunc g.functions →
      TypedBy (fun r => r.1) (arrayAccessOffsetLoop visit dimensions dimIdx sons off g) := by
  induction sons with
  | nil =>
    intro dimIdx off g hg
    simp only [arrayAccessOffsetLoop]
    repeat' split
    all_goals
      repeat (first
        | assumption
        | exact codeTyped_nil
        | exact trivial
        | exact cmpTyped_bool _ _ _ _
        | exact cmpTyped_of_not rfl
        | refine typedBy_ok ?_ ?_
        | refine typedBy_fail ?_
        | refine codeTyped_append ?_ ?_
        | refine codeTyped_cons ?_ ?_
        | refine typedBy_state (by assumption) (hv _ _ ?_)
        | refine typedBy_node (by assumption) (hv _ _ ?_)
        | refine hv _ _ ?_
        | dsimp only
        | split)
  | cons head rest ih =>
    intro dimIdx off g hg
    simp only [arrayAccessOffsetLoop, IRGenerator.setLastError, IRGenerator.newBinary,
        IRGenerator.newLabel, IRGenerator.newVarValue,
        IRGenerator.newVarValueWithValue, IRGenerator.getCurrentFunction,
        IRGenerator.enterScope, IRGenerator.leaveScope, IRGenerator.newFormalParam]
    repeat' split
    all_goals
      repeat (first
        | assumption
        | exact codeTyped_nil
        | exact trivial
        | exact cmpTyped_bool _ _ _ _
        | exact cmpTyped_of_not rfl
        | refine typedBy_ok ?_ ?_
        | refine typedBy_fail ?_
        | refine codeTyped_append ?_ ?_
        | refine codeTyped_cons ?_ ?_
        | refine typedBy_state (by assumption) (hv _ _ ?_)
        | refine typedBy_node (by assumption) (hv _ _ ?_)
        | refine hv _ _ ?_
        | refine typedBy_state (by assumption) (ih _ _ _ ?_)
        | refine typedBy_first (by assumption) (ih _ _ _ ?_)
        | refine ih _ _ _ ?_
        | dsimp only
        | split)

theorem calculateArrayAccessOffset_typed {visit : Visitor} (hv : VisitorTyped visit) (node : ast_node)
    (g : IRGenerator) (hg : StateTyped g.currentFunc g.functions) :
    TypedBy (fun r => r.1) (calculateArrayAccessOffset visit node g) := by
  simp only [calculateArrayAccessOffset, IRGenerator.setLastError, IRGenerator.newBinary,
      IRGenerator.newLabel, IRGenerator.newVarValue,
      IRGenerator.newVarValueWithValue, IRGenerator.getCurrentFunction,
      IRGenerator.enterScope, IRGenerator.leaveScope, IRGenerator.newFormalParam]
  repeat' split
  all_goals
    repeat (first
      | assumption
      | exact codeTyped_nil
      | exact trivial
      | exact cmpTyped_bool _ _ _ _
      | exact cmpTyped_of_not rfl
      | refine typedBy_ok ?_ ?_
      | refine typedBy_fail ?_
      | refine codeTyped_append ?_ ?_
      | refine codeTyped_cons ?_ ?_
      | refine typedBy_state (by assumption) (hv _ _ ?_)
      | refine typedBy_node (by assumption) (hv _ _ ?_)
      | refine hv _ _ ?_
      | refine typedBy_state (by assumption) (arrayAccessOffsetLoop_typed hv _ _ _ _ _ ?_)
      | refine typedBy_first (by assumption) (arrayAccessOffsetLoop_typed hv _ _ _ _ _ ?_)
      | refine arrayAccessOffsetLoop_typed hv _ _ _ _ _ ?_
      | dsimp only
      | split)

theorem ir_function_call_arg_typed {visit : Visitor} (hv : VisitorTyped visit) (funcName : String) (flag : Bool) (son : ast_node)
    (g : IRGenerator) (hg : StateTyped g.currentFunc g.functions) :
    TypedBy (fun r => r.1) (ir_function_call_arg visit funcName flag son g) := by
  simp only [ir_function_call_arg, IRGenerator.setLastError, IRGenerator.newBinary,
      IRGenerator.newLabel, IRGenerator.newVarValue,
      IRGenerator.newVarValueWithValue, IRGenerator.getCurrentFunction,
      IRGenerator.enterScope, IRGenerator.leaveScope, IRGenerator.newFormalParam]
  repeat' split
  all_goals
    repeat (first
      | assumption
      | exact codeTyped_nil
      | exact trivial
      | exact cmpTyped_bool _ _ _ _
      | exact cmpTyped_of_not rfl
      | refine typedBy_ok ?_ ?_
      | refine typedBy_fail ?_
      | refine codeTyped_append ?_ ?_
      | refine codeTyped_cons ?_ ?_
      | refine typedBy_state (by assumption) (hv _ _ ?_)
      | refine typedBy_node (by assumption) (hv _ _ ?_)
      | refine hv _ _ ?_
      | refine typedBy_state (by assumption) (calculateArrayAccessOffset_typed hv _ _ ?_)
      | refine typedBy_first (by assumption) (calculateArrayAccessOffset_typed hv _ _ ?_)
      | refine calculateArrayAccessOffset_typed hv _ _ ?_
      | dsimp only
      | split)

theorem ir_function_call_args_typed {visit : Visitor} (hv : VisitorTyped visit) (funcName : String) (formalParams : List Value)
    (sons : List ast_node) :
    ∀ (i : Nat) (g : IRGenerator), StateTyped g.currentFunc g.functions →
      TypedBy (fun r => r.1) (ir_function_call_args visit funcName formalParams i sons g) := by
  induction sons with
  | nil =>
    intro i g hg
    simp only [ir_function_call_args]
    repeat' split
    all_goals
      repeat (first
        | assumption
        | exact codeTyped_nil
        | exact trivial
        | exact cmpTyped_bool _ _ _ _
        | exact cmpTyped_of_not rfl
        | refine typedBy_ok ?_ ?_
        | refine typedBy_fail ?_
        | refine codeTyped_append ?_ ?_
        | refine codeTyped_cons ?_ ?_
        | refine typedBy_state (by assumption) (hv _ _ ?_)
        | refine typedBy_node (by assumption) (hv _ _ ?_)
        | refine hv _ _ ?_
        | refine typedBy_state (by assumption) (ir_function_call_arg_typed hv _ _ _ _ ?_)
        | refine typedBy_first (by assumption) (ir_function_call_arg_typed hv _ _ _ _ ?_)
        | refine ir_function_call_arg_typed hv _ _ _ _ ?_
        | dsimp only
        | split)
  | cons head rest ih =>
    intro i g hg
    simp only [ir_function_call_args, IRGenerator.setLastError, IRGenerator.newBinary,
        IRGenerator.newLabel, IRGenerator.newVarValue,
        IRGenerator.newVarValueWithValue, IRGenerator.getCurrentFunction,
        IRGenerator.enterScope, IRGenerator.leaveScope, IRGenerator.newFormalParam]
    repeat' split
    all_goals
      repeat (first
        | assumption
        | exact codeTyped_nil
        | exact trivial
        | exact cmpTyped_bool _ _ _ _
        | exact cmpTyped_of_not rfl
        | refine typedBy_ok ?_ ?_
        | refine typedBy_fail ?_
        | refine codeTyped_append ?_ ?_
        | refine codeTyped_cons ?_ ?_
        | refine typedBy_state (by assumption) (hv _ _ ?_)
        | refine typedBy_node (by assumption) (hv _ _ ?_)
        | refine hv _ _ ?_
        | refine typedBy_state (by assumption) (ih _ _ ?_)
        | refine typedBy_first (by assumption) (ih _ _ ?_)
        | refine ih _ _ ?_
        | refine typedBy_state (by assumption) (ir_function_call_arg_typed hv _ _ _ _ ?_)
        | refine typedBy_first (by assumption) (ir_function_call_arg_typed hv _ _ _ _ ?_)
        | refine ir_function_call_arg_typed hv _ _ _ _ ?_
        | dsimp only
        | split)

theorem ir_function_call_typed {visit : Visitor} (hv : VisitorTyped visit) (node : ast_node)
    (g : IRGenerator) (hg : StateTyped g.currentFunc g.functions) :
    TypedBy (fun r : NodeResult => r.blockInsts) (ir_function_call visit node g) := by
  simp only [ir_function_call, IRGenerator.setLastError, IRGenerator.newBinary,
      IRGenerator.newLabel, IRGenerator.newVarValue,
      IRGenerator.newVarValueWithValue, IRGenerator.getCurrentFunction,
      IRGenerator.enterScope, IRGenerator.leaveScope, IRGenerator.newFormalParam]
  repeat' split
  all_goals
    repeat (first
      | assumption
      | exact codeTyped_nil
      | exact trivial
      | exact cmpTyped_bool _ _ _ _
      | exact cmpTyped_of_not rfl
      | refine typedBy_ok ?_ ?_
      | refine typedBy_fail ?_
      | refine codeTyped_append ?_ ?_
      | refine codeTyped_cons ?_ ?_
      | refine typedBy_state (by assumption) (hv _ _ ?_)
      | refine typedBy_node (by assumption) (hv _ _ ?_)
      | refine hv _ _ ?_
      | refine typedBy_state (by assumption) (ir_function_call_args_typed hv _ _ _ _ _ ?_)
      | refine typedBy_first (by assumption) (ir_function_call_args_typed hv _ _ _ _ _ ?_)
      | refine ir_function_call_args_typed hv _ _ _ _ _ ?_
      | refine noteCall_typed ?_
      | dsimp only
      | split)

theorem ir_variable_declare_typed {visit : Visitor} (hv : VisitorTyped visit) (node : ast_node)
    (g : IRGenerator) (hg : StateTyped g.currentFunc g.functions) :
    TypedBy (fun r : NodeResult => r.blockInsts) (ir_variable_declare visit node g) := by
  simp only [ir_variable_declare, IRGenerator.setLastError, IRGenerator.newBinary,
      IRGenerator.newLabel, IRGenerator.newVarValue,
      IRGenerator.newVarValueWithValue, IRGenerator.getCurrentFunction,
      IRGenerator.enterScope, IRGenerator.leaveScope, IRGenerator.newFormalParam]
  repeat' split
  all_goals
    repeat (first
      | assumption
      | exact codeTyped_nil
      | exact trivial
      | exact cmpTyped_bool _ _ _ _
      | exact cmpTyped_of_not rfl
      | refine typedBy_ok ?_ ?_
      | refine typedBy_fail ?_
      | refine codeTyped_append ?_ ?_
      | refine codeTyped_cons ?_ ?_
      | refine typedBy_state (by assumption) (hv _ _ ?_)
      | refine typedBy_node (by assumption) (hv _ _ ?_)
      | refine hv _ _ ?_
      | refine typedBy_state (by assumption) (ir_array_def_typed hv _ _ ?_)
      | refine typedBy_node (by assumption) (ir_array_def_typed hv _ _ ?_)
      | refine ir_array_def_typed hv _ _ ?_
      | dsimp only
      | split)

theorem ir_declare_statment_sons_typed {visit : Visitor} (hv : VisitorTyped visit) 
    (sons : List ast_node) :
    ∀  (g : IRGenerator), StateTyped g.currentFunc g.functions →
      TypedBy (fun r : List Instruction => r) (ir_declare_statment_sons visit sons g) := by
  induction sons with
  | nil =>
    intro  g hg
    simp only [ir_declare_statment_sons]
    repeat' split
    all_goals
      repeat (first
        | assumption
        | exact codeTyped_nil
        | exact trivial
        | exact cmpTyped_bool _ _ _ _
        | exact cmpTyped_of_not rfl
        | refine typedBy_ok ?_ ?_
        | refine typedBy_fail ?_
        | refine codeTyped_append ?_ ?_
        | refine codeTyped_cons ?_ ?_
        | refine typedBy_state (by assumption) (hv _ _ ?_)
        | refine typedBy_node (by assumption) (hv _ _ ?_)
        | refine hv _ _ ?_
        | refine typedBy_state (by assumption) (ir_variable_declare_typed hv _ _ ?_)
        | refine typedBy_node (by assumption) (ir_variable_declare_typed hv _ _ ?_)
        | refine ir_variable_declare_typed hv _ _ ?_
        | dsimp only
        | split)
  | cons head rest ih =>
    intro  g hg
    simp only [ir_declare_statment_sons, IRGenerator.setLastError, IRGenerator.newBinary,
        IRGenerator.newLabel, IRGenerator.newVarValue,
        IRGenerator.newVarValueWithValue, IRGenerator.getCurrentFunction,
        IRGenerator.enterScope, IRGenerator.leaveScope, IRGenerator.newFormalParam]
    repeat' split
    all_goals
      repeat (first
        | assumption
        | exact codeTyped_nil
        | exact trivial
        | exact cmpTyped_bool _ _ _ _
        | exact cmpTyped_of_not rfl
        | refine typedBy_ok ?_ ?_
        | refine typedBy_fail ?_
        | refine codeTyped_append ?_ ?_
        | refine codeTyped_cons ?_ ?_
        | refine typedBy_state (by assumption) (hv _ _ ?_)
        | refine typedBy_node (by assumption) (hv _ _ ?_)
        | refine hv _ _ ?_
        | refine typedBy_state (by assumption) (ih _ ?_)
        | refine typedBy_list (by assumption) (ih _ ?_)
        | refine ih _ ?_
        | refine typedBy_state (by assumption) (ir_variable_declare_typed hv _ _ ?_)
        | refine typedBy_node (by assumption) (ir_variable_declare_typed hv _ _ ?_)
        | refine ir_variable_declare_typed hv _ _ ?_
        | dsimp only
        | split)

theorem ir_declare_statment_typed {visit : Visitor} (hv : VisitorTyped visit) (node : ast_node)
    (g : IRGenerator) (hg : StateTyped g.currentFunc g.functions) :
    TypedBy (fun r : NodeResult => r.blockInsts) (ir_declare_statment visit node g) := by
  simp only [ir_declare_statment, IRGenerator.setLastError, IRGenerator.newBinary,
      IRGenerator.newLabel, IRGenerator.newVarValue,
      IRGenerator.newVarValueWithValue, IRGenerator.getCurrentFunction,
      IRGenerator.enterScope, IRGenerator.leaveScope, IRGenerator.newFormalParam]
  repeat' split
  all_goals
    repeat (first
      | assumption
      | exact codeTyped_nil
      | exact trivial
      | exact cmpTyped_bool _ _ _ _
      | exact cmpTyped_of_not rfl
      | refine typedBy_ok ?_ ?_
      | refine typedBy_fail ?_
      | refine codeTyped_append ?_ ?_
      | refine codeTyped_cons ?_ ?_
      | refine typedBy_state (by assumption) (hv _ _ ?_)
      | refine typedBy_node (by assumption) (hv _ _ ?_)
      | refine hv _ _ ?_
      | refine typedBy_state (by assumption) (ir_declare_statment_sons_typed hv _ _ ?_)
      | refine typedBy_list (by assumption) (ir_declare_statment_sons_typed hv _ _ ?_)
      | refine ir_declare_statment_sons_typed hv _ _ ?_
      | dsimp only
      | split)

theorem ir_function_formal_params_loop_typed (sons : List ast_node)
    (params : List Value) :
    ∀ (i : Nat) (g : IRGenerator), StateTyped g.currentFunc g.functions →
      TypedBy (fun _ => []) (ir_function_formal_params_loop sons i params g) := by
  induction params with
  | nil =>
    intro i g hg
    simp only [ir_function_formal_params_loop]
    repeat' split
    all_goals
      repeat (first
        | assumption
        | exact codeTyped_nil
        | exact trivial
        | exact cmpTyped_bool _ _ _ _
        | exact cmpTyped_of_not rfl
        | refine typedBy_ok ?_ ?_
        | refine typedBy_fail ?_
        | refine codeTyped_append ?_ ?_
        | refine codeTyped_cons ?_ ?_
        | refine addInst_typed ?_ ?_
        | dsimp only
        | split)
  | cons head rest ih =>
    intro i g hg
    simp only [ir_function_formal_params_loop, IRGenerator.setLastError,
        IRGenerator.newBinary, IRGenerator.newLabel, IRGenerator.newVarValue,
        IRGenerator.newVarValueWithValue, IRGenerator.getCurrentFunction,
        IRGenerator.enterScope, IRGenerator.leaveScope, IRGenerator.newFormalParam]
    repeat' split
    all_goals
      repeat (first
        | assumption
        | exact codeTyped_nil
        | exact trivial
        | exact cmpTyped_bool _ _ _ _
        | exact cmpTyped_of_not rfl
        | refine typedBy_ok ?_ ?_
        | refine typedBy_fail ?_
        | refine codeTyped_append ?_ ?_
        | refine codeTyped_cons ?_ ?_
        | refine typedBy_state (by assumption) (ih _ _ ?_)
        | refine ih _ _ ?_
        | refine addInst_typed ?_ ?_
        | dsimp only
        | split)

theorem ir_function_formal_params_typed (node : ast_node)
    (g : IRGenerator) (hg : StateTyped g.currentFunc g.functions) :
    TypedBy (fun r : NodeResult => r.blockInsts) (ir_function_formal_params node g) := by
  simp only [ir_function_formal_params, IRGenerator.setLastError, IRGenerator.newBinary,
      IRGenerator.newLabel, IRGenerator.newVarValue,
      IRGenerator.newVarValueWithValue, IRGenerator.getCurrentFunction,
      IRGenerator.enterScope, IRGenerator.leaveScope, IRGenerator.newFormalParam]
  repeat' split
  all_goals
    repeat (first
      | assumption
      | exact codeTyped_nil
      | exact trivial
      | exact cmpTyped_bool _ _ _ _
      | exact cmpTyped_of_not rfl
      | refine typedBy_ok ?_ ?_
      | refine typedBy_fail ?_
      | refine codeTyped_append ?_ ?_
      | refine codeTyped_cons ?_ ?_
      | refine typedBy_state (by assumption) (ir_function_formal_params_loop_typed _ _ _ _ ?_)
      | refine ir_function_formal_params_loop_typed _ _ _ _ ?_
      | dsimp only
      | split)

theorem paramsFromAst_typed 
    (sons : List ast_node) :
    ∀  (g : IRGenerator), StateTyped g.currentFunc g.functions →
      TypedBy (fun _ => []) (paramsFromAst sons g) := by
  induction sons with
  | nil =>
    intro  g hg
    simp only [paramsFromAst]
    repeat' split
    all_goals
      repeat (first
        | assumption
        | exact codeTyped_nil
        | exact trivial
        | exact cmpTyped_bool _ _ _ _
        | exact cmpTyped_of_not rfl
        | refine typedBy_ok ?_ ?_
        | refine typedBy_fail ?_
        | refine codeTyped_append ?_ ?_
        | refine codeTyped_cons ?_ ?_
        | dsimp only
        | split)
  | cons head rest ih =>
    intro  g hg
    simp only [paramsFromAst, IRGenerator.setLastError, IRGenerator.newBinary,
        IRGenerator.newLabel, IRGenerator.newVarValue,
        IRGenerator.newVarValueWithValue, IRGenerator.getCurrentFunction,
        IRGenerator.enterScope, IRGenerator.leaveScope, IRGenerator.newFormalParam]
    repeat' split
    all_goals
      repeat (first
        | assumption
        | exact codeTyped_nil
        | exact trivial
        | exact cmpTyped_bool _ _ _ _
        | exact cmpTyped_of_not rfl
        | refine typedBy_ok ?_ ?_
        | refine typedBy_fail ?_
        | refine codeTyped_append ?_ ?_
        | refine codeTyped_cons ?_ ?_
        | refine typedBy_state (by assumption) (ih _ ?_)
        | refine ih _ ?_
        | dsimp only
        | split)

theorem defineEntry_typed {g : IRGenerator} {newFunc : Function} (name : String)
    (hg : StateTyped g.currentFunc g.functions) (hf : FunctionTyped newFunc) :
    StateTyped (defineEntry g newFunc name).currentFunc
      (defineEntry g newFunc name).functions := by
  simp only [defineEntry, IRGenerator.enterScope]
  refine updateCurrent_typed (fun _ hf => functionTyped_of_same rfl rfl hf) ?_
  dsimp only
  split
  · refine addInst_typed (codeTyped_globalInitMoves _ _) (addInst_typed ?_ ?_)
    · exact codeTyped_cons trivial codeTyped_nil
    · exact setCurrentFunction_typed (some_typed hf) hg
  · refine addInst_typed ?_ ?_
    · exact codeTyped_cons trivial codeTyped_nil
    · exact setCurrentFunction_typed (some_typed hf) hg

theorem bodyEntry_typed {g : IRGenerator} (type : IRType)
    (hg : StateTyped g.currentFunc g.functions) :
    StateTyped (bodyEntry type g).currentFunc (bodyEntry type g).functions := by
  simp only [bodyEntry, IRGenerator.newVarValue]
  refine updateCurrent_typed (fun _ hf => functionTyped_of_same rfl rfl hf) ?_
  split
  · exact hg
  · exact hg

theorem define_tail_typed {visit : Visitor} (hv : VisitorTyped visit)
    (param_node block_node : ast_node) (type : IRType) (name : String) (label : Nat)
    (g : IRGenerator) (newFunc : Function)
    (hg : StateTyped g.currentFunc g.functions) (hf : FunctionTyped newFunc) :
    TypedBy (fun r : NodeResult => r.blockInsts)
      (match ir_function_formal_params param_node (defineEntry g newFunc name) with
       | (none, g6) => (none, g6.setLastError .formalParamsFailed)
       | (some _, g6) =>
         match ir_block visit (block_node.setNeedScope false) (bodyEntry type g6) with
         | (none, g9) => (none, g9)
         | (some block, g9) =>
           (some {},
             (((g9.addInst block.blockInsts).addInst
                 [.Label label, .Exit (returnSlot type g6)]).setCurrentFunction
               none).leaveScope)) := by
  have h1 := ir_function_formal_params_typed param_node _ (defineEntry_typed name hg hf)
  split
  · rename_i g6 heq
    have h6 := typedBy_state heq h1
    exact typedBy_fail h6
  · rename_i u g6 heq
    have h2 := ir_block_typed hv (block_node.setNeedScope false) _
      (bodyEntry_typed type (typedBy_state heq h1))
    split
    · rename_i g9 heq9
      exact typedBy_fail (typedBy_state heq9 h2)
    · rename_i block g9 heq9
      refine typedBy_ok ?_ codeTyped_nil
      simp only [IRGenerator.leaveScope]
      refine setCurrentFunction_typed none_typed (addInst_typed ?_ (addInst_typed ?_ ?_))
      · exact codeTyped_cons trivial (codeTyped_cons trivial codeTyped_nil)
      · exact typedBy_node heq9 h2
      · exact typedBy_state heq9 h2

theorem ir_function_define_typed {visit : Visitor} (hv : VisitorTyped visit) (node : ast_node)
    (g : IRGenerator) (hg : StateTyped g.currentFunc g.functions) :
    TypedBy (fun r : NodeResult => r.blockInsts) (ir_function_define visit node g) := by
  cases hsons : node.sons with
  | nil => simp only [ir_function_define, hsons]; exact typedBy_fail hg
  | cons type_node l1 =>
  cases l1 with
  | nil => simp only [ir_function_define, hsons]; exact typedBy_fail hg
  | cons name_node l2 =>
  cases l2 with
  | nil => simp only [ir_function_define, hsons]; exact typedBy_fail hg
  | cons param_node l3 =>
  cases l3 with
  | nil => simp only [ir_function_define, hsons]; exact typedBy_fail hg
  | cons block_node rest =>
  cases hcur : g.currentFunc with
  | some f =>
    simp only [ir_function_define, hsons, IRGenerator.getCurrentFunction, hcur]
    have he : StateTyped (g.setLastError .nestedFunction).currentFunc
        (g.setLastError .nestedFunction).functions := hg
    exact typedBy_fail he
  | none =>
    cases hfind : g.findFunction name_node.name with
    | some newFunc =>
      rw [ir_function_define_registered visit node _ _ _ _ _ g newFunc hsons hcur hfind]
      exact define_tail_typed hv param_node block_node type_node.type name_node.name g.nextId g
        newFunc hg (findFunction_typed hfind hg)
    | none =>
      have hp := paramsFromAst_typed param_node.sons g hg
      cases hparams : paramsFromAst param_node.sons g with
      | mk ps g1 =>
      have hg1 := typedBy_state hparams hp
      cases ps with
      | none =>
        simp only [ir_function_define, hsons, IRGenerator.getCurrentFunction, hcur, hfind,
          hparams]
        exact typedBy_fail hg1
      | some params =>
        have hn := newFunction_typed g1 name_node.name type_node.type params hg1
        cases hnew : g1.newFunction name_node.name type_node.type params with
        | mk fo g2 =>
        rw [hnew] at hn
        cases fo with
        | none =>
          simp only [ir_function_define, hsons, IRGenerator.getCurrentFunction, hcur, hfind,
            hparams, hnew]
          exact typedBy_fail hn.1
        | some newFunc =>
          rw [ir_function_define_created visit node _ _ _ _ _ g g1 g2 params newFunc hsons hcur
            hfind hparams hnew]
          exact define_tail_typed hv param_node block_node type_node.type name_node.name
            g2.nextId g2 newFunc hn.1 (hn.2 newFunc rfl)

theorem collectParams_typed (funcName : String)
    (sons : List ast_node) :
    ∀ (paramIdx : Nat) (g : IRGenerator), StateTyped g.currentFunc g.functions →
      StateTyped (collectParams funcName paramIdx sons g).2.currentFunc (collectParams funcName paramIdx sons g).2.functions := by
  induction sons with
  | nil =>
    intro paramIdx g hg
    simp only [collectParams]
    repeat' split
    all_goals
      repeat (first
        | assumption
        | exact codeTyped_nil
        | exact trivial
        | exact cmpTyped_bool _ _ _ _
        | exact cmpTyped_of_not rfl
        | refine typedBy_ok ?_ ?_
        | refine typedBy_fail ?_
        | refine codeTyped_append ?_ ?_
        | refine codeTyped_cons ?_ ?_
        | dsimp only
        | split)
  | cons head rest ih =>
    intro paramIdx g hg
    simp only [collectParams, IRGenerator.setLastError, IRGenerator.newBinary,
        IRGenerator.newLabel, IRGenerator.newVarValue,
        IRGenerator.newVarValueWithValue, IRGenerator.getCurrentFunction,
        IRGenerator.enterScope, IRGenerator.leaveScope, IRGenerator.newFormalParam]
    repeat' split
    all_goals
      repeat (first
        | assumption
        | exact codeTyped_nil
        | exact trivial
        | exact cmpTyped_bool _ _ _ _
        | exact cmpTyped_of_not rfl
        | refine typedBy_ok ?_ ?_
        | refine typedBy_fail ?_
        | refine codeTyped_append ?_ ?_
        | refine codeTyped_cons ?_ ?_
        | refine eq_state (by assumption) (ih _ _ ?_)
        | refine ih _ _ ?_
        | dsimp only
        | split)

theorem registerPrototype_typed (son : ast_node)
    (g : IRGenerator) (hg : StateTyped g.currentFunc g.functions) :
    StateTyped (registerPrototype son g).currentFunc (registerPrototype son g).functions := by
  simp only [registerPrototype, IRGenerator.setLastError, IRGenerator.newBinary,
      IRGenerator.newLabel, IRGenerator.newVarValue,
      IRGenerator.newVarValueWithValue, IRGenerator.getCurrentFunction,
      IRGenerator.enterScope, IRGenerator.leaveScope, IRGenerator.newFormalParam]
  repeat' split
  all_goals
    repeat (first
      | assumption
      | exact codeTyped_nil
      | exact trivial
      | exact cmpTyped_bool _ _ _ _
      | exact cmpTyped_of_not rfl
      | refine typedBy_ok ?_ ?_
      | refine typedBy_fail ?_
      | refine codeTyped_append ?_ ?_
      | refine codeTyped_cons ?_ ?_
      | refine eq_state (by assumption) (collectParams_typed _ _ _ _ ?_)
      | refine collectParams_typed _ _ _ _ ?_
      | refine (newFunction_typed _ _ _ _ ?_).1
      | refine eq_state (by assumption) (newFunction_typed _ _ _ _ ?_).1
      | refine (newFunction_typed _ _ _ _ ?_).2 _ (by assumption)
      | dsimp only
      | split)

theorem compileUnitGlobals_typed {visit : Visitor} (hv : VisitorTyped visit) 
    (sons : List ast_node) :
    ∀  (g : IRGenerator), StateTyped g.currentFunc g.functions →
      StateTyped (compileUnitGlobals visit sons g).2.currentFunc (compileUnitGlobals visit sons g).2.functions := by
  induction sons with
  | nil =>
    intro  g hg
    simp only [compileUnitGlobals]
    repeat' split
    all_goals
      repeat (first
        | assumption
        | exact codeTyped_nil
        | exact trivial
        | exact cmpTyped_bool _ _ _ _
        | exact cmpTyped_of_not rfl
        | refine typedBy_ok ?_ ?_
        | refine typedBy_fail ?_
        | refine codeTyped_append ?_ ?_
        | refine codeTyped_cons ?_ ?_
        | refine typedBy_state (by assumption) (hv _ _ ?_)
        | refine typedBy_node (by assumption) (hv _ _ ?_)
        | refine hv _ _ ?_
        | dsimp only
        | split)
  | cons head rest ih =>
    intro  g hg
    simp only [compileUnitGlobals, IRGenerator.setLastError, IRGenerator.newBinary,
        IRGenerator.newLabel, IRGenerator.newVarValue,
        IRGenerator.newVarValueWithValue, IRGenerator.getCurrentFunction,
        IRGenerator.enterScope, IRGenerator.leaveScope, IRGenerator.newFormalParam]
    repeat' split
    all_goals
      repeat (first
        | assumption
        | exact codeTyped_nil
        | exact trivial
        | exact cmpTyped_bool _ _ _ _
        | exact cmpTyped_of_not rfl
        | refine typedBy_ok ?_ ?_
        | refine typedBy_fail ?_
        | refine codeTyped_append ?_ ?_
        | refine codeTyped_cons ?_ ?_
        | refine typedBy_state (by assumption) (hv _ _ ?_)
        | refine typedBy_node (by assumption) (hv _ _ ?_)
        | refine hv _ _ ?_
        | refine eq_state (by assumption) (ih _ ?_)
        | refine ih _ ?_
        | dsimp only
        | split)

theorem compileUnitPrototypes_typed 
    (sons : List ast_node) :
    ∀  (g : IRGenerator), StateTyped g.currentFunc g.functions →
      StateTyped (compileUnitPrototypes sons g).currentFunc (compileUnitPrototypes sons g).functions := by
  induction sons with
  | nil =>
    intro  g hg
    simp only [compileUnitPrototypes]
    repeat' split
    all_goals
      repeat (first
        | assumption
        | exact codeTyped_nil
        | exact trivial
        | exact cmpTyped_bool _ _ _ _
        | exact cmpTyped_of_not rfl
        | refine typedBy_ok ?_ ?_
        | refine typedBy_fail ?_
        | refine codeTyped_append ?_ ?_
        | refine codeTyped_cons ?_ ?_
        | refine registerPrototype_typed _ _ ?_
        | dsimp only
        | split)
  | cons head rest ih =>
    intro  g hg
    simp only [compileUnitPrototypes, IRGenerator.setLastError, IRGenerator.newBinary,
        IRGenerator.newLabel, IRGenerator.newVarValue,
        IRGenerator.newVarValueWithValue, IRGenerator.getCurrentFunction,
        IRGenerator.enterScope, IRGenerator.leaveScope, IRGenerator.newFormalParam]
    repeat' split
    all_goals
      repeat (first
        | assumption
        | exact codeTyped_nil
        | exact trivial
        | exact cmpTyped_bool _ _ _ _
        | exact cmpTyped_of_not rfl
        | refine typedBy_ok ?_ ?_
        | refine typedBy_fail ?_
        | refine codeTyped_append ?_ ?_
        | refine codeTyped_cons ?_ ?_
        | refine ih _ ?_
        | refine registerPrototype_typed _ _ ?_
        | dsimp only
        | split)

theorem compileUnitFunctions_typed {visit : Visitor} (hv : VisitorTyped visit) 
    (sons : List ast_node) :
    ∀  (g : IRGenerator), StateTyped g.currentFunc g.functions →
      StateTyped (compileUnitFunctions visit sons g).2.currentFunc (compileUnitFunctions visit sons g).2.functions := by
  induction sons with
  | nil =>
    intro  g hg
    simp only [compileUnitFunctions]
    repeat' split
    all_goals
      repeat (first
        | assumption
        | exact codeTyped_nil
        | exact trivial
        | exact cmpTyped_bool _ _ _ _
        | exact cmpTyped_of_not rfl
        | refine typedBy_ok ?_ ?_
        | refine typedBy_fail ?_
        | refine codeTyped_append ?_ ?_
        | refine codeTyped_cons ?_ ?_
        | refine typedBy_state (by assumption) (hv _ _ ?_)
        | refine typedBy_node (by assumption) (hv _ _ ?_)
        | refine hv _ _ ?_
        | dsimp only
        | split)
  | cons head rest ih =>
    intro  g hg
    simp only [compileUnitFunctions, IRGenerator.setLastError, IRGenerator.newBinary,
        IRGenerator.newLabel, IRGenerator.newVarValue,
        IRGenerator.newVarValueWithValue, IRGenerator.getCurrentFunction,
        IRGenerator.enterScope, IRGenerator.leaveScope, IRGenerator.newFormalParam]
    repeat' split
    all_goals
      repeat (first
        | assumption
        | exact codeTyped_nil
        | exact trivial
        | exact cmpTyped_bool _ _ _ _
        | exact cmpTyped_of_not rfl
        | refine typedBy_ok ?_ ?_
        | refine typedBy_fail ?_
        | refine codeTyped_append ?_ ?_
        | refine codeTyped_cons ?_ ?_
        | refine typedBy_state (by assumption) (hv _ _ ?_)
        | refine typedBy_node (by assumption) (hv _ _ ?_)
        | refine hv _ _ ?_
        | refine eq_state (by assumption) (ih _ ?_)
        | refine ih _ ?_
        | dsimp only
        | split)

theorem ir_compile_unit_typed {visit : Visitor} (hv : VisitorTyped visit) (node : ast_node)
    (g : IRGenerator) (hg : StateTyped g.currentFunc g.functions) :
    TypedBy (fun r : NodeResult => r.blockInsts) (ir_compile_unit visit node g) := by
  simp only [ir_compile_unit, IRGenerator.setLastError, IRGenerator.newBinary,
      IRGenerator.newLabel, IRGenerator.newVarValue,
      IRGenerator.newVarValueWithValue, IRGenerator.getCurrentFunction,
      IRGenerator.enterScope, IRGenerator.leaveScope, IRGenerator.newFormalParam]
  repeat' split
  all_goals
    repeat (first
      | assumption
      | exact codeTyped_nil
      | exact trivial
      | exact cmpTyped_bool _ _ _ _
      | exact cmpTyped_of_not rfl
      | refine typedBy_ok ?_ ?_
      | refine typedBy_fail ?_
      | refine codeTyped_append ?_ ?_
      | refine codeTyped_cons ?_ ?_
      | refine typedBy_state (by assumption) (hv _ _ ?_)
      | refine typedBy_node (by assumption) (hv _ _ ?_)
      | refine hv _ _ ?_
      | refine eq_state (by assumption) (compileUnitGlobals_typed hv _ _ ?_)
      | refine compileUnitGlobals_typed hv _ _ ?_
      | refine compileUnitPrototypes_typed _ _ ?_
      | refine eq_state (by assumption) (compileUnitFunctions_typed hv _ _ ?_)
      | refine compileUnitFunctions_typed hv _ _ ?_
      | refine setCurrentFunction_typed ?_ ?_
      | exact none_typed
      | refine some_typed ?_
      | dsimp only
      | split)

theorem dispatch_typed {visit : Visitor} (hv : VisitorTyped visit) :
    VisitorTyped (dispatch visit) := by
  intro node g hg
  unfold dispatch
  split
  exacts [ir_leaf_node_uint_typed node g hg, ir_leaf_node_var_id_typed node g hg,
    ir_leaf_node_type_typed node g hg, ir_sub_typed hv node g hg, ir_add_typed hv node g hg,
    ir_mul_typed hv node g hg, ir_div_typed hv node g hg, ir_mod_typed hv node g hg,
    ir_neg_typed hv node g hg, ir_lt_typed hv node g hg, ir_gt_typed hv node g hg,
    ir_le_typed hv node g hg, ir_ge_typed hv node g hg, ir_eq_typed hv node g hg,
    ir_ne_typed hv node g hg, ir_logic_and_typed hv node g hg, ir_logic_or_typed hv node g hg,
    ir_logic_not_typed hv node g hg, ir_if_typed hv node g hg, ir_if_else_typed hv node g hg,
    ir_while_typed hv node g hg, ir_break_typed node g hg, ir_continue_typed node g hg,
    ir_array_def_typed hv node g hg, ir_array_access_typed hv node g hg,
    ir_assign_typed hv node g hg, ir_return_typed hv node g hg,
    ir_function_call_typed hv node g hg, ir_function_define_typed hv node g hg,
    ir_function_formal_params_typed node g hg, ir_function_formal_param_array_typed node g hg,
    ir_empty_stmt_typed node g hg, ir_declare_statment_typed hv node g hg,
    ir_variable_declare_typed hv node g hg, ir_block_typed hv node g hg,
    ir_compile_unit_typed hv node g hg, ir_default_typed node g hg]

/-- Every visit keeps the typing of comparisons: from a state whose functions hold
well-typed code only, the code of the node and the code of every function afterwards
are well typed. -/
theorem ir_visit_ast_node_typed : ∀ n, VisitorTyped (ir_visit_ast_node n)
  | 0 => fun _ _ hg => typedBy_fail hg
  | n + 1 => dispatch_typed (ir_visit_ast_node_typed n)

/-- The empty generator holds no code. -/
theorem stateTyped_initial :
    StateTyped ({} : IRGenerator).currentFunc ({} : IRGenerator).functions :=
  ⟨none_typed, fun _ h => by cases h⟩

theorem cmpTyped_binary {id : Nat} {op : IRInstOperator} {a b : Option Value} {t : IRType}
    (h : (Instruction.Binary id op a b t).cmpTyped) (hop : op.isComparison = true) :
    t = .bool :=
  h hop

/-- Claim C32: whatever node is lowered, from a generator state whose functions hold
only comparisons of result type Bool (the empty generator is one), every Binary
instruction with a comparison opcode in the code of the node, in the instruction list
of every function of the table and of the current function afterwards, and among the
instructions `int_to_bool` hands to its caller, has result type Bool. -/
theorem comparisons_have_type_bool (n : Nat) (node : ast_node) (g : IRGenerator)
    (hg : StateTyped g.currentFunc g.functions) :
    (∀ r, (ir_visit_ast_node n node g).1 = some r →
      ∀ id op src1 src2 type, Instruction.Binary id op src1 src2 type ∈ r.blockInsts →
        op.isComparison = true → type = .bool) ∧
    (∀ f, (f ∈ (ir_visit_ast_node n node g).2.functions ∨
          (ir_visit_ast_node n node g).2.currentFunc = some f) →
      ∀ id op src1 src2 type, Instruction.Binary id op src1 src2 type ∈ f.interCode →
        op.isComparison = true → type = .bool) ∧
    (∀ val id op src1 src2 type,
      Instruction.Binary id op src1 src2 type ∈
          (takeBoolCheck (int_to_bool val (ir_visit_ast_node n node g).2).2).1 →
        op.isComparison = true → type = .bool) := by
  have h := ir_visit_ast_node_typed n node g hg
  refine ⟨fun r hr id op s1 s2 t hmem hop => cmpTyped_binary (h.2 r hr _ hmem) hop,
    fun f hf id op s1 s2 t hmem hop => ?_, fun val id op s1 s2 t hmem hop => ?_⟩
  · rcases hf with hf | hf
    · exact cmpTyped_binary ((h.1.2 f hf).1 _ hmem) hop
    · exact cmpTyped_binary ((h.1.1 f hf).1 _ hmem) hop
  · exact cmpTyped_binary
      ((takeBoolCheck_typed _ (int_to_bool_typed val _ h.1).1).2 _ hmem) hop

/-- Witness of C32: the unit `int f(int x) { return !x && x < 1; }` lowered from the
empty generator; the comparisons in the code of `f` are the `eq` of the negation, the
`ne` of the conversion and the `lt`, each of type Bool. -/
theorem comparisons_have_type_bool_witness :
    ((∀ r, (ir_visit_ast_node 9 exNotAndLessUnit {}).1 = some r →
      ∀ id op src1 src2 type, Instruction.Binary id op src1 src2 type ∈ r.blockInsts →
        op.isComparison = true → type = .bool) ∧
    (∀ f, (f ∈ (ir_visit_ast_node 9 exNotAndLessUnit {}).2.functions ∨
          (ir_visit_ast_node 9 exNotAndLessUnit {}).2.currentFunc = some f) →
      ∀ id op src1 src2 type, Instruction.Binary id op src1 src2 type ∈ f.interCode →
        op.isComparison = true → type = .bool) ∧
    (∀ val id op src1 src2 type,
      Instruction.Binary id op src1 src2 type ∈
          (takeBoolCheck (int_to_bool val (ir_visit_ast_node 9 exNotAndLessUnit {}).2).2).1 →
        op.isComparison = true → type = .bool)) ∧
    (((ir_visit_ast_node 9 exNotAndLessUnit {}).2.findFunction "f").map
        (fun f => f.interCode.filterMap comparisonType)) =
      some [(.IRINST_OP_EQ_I, .bool), (.IRINST_OP_NE_I, .bool), (.IRINST_OP_LT_I, .bool)] :=
  ⟨comparisons_have_type_bool 9 exNotAndLessUnit {} stateTyped_initial, by decide!⟩

/-! ### Element addresses in calls: arbitrary index expressions -/

/-- Meaning of one step of the address arithmetic, for operands allocated before the
step. -/
theorem strideStep_sem (dims : List Int) (j : Nat) (total v : Value) (id : Nat)
    (ht : total.allocatedBefore id) (m : Machine) :
    (execInsts m (strideStep (strideFrom dims j) total v id).1).read
        (strideStep (strideFrom dims j) total v id).2 =
      m.read total + m.read v * strideFrom dims j := by
  have ht0 := Value.old_ne_result ht 0 .int32
  simp only [Nat.add_zero] at ht0
  unfold strideStep
  split
  · rename_i h1
    simp [execInsts, exec_binary_read, evalOperator, h1]
  · simp [execInsts, exec_binary_read, evalOperator, ht0, newConstInt, Machine.read_const,
      toInt32_strideFrom]

/-- Meaning of the end of the address arithmetic, for operands allocated before it. -/
theorem elementAddressTail_sem (arrayVar total : Value) (id : Nat)
    (ha : arrayVar.allocatedBefore id) (m : Machine) :
    (execInsts m (elementAddressTail arrayVar total id)).read
        (.InstructionResult (id + 1) (.pointer .int32)) =
      m.read arrayVar + 4 * m.read total := by
  have ha0 := Value.old_ne_result ha 0 .int32
  simp only [Nat.add_zero] at ha0
  simp [elementAddressTail, execInsts, exec_binary_read, evalOperator, ha0, newConstInt,
    Machine.read_const, toInt32_four]
  ring

theorem strideStep_allocated (stride : Int) (total v : Value) (id : Nat) :
    (strideStep stride total v id).2.allocatedBefore
      (id + (strideStep stride total v id).1.length) := by
  unfold strideStep
  split
  · exact Value.allocatedBefore_result _ _ _ (by simp)
  · exact Value.allocatedBefore_result _ _ _ (by simp)

/-- The index loop of `calculateArrayAccessOffset` in terms of `strideStep`. -/
theorem arrayAccessOffsetLoop_cons (visit : Visitor) (dims : List Int) (j : Nat)
    (son : ast_node) (rest : List ast_node) (total : Value) (g : IRGenerator) :
    arrayAccessOffsetLoop visit dims j (son :: rest) total g =
      match visit son g with
      | (none, g1) => (none, g1)
      | (some r, g1) =>
        match r.val with
        | none => (none, g1)
        | some v =>
          match arrayAccessOffsetLoop visit dims (j + 1) rest
              (strideStep (strideFrom dims j) total v g1.nextId).2
              { g1 with nextId :=
                  g1.nextId + (strideStep (strideFrom dims j) total v g1.nextId).1.length } with
          | (none, g3) => (none, g3)
          | (some (insts, last), g3) =>
            (some (r.blockInsts ++ (strideStep (strideFrom dims j) total v g1.nextId).1 ++
              insts, last), g3) := by
  rw [arrayAccessOffsetLoop]
  cases visit son g with
  | mk res g1 =>
    cases res with
    | none => rfl
    | some r =>
      cases hval : r.val with
      | none => simp only [hval]
      | some v =>
        by_cases h1 : strideFrom dims j = 1
        · simp only [hval, strideStep, h1, IRGenerator.newBinary, if_true, List.length_singleton,
            List.append_assoc, List.singleton_append]
          try (split <;> (rename_i heq; rw [heq]))
        · simp only [hval, strideStep, h1, IRGenerator.newBinary, if_false, List.length_cons,
            List.length_nil, List.append_assoc, List.cons_append, List.nil_append, Nat.add_assoc]
          try (split <;> (rename_i heq; rw [heq]))

/-- The index loop produces exactly the code that `StridedIndices` describes. -/
theorem loop_of_strided (visit : Visitor) (dims : List Int) (j : Nat) (sons : List ast_node)
    (total : Value) (g : IRGenerator) (insts : List Instruction) (last : Value)
    (g2 : IRGenerator) (h : StridedIndices visit dims j sons total g insts last g2) :
    arrayAccessOffsetLoop visit dims j sons total g = (some (insts, last), g2) := by
  induction h with
  | done j total g => rfl
  | step j son rest total g g1 g2 r v insts last hvisit hval _ _ ih =>
    rw [arrayAccessOffsetLoop_cons, hvisit]
    simp only [hval, ih]

/-- In a well-formed state, what the index loop produces is described by
`StridedIndices`, the state afterwards is well formed and the allocation counter did not
decrease. -/
theorem strided_of_loop {visit : Visitor} (hv : VisitorOK visit) (dims : List Int)
    (sons : List ast_node) :
    ∀ (j : Nat) (total : Value) (g : IRGenerator) (insts : List Instruction) (last : Value)
      (g2 : IRGenerator), StateWF g → total.allocatedBefore g.nextId →
      arrayAccessOffsetLoop visit dims j sons total g = (some (insts, last), g2) →
      StridedIndices visit dims j sons total g insts last g2 ∧ StateWF g2 ∧
        g.nextId ≤ g2.nextId := by
  induction sons with
  | nil =>
    intro j total g insts last g2 hwf _ h
    simp only [arrayAccessOffsetLoop, Prod.mk.injEq, Option.some.injEq] at h
    obtain ⟨⟨rfl, rfl⟩, rfl⟩ := h
    exact ⟨.done j total g, hwf, Nat.le_refl _⟩
  | cons son rest ih =>
    intro j total g insts last g2 hwf ht h
    rw [arrayAccessOffsetLoop_cons] at h
    have hpost := hv son g hwf
    cases hvis : visit son g with
    | mk res g1 =>
      rw [hvis] at h hpost
      cases res with
      | none => simp at h
      | some r =>
        obtain ⟨hwf1, hn1, -, -⟩ := hpost.of_some
        cases hval : r.val with
        | none => simp [hval] at h
        | some v =>
          simp only [hval] at h
          have ht1 : total.allocatedBefore g1.nextId := ht.mono hn1
          have hwfs : StateWF ({ g1 with nextId :=
              g1.nextId + (strideStep (strideFrom dims j) total v g1.nextId).1.length } :
                IRGenerator) :=
            hwf1.of_same rfl rfl rfl (Nat.le_add_right _ _)
          cases hrest : arrayAccessOffsetLoop visit dims (j + 1) rest
              (strideStep (strideFrom dims j) total v g1.nextId).2
              { g1 with nextId :=
                  g1.nextId + (strideStep (strideFrom dims j) total v g1.nextId).1.length } with
          | mk out g3 =>
            rw [hrest] at h
            cases out with
            | none => simp at h
            | some p =>
              obtain ⟨restInsts, restLast⟩ := p
              simp only [Prod.mk.injEq, Option.some.injEq] at h
              obtain ⟨⟨rfl, rfl⟩, rfl⟩ := h
              obtain ⟨hs, hwf3, hn3⟩ := ih (j + 1) _ _ restInsts restLast g3 hwfs
                (strideStep_allocated _ _ _ _) hrest
              refine ⟨.step j son rest total g g1 g3 r v restInsts restLast hvis hval
                (strideStep_sem dims j total v g1.nextId ht1) hs, hwf3, ?_⟩
              have : g1.nextId ≤ g3.nextId := le_trans (Nat.le_add_right _ _) hn3
              omega

/-- The lowering of an element access passed for a pointer parameter, when the indexed
variable has array type: the index loop, the multiplication by the element size and the
addition to the base. -/
theorem ir_function_call_arg_array (visit : Visitor) (funcName : String)
    (son nameNode idx1 : ast_node) (rest : List ast_node) (g : IRGenerator) (func : Function)
    (arrayVar : Value) (elemType : IRType) (dims : List Int)
    (hnt : son.node_type = .AST_OP_ARRAY_ACCESS)
    (hsons : son.sons = nameNode :: idx1 :: rest)
    (hvar : g.findVarValue nameNode.name = some arrayVar)
    (hfunc : g.currentFunc = some func)
    (htype : arrayVar.getType = .array elemType dims) :
    ir_function_call_arg visit funcName true son g =
      match arrayAccessOffsetLoop visit dims 1 (idx1 :: rest) (newConstInt 0) g with
      | (none, g1) => (none, g1)
      | (some (code, total), gL) =>
        (some (code ++ elementAddressTail arrayVar total gL.nextId,
            some (.InstructionResult (gL.nextId + 1) (.pointer .int32))),
          { gL with nextId := gL.nextId + 2 }) := by
  simp only [ir_function_call_arg, hnt, hsons, hvar, calculateArrayAccessOffset,
    IRGenerator.getCurrentFunction, hfunc, htype, and_self, if_true]
  cases arrayAccessOffsetLoop visit dims 1 (idx1 :: rest) (newConstInt 0) g with
  | mk out gL =>
    cases out with
    | none => rfl
    | some p =>
      obtain ⟨code, total⟩ := p
      simp [IRGenerator.newBinary, elementAddressTail, Nat.add_assoc]

/-- The lowering of an element access passed for a pointer parameter, when the indexed
variable has no array type: the first index, the multiplication by the element size and
the addition to the base. -/
theorem ir_function_call_arg_pointer (visit : Visitor) (funcName : String)
    (son nameNode idx1 : ast_node) (rest : List ast_node) (g : IRGenerator) (func : Function)
    (arrayVar : Value)
    (hnt : son.node_type = .AST_OP_ARRAY_ACCESS)
    (hsons : son.sons = nameNode :: idx1 :: rest)
    (hvar : g.findVarValue nameNode.name = some arrayVar)
    (hfunc : g.currentFunc = some func)
    (htype : arrayVar.getType.isArrayType = false) :
    ir_function_call_arg visit funcName true son g =
      match visit idx1 g with
      | (none, g1) => (none, g1)
      | (some r, g1) =>
        match r.val with
        | none => (none, g1)
        | some v =>
          (some (r.blockInsts ++ elementAddressTail arrayVar v g1.nextId,
              some (.InstructionResult (g1.nextId + 1) (.pointer .int32))),
            { g1 with nextId := g1.nextId + 2 }) := by
  have hoff : calculateArrayAccessOffset visit son g =
      match visit idx1 g with
      | (none, g1) => (none, g1)
      | (some r, g1) =>
        match r.val with
        | none => (none, g1)
        | some v =>
          (some (r.blockInsts ++
              [.Binary g1.nextId .IRINST_OP_MUL_I (some v) (some (newConstInt 4)) .int32],
            .InstructionResult g1.nextId .int32), { g1 with nextId := g1.nextId + 1 }) := by
    simp only [calculateArrayAccessOffset, IRGenerator.getCurrentFunction, hfunc, hsons, hvar]
    cases hty : arrayVar.getType with
    | array e d => rw [hty] at htype; simp [IRType.isArrayType] at htype
    | _ => rfl
  simp only [ir_function_call_arg, hnt, hsons, hvar, hoff, and_self, if_true]
  cases visit idx1 g with
  | mk out g1 =>
    cases out with
    | none => rfl
    | some r =>
      cases hval : r.val with
      | none => simp [hval]
      | some v => simp [hval, IRGenerator.newBinary, elementAddressTail, Nat.add_assoc]

/-- Claim C22, amended: when, in a well-formed generator state, an argument for a
pointer-typed formal is an element access `a[i1]...[ik]`, then for a variable `a` of
array type with dimensions `dims` the argument lowers to code `insts` and the address
`addr` exactly when the index children lower in order as `StridedIndices` describes (the
value of each times `strideFrom dims j`, the product of the later dimensions of the
array of the caller, is added to the running total) and `insts` ends with the
multiplication of the total by 4 and its addition to the base, so that `addr` holds the
base plus 4 times the total; and for a variable that is not of array type the argument
lowers exactly when the first index child lowers to a value, and `addr` holds the base
plus 4 times that value. Neither the callee nor the dimension table enters. -/
theorem call_argument_element_address (n : Nat) (funcName : String)
    (son nameNode idx1 : ast_node) (rest : List ast_node) (g : IRGenerator) (func : Function)
    (arrayVar : Value)
    (hwf : StateWF g)
    (hnt : son.node_type = .AST_OP_ARRAY_ACCESS)
    (hsons : son.sons = nameNode :: idx1 :: rest)
    (hvar : g.findVarValue nameNode.name = some arrayVar)
    (hfunc : g.currentFunc = some func) :
    (∀ elemType dims, arrayVar.getType = .array elemType dims →
      ∀ insts addr g2,
        ir_function_call_arg (ir_visit_ast_node n) funcName true son g =
            (some (insts, some addr), g2) ↔
          ∃ code total gL,
            StridedIndices (ir_visit_ast_node n) dims 1 (idx1 :: rest) (newConstInt 0) g
              code total gL ∧
            insts = code ++ elementAddressTail arrayVar total gL.nextId ∧
            addr = .InstructionResult (gL.nextId + 1) (.pointer .int32) ∧
            g2 = { gL with nextId := gL.nextId + 2 } ∧
            ∀ m : Machine,
              (execInsts m (elementAddressTail arrayVar total gL.nextId)).read addr =
                m.read arrayVar + 4 * m.read total) ∧
    (arrayVar.getType.isArrayType = false →
      ∀ insts addr g2,
        ir_function_call_arg (ir_visit_ast_node n) funcName true son g =
            (some (insts, some addr), g2) ↔
          ∃ r v g1,
            ir_visit_ast_node n idx1 g = (some r, g1) ∧ r.val = some v ∧
            insts = r.blockInsts ++ elementAddressTail arrayVar v g1.nextId ∧
            addr = .InstructionResult (g1.nextId + 1) (.pointer .int32) ∧
            g2 = { g1 with nextId := g1.nextId + 2 } ∧
            ∀ m : Machine,
              (execInsts m (elementAddressTail arrayVar v g1.nextId)).read addr =
                m.read arrayVar + 4 * m.read v) := by
  have harr := hwf.findVarValue hvar
  refine ⟨fun elemType dims htype insts addr g2 => ?_, fun htype insts addr g2 => ?_⟩
  · rw [ir_function_call_arg_array (ir_visit_ast_node n) funcName son nameNode idx1 rest g func
      arrayVar elemType dims hnt hsons hvar hfunc htype]
    constructor
    · intro h
      cases hloop : arrayAccessOffsetLoop (ir_visit_ast_node n) dims 1 (idx1 :: rest)
          (newConstInt 0) g with
      | mk out gL =>
        rw [hloop] at h
        cases out with
        | none => simp at h
        | some p =>
          obtain ⟨code, total⟩ := p
          simp only [Prod.mk.injEq, Option.some.injEq] at h
          obtain ⟨⟨rfl, rfl⟩, rfl⟩ := h
          obtain ⟨hs, -, hn⟩ := strided_of_loop (ir_visit_ast_node_ok n) dims (idx1 :: rest) 1
            (newConstInt 0) g code total gL hwf (Value.allocatedBefore_const _ _) hloop
          exact ⟨code, total, gL, hs, rfl, rfl, rfl,
            elementAddressTail_sem arrayVar total gL.nextId (harr.mono hn)⟩
    · rintro ⟨code, total, gL, hs, rfl, rfl, rfl, -⟩
      rw [loop_of_strided _ _ _ _ _ _ _ _ _ hs]
  · rw [ir_function_call_arg_pointer (ir_visit_ast_node n) funcName son nameNode idx1 rest g func
      arrayVar hnt hsons hvar hfunc htype]
    constructor
    · intro h
      have hpost := ir_visit_ast_node_ok n idx1 g hwf
      cases hvis : ir_visit_ast_node n idx1 g with
      | mk out g1 =>
        rw [hvis] at h hpost
        cases out with
        | none => simp at h
        | some r =>
          cases hval : r.val with
          | none => simp [hval] at h
          | some v =>
            simp only [hval, Prod.mk.injEq, Option.some.injEq] at h
            obtain ⟨⟨rfl, rfl⟩, rfl⟩ := h
            exact ⟨r, v, g1, rfl, hval, rfl, rfl, rfl,
              elementAddressTail_sem arrayVar v g1.nextId (harr.mono hpost.of_some.2.1)⟩
    · rintro ⟨r, v, g1, hvis, hval, rfl, rfl, rfl, -⟩
      rw [hvis]
      simp only [hval]

/-- Witness of C22: the argument `a[x + 1]` with `int a[4][2][3]` in the caller. The
code of the index `x + 1` is followed by its multiplication by 6, the product of the
last two dimensions of the array of the caller, the addition to the running total, the
multiplication by 4 and the addition to the base. -/
theorem call_argument_element_address_witness :
    ∃ code total gL,
      StridedIndices (ir_visit_ast_node 2) [4, 2, 3] 1
        [exNode .AST_OP_ADD [exVar "x", exLit 1]] (newConstInt 0) exGeneratorCallArray
        code total gL ∧
      [.Binary 3 .IRINST_OP_ADD_I (some (.LocalVariable 0 .int32 "x")) (some (.ConstInt 1))
         .int32,
       .Binary 4 .IRINST_OP_MUL_I (some (.InstructionResult 3 .int32)) (some (.ConstInt 6))
         .int32,
       .Binary 5 .IRINST_OP_ADD_I (some (.ConstInt 0)) (some (.InstructionResult 4 .int32))
         .int32,
       .Binary 6 .IRINST_OP_MUL_I (some (.InstructionResult 5 .int32)) (some (.ConstInt 4))
         .int32,
       .Binary 7 .IRINST_OP_ADD_I (some (.LocalVariable 1 (.array .int32 [4, 2, 3]) "a"))
         (some (.InstructionResult 6 .int32)) (.pointer .int32)] =
        code ++ elementAddressTail (.LocalVariable 1 (.array .int32 [4, 2, 3]) "a") total
          gL.nextId ∧
      Value.InstructionResult 7 (.pointer .int32) =
        .InstructionResult (gL.nextId + 1) (.pointer .int32) ∧
      ({ exGeneratorCallArray with nextId := 8 } : IRGenerator) =
        { gL with nextId := gL.nextId + 2 } ∧
      ∀ m : Machine,
        (execInsts m (elementAddressTail (.LocalVariable 1 (.array .int32 [4, 2, 3]) "a") total
          gL.nextId)).read (.InstructionResult 7 (.pointer .int32)) =
          m.read (.LocalVariable 1 (.array .int32 [4, 2, 3]) "a") + 4 * m.read total :=
  ((call_argument_element_address 2 "g"
      (exAccess "a" [exNode .AST_OP_ADD [exVar "x", exLit 1]]) (exVar "a")
      (exNode .AST_OP_ADD [exVar "x", exLit 1]) [] exGeneratorCallArray exFunction
      (.LocalVariable 1 (.array .int32 [4, 2, 3]) "a") StateWF_exGeneratorCallArray
      rfl rfl rfl rfl).1 .int32 [4, 2, 3] rfl _ _ _).mp rfl

/-! ### Element accesses that miss the row-major offset -/

/-- Claim C1, failing input: in `int f(int a) { { int a[2][3]; return a[1][2]; } }`
the array of the inner block is not a parameter, but it has the name of one.
`ir_array_access` tests the name, finds no dimension entry for the parameter and lowers
the access as for a plain pointer: the code multiplies the first index by 4, never
reads the second index, and the offset it adds to the base of the array
`int a[2][3]` is 4, where the row-major formula gives `4 * (1 * 3 + 2) = 20`. -/
theorem shadowed_array_offset :
    (ir_visit_ast_node 9 exShadowUnit {}).1.isSome = true ∧
    exCodeOf exShadowUnit "f" 6 =
      [.Move (some (.LocalVariable 2 .int32 "a")) (some (.FormalParam 0 .int32 "a"))
         false false,
       .Binary 6 .IRINST_OP_MUL_I (some (.ConstInt 1)) (some (.ConstInt 4)) .int32,
       .Move (some (.LocalVariable 5 .int32 "")) (some (.InstructionResult 6 .int32))
         false false,
       .Binary 8 .IRINST_OP_ADD_I (some (.LocalVariable 4 (.array .int32 [2, 3]) "a"))
         (some (.LocalVariable 5 .int32 "")) (.pointer .int32),
       .Move (some (.LocalVariable 7 (.pointer .int32) ""))
         (some (.InstructionResult 8 (.pointer .int32))) false false,
       .Move (some (.LocalVariable 9 .int32 ""))
         (some (.LocalVariable 7 (.pointer .int32) "")) false true] ∧
    (∀ m : Machine,
      (execInsts m ((exCodeOf exShadowUnit "f" 5).drop 1)).read (.LocalVariable 5 .int32 "") =
          4 ∧
        (execInsts m ((exCodeOf exShadowUnit "f" 5).drop 1)).read
            (.LocalVariable 7 (.pointer .int32) "") =
          m.read (.LocalVariable 4 (.array .int32 [2, 3]) "a") + 4) ∧
    4 * rowMajorIndex [2, 3] [1, 2] = 20 := by
  have h : exCodeOf exShadowUnit "f" 5 =
      [.Move (some (.LocalVariable 2 .int32 "a")) (some (.FormalParam 0 .int32 "a"))
         false false,
       .Binary 6 .IRINST_OP_MUL_I (some (.ConstInt 1)) (some (.ConstInt 4)) .int32,
       .Move (some (.LocalVariable 5 .int32 "")) (some (.InstructionResult 6 .int32))
         false false,
       .Binary 8 .IRINST_OP_ADD_I (some (.LocalVariable 4 (.array .int32 [2, 3]) "a"))
         (some (.LocalVariable 5 .int32 "")) (.pointer .int32),
       .Move (some (.LocalVariable 7 (.pointer .int32) ""))
         (some (.InstructionResult 8 (.pointer .int32))) false false] := by decide!
  refine ⟨by decide!, by decide!, fun m => ?_, by decide⟩
  rw [h]
  simp [execInsts, execInst, Machine.read, Machine.write, evalOperator]

/-- Claim C23, failing input: for `int f(int a[][0x10]) { return a[1][2]; }` the extent
token `0x10` is read in base 10 as 0, the entry recorded for `a` is `[0, 0]`, the access
multiplies the first index by 0, and the byte offset the code computes is 8, where the
claim gives `4 * (1 * 16 + 2) = 72` for the declared extent 16. -/
theorem hex_extent_parameter_offset :
    visitParam "a" 2 ["0x10"] =
      some (exNode .AST_OP_FUNC_FORMAL_PARAM_ARRAY
        [exType .int32, exVar "a", exLit 0, exLit 0]) ∧
    lookupDimensions
        (compileUnitPrototypes exHexExtentUnit.sons {}).functionParameterDimensions "f" 0 =
      some [0, 0] ∧
    (ir_visit_ast_node 9 exHexExtentUnit {}).1.isSome = true ∧
    exCodeOf exHexExtentUnit "f" 5 =
      [.Binary 3 .IRINST_OP_MUL_I (some (.ConstInt 1)) (some (.ConstInt 0)) .int32,
       .Binary 4 .IRINST_OP_ADD_I (some (.ConstInt 0))
         (some (.InstructionResult 3 .int32)) .int32,
       .Binary 5 .IRINST_OP_ADD_I (some (.InstructionResult 4 .int32))
         (some (.ConstInt 2)) .int32,
       .Binary 6 .IRINST_OP_MUL_I (some (.InstructionResult 5 .int32))
         (some (.ConstInt 4)) .int32,
       .Binary 8 .IRINST_OP_ADD_I (some (.FormalParam 0 (.pointer .int32) "a"))
         (some (.InstructionResult 6 .int32)) (.pointer .int32)] ∧
    (∀ m : Machine,
      (execInsts m (exCodeOf exHexExtentUnit "f" 5)).read (.InstructionResult 6 .int32) = 8 ∧
        (execInsts m (exCodeOf exHexExtentUnit "f" 5)).read
            (.InstructionResult 8 (.pointer .int32)) =
          m.read (.FormalParam 0 (.pointer .int32) "a") + 8) ∧
    4 * rowMajorIndex [0, 16] [1, 2] = 72 := by
  have h : exCodeOf exHexExtentUnit "f" 5 =
      [.Binary 3 .IRINST_OP_MUL_I (some (.ConstInt 1)) (some (.ConstInt 0)) .int32,
       .Binary 4 .IRINST_OP_ADD_I (some (.ConstInt 0))
         (some (.InstructionResult 3 .int32)) .int32,
       .Binary 5 .IRINST_OP_ADD_I (some (.InstructionResult 4 .int32))
         (some (.ConstInt 2)) .int32,
       .Binary 6 .IRINST_OP_MUL_I (some (.InstructionResult 5 .int32))
         (some (.ConstInt 4)) .int32,
       .Binary 8 .IRINST_OP_ADD_I (some (.FormalParam 0 (.pointer .int32) "a"))
         (some (.InstructionResult 6 .int32)) (.pointer .int32)] := by decide!
  refine ⟨rfl, by decide!, by decide!, h, fun m => ?_, by decide⟩
  rw [h]
  simp [execInsts, execInst, Machine.read, Machine.write, evalOperator]

end MiniC
